import Mathlib

/-!
# mmap-ruby: a shallow embedding of `ext/mmap_ruby/mmap_ruby.c`

The C extension keeps one `mmap_t` record per mapped buffer.  The embedding
below keeps the C field names (`len` is the capacity, `real` the logical
length) and turns every function that can `rb_raise` into a function
returning the state the buffer is left in together with either a value or
the raised exception.

Bytes are natural numbers.  `long`, `int` and `size_t` quantities are
unbounded `Int`/`Nat` except where the C code relies on unsigned
wrap-around, which is written out with `% SIZE_MAX1`.
-/

namespace MmapRuby

/-! ## Constants of the extension -/

def EXP_INCR_SIZE : Nat := 4096

def MMAP_RUBY_MODIFY : Nat := 1
def MMAP_RUBY_ORIGIN : Nat := 2
def MMAP_RUBY_CHANGE : Nat := MMAP_RUBY_MODIFY ||| 4
def MMAP_RUBY_PROTECT : Nat := 8

def MMAP_RUBY_FIXED : Nat := 1 <<< 1
def MMAP_RUBY_ANON : Nat := 1 <<< 2
def MMAP_RUBY_LOCK : Nat := 1 <<< 3
def MMAP_RUBY_IPC : Nat := 1 <<< 4
def MMAP_RUBY_TMP : Nat := 1 <<< 5

/-! ## Constants of the operating system headers (Linux values) -/

def MAP_SHARED : Nat := 1
def MAP_PRIVATE : Nat := 2
def MAP_ANON : Nat := 32
def PROT_READ : Nat := 1
def PROT_WRITE : Nat := 2
def O_RDONLY : Nat := 0
def O_WRONLY : Nat := 1
def O_RDWR : Nat := 2
def O_CREAT : Nat := 64
def O_TRUNC : Nat := 512

/-- One more than the largest `size_t` (64-bit build). -/
def SIZE_MAX1 : Nat := 2 ^ 64

/-! ## Data model -/

/-- The `char *path` field: `NULL` once unmapped, `(char *)-1` when the
mapping has no file name (anonymous or descriptor-backed), a name otherwise. -/
inductive path_t where
  | null
  | minus1
  | name
  deriving DecidableEq

/-- The record `mmap_t`, with the C field names.  `addr` holds the bytes that
are accessible at the mapping address (whole pages, so it may be longer than
`len`; it is empty when no mapping is established).  Three things that live
outside the C struct are carried along: `frozen` is the frozen bit of the
wrapping Ruby object, `file` the content of the backing file and `sem` the
value of the System V semaphore behind `semid`. -/
structure mmap_t where
  path : path_t
  addr : List Nat
  len : Nat
  real : Nat
  offset : Nat
  smode : Nat
  pmode : Nat
  vscope : Nat
  flag : Nat
  incr : Nat
  advice : Nat
  count : Int
  frozen : Bool
  file : List Nat
  sem : Nat
  deriving DecidableEq

/-- Exceptions of the host language raised by the extension, plus three
outcomes that are not exceptions: `segv` is an access outside the mapped
pages (undefined behaviour in C), `blocked` is the retry loop of
`mmap_lock` never obtaining the semaphore and `unfinished` is a loop that
was cut off before its exit condition held. -/
inductive Raised where
  | IOError
  | FrozenError
  | IndexError
  | TypeError
  | ArgError
  | RangeError
  | RuntimeError
  | EAGAIN
  | segv
  | blocked
  | unfinished
  deriving DecidableEq

/-- Result of a call: a value or a raised exception. -/
inductive Res (α : Type) where
  | ok (a : α)
  | raise (e : Raised)
  deriving DecidableEq

/-- What a call leaves behind: the state of the buffer and the result. -/
structure Ret (α : Type) where
  st : mmap_t
  val : Res α
  deriving DecidableEq

/-- Registers of a successful match: entry `i` is the half-open byte range of
group `i` (`none` for a group that took no part, `-1` in C); entry 0 is the
whole match. -/
abbrev Regs := List (Option (Nat × Nat))

/-- A compiled regular expression of the host language.  Matching is done by
the host's pattern matcher, an external collaborator: `search s pos` is what
it reports for the leftmost match in `s` starting at or after `pos`. -/
structure Regexp where
  search : List Nat → Nat → Option Regs

/-- Values of the host language that reach the extension as arguments. -/
inductive VALUE where
  | nil
  | fixnum (i : Int)
  | str (bytes : List Nat)
  | range (first last : Int) (excl : Bool)
  | regexp (re : Regexp)

/-- The replacement of `sub!`/`gsub!`: the bytes that the host language
produces for one match from the matched text and its registers, either by
expanding the template argument (`rb_reg_regsub`) or by yielding to the
block. -/
structure Replacement where
  expand : List Nat → Regs → List Nat

/-- Outcome of the system calls an operation makes, and the page size.
A `true` flag makes the corresponding call fail. -/
structure Os where
  pagesize : Nat
  munmap_fails : Bool
  open_fails : Bool
  lseek_fails : Bool
  write_fails : Bool
  truncate_fails : Bool
  mmap_fails : Bool
  madvise_fails : Bool
  mlock_fails : Bool
  msync_fails : Bool
  mprotect_fails : Bool
  fstat_fails : Bool
  munlock_fails : Bool
  deriving DecidableEq

/-- An operating system on which every call succeeds. -/
def Os.good (pagesize : Nat) : Os :=
  ⟨pagesize, false, false, false, false, false, false, false, false, false, false, false,
    false⟩

/-! ## Memory and file primitives -/

/-- Round `n` up to a multiple of the page size `p`. -/
def roundUp (n p : Nat) : Nat := (n + p - 1) / p * p

/-- `memmove(mem + dst, mem + src, n)` inside the mapped bytes; `none` when a
byte outside the mapping would be touched. -/
def memmove (mem : List Nat) (dst src n : Nat) : Option (List Nat) :=
  if n = 0 then some mem
  else if src + n ≤ mem.length ∧ dst + n ≤ mem.length then
    some (mem.take dst ++ (mem.drop src).take n ++ mem.drop (dst + n))
  else none

/-- `memcpy(mem + dst, bytes, bytes.length)` from memory outside the mapping. -/
def memcpy (mem : List Nat) (dst : Nat) (bytes : List Nat) : Option (List Nat) :=
  if bytes.length = 0 then some mem
  else if dst + bytes.length ≤ mem.length then
    some (mem.take dst ++ bytes ++ mem.drop (dst + bytes.length))
  else none

/-- What `munmap` of a shared mapping leaves in the file: the mapped bytes
that lie inside the file are the file's bytes. -/
def writeback (file : List Nat) (offset : Nat) (mem : List Nat) : List Nat :=
  file.take offset ++ mem.take (file.length - offset) ++ file.drop (offset + mem.length)

/-- The bytes accessible through a mapping of `len` bytes of `file` at
`offset`.  Whole pages are mapped; bytes of the last page that lie past the
end of the file read as zero, pages wholly past the end are not accessible. -/
def map_pages (pagesize : Nat) (file : List Nat) (offset len : Nat) : List Nat :=
  let n := min (roundUp len pagesize) (roundUp (file.length - offset) pagesize)
  let data := (file.drop offset).take n
  data ++ List.replicate (n - data.length) 0

/-- The call `mmap(0, len, prot, flags, fd, offset)` on a file: `none` is
`MAP_FAILED` (also for a length of zero or an offset that is not a multiple
of the page size). -/
def os_mmap (os : Os) (file : List Nat) (offset len : Nat) : Option (List Nat) :=
  if os.mmap_fails ∨ len = 0 ∨ os.pagesize = 0 ∨ offset % os.pagesize ≠ 0 then none
  else some (map_pages os.pagesize file offset len)

/-- The call `truncate(path, len)`. -/
def os_truncate (file : List Nat) (len : Nat) : List Nat :=
  file.take len ++ List.replicate (len - file.length) 0

/-! ## The macro `GET_MMAP` -/

/-- The macro `GET_MMAP(self, mmap, t_modify)`: the exception it raises, if any. -/
def GET_MMAP (self : mmap_t) (t_modify : Nat) : Option Raised :=
  if self.path = path_t.null then some Raised.IOError
  else if t_modify &&& MMAP_RUBY_MODIFY ≠ 0 ∧ self.frozen = true then some Raised.FrozenError
  else none

/-! ## Cross-process lock -/

/-- The function `mmap_lock`.  The semaphore operation is non-blocking; on
contention a waiting caller sleeps and retries, which in a model of one
process never ends. -/
def mmap_lock (mmap : mmap_t) (wait_lock : Bool) : Ret Unit :=
  if mmap.flag &&& MMAP_RUBY_IPC ≠ 0 then
    let m1 := { mmap with count := mmap.count + 1 }
    if m1.count = 1 then
      if 0 < m1.sem then ⟨{ m1 with sem := m1.sem - 1 }, Res.ok ()⟩
      else if wait_lock = false then ⟨m1, Res.raise Raised.EAGAIN⟩
      else ⟨m1, Res.raise Raised.blocked⟩
    else ⟨m1, Res.ok ()⟩
  else ⟨mmap, Res.ok ()⟩

/-- The function `mmap_unlock`. -/
def mmap_unlock (mmap : mmap_t) : mmap_t :=
  if mmap.flag &&& MMAP_RUBY_IPC ≠ 0 then
    let m1 := { mmap with count := mmap.count - 1 }
    if m1.count = 0 then { m1 with sem := m1.sem + 1 } else m1
  else mmap

/-! ## Capacity manager -/

/-- The backing file once the mapping has been removed by `munmap`. -/
def unmapped_file (mmap : mmap_t) : List Nat :=
  if mmap.vscope &&& MAP_SHARED ≠ 0 then writeback mmap.file mmap.offset mmap.addr
  else mmap.file

/-- The backing file once `mmap_expand_initialize` has adjusted it for a
capacity of `len`: when growing, seek `len - mmap->len - 1` bytes past the
end and write one zero byte; when shrinking, truncate to `len`. -/
def resized_file (mmap : mmap_t) (len : Nat) : List Nat :=
  if len > mmap.len then unmapped_file mmap ++ List.replicate (len - mmap.len - 1) 0 ++ [0]
  else if len < mmap.len then os_truncate (unmapped_file mmap) len
  else unmapped_file mmap

/-- The function `mmap_expand_initialize`: unmap, adjust the file, map again. -/
def mmap_expand_initialize (os : Os) (mmap : mmap_t) (len : Nat) : Ret Unit :=
  if os.munmap_fails then ⟨mmap, Res.raise Raised.ArgError⟩
  else
    let m1 := { mmap with addr := [], file := unmapped_file mmap }
    if os.open_fails then ⟨m1, Res.raise Raised.ArgError⟩
    else if len > mmap.len ∧ os.lseek_fails then ⟨m1, Res.raise Raised.IOError⟩
    else if len > mmap.len ∧ os.write_fails then ⟨m1, Res.raise Raised.IOError⟩
    else if ¬ (len > mmap.len) ∧ len < mmap.len ∧ os.truncate_fails then
      ⟨m1, Res.raise Raised.IOError⟩
    else
      let m2 := { m1 with file := resized_file mmap len }
      match os_mmap os m2.file mmap.offset len with
      | none => ⟨m2, Res.raise Raised.ArgError⟩
      | some a =>
        let m3 := { m2 with addr := a }
        if mmap.advice ≠ 0 ∧ os.madvise_fails then ⟨m3, Res.raise Raised.ArgError⟩
        else if mmap.flag &&& MMAP_RUBY_LOCK ≠ 0 ∧ os.mlock_fails then
          ⟨m3, Res.raise Raised.ArgError⟩
        else ⟨{ m3 with len := len }, Res.ok ()⟩

/-- The function `mmap_expandf`. -/
def mmap_expandf (os : Os) (mmap : mmap_t) (len : Nat) : Ret Unit :=
  if mmap.vscope = MAP_PRIVATE then ⟨mmap, Res.raise Raised.TypeError⟩
  else if mmap.flag &&& MMAP_RUBY_FIXED ≠ 0 then ⟨mmap, Res.raise Raised.TypeError⟩
  else if mmap.path = path_t.null ∨ mmap.path = path_t.minus1 then
    ⟨mmap, Res.raise Raised.TypeError⟩
  else if mmap.flag &&& MMAP_RUBY_IPC ≠ 0 then
    match mmap_lock mmap true with
    | ⟨m1, Res.raise e⟩ => ⟨m1, Res.raise e⟩
    | ⟨m1, Res.ok _⟩ =>
      let r := mmap_expand_initialize os m1 len
      ⟨mmap_unlock r.st, r.val⟩
  else mmap_expand_initialize os mmap len

/-- The function `mmap_realloc`. -/
def mmap_realloc (os : Os) (mmap : mmap_t) (len : Nat) : Ret Unit :=
  if len > mmap.len then
    let len1 := if len - mmap.len < mmap.incr then mmap.len + mmap.incr else len
    mmap_expandf os mmap len1
  else ⟨mmap, Res.ok ()⟩

/-! ## Splice engine -/

/-- The macro `StringValuePtr` on an argument: its bytes, or `none` when the
value has no implicit conversion to a string (a `TypeError`). -/
def StringValuePtr (val : VALUE) : Option (List Nat) :=
  match val with
  | VALUE.str bytes => some bytes
  | _ => none

/-- The macro `MEMZERO(mem + dst, char, n)`. -/
def memzero (mem : List Nat) (dst n : Nat) : Option (List Nat) :=
  memcpy mem dst (List.replicate n 0)

/-- The start index of a splice once a negative `beg` has been counted from
the end (`if (beg < 0) beg += str->real`). -/
def resolve_beg (real : Nat) (beg : Int) : Int :=
  if beg < 0 then beg + real else beg

/-- The removal length of a splice once it has been clamped to the logical
end (`if (str->real < (size_t)(beg + len)) len = str->real - beg`). -/
def clamp_len (real : Nat) (beg len : Int) : Int :=
  if (real : Int) < beg + len then real - beg else len

/-- The memory steps of `mmap_update` on the mapped bytes: move the tail when
the lengths differ, zero-fill (a branch no valid call reaches), copy the
replacement.  `none` when a byte outside the mapping would be touched. -/
def update_bytes (addr : List Nat) (real beg : Nat) (len : Int) (valp : List Nat) :
    Option (List Nat) :=
  let moved :=
    if (valp.length : Int) ≠ len then
      memmove addr (beg + valp.length) (beg + len.toNat) (real - (beg + len.toNat))
    else some addr
  match moved with
  | none => none
  | some a1 =>
    let zeroed := if real < beg ∧ len < 0 then memzero a1 real (-len).toNat else some a1
    match zeroed with
    | none => none
    | some a2 => if (valp.length : Int) > 0 then memcpy a2 beg valp else some a2

/-- The function `mmap_update`: replace `len` bytes at `beg` by `val`. -/
def mmap_update (os : Os) (str : mmap_t) (beg len : Int) (val : VALUE) : Ret Unit :=
  if len < 0 then ⟨str, Res.raise Raised.IndexError⟩
  else
    match mmap_lock str true with
    | ⟨s1, Res.raise e⟩ => ⟨s1, Res.raise e⟩
    | ⟨s1, Res.ok _⟩ =>
      let beg1 := resolve_beg s1.real beg
      if beg1 < 0 ∨ (s1.real : Int) < beg1 then
        ⟨mmap_unlock s1, Res.raise Raised.IndexError⟩
      else
        let len1 := clamp_len s1.real beg1 len
        let s2 := mmap_unlock s1
        match StringValuePtr val with
        | none => ⟨s2, Res.raise Raised.TypeError⟩
        | some valp =>
          let vall : Int := valp.length
          match mmap_lock s2 true with
          | ⟨s3, Res.raise e⟩ => ⟨s3, Res.raise e⟩
          | ⟨s3, Res.ok _⟩ =>
            if s3.flag &&& MMAP_RUBY_FIXED ≠ 0 ∧ vall ≠ len1 then
              ⟨mmap_unlock s3, Res.raise Raised.TypeError⟩
            else
              let r : Ret Unit :=
                if len1 < vall then mmap_realloc os s3 (s3.real + vall - len1).toNat
                else ⟨s3, Res.ok ()⟩
              match r with
              | ⟨s4, Res.raise e⟩ => ⟨s4, Res.raise e⟩
              | ⟨s4, Res.ok _⟩ =>
                match update_bytes s4.addr s4.real beg1.toNat len1 valp with
                | none => ⟨s4, Res.raise Raised.segv⟩
                | some a =>
                  ⟨mmap_unlock { s4 with addr := a, real := (s4.real + vall - len1).toNat },
                   Res.ok ()⟩

/-! ## Host-language helpers (external collaborators)

The extension hands part of its work to the host language: integer
conversion of arguments, `String#[]`, `String#index`, range resolution and
pattern matching.  They are written out here for byte strings, as the host
documents them. -/

/-- The conversion `NUM2INT` of an argument to a C `int`. -/
def NUM2INT (v : VALUE) : Res Int :=
  match v with
  | VALUE.fixnum i =>
    if -(2 : Int) ^ 31 ≤ i ∧ i < (2 : Int) ^ 31 then Res.ok i else Res.raise Raised.RangeError
  | _ => Res.raise Raised.TypeError

/-- The conversion `NUM2LONG` of an argument to a C `long`. -/
def NUM2LONG (v : VALUE) : Res Int :=
  match v with
  | VALUE.fixnum i =>
    if -(2 : Int) ^ 63 ≤ i ∧ i < (2 : Int) ^ 63 then Res.ok i else Res.raise Raised.RangeError
  | _ => Res.raise Raised.TypeError

/-- Whether `pat` occurs in `s` at byte position `i`. -/
def starts_at (s pat : List Nat) (i : Nat) : Bool :=
  (s.drop i).take pat.length == pat

/-- Host `String#index(pat, pos)` on bytes: the first position at or after
`pos` where `pat` occurs. -/
def rb_str_index (s pat : List Nat) (pos : Nat) : Option Nat :=
  ((List.range (s.length + 1 - pos)).find? (fun k => starts_at s pat (pos + k))).map
    (fun k => pos + k)

/-- The regular expression that matches exactly the bytes `pat` and has no
groups besides the whole match. -/
def Regexp.literal (pat : List Nat) : Regexp :=
  ⟨fun s pos => (rb_str_index s pat pos).map (fun i => [some (i, i + pat.length)])⟩

/-- The template or block that always yields the bytes `r`. -/
def Replacement.literal (r : List Nat) : Replacement :=
  ⟨fun _ _ => r⟩

/-- Host `rb_reg_search(re, str, pos, 0)`: the registers of the match, `none`
for the result `-1`. -/
def rb_reg_search (re : Regexp) (str : List Nat) (pos : Nat) : Option Regs :=
  if pos > str.length then none else re.search str pos

/-- Host `rb_range_beg_len(range, &beg, &len, len, err)` for a range with
integer ends: `none` is the result `Qnil` (out of range, `err = 0`). -/
def rb_range_beg_len (first last : Int) (excl : Bool) (len : Int) (err : Nat) :
    Res (Option (Int × Int)) :=
  let out_of_range : Res (Option (Int × Int)) :=
    if err ≠ 0 then Res.raise Raised.RangeError else Res.ok none
  if first < 0 ∧ first + len < 0 then out_of_range
  else
    let beg := if first < 0 then first + len else first
    let end1 := if last < 0 then last + len else last
    let end2 := if excl = true then end1 else end1 + 1
    if (err = 0 ∨ err = 2) ∧ beg > len then out_of_range
    else
      let end3 := if (err = 0 ∨ err = 2) ∧ end2 > len then len else end2
      Res.ok (some (beg, if end3 - beg < 0 then 0 else end3 - beg))

/-- Host `rb_str_subpos` for a byte string of length `slen`: the resolved
start and length of `str[beg, len]`, `none` when there is no such portion. -/
def rb_str_subpos (slen beg len : Int) : Option (Int × Int) :=
  if len < 0 then none
  else if beg > slen then none
  else
    let beg1 := if beg < 0 then beg + slen else beg
    if beg1 < 0 then none
    else some (beg1, if len > slen - beg1 then slen - beg1 else len)

/-- Host `rb_str_substr(str, beg, len)`; `empty` tells whether an empty
portion is a result (`""`) or not (`nil`). -/
def rb_str_substr (str : List Nat) (beg len : Int) (empty : Bool) : Option (List Nat) :=
  match rb_str_subpos str.length beg len with
  | none => none
  | some (b, l) =>
    if empty = false ∧ l = 0 then none else some ((str.drop b.toNat).take l.toNat)

/-- Host `rb_reg_nth_match(nth, match)`: the text of group `nth`. -/
def rb_reg_nth_match (str : List Nat) (regs : Regs) (nth : Int) : Option (List Nat) :=
  if nth ≥ regs.length then none
  else
    let n : Int := if nth < 0 then nth + regs.length else nth
    if nth < 0 ∧ n ≤ 0 then none
    else
      match regs.getD n.toNat none with
      | none => none
      | some (b, e) => some ((str.drop b).take (e - b))

/-- Host `rb_str_subpat(str, re, backref)` with a numbered group. -/
def rb_str_subpat (str : List Nat) (re : Regexp) (backref : VALUE) :
    Res (Option (List Nat)) :=
  match rb_reg_search re str 0 with
  | none => Res.ok none
  | some regs =>
    match NUM2INT backref with
    | Res.raise e => Res.raise e
    | Res.ok nth => Res.ok (rb_reg_nth_match str regs nth)

/-- Host `String#[]` with one argument (`rb_str_aref`). -/
def rb_str_aref (str : List Nat) (indx : VALUE) : Res (Option (List Nat)) :=
  match indx with
  | VALUE.fixnum idx => Res.ok (rb_str_substr str idx 1 false)
  | VALUE.regexp re => rb_str_subpat str re (VALUE.fixnum 0)
  | VALUE.str p => Res.ok (if (rb_str_index str p 0).isSome then some p else none)
  | VALUE.range f l e =>
    match rb_range_beg_len f l e str.length 0 with
    | Res.raise x => Res.raise x
    | Res.ok none => Res.ok none
    | Res.ok (some (b, n)) => Res.ok (rb_str_substr str b n true)
  | VALUE.nil => Res.raise Raised.TypeError

/-- Host `String#[]` (`rb_str_aref_m`) on the argument list `argv`. -/
def rb_str_aref_m (argv : List VALUE) (str : List Nat) : Res (Option (List Nat)) :=
  match argv with
  | [VALUE.regexp re, a1] => rb_str_subpat str re a1
  | [a0, a1] =>
    match NUM2LONG a0 with
    | Res.raise e => Res.raise e
    | Res.ok b =>
      match NUM2LONG a1 with
      | Res.raise e => Res.raise e
      | Res.ok n => Res.ok (rb_str_substr str b n true)
  | [a0] => rb_str_aref str a0
  | _ => Res.raise Raised.ArgError

/-- The function `get_pat`.  For a string it calls the host's
`rb_reg_regcomp`, an external collaborator, which is written out here for
strings without regular-expression metacharacters only: such a string
compiles to the expression that matches exactly its bytes.  A string with
metacharacters is not among the values described; the expression it compiles
to is a value `VALUE.regexp re`. -/
def get_pat (pat : VALUE) : Res Regexp :=
  match pat with
  | VALUE.regexp re => Res.ok re
  | VALUE.str p => Res.ok (Regexp.literal p)
  | _ => Res.raise Raised.TypeError

/-! ## Buffer facade: reading through the host string -/

/-- The function `mmap_str`: the host string made over the mapping shares
the address of the mapping, so only its length is returned. -/
def mmap_str (self : mmap_t) (modify : Nat) : Res Nat :=
  match GET_MMAP self (modify ^^^ (modify &&& MMAP_RUBY_ORIGIN)) with
  | some e => Res.raise e
  | none =>
    if modify &&& MMAP_RUBY_MODIFY ≠ 0 ∧ self.frozen = true then Res.raise Raised.FrozenError
    else Res.ok self.real

/-- The function `mmap_bang_exec` for a host method `meth` that reads the
string (every call site passes such a method). -/
def mmap_bang_exec {β : Type} (obj : mmap_t) (flag : Nat)
    (meth : List Nat → Res (Option β)) : Ret (Option β) :=
  match mmap_str obj flag with
  | Res.raise e => ⟨obj, Res.raise e⟩
  | Res.ok slen =>
    match meth (obj.addr.take slen) with
    | Res.raise e => ⟨obj, Res.raise e⟩
    | Res.ok none => ⟨obj, Res.ok none⟩
    | Res.ok (some r) =>
      match GET_MMAP obj 0 with
      | some e => ⟨obj, Res.raise e⟩
      | none => ⟨{ obj with real := slen }, Res.ok (some r)⟩

/-- The function `mmap_vunlock`, run by `rb_ensure` when the protected call
returns or raises: the result of the protected call stands unless the
handler raises itself. -/
def mmap_vunlock {β : Type} (r : Ret β) : Ret β :=
  match GET_MMAP r.st 0 with
  | some e => ⟨r.st, Res.raise e⟩
  | none => ⟨mmap_unlock r.st, r.val⟩

/-- The block `if (mmap->flag & MMAP_RUBY_IPC) { mmap_lock; rb_ensure(f,
mmap_vunlock) } else f` that wraps the body of the facade operations. -/
def ipc_ensure {β : Type} (mmap : mmap_t) (f : mmap_t → Ret β) : Ret β :=
  if mmap.flag &&& MMAP_RUBY_IPC ≠ 0 then
    match mmap_lock mmap true with
    | ⟨m1, Res.raise e⟩ => ⟨m1, Res.raise e⟩
    | ⟨m1, Res.ok _⟩ => mmap_vunlock (f m1)
  else f mmap

/-- The function `mmap_bang_initialize` with `MMAP_RUBY_ORIGIN` set in `flag`
(the result of the host method is returned). -/
def mmap_bang_initialize {β : Type} (obj : mmap_t) (flag : Nat)
    (meth : List Nat → Res (Option β)) : Ret (Option β) :=
  match GET_MMAP obj 0 with
  | some e => ⟨obj, Res.raise e⟩
  | none =>
    if flag &&& MMAP_RUBY_CHANGE ≠ 0 ∧ obj.flag &&& MMAP_RUBY_FIXED ≠ 0 then
      ⟨obj, Res.raise Raised.TypeError⟩
    else ipc_ensure obj (fun m => mmap_bang_exec m flag meth)

/-- The method `[]` / `slice`. -/
def rb_cMmap_aref (argv : List VALUE) (self : mmap_t) : Ret (Option (List Nat)) :=
  mmap_bang_initialize self MMAP_RUBY_ORIGIN (rb_str_aref_m argv)

/-- The method `index` with one argument. -/
def rb_cMmap_index (indx : VALUE) (self : mmap_t) : Ret (Option Nat) :=
  mmap_bang_initialize self MMAP_RUBY_ORIGIN
    (fun s =>
      match indx with
      | VALUE.str p => Res.ok (rb_str_index s p 0)
      | VALUE.regexp re =>
        Res.ok ((rb_reg_search re s 0).bind (fun regs => (regs.getD 0 none).map Prod.fst))
      | _ => Res.raise Raised.TypeError)

/-! ## Buffer facade: element assignment, `slice!`, `insert`, `concat` -/

/-- The function `mmap_subpat_set`. -/
def mmap_subpat_set (os : Os) (obj : mmap_t) (re : Regexp) (offset : Int) (val : VALUE) :
    Ret Unit :=
  match mmap_str obj (MMAP_RUBY_MODIFY ||| MMAP_RUBY_ORIGIN) with
  | Res.raise e => ⟨obj, Res.raise e⟩
  | Res.ok slen =>
    match rb_reg_search re (obj.addr.take slen) 0 with
    | none => ⟨obj, Res.raise Raised.IndexError⟩
    | some regs =>
      if offset ≥ regs.length then ⟨obj, Res.raise Raised.IndexError⟩
      else if offset < 0 then ⟨obj, Res.raise Raised.segv⟩
      else
        match regs.getD offset.toNat none with
        | none => ⟨obj, Res.raise Raised.IndexError⟩
        | some (start, e) =>
          match GET_MMAP obj MMAP_RUBY_MODIFY with
          | some x => ⟨obj, Res.raise x⟩
          | none => mmap_update os obj start ((e : Int) - start) val

/-- The label `num_index` of `mmap_aset_m`: assignment at an integer index. -/
def mmap_aset_num_index (os : Os) (self : mmap_t) (indx val : VALUE) : Ret Unit :=
  match NUM2INT indx with
  | Res.raise e => ⟨self, Res.raise e⟩
  | Res.ok idx0 =>
    let idx : Int := if idx0 < 0 then idx0 + self.real else idx0
    if idx < 0 ∨ (self.real : Int) ≤ idx then ⟨self, Res.raise Raised.IndexError⟩
    else
      match val with
      | VALUE.fixnum _ =>
        let m1 := if self.real = idx.toNat then { self with real := self.real + 1 } else self
        if self.real = idx.toNat ∧ m1.flag &&& MMAP_RUBY_FIXED ≠ 0 then
          ⟨m1, Res.raise Raised.TypeError⟩
        else
          match NUM2INT val with
          | Res.raise e => ⟨m1, Res.raise e⟩
          | Res.ok c =>
            match memcpy m1.addr idx.toNat [(c % 256).toNat] with
            | none => ⟨m1, Res.raise Raised.segv⟩
            | some a => ⟨{ m1 with addr := a }, Res.ok ()⟩
      | _ => mmap_update os self idx 1 val

/-- The function `mmap_aset_m`: `self[indx] = val`. -/
def mmap_aset_m (os : Os) (self : mmap_t) (indx val : VALUE) : Ret Unit :=
  match GET_MMAP self MMAP_RUBY_MODIFY with
  | some e => ⟨self, Res.raise e⟩
  | none =>
    match indx with
    | VALUE.fixnum _ => mmap_aset_num_index os self indx val
    | VALUE.regexp re => mmap_subpat_set os self re 0 val
    | VALUE.str p =>
      match rb_cMmap_index indx self with
      | ⟨m1, Res.raise e⟩ => ⟨m1, Res.raise e⟩
      | ⟨m1, Res.ok none⟩ => ⟨m1, Res.ok ()⟩
      | ⟨m1, Res.ok (some res)⟩ => mmap_update os m1 res p.length val
    | VALUE.range f l e =>
      match rb_range_beg_len f l e self.real 2 with
      | Res.raise x => ⟨self, Res.raise x⟩
      | Res.ok none => ⟨self, Res.raise Raised.RangeError⟩
      | Res.ok (some (beg, len)) => mmap_update os self beg len val
    | VALUE.nil => ⟨self, Res.raise Raised.TypeError⟩

/-- The method `[]=`. -/
def rb_cMmap_aset (os : Os) (argv : List VALUE) (self : mmap_t) : Ret Unit :=
  match GET_MMAP self MMAP_RUBY_MODIFY with
  | some e => ⟨self, Res.raise e⟩
  | none =>
    match argv with
    | [VALUE.regexp re, a1, a2] =>
      match NUM2INT a1 with
      | Res.raise e => ⟨self, Res.raise e⟩
      | Res.ok nth => mmap_subpat_set os self re nth a2
    | [a0, a1, a2] =>
      match NUM2INT a0 with
      | Res.raise e => ⟨self, Res.raise e⟩
      | Res.ok beg =>
        match NUM2INT a1 with
        | Res.raise e => ⟨self, Res.raise e⟩
        | Res.ok len => mmap_update os self beg len a2
    | [a0, a1] => mmap_aset_m os self a0 a1
    | _ => ⟨self, Res.raise Raised.ArgError⟩

/-- The method `slice!`: the deleted portion, `none` for `nil`. -/
def rb_cMmap_slice_bang (os : Os) (argv : List VALUE) (self : mmap_t) :
    Ret (Option (List Nat)) :=
  if argv.length < 1 ∨ 2 < argv.length then ⟨self, Res.raise Raised.ArgError⟩
  else
    match rb_cMmap_aref argv self with
    | ⟨m1, Res.raise e⟩ => ⟨m1, Res.raise e⟩
    | ⟨m1, Res.ok none⟩ => ⟨m1, Res.ok none⟩
    | ⟨m1, Res.ok (some result)⟩ =>
      match rb_cMmap_aset os (argv ++ [VALUE.str []]) m1 with
      | ⟨m2, Res.raise e⟩ => ⟨m2, Res.raise e⟩
      | ⟨m2, Res.ok _⟩ => ⟨m2, Res.ok (some result)⟩

/-- The method `insert`. -/
def rb_cMmap_insert (os : Os) (self : mmap_t) (idx str : VALUE) : Ret Unit :=
  match NUM2LONG idx with
  | Res.raise e => ⟨self, Res.raise e⟩
  | Res.ok pos =>
    match GET_MMAP self MMAP_RUBY_MODIFY with
    | some e => ⟨self, Res.raise e⟩
    | none =>
      let pos1 : Int := if pos = -1 then self.real else if pos < 0 then pos + 1 else pos
      mmap_update os self pos1 0 str

/-- The function `mmap_cat`, called with bytes that lie outside the mapping. -/
def mmap_cat (os : Os) (self : mmap_t) (ptr : List Nat) : Ret Unit :=
  match GET_MMAP self MMAP_RUBY_MODIFY with
  | some e => ⟨self, Res.raise e⟩
  | none =>
    if ptr.length > 0 then
      match mmap_lock self true with
      | ⟨m1, Res.raise e⟩ => ⟨m1, Res.raise e⟩
      | ⟨m1, Res.ok _⟩ =>
        if m1.flag &&& MMAP_RUBY_FIXED ≠ 0 then ⟨mmap_unlock m1, Res.raise Raised.TypeError⟩
        else
          match mmap_realloc os m1 (m1.real + ptr.length) with
          | ⟨m2, Res.raise e⟩ => ⟨m2, Res.raise e⟩
          | ⟨m2, Res.ok _⟩ =>
            match memcpy m2.addr m2.real ptr with
            | none => ⟨m2, Res.raise Raised.segv⟩
            | some a => ⟨mmap_unlock { m2 with addr := a, real := m2.real + ptr.length }, Res.ok ()⟩
    else ⟨self, Res.ok ()⟩

/-- The function `mmap_append`. -/
def mmap_append (os : Os) (self : mmap_t) (str : VALUE) : Ret Unit :=
  match StringValuePtr str with
  | none => ⟨self, Res.raise Raised.TypeError⟩
  | some bytes => mmap_cat os self bytes

/-- The method `concat` / `<<`. -/
def rb_cMmap_concat (os : Os) (self : mmap_t) (other : VALUE) : Ret Unit :=
  match other with
  | VALUE.fixnum i =>
    if 0 ≤ i ∧ i ≤ 255 then mmap_cat os self [i.toNat] else mmap_append os self other
  | _ => mmap_append os self other

/-! ## Buffer facade: `sub!` and `chop!` -/

/-- The function `mmap_correct_backref`: the start of the match, and the
registers made relative to it (up to the first group that took no part). -/
def mmap_correct_backref (regs : Regs) : Nat × Regs :=
  match regs.getD 0 none with
  | none => (0, regs)
  | some (start, _) =>
    let shifted := (regs.takeWhile Option.isSome).map
      (fun r => r.map (fun be => (be.1 - start, be.2 - start)))
    (start, shifted ++ regs.drop shifted.length)

/-- The function `mmap_sub_bang_int`: `true` for the result `self`, `false`
for `nil`. -/
def mmap_sub_bang_int (obj : mmap_t) (pat : VALUE) (repl : Replacement) : Ret Bool :=
  match GET_MMAP obj MMAP_RUBY_MODIFY with
  | some e => ⟨obj, Res.raise e⟩
  | none =>
    match mmap_str obj (MMAP_RUBY_MODIFY ||| MMAP_RUBY_ORIGIN) with
    | Res.raise e => ⟨obj, Res.raise e⟩
    | Res.ok slen =>
      match get_pat pat with
      | Res.raise e => ⟨obj, Res.raise e⟩
      | Res.ok re =>
        match rb_reg_search re (obj.addr.take slen) 0 with
        | none => ⟨obj, Res.ok false⟩
        | some regs0 =>
          let start := (mmap_correct_backref regs0).1
          let regs := (mmap_correct_backref regs0).2
          let beg0 := ((regs.getD 0 none).getD (0, 0)).1
          let end0 := ((regs.getD 0 none).getD (0, 0)).2
          let substr := ((obj.addr.take slen).drop (start + beg0)).take (end0 - beg0)
          let r := repl.expand substr regs
          let plen := end0 - beg0
          if r.length ≠ plen ∧ obj.flag &&& MMAP_RUBY_FIXED ≠ 0 then
            ⟨obj, Res.raise Raised.TypeError⟩
          else
            let moved :=
              if r.length ≠ plen then
                if slen < start + beg0 + plen then none
                else
                  memmove obj.addr (start + beg0 + r.length) (start + beg0 + plen)
                    (slen - start - beg0 - plen)
              else some obj.addr
            match moved with
            | none => ⟨obj, Res.raise Raised.segv⟩
            | some a1 =>
              match memcpy a1 (start + beg0) r with
              | none => ⟨{ obj with addr := a1 }, Res.raise Raised.segv⟩
              | some a2 =>
                ⟨{ obj with addr := a2,
                            real := (obj.real + r.length + (SIZE_MAX1 - plen)) % SIZE_MAX1 },
                 Res.ok true⟩

/-- The method `sub!`. -/
def rb_cMmap_sub_bang (self : mmap_t) (pat : VALUE) (repl : Replacement) : Ret Bool :=
  match GET_MMAP self MMAP_RUBY_MODIFY with
  | some e => ⟨self, Res.raise e⟩
  | none => ipc_ensure self (fun m => mmap_sub_bang_int m pat repl)

/-- The function `mmap_chop_bang_int`: `true` for the result `self`. -/
def mmap_chop_bang_int (obj : mmap_t) : Ret Bool :=
  match GET_MMAP obj MMAP_RUBY_MODIFY with
  | some e => ⟨obj, Res.raise e⟩
  | none =>
    match mmap_str obj (MMAP_RUBY_MODIFY ||| MMAP_RUBY_ORIGIN) with
    | Res.raise e => ⟨obj, Res.raise e⟩
    | Res.ok len =>
      if len = 0 then ⟨obj, Res.ok false⟩
      else if len ≥ 2 ∧ obj.addr.get? (len - 2) = some 13 ∧ obj.addr.get? (len - 1) = some 10 then
        ⟨{ obj with real := obj.real - 2 }, Res.ok true⟩
      else ⟨{ obj with real := obj.real - 1 }, Res.ok true⟩

/-- The method `chop!`. -/
def rb_cMmap_chop_bang (self : mmap_t) : Ret Bool :=
  match GET_MMAP self MMAP_RUBY_MODIFY with
  | some e => ⟨self, Res.raise e⟩
  | none => ipc_ensure self mmap_chop_bang_int

/-! ## Buffer facade: `extend` and `flush` -/

/-- The method `extend`: the new capacity. -/
def rb_cMmap_extend (os : Os) (self : mmap_t) (count : VALUE) : Ret Nat :=
  match GET_MMAP self MMAP_RUBY_MODIFY with
  | some e => ⟨self, Res.raise e⟩
  | none =>
    match NUM2LONG count with
    | Res.raise e => ⟨self, Res.raise e⟩
    | Res.ok len =>
      if len > 0 then
        match mmap_expandf os self (self.len + len.toNat) with
        | ⟨m1, Res.raise e⟩ => ⟨m1, Res.raise e⟩
        | ⟨m1, Res.ok _⟩ => ⟨m1, Res.ok m1.len⟩
      else ⟨self, Res.ok self.len⟩

/-- The method `msync` / `sync` / `flush`. -/
def rb_cMmap_msync (os : Os) (self : mmap_t) : Ret Unit :=
  match GET_MMAP self MMAP_RUBY_MODIFY with
  | some e => ⟨self, Res.raise e⟩
  | none =>
    if os.msync_fails then ⟨self, Res.raise Raised.ArgError⟩
    else if self.real < self.len ∧ self.vscope ≠ MAP_PRIVATE then mmap_expandf os self self.real
    else ⟨self, Res.ok ()⟩

/-! ## Buffer facade: `gsub!` -/

/-- The loop `while (beg >= 0)` of `mmap_gsub_bang_int`, entered with the
registers `regs0` of the match just found.  The host string keeps the
length `slen` it had when the function started; `fuel` bounds the number of
rounds. -/
def mmap_gsub_loop (re : Regexp) (repl : Replacement) (slen : Nat) :
    Nat → mmap_t → Regs → Ret Bool
  | 0, obj, _ => ⟨obj, Res.raise Raised.unfinished⟩
  | fuel + 1, obj, regs0 =>
    let start := (mmap_correct_backref regs0).1
    let regs := (mmap_correct_backref regs0).2
    let beg0 := ((regs.getD 0 none).getD (0, 0)).1
    let end0 := ((regs.getD 0 none).getD (0, 0)).2
    let substr := ((obj.addr.take slen).drop (start + beg0)).take (end0 - beg0)
    let val := repl.expand substr regs
    let plen := end0 - beg0
    if val.length ≠ plen ∧ obj.flag &&& MMAP_RUBY_FIXED ≠ 0 then
      ⟨obj, Res.raise Raised.TypeError⟩
    else if val.length ≠ plen ∧
        (obj.real + val.length + (SIZE_MAX1 - plen)) % SIZE_MAX1 > obj.len then
      ⟨obj, Res.raise Raised.TypeError⟩
    else
      let moved :=
        if val.length ≠ plen then
          if slen < start + beg0 + plen then none
          else
            memmove obj.addr (start + beg0 + val.length) (start + beg0 + plen)
              (slen - start - beg0 - plen)
        else some obj.addr
      match moved with
      | none => ⟨obj, Res.raise Raised.segv⟩
      | some a1 =>
        match memcpy a1 (start + beg0) val with
        | none => ⟨{ obj with addr := a1 }, Res.raise Raised.segv⟩
        | some a2 =>
          let obj1 := { obj with addr := a2,
                                 real := (obj.real + val.length + (SIZE_MAX1 - plen)) % SIZE_MAX1 }
          let offset :=
            if beg0 = end0 then start + end0 + 1 + val.length - plen
            else start + end0 + val.length - plen
          if offset > slen then ⟨obj1, Res.ok true⟩
          else
            match rb_reg_search re (obj1.addr.take slen) offset with
            | none => ⟨obj1, Res.ok true⟩
            | some regs1 => mmap_gsub_loop re repl slen fuel obj1 regs1

/-- A number of rounds that the loop of `mmap_gsub_bang_int` is given. -/
def gsub_fuel (obj : mmap_t) : Nat :=
  (obj.real + 2) * (max obj.len obj.real + 2)

/-- The function `mmap_gsub_bang_int`: `true` for the result `self`, `false`
for `nil`. -/
def mmap_gsub_bang_int (obj : mmap_t) (pat : VALUE) (repl : Replacement) : Ret Bool :=
  match GET_MMAP obj MMAP_RUBY_MODIFY with
  | some e => ⟨obj, Res.raise e⟩
  | none =>
    match mmap_str obj (MMAP_RUBY_MODIFY ||| MMAP_RUBY_ORIGIN) with
    | Res.raise e => ⟨obj, Res.raise e⟩
    | Res.ok slen =>
      match get_pat pat with
      | Res.raise e => ⟨obj, Res.raise e⟩
      | Res.ok re =>
        match rb_reg_search re (obj.addr.take slen) 0 with
        | none => ⟨obj, Res.ok false⟩
        | some regs0 => mmap_gsub_loop re repl slen (gsub_fuel obj) obj regs0

/-- The method `gsub!`. -/
def rb_cMmap_gsub_bang (self : mmap_t) (pat : VALUE) (repl : Replacement) : Ret Bool :=
  match GET_MMAP self MMAP_RUBY_MODIFY with
  | some e => ⟨self, Res.raise e⟩
  | none => ipc_ensure self (fun m => mmap_gsub_bang_int m pat repl)

/-! ## Buffer facade: case conversion and `reverse!` -/

/-- The test `c >= 'a' && c <= 'z'`. -/
def is_lower (c : Nat) : Bool := decide (97 ≤ c ∧ c ≤ 122)

/-- The test `c >= 'A' && c <= 'Z'`. -/
def is_upper (c : Nat) : Bool := decide (65 ≤ c ∧ c ≤ 90)

/-- The byte that the loop of `upcase!` leaves in place of `c`. -/
def upcase_byte (c : Nat) : Nat := if is_lower c then c - 97 + 65 else c

/-- The byte that the loop of `downcase!` leaves in place of `c`. -/
def downcase_byte (c : Nat) : Nat := if is_upper c then c - 65 + 97 else c

/-- The byte that the loop of `swapcase!` leaves in place of `c`. -/
def swapcase_byte (c : Nat) : Nat :=
  if is_lower c then c - 97 + 65 else if is_upper c then c - 65 + 97 else c

/-- The frame shared by the functions `mmap_upcase_bang_int`,
`mmap_downcase_bang_int`, `mmap_capitalize_bang_int`,
`mmap_swapcase_bang_int` and `mmap_reverse_bang_int`: `GET_MMAP`, the host
string over the mapping, a loop over its `len` bytes (`body` gives the bytes
the loop leaves and its result).  `true` is the result `self`, `false` is
`nil`. -/
def mmap_bang_bytes (obj : mmap_t) (body : List Nat → List Nat × Bool) : Ret Bool :=
  match GET_MMAP obj MMAP_RUBY_MODIFY with
  | some e => ⟨obj, Res.raise e⟩
  | none =>
    match mmap_str obj (MMAP_RUBY_MODIFY ||| MMAP_RUBY_ORIGIN) with
    | Res.raise e => ⟨obj, Res.raise e⟩
    | Res.ok len =>
      if obj.addr.length < len then ⟨obj, Res.raise Raised.segv⟩
      else
        ⟨{ obj with addr := (body (obj.addr.take len)).1 ++ obj.addr.drop len },
         Res.ok (body (obj.addr.take len)).2⟩

/-- The function `mmap_upcase_bang_int`. -/
def mmap_upcase_bang_int (obj : mmap_t) : Ret Bool :=
  mmap_bang_bytes obj (fun s => (s.map upcase_byte, s.any is_lower))

/-- The method `upcase!`. -/
def rb_cMmap_upcase_bang (self : mmap_t) : Ret Bool :=
  match GET_MMAP self MMAP_RUBY_MODIFY with
  | some e => ⟨self, Res.raise e⟩
  | none => ipc_ensure self mmap_upcase_bang_int

/-- The function `mmap_downcase_bang_int`. -/
def mmap_downcase_bang_int (obj : mmap_t) : Ret Bool :=
  mmap_bang_bytes obj (fun s => (s.map downcase_byte, s.any is_upper))

/-- The method `downcase!`. -/
def rb_cMmap_downcase_bang (self : mmap_t) : Ret Bool :=
  match GET_MMAP self MMAP_RUBY_MODIFY with
  | some e => ⟨self, Res.raise e⟩
  | none => ipc_ensure self mmap_downcase_bang_int

/-- The function `mmap_capitalize_bang_int`: the first byte is treated as by
`upcase!`, the others as by `downcase!`. -/
def mmap_capitalize_bang_int (obj : mmap_t) : Ret Bool :=
  mmap_bang_bytes obj (fun s =>
    match s with
    | [] => ([], false)
    | c :: t => (upcase_byte c :: t.map downcase_byte, is_lower c || t.any is_upper))

/-- The method `capitalize!`. -/
def rb_cMmap_capitalize_bang (self : mmap_t) : Ret Bool :=
  match GET_MMAP self MMAP_RUBY_MODIFY with
  | some e => ⟨self, Res.raise e⟩
  | none => ipc_ensure self mmap_capitalize_bang_int

/-- The function `mmap_swapcase_bang_int`. -/
def mmap_swapcase_bang_int (obj : mmap_t) : Ret Bool :=
  mmap_bang_bytes obj (fun s =>
    (s.map swapcase_byte, s.any (fun c => is_lower c || is_upper c)))

/-- The method `swapcase!`. -/
def rb_cMmap_swapcase_bang (self : mmap_t) : Ret Bool :=
  match GET_MMAP self MMAP_RUBY_MODIFY with
  | some e => ⟨self, Res.raise e⟩
  | none => ipc_ensure self mmap_swapcase_bang_int

/-- The loop `for (i = 0; i < len / 2; i++)` of `mmap_reverse_bang_int` with
`n` rounds left: swap `ptr[i]` and `ptr[len - 1 - i]`. -/
def reverse_loop (len : Nat) : Nat → List Nat → List Nat
  | 0, ptr => ptr
  | n + 1, ptr =>
    let i := len / 2 - (n + 1)
    let temp := ptr.getD i 0
    reverse_loop len n ((ptr.set i (ptr.getD (len - 1 - i) 0)).set (len - 1 - i) temp)

/-- The function `mmap_reverse_bang_int`: the result is always `self`. -/
def mmap_reverse_bang_int (obj : mmap_t) : Ret Bool :=
  mmap_bang_bytes obj (fun s => (reverse_loop s.length (s.length / 2) s, true))

/-- The method `reverse!`. -/
def rb_cMmap_reverse_bang (self : mmap_t) : Ret Bool :=
  match GET_MMAP self MMAP_RUBY_MODIFY with
  | some e => ⟨self, Res.raise e⟩
  | none => ipc_ensure self mmap_reverse_bang_int

/-! ## Buffer facade: `strip!`, `chomp!`, `squeeze!` -/

/-- The host macro `ISSPACE`: a blank or one of `\t \n \v \f \r`. -/
def ISSPACE (c : Nat) : Bool := decide (c = 32 ∨ (9 ≤ c ∧ c ≤ 13))

/-- The method `strip!`: `true` for the result `self`, `false` for `nil`.
`s` and `t` are the offsets from the mapping address of the pointers of the
same names once both scans are over. -/
def rb_cMmap_strip_bang (self : mmap_t) : Ret Bool :=
  match GET_MMAP self MMAP_RUBY_MODIFY with
  | some e => ⟨self, Res.raise e⟩
  | none =>
    match mmap_lock self true with
    | ⟨m1, Res.raise e⟩ => ⟨m1, Res.raise e⟩
    | ⟨m1, Res.ok _⟩ =>
      if m1.addr.length < m1.real then ⟨m1, Res.raise Raised.segv⟩
      else
        let str := m1.addr.take m1.real
        let s := (str.takeWhile ISSPACE).length
        let t := m1.real - ((str.drop s).reverse.takeWhile ISSPACE).length
        if m1.real ≠ t - s ∧ m1.flag &&& MMAP_RUBY_FIXED ≠ 0 then
          ⟨mmap_unlock m1, Res.raise Raised.TypeError⟩
        else
          let m2 := { m1 with real := t - s }
          if s > 0 then
            match memmove m2.addr 0 s m2.real with
            | none => ⟨m2, Res.raise Raised.segv⟩
            | some a1 =>
              match memcpy a1 m2.real [0] with
              | none => ⟨{ m2 with addr := a1 }, Res.raise Raised.segv⟩
              | some a2 => ⟨mmap_unlock { m2 with addr := a2 }, Res.ok true⟩
          else if t < m1.real then
            match memcpy m2.addr m2.real [0] with
            | none => ⟨m2, Res.raise Raised.segv⟩
            | some a2 => ⟨mmap_unlock { m2 with addr := a2 }, Res.ok true⟩
          else ⟨mmap_unlock m2, Res.ok false⟩

/-- The host variable `rb_rs` (`$/`), the default record separator. -/
def rb_rs : VALUE := VALUE.str [10]

/-- The length that `mmap_chomp_bang_int` leaves and its flag `changed`, for
a separator `rs` and a string of `len` bytes at `ptr`. -/
def chomp_len (ptr : List Nat) (len : Nat) (rs : List Nat) : Nat × Bool :=
  if rs.length = 0 then
    let n := ((ptr.take len).reverse.takeWhile (fun c => decide (c = 10 ∨ c = 13))).length
    (len - n, decide (0 < n))
  else if rs = [10] then
    if len ≥ 2 ∧ ptr.get? (len - 2) = some 13 ∧ ptr.get? (len - 1) = some 10 then (len - 2, true)
    else if len ≥ 1 ∧ ptr.get? (len - 1) = some 10 then (len - 1, true)
    else (len, false)
  else if len ≥ rs.length ∧ (ptr.drop (len - rs.length)).take rs.length = rs then
    (len - rs.length, true)
  else (len, false)

/-- The function `mmap_chomp_bang_int`: `true` for the result `self`. -/
def mmap_chomp_bang_int (argv : List VALUE) (obj : mmap_t) : Ret Bool :=
  match GET_MMAP obj MMAP_RUBY_MODIFY with
  | some e => ⟨obj, Res.raise e⟩
  | none =>
    match mmap_str obj (MMAP_RUBY_MODIFY ||| MMAP_RUBY_ORIGIN) with
    | Res.raise e => ⟨obj, Res.raise e⟩
    | Res.ok len =>
      if len = 0 then ⟨obj, Res.ok false⟩
      else
        match argv.headD rb_rs with
        | VALUE.nil => ⟨obj, Res.ok false⟩
        | VALUE.str rs =>
          if obj.addr.length < len then ⟨obj, Res.raise Raised.segv⟩
          else if (chomp_len obj.addr len rs).2 = true then
            ⟨{ obj with real := (chomp_len obj.addr len rs).1 }, Res.ok true⟩
          else ⟨obj, Res.ok false⟩
        | _ => ⟨obj, Res.raise Raised.TypeError⟩

/-- The method `chomp!`. -/
def rb_cMmap_chomp_bang (argv : List VALUE) (self : mmap_t) : Ret Bool :=
  match GET_MMAP self MMAP_RUBY_MODIFY with
  | some e => ⟨self, Res.raise e⟩
  | none => ipc_ensure self (mmap_chomp_bang_int argv)

/-- The loop `for (i = 0; i < len; i++)` of `mmap_squeeze_bang_int` with `n`
rounds left: the bytes, the write index `j` and the flag `changed` it ends
with.  `table` is `squeeze_table`. -/
def squeeze_loop (table : Nat → Bool) :
    Nat → List Nat → Nat → Nat → Bool → List Nat × Nat × Bool
  | 0, ptr, _, j, changed => (ptr, j, changed)
  | n + 1, ptr, i, j, changed =>
    if i = 0 ∨ ptr.getD i 0 ≠ ptr.getD (i - 1) 0 ∨ table (ptr.getD i 0) = false then
      squeeze_loop table n (ptr.set j (ptr.getD i 0)) (i + 1) (j + 1) changed
    else squeeze_loop table n ptr (i + 1) j true

/-- The function `mmap_squeeze_bang_int`: `true` for the result `self`. -/
def mmap_squeeze_bang_int (argv : List VALUE) (obj : mmap_t) : Ret Bool :=
  match GET_MMAP obj MMAP_RUBY_MODIFY with
  | some e => ⟨obj, Res.raise e⟩
  | none =>
    match mmap_str obj (MMAP_RUBY_MODIFY ||| MMAP_RUBY_ORIGIN) with
    | Res.raise e => ⟨obj, Res.raise e⟩
    | Res.ok len =>
      if len = 0 then ⟨obj, Res.ok false⟩
      else
        let table : Option (Nat → Bool) :=
          match argv with
          | [] => some (fun _ => true)
          | VALUE.str sq :: _ => some (fun c => decide (c ∈ sq))
          | _ => none
        match table with
        | none => ⟨obj, Res.raise Raised.TypeError⟩
        | some tb =>
          if obj.addr.length < len then ⟨obj, Res.raise Raised.segv⟩
          else
            let r := squeeze_loop tb len obj.addr 0 0 false
            if r.2.2 = true then ⟨{ obj with addr := r.1, real := r.2.1 }, Res.ok true⟩
            else ⟨{ obj with addr := r.1 }, Res.ok false⟩

/-- The method `squeeze!`. -/
def rb_cMmap_squeeze_bang (argv : List VALUE) (self : mmap_t) : Ret Bool :=
  match GET_MMAP self MMAP_RUBY_MODIFY with
  | some e => ⟨self, Res.raise e⟩
  | none => ipc_ensure self (mmap_squeeze_bang_int argv)

/-! ## Buffer facade: `mprotect` and `semlock` -/

/-- The protection that `rb_cMmap_mprotect` reads from its argument: one of
the strings `r`, `w`, `rw`, `wr`, or the bits of an integer. -/
def mprotect_mode (mode : VALUE) : Res Nat :=
  match mode with
  | VALUE.str s =>
    if s = [114] then Res.ok PROT_READ
    else if s = [119] then Res.ok PROT_WRITE
    else if s = [114, 119] ∨ s = [119, 114] then Res.ok (PROT_READ ||| PROT_WRITE)
    else Res.raise Raised.ArgError
  | _ =>
    match NUM2INT mode with
    | Res.raise e => Res.raise e
    | Res.ok i => Res.ok (i % (2 : Int) ^ 32).toNat

/-- The method `mprotect` / `protect`.  What the new protection does to later
accesses of the pages is the operating system's part and not described
here. -/
def rb_cMmap_mprotect (os : Os) (self : mmap_t) (mode : VALUE) : Ret Unit :=
  match GET_MMAP self 0 with
  | some e => ⟨self, Res.raise e⟩
  | none =>
    match mprotect_mode mode with
    | Res.raise e => ⟨self, Res.raise e⟩
    | Res.ok pmode =>
      if pmode &&& PROT_WRITE ≠ 0 ∧ self.frozen = true then
        ⟨self, Res.raise Raised.FrozenError⟩
      else if os.mprotect_fails then ⟨self, Res.raise Raised.ArgError⟩
      else
        let m1 := { self with pmode := pmode }
        if pmode &&& PROT_READ ≠ 0 then
          if pmode &&& PROT_WRITE ≠ 0 then ⟨{ m1 with smode := O_RDWR }, Res.ok ()⟩
          else ⟨{ m1 with smode := O_RDONLY, frozen := true }, Res.ok ()⟩
        else if pmode &&& PROT_WRITE ≠ 0 then
          ⟨{ m1 with flag := m1.flag ||| MMAP_RUBY_FIXED, smode := O_WRONLY }, Res.ok ()⟩
        else ⟨m1, Res.ok ()⟩

/-- The host macro `RTEST` on the values modelled here: only `nil` is false. -/
def RTEST (v : VALUE) : Bool :=
  match v with
  | VALUE.nil => false
  | _ => true

/-- The method `semlock` / `lock` called with the block `blk`. -/
def rb_cMmap_semlock (argv : List VALUE) (self : mmap_t) (blk : mmap_t → Ret Unit) :
    Ret Unit :=
  match GET_MMAP self 0 with
  | some e => ⟨self, Res.raise e⟩
  | none =>
    if self.flag &&& MMAP_RUBY_IPC = 0 then blk self
    else if 1 < argv.length then ⟨self, Res.raise Raised.ArgError⟩
    else
      match mmap_lock self ((argv.head?.map RTEST).getD true) with
      | ⟨m1, Res.raise e⟩ => ⟨m1, Res.raise e⟩
      | ⟨m1, Res.ok _⟩ => mmap_vunlock (blk m1)

/-! ## Predicates used in the statements -/

/-- The lock can be taken at once: the buffer is not IPC-backed, or this
access path holds the lock already, or the semaphore is available. -/
def lock_free (m : mmap_t) : Prop :=
  m.flag &&& MMAP_RUBY_IPC = 0 ∨ 0 < m.count ∨ (m.count = 0 ∧ 0 < m.sem)

/-- Every system call that growing a mapping makes succeeds. -/
def grow_ok (os : Os) : Prop :=
  os.pagesize ≠ 0 ∧ os.munmap_fails = false ∧ os.open_fails = false ∧ os.lseek_fails = false ∧
    os.write_fails = false ∧ os.mmap_fails = false ∧ os.madvise_fails = false ∧
    os.mlock_fails = false

/-- The buffer can grow: it is shared, not fixed-size, backed by a named file
that covers the mapping at a page-aligned offset, and the system calls
succeed. -/
def can_grow (os : Os) (m : mmap_t) : Prop :=
  grow_ok os ∧ m.offset % os.pagesize = 0 ∧ m.vscope &&& MAP_SHARED ≠ 0 ∧
    m.flag &&& MMAP_RUBY_FIXED = 0 ∧ m.path = path_t.name ∧
    m.offset + m.len ≤ m.file.length

/-- A buffer that `mmap_expandf` accepts (not plainly private, not fixed-size,
with a file name) is a shared mapping that lies inside its backing file. -/
def growable_in_file (m : mmap_t) : Prop :=
  m.vscope ≠ MAP_PRIVATE → m.flag &&& MMAP_RUBY_FIXED = 0 → m.path = path_t.name →
    m.vscope &&& MAP_SHARED ≠ 0 ∧ m.offset + m.len ≤ m.file.length

instance (m : mmap_t) : Decidable (lock_free m) := by
  unfold lock_free
  infer_instance

instance (os : Os) : Decidable (grow_ok os) := by
  unfold grow_ok
  infer_instance

instance (m : mmap_t) : Decidable (growable_in_file m) := by
  unfold growable_in_file
  infer_instance

/-! ## Sample buffers -/

/-- A ten-byte file `0123456789` mapped read-write and shared, on a system
with pages of sixteen bytes. -/
def digits : mmap_t :=
  { path := path_t.name, addr := [48, 49, 50, 51, 52, 53, 54, 55, 56, 57, 0, 0, 0, 0, 0, 0],
    len := 10, real := 10, offset := 0, smode := O_RDWR, pmode := PROT_READ ||| PROT_WRITE,
    vscope := MAP_SHARED, flag := 0, incr := EXP_INCR_SIZE, advice := 0, count := 0,
    frozen := false, file := [48, 49, 50, 51, 52, 53, 54, 55, 56, 57], sem := 0 }

/-- The buffer `digits` after its length dropped to nine (`01XY56789`). -/
def digits9 : mmap_t :=
  { digits with addr := [48, 49, 88, 89, 53, 54, 55, 56, 57, 57, 0, 0, 0, 0, 0, 0], real := 9 }

/-- A three-byte anonymous mapping `abc`: fixed-size, no file name. -/
def fixed_abc : mmap_t :=
  { path := path_t.minus1, addr := [97, 98, 99, 0, 0, 0, 0, 0, 0, 0, 0, 0, 0, 0, 0, 0],
    len := 3, real := 3, offset := 0, smode := O_RDWR, pmode := PROT_READ ||| PROT_WRITE,
    vscope := MAP_ANON ||| MAP_SHARED, flag := MMAP_RUBY_FIXED ||| MMAP_RUBY_ANON,
    incr := EXP_INCR_SIZE, advice := 0, count := 0, frozen := false, file := [], sem := 0 }

/-- A two-byte file `ab` mapped read-write and shared (capacity and length
2), on a system with pages of sixteen bytes. -/
def file_ab : mmap_t :=
  { path := path_t.name, addr := [97, 98, 0, 0, 0, 0, 0, 0, 0, 0, 0, 0, 0, 0, 0, 0],
    len := 2, real := 2, offset := 0, smode := O_RDWR, pmode := PROT_READ ||| PROT_WRITE,
    vscope := MAP_SHARED, flag := 0, incr := EXP_INCR_SIZE, advice := 0, count := 0,
    frozen := false, file := [97, 98], sem := 0 }

/-- The file `ab` mapped read-only: the object is frozen. -/
def frozen_ab : mmap_t :=
  { file_ab with smode := O_RDONLY, pmode := PROT_READ, frozen := true }

/-- The file `ab` mapped with a `length` option: the buffer is fixed-size. -/
def fixed_ab : mmap_t :=
  { file_ab with flag := MMAP_RUBY_FIXED }

/-! ## Further predicates, runs of calls and sample buffers -/

/-- A resizable file-backed buffer in a consistent state that is open for
writing: it can grow, its lock can be taken, it is not frozen, its length
is within its capacity and its capacity is mapped. -/
def resizable (os : Os) (m : mmap_t) : Prop :=
  can_grow os m ∧ lock_free m ∧ m.frozen = false ∧ m.real ≤ m.len ∧ m.len ≤ m.addr.length

/-- The calls `concat` of the bytes of a list one after the other, each as a
string of one byte, up to the first call that raises. -/
def concat_each (os : Os) : mmap_t → List Nat → Ret Unit
  | m, [] => ⟨m, Res.ok ()⟩
  | m, c :: cs =>
    match rb_cMmap_concat os m (VALUE.str [c]) with
    | ⟨m1, Res.raise e⟩ => ⟨m1, Res.raise e⟩
    | ⟨m1, Res.ok _⟩ => concat_each os m1 cs

/-- An empty file opened read-write: the constructor extends it to one
increment (`EXP_INCR_SIZE` bytes) and the length of the buffer is zero. -/
def empty_file : mmap_t :=
  { path := path_t.name, addr := List.replicate 4096 0, len := 4096, real := 0, offset := 0,
    smode := O_RDWR, pmode := PROT_READ ||| PROT_WRITE, vscope := MAP_SHARED, flag := 0,
    incr := EXP_INCR_SIZE, advice := 0, count := 0, frozen := false,
    file := List.replicate 4096 0, sem := 0 }

/-- The content or the length of the buffer in state `st` differs from that
in state `m`. -/
def content_changed (m st : mmap_t) : Prop :=
  st.real ≠ m.real ∨ st.addr.take st.real ≠ m.addr.take m.real

/-- A two-byte file `aa` mapped read-write and shared. -/
def file_aa : mmap_t :=
  { file_ab with addr := [97, 97, 0, 0, 0, 0, 0, 0, 0, 0, 0, 0, 0, 0, 0, 0], file := [97, 97] }

/-- The state `st` has the length, the capacity and the mapped bytes of the
state `m`. -/
def same_data (st m : mmap_t) : Prop :=
  st.real = m.real ∧ st.len = m.len ∧ st.addr = m.addr

/-- A five-byte file, `aaZZ` and a line feed, mapped read-write and shared,
after `chop!`: the length is 4 and the capacity 5. -/
def aazz : mmap_t :=
  { path := path_t.name, addr := [97, 97, 90, 90, 10, 0, 0, 0, 0, 0, 0, 0, 0, 0, 0, 0],
    len := 5, real := 4, offset := 0, smode := O_RDWR, pmode := PROT_READ ||| PROT_WRITE,
    vscope := MAP_SHARED, flag := 0, incr := EXP_INCR_SIZE, advice := 0, count := 0,
    frozen := false, file := [97, 97, 90, 90, 10], sem := 0 }

/-! ## Runs of lock calls -/

/-- A run of calls of `mmap_lock` (waiting) and `mmap_unlock` on one buffer:
`true` is an acquire, `false` a release.  The run ends at the first call
that raises. -/
def lock_run : mmap_t → List Bool → Ret Unit
  | m, [] => ⟨m, Res.ok ()⟩
  | m, true :: w =>
    match mmap_lock m true with
    | ⟨m1, Res.raise e⟩ => ⟨m1, Res.raise e⟩
    | ⟨m1, Res.ok _⟩ => lock_run m1 w
  | m, false :: w => lock_run (mmap_unlock m) w

/-- The nesting depth after a run of acquires and releases that starts at
depth `d`; `none` when a release comes while nothing is held. -/
def nesting : Nat → List Bool → Option Nat
  | d, [] => some d
  | d, true :: w => nesting (d + 1) w
  | 0, false :: _ => none
  | d + 1, false :: w => nesting d w

/-- The state of an IPC-backed buffer at nesting depth `d`, when the
semaphore had the value `m.sem` at depth 0. -/
def held (m : mmap_t) (d : Nat) : mmap_t :=
  { m with count := (d : Int), sem := if d = 0 then m.sem else m.sem - 1 }

/-- A record with the flags of the option `ipc` over the mapping of the file
`ab`, the kind of record that `mmap_lock` and `mmap_unlock` are written for:
the semaphore is available (value 1) and nobody holds the lock. -/
def ipc_free : mmap_t :=
  { file_ab with flag := MMAP_RUBY_IPC ||| MMAP_RUBY_TMP, sem := 1 }

/-! ## Buffer facade: `==` and `eql?` -/

/-- The argument `other` of `==` and `eql?`, as far as the extension tells
apart: the receiver itself (`self == other` on the object references),
another `Mmap` object, or an object that is no `Mmap`. -/
inductive Operand where
  | same
  | mmap (o : mmap_t)
  | value (v : VALUE)

/-- Host `String#==` on two byte strings of the same encoding. -/
def rb_str_equal (a b : List Nat) : Bool := a == b

/-- The method `eql?`. -/
def rb_cMmap_eql (self : mmap_t) (other : Operand) : Res Bool :=
  match other with
  | Operand.same => Res.ok true
  | Operand.value _ => Res.ok false
  | Operand.mmap o =>
    match GET_MMAP self 0 with
    | some e => Res.raise e
    | none =>
      match GET_MMAP o 0 with
      | some e => Res.raise e
      | none =>
        if self.real ≠ o.real then Res.ok false
        else Res.ok (self.addr.take self.real == o.addr.take self.real)

/-- The method `==` / `===`. -/
def rb_cMmap_equal (self : mmap_t) (other : Operand) : Res Bool :=
  match other with
  | Operand.same => Res.ok true
  | Operand.value _ => Res.ok false
  | Operand.mmap o =>
    match GET_MMAP self 0 with
    | some e => Res.raise e
    | none =>
      match GET_MMAP o 0 with
      | some e => Res.raise e
      | none =>
        if self.real ≠ o.real then Res.ok false
        else
          match mmap_str self MMAP_RUBY_ORIGIN with
          | Res.raise e => Res.raise e
          | Res.ok slen =>
            match mmap_str o MMAP_RUBY_ORIGIN with
            | Res.raise e => Res.raise e
            | Res.ok olen => Res.ok (rb_str_equal (self.addr.take slen) (o.addr.take olen))

/-! ## References for `squeeze!` and `strip!`, further sample buffers -/

/-- The reference for `squeeze!`, by recursion over the bytes with the byte
before (`prev`, none at the start): a byte is dropped when it equals the byte
before it and belongs to the set `S`. -/
def squeeze_after (S : Nat → Bool) : Option Nat → List Nat → List Nat
  | _, [] => []
  | prev, c :: t =>
    if prev = some c ∧ S c = true then squeeze_after S (some c) t
    else c :: squeeze_after S (some c) t

/-- The reference for `squeeze!` on a whole content. -/
def squeeze_ref (S : Nat → Bool) (content : List Nat) : List Nat :=
  squeeze_after S none content

/-- The table `squeeze_table` that `mmap_squeeze_bang_int` builds from its
arguments: every byte without argument, the bytes of the string otherwise. -/
def squeeze_set (argv : List VALUE) : Nat → Bool :=
  match argv with
  | VALUE.str sq :: _ => fun c => decide (c ∈ sq)
  | _ => fun _ => true

/-- No byte of `l` equals the byte before it while belonging to `S`. -/
def no_repeat (S : Nat → Bool) (l : List Nat) : Prop :=
  List.Chain' (fun a b => ¬ (a = b ∧ S b = true)) l

/-- The reference for `strip!`: the content without its longest prefix and
its longest suffix of whitespace bytes. -/
def strip_ref (c : List Nat) : List Nat :=
  ((c.dropWhile ISSPACE).reverse.dropWhile ISSPACE).reverse

/-- An eight-byte file, `aXaY` and four line feeds, mapped read-write and
shared, after its length dropped to 4 (capacity 8). -/
def axay : mmap_t :=
  { path := path_t.name, addr := [97, 88, 97, 89, 10, 10, 10, 10, 0, 0, 0, 0, 0, 0, 0, 0],
    len := 8, real := 4, offset := 0, smode := O_RDWR, pmode := PROT_READ ||| PROT_WRITE,
    vscope := MAP_SHARED, flag := 0, incr := EXP_INCR_SIZE, advice := 0, count := 0,
    frozen := false, file := [97, 88, 97, 89, 10, 10, 10, 10], sem := 0 }

/-- A five-byte file `aabbc` mapped read-write and shared. -/
def file_aabbc : mmap_t :=
  { path := path_t.name, addr := [97, 97, 98, 98, 99, 0, 0, 0, 0, 0, 0, 0, 0, 0, 0, 0],
    len := 5, real := 5, offset := 0, smode := O_RDWR, pmode := PROT_READ ||| PROT_WRITE,
    vscope := MAP_SHARED, flag := 0, incr := EXP_INCR_SIZE, advice := 0, count := 0,
    frozen := false, file := [97, 97, 98, 98, 99], sem := 0 }

/-- A seven-byte file, `a b` between blanks, a tab and a line feed, mapped
read-write and shared. -/
def file_padded : mmap_t :=
  { path := path_t.name, addr := [32, 9, 97, 32, 98, 10, 32, 0, 0, 0, 0, 0, 0, 0, 0, 0],
    len := 7, real := 7, offset := 0, smode := O_RDWR, pmode := PROT_READ ||| PROT_WRITE,
    vscope := MAP_SHARED, flag := 0, incr := EXP_INCR_SIZE, advice := 0, count := 0,
    frozen := false, file := [32, 9, 97, 32, 98, 10, 32], sem := 0 }

/-! ## Construction: `rb_cMmap_initialize` -/

/-- The record that `rb_cMmap_allocate` makes: all fields zero, the
increment `EXP_INCR_SIZE`. -/
def rb_cMmap_allocate : mmap_t :=
  { path := path_t.null, addr := [], len := 0, real := 0, offset := 0, smode := 0, pmode := 0,
    vscope := 0, flag := 0, incr := EXP_INCR_SIZE, advice := 0, count := 0, frozen := false,
    file := [], sem := 0 }

/-- The argument `file` of `new`: `nil` for an anonymous map, an object that
answers `fileno` with a descriptor, or a path name. -/
inductive fname_t where
  | nil
  | fileno (fd : Int)
  | path

/-- What the argument `options` of `new` stands for: the host method
`process_options`, which calls the private setters for the keys of the hash;
whether the hash under `ipc` has a true value for `permanent`
(`mmap_ipc_initialize` then clears `MMAP_RUBY_TMP`); the outcome of
`mmap_ipc_initialize` and of the System V calls of the `ipc` branch, which is
the record found in the shared memory segment that `shmat` attaches, or the
error that one of them raises; and the string under the key `initialize`, if
any. -/
structure Options where
  process_options : mmap_t → Ret Unit
  ipc_permanent : Bool
  ipc_segment : Res mmap_t
  init_string : Option (List Nat)

/-- The record of the object once `rb_cMmap_initialize` works on the record
`w`.  Without the `ipc` branch `w` is the record of the object.  In the `ipc`
branch the assignment `mmap = shmat(...)` redirects the local pointer only:
`w` is the record in the shared segment, and the record of the object stays
as `process_options` left it (`obj`); the backing file is the same for both.
The identifiers of the segment and of the semaphore are stored after the
redirection as well, so they go to the segment too. -/
def object_record (obj : Option mmap_t) (w : mmap_t) : mmap_t :=
  match obj with
  | none => w
  | some o => { o with file := w.file }

/-- The open mode and the protection that `rb_cMmap_initialize` reads from
the mode string: `r`, `w`, `rw`, `wr` or `a`. -/
def open_mode (mode : List Nat) : Option (Nat × Nat) :=
  if mode = [114] then some (O_RDONLY, PROT_READ)
  else if mode = [119] then some (O_RDWR ||| O_TRUNC, PROT_READ ||| PROT_WRITE)
  else if mode = [114, 119] ∨ mode = [119, 114] then some (O_RDWR, PROT_READ ||| PROT_WRITE)
  else if mode = [97] then some (O_RDWR ||| O_CREAT, PROT_READ ||| PROT_WRITE)
  else none

/-- The call `open(path, smode, perm)` on a file that may not exist yet:
the content of the file once it is open, `none` when the call fails. -/
def os_open (os : Os) (fs : Option (List Nat)) (smode : Nat) : Option (List Nat) :=
  if os.open_fails then none
  else
    match fs with
    | none => if smode &&& O_CREAT ≠ 0 then some [] else none
    | some f => if smode &&& O_TRUNC ≠ 0 then some [] else some f

/-- The call `mmap(0, size, prot, MAP_ANON | ..., -1, 0)`: zero-filled pages. -/
def os_mmap_anon (os : Os) (size : Nat) : Option (List Nat) :=
  if os.mmap_fails ∨ size = 0 ∨ os.pagesize = 0 then none
  else some (List.replicate (roundUp size os.pagesize) 0)

/-- The method `initialize` on the record `self` made by `rb_cMmap_allocate`.
`fs` is the content of the file named or open as `fname` (`none` when no
such file exists), `vmode` and `scope` are the second and third argument,
`options` the options, if given.  The state that is returned is the record
of the object (`object_record`).  A mode given as an array with permission
bits is not among the values described. -/
def rb_cMmap_initialize (os : Os) (self : mmap_t) (fname : fname_t) (fs : Option (List Nat))
    (vmode scope : VALUE) (options : Option Options) : Ret Unit :=
  let anonymous : Bool := match fname with
    | fname_t.nil => true
    | _ => false
  let has_path : Bool := match fname with
    | fname_t.path => true
    | _ => false
  let has_fd : Bool := match fname with
    | fname_t.fileno _ => true
    | _ => false
  let bad_fd : Bool := match fname with
    | fname_t.fileno fd => decide (fd < 0)
    | _ => false
  let scope_int : Res Nat := match scope with
    | VALUE.nil => Res.ok MAP_SHARED
    | _ =>
      match NUM2INT scope with
      | Res.raise e => Res.raise e
      | Res.ok i => Res.ok (i % (2 : Int) ^ 32).toNat
  if bad_fd then ⟨self, Res.raise Raised.ArgError⟩
  else
    match scope_int with
    | Res.raise e => ⟨self, Res.raise e⟩
    | Res.ok sc =>
      if anonymous = false ∧ sc &&& MAP_ANON ≠ 0 then ⟨self, Res.raise Raised.ArgError⟩
      else
        let vscope := if anonymous then MAP_ANON ||| MAP_SHARED ||| sc else sc
        let opened : Res (Nat × Nat × Nat × List Nat) :=
          if anonymous then
            match vmode with
            | VALUE.nil => Res.ok (0, 0, 0, [])
            | VALUE.str _ => Res.ok (0, 0, 0, [])
            | _ =>
              match NUM2INT vmode with
              | Res.raise e => Res.raise e
              | Res.ok i => Res.ok (0, 0, (i % (2 : Int) ^ 64).toNat, [])
          else
            let mode : Res (List Nat) := match vmode with
              | VALUE.nil => Res.ok [114]
              | VALUE.str s => Res.ok s
              | _ => Res.raise Raised.TypeError
            match mode with
            | Res.raise e => Res.raise e
            | Res.ok ms =>
              match open_mode ms with
              | none => Res.raise Raised.ArgError
              | some (smode, pmode) =>
                let file : Option (List Nat) := if has_fd then fs else os_open os fs smode
                match file with
                | none => Res.raise Raised.ArgError
                | some f =>
                  if os.fstat_fails then Res.raise Raised.ArgError
                  else Res.ok (smode, pmode, f.length, f)
        match opened with
        | Res.raise e => ⟨self, Res.raise e⟩
        | Res.ok (smode0, pmode0, st_size, f) =>
          let m0 := { self with file := f }
          if m0.frozen = true then ⟨m0, Res.raise Raised.FrozenError⟩
          else
            let configured : Ret (Nat × Nat × Option mmap_t) :=
              match options with
              | none => ⟨m0, Res.ok (st_size, 0, none)⟩
              | some o =>
                match o.process_options m0 with
                | ⟨m1, Res.raise e⟩ => ⟨m1, Res.raise e⟩
                | ⟨m1, Res.ok _⟩ =>
                  if has_path = true ∧ m1.len + m1.offset > st_size then
                    ⟨m1, Res.raise Raised.ArgError⟩
                  else
                    let size := if m1.len ≠ 0 then m1.len else st_size
                    if m1.flag &&& MMAP_RUBY_IPC ≠ 0 then
                      let m1p :=
                        if o.ipc_permanent then
                          { m1 with flag := m1.flag ^^^ (m1.flag &&& MMAP_RUBY_TMP) }
                        else m1
                      match o.ipc_segment with
                      | Res.raise e => ⟨m1p, Res.raise e⟩
                      | Res.ok seg =>
                        ⟨{ seg with file := m1p.file }, Res.ok (size, m1p.offset, some m1p)⟩
                    else ⟨m1, Res.ok (size, m1.offset, none)⟩
            match configured with
            | ⟨m2, Res.raise e⟩ => ⟨m2, Res.raise e⟩
            | ⟨m2, Res.ok (size0, offset0, obj)⟩ =>
              let prepared : Ret (Nat × Nat × Nat × Nat × Bool) :=
                if anonymous then
                  if size0 = 0 then ⟨m2, Res.raise Raised.ArgError⟩
                  else
                    ⟨{ m2 with flag := m2.flag ||| (MMAP_RUBY_FIXED ||| MMAP_RUBY_ANON) },
                     Res.ok (O_RDWR, PROT_READ ||| PROT_WRITE, size0, 0, false)⟩
                else
                  let extended : Ret (Nat × Bool) :=
                    if size0 = 0 ∧ smode0 &&& O_RDWR ≠ 0 then
                      if os.lseek_fails ∨ m2.incr = 0 then ⟨m2, Res.raise Raised.IOError⟩
                      else if os.write_fails then ⟨m2, Res.raise Raised.IOError⟩
                      else
                        ⟨{ m2 with file := m2.file ++ List.replicate (m2.incr - 1) 0 ++ [0] },
                         Res.ok (m2.incr, true)⟩
                    else ⟨m2, Res.ok (size0, false)⟩
                  match extended with
                  | ⟨m3, Res.raise e⟩ => ⟨m3, Res.raise e⟩
                  | ⟨m3, Res.ok (size, init)⟩ =>
                    ⟨if has_fd then { m3 with flag := m3.flag ||| MMAP_RUBY_FIXED } else m3,
                     Res.ok (smode0, pmode0, size, offset0, init)⟩
              match prepared with
              | ⟨m3, Res.raise e⟩ => ⟨object_record obj m3, Res.raise e⟩
              | ⟨m3, Res.ok (smode, pmode, size, offset, init)⟩ =>
                let mapped : Option (List Nat) :=
                  if anonymous then os_mmap_anon os size else os_mmap os m3.file offset size
                match mapped with
                | none => ⟨object_record obj m3, Res.raise Raised.ArgError⟩
                | some a =>
                  if m3.advice ≠ 0 ∧ os.madvise_fails then
                    ⟨object_record obj m3, Res.raise Raised.ArgError⟩
                  else
                    let filled : List Nat :=
                      match anonymous, options.bind (fun o => o.init_string) with
                      | true, some v => List.replicate size (v.headD 0) ++ a.drop size
                      | _, _ => a
                    let m4 := { m3 with
                      addr := filled, len := size, real := if init then m3.real else size,
                      pmode := pmode, vscope := vscope,
                      smode := smode ^^^ (smode &&& O_TRUNC),
                      path := if has_path then path_t.name else path_t.minus1 }
                    if smode = O_RDONLY then
                      ⟨{ object_record obj m4 with frozen := true }, Res.ok ()⟩
                    else if smode = O_WRONLY then
                      ⟨object_record obj { m4 with flag := m4.flag ||| MMAP_RUBY_FIXED },
                       Res.ok ()⟩
                    else ⟨object_record obj m4, Res.ok ()⟩

/-- A run of resizes through `mmap_expandf`, one for each capacity of the
list, that ends at the first one that raises. -/
def resize_each (os : Os) (mmap : mmap_t) : List Nat → Ret Unit
  | [] => ⟨mmap, Res.ok ()⟩
  | n :: ns =>
    match mmap_expandf os mmap n with
    | ⟨m1, Res.raise e⟩ => ⟨m1, Res.raise e⟩
    | ⟨m1, Res.ok _⟩ => resize_each os m1 ns

/-- The result of a construction, when it is a success, is a mapping from
offset 0 of a named file whose size is the capacity, and is not fixed-size. -/
def sized_to_file (r : Ret Unit) : Prop :=
  r.val = Res.ok () →
    r.st.file.length = r.st.len ∧ r.st.offset = 0 ∧ r.st.flag &&& MMAP_RUBY_FIXED = 0 ∧
      r.st.path = path_t.name

/-! ## The rounds of the `gsub!` loop -/

/-- The loop of `mmap_gsub_bang_int` once more, with the values that the
variable `offset` takes, one for each round that reaches the assignment. -/
def mmap_gsub_rounds (re : Regexp) (repl : Replacement) (slen : Nat) :
    Nat → mmap_t → Regs → Ret Bool × List Nat
  | 0, obj, _ => (⟨obj, Res.raise Raised.unfinished⟩, [])
  | fuel + 1, obj, regs0 =>
    let start := (mmap_correct_backref regs0).1
    let regs := (mmap_correct_backref regs0).2
    let beg0 := ((regs.getD 0 none).getD (0, 0)).1
    let end0 := ((regs.getD 0 none).getD (0, 0)).2
    let substr := ((obj.addr.take slen).drop (start + beg0)).take (end0 - beg0)
    let val := repl.expand substr regs
    let plen := end0 - beg0
    if val.length ≠ plen ∧ obj.flag &&& MMAP_RUBY_FIXED ≠ 0 then
      (⟨obj, Res.raise Raised.TypeError⟩, [])
    else if val.length ≠ plen ∧
        (obj.real + val.length + (SIZE_MAX1 - plen)) % SIZE_MAX1 > obj.len then
      (⟨obj, Res.raise Raised.TypeError⟩, [])
    else
      let moved :=
        if val.length ≠ plen then
          if slen < start + beg0 + plen then none
          else
            memmove obj.addr (start + beg0 + val.length) (start + beg0 + plen)
              (slen - start - beg0 - plen)
        else some obj.addr
      match moved with
      | none => (⟨obj, Res.raise Raised.segv⟩, [])
      | some a1 =>
        match memcpy a1 (start + beg0) val with
        | none => (⟨{ obj with addr := a1 }, Res.raise Raised.segv⟩, [])
        | some a2 =>
          let obj1 := { obj with addr := a2,
                                 real := (obj.real + val.length + (SIZE_MAX1 - plen)) % SIZE_MAX1 }
          let offset :=
            if beg0 = end0 then start + end0 + 1 + val.length - plen
            else start + end0 + val.length - plen
          if offset > slen then (⟨obj1, Res.ok true⟩, [offset])
          else
            match rb_reg_search re (obj1.addr.take slen) offset with
            | none => (⟨obj1, Res.ok true⟩, [offset])
            | some regs1 =>
              ((mmap_gsub_rounds re repl slen fuel obj1 regs1).1,
               offset :: (mmap_gsub_rounds re repl slen fuel obj1 regs1).2)

/-- The number of rounds that are left at most for a literal pattern when a
round starts at a match at `i`: with an empty replacement every round takes
bytes from the length, otherwise every round moves the match to the right. -/
def gsub_rounds_left (r : List Nat) (slen i : Nat) (obj : mmap_t) : Nat :=
  if r = [] then obj.real + 1 else slen + 1 - i

/-! ## Private setters, memory locking, `munmap`, runs of public calls -/

/-- The conversion `NUM2UINT` of an argument to a C `unsigned int`: a
negative value down to `INT_MIN` wraps around. -/
def NUM2UINT (v : VALUE) : Res Nat :=
  match v with
  | VALUE.fixnum i =>
    if -(2 : Int) ^ 31 ≤ i ∧ i < (2 : Int) ^ 32 then Res.ok (i % (2 : Int) ^ 32).toNat
    else Res.raise Raised.RangeError
  | _ => Res.raise Raised.TypeError

/-- The private method `set_length`, which `process_options` calls for the
option `length`. -/
def rb_cMmap_set_length (self : mmap_t) (value : VALUE) : Ret Unit :=
  match NUM2UINT value with
  | Res.raise e => ⟨self, Res.raise e⟩
  | Res.ok n =>
    let m1 := { self with len := n }
    if m1.len = 0 then ⟨m1, Res.raise Raised.ArgError⟩
    else ⟨{ m1 with flag := m1.flag ||| MMAP_RUBY_FIXED }, Res.ok ()⟩

/-- The private method `set_offset`, which `process_options` calls for the
option `offset`.  A negative offset is stored before it is rejected; the
record of the model keeps its old offset on that path. -/
def rb_cMmap_set_offset (self : mmap_t) (value : VALUE) : Ret Unit :=
  match NUM2INT value with
  | Res.raise e => ⟨self, Res.raise e⟩
  | Res.ok i =>
    if i < 0 then ⟨self, Res.raise Raised.ArgError⟩
    else ⟨{ self with offset := i.toNat, flag := self.flag ||| MMAP_RUBY_FIXED }, Res.ok ()⟩

/-- The method `mlock` / `lock`. -/
def rb_cMmap_mlock (os : Os) (self : mmap_t) : Ret Unit :=
  if self.flag &&& MMAP_RUBY_LOCK ≠ 0 then ⟨self, Res.ok ()⟩
  else if self.flag &&& MMAP_RUBY_ANON ≠ 0 then ⟨self, Res.raise Raised.ArgError⟩
  else if os.mlock_fails then ⟨self, Res.raise Raised.ArgError⟩
  else ⟨{ self with flag := self.flag ||| MMAP_RUBY_LOCK }, Res.ok ()⟩

/-- The method `munlock` / `unlock`. -/
def rb_cMmap_munlock (os : Os) (self : mmap_t) : Ret Unit :=
  if self.flag &&& MMAP_RUBY_LOCK = 0 then ⟨self, Res.ok ()⟩
  else if os.munlock_fails then ⟨self, Res.raise Raised.ArgError⟩
  else ⟨{ self with flag := self.flag ^^^ (self.flag &&& MMAP_RUBY_LOCK) }, Res.ok ()⟩

/-- The method `munmap` / `unmap`.  The result of `munmap` is not looked
at. -/
def rb_cMmap_unmap (os : Os) (self : mmap_t) : Ret Unit :=
  match GET_MMAP self 0 with
  | some e => ⟨self, Res.raise e⟩
  | none =>
    if self.path = path_t.null then ⟨self, Res.ok ()⟩
    else
      match mmap_lock self true with
      | ⟨m1, Res.raise e⟩ => ⟨m1, Res.raise e⟩
      | ⟨m1, Res.ok _⟩ =>
        let m2 := if os.munmap_fails then m1
          else { m1 with addr := [], file := unmapped_file m1 }
        let cut : Bool := decide (m2.path ≠ path_t.minus1 ∧ m2.real < m2.len ∧
          m2.vscope ≠ MAP_PRIVATE)
        if cut = true ∧ os.truncate_fails = true then ⟨m2, Res.raise Raised.TypeError⟩
        else
          ⟨mmap_unlock { m2 with
              path := path_t.null,
              file := if cut then os_truncate m2.file m2.real else m2.file },
           Res.ok ()⟩

/-- A call of a public method of a buffer, with its arguments. -/
inductive Call where
  | aref (argv : List VALUE)
  | index (indx : VALUE)
  | aset (argv : List VALUE)
  | slice_bang (argv : List VALUE)
  | insert (idx str : VALUE)
  | concat (other : VALUE)
  | sub_bang (pat : VALUE) (repl : Replacement)
  | gsub_bang (pat : VALUE) (repl : Replacement)
  | chop_bang
  | chomp_bang (argv : List VALUE)
  | squeeze_bang (argv : List VALUE)
  | strip_bang
  | upcase_bang
  | downcase_bang
  | capitalize_bang
  | swapcase_bang
  | reverse_bang
  | extend (count : VALUE)
  | msync
  | mprotect (mode : VALUE)
  | mlock
  | munlock
  | unmap
  | semlock (argv : List VALUE)

/-- The record after a call, whether it returned or raised (`semlock` is
called with a block that does nothing). -/
def Call.run (os : Os) (m : mmap_t) : Call → mmap_t
  | Call.aref argv => (rb_cMmap_aref argv m).st
  | Call.index indx => (rb_cMmap_index indx m).st
  | Call.aset argv => (rb_cMmap_aset os argv m).st
  | Call.slice_bang argv => (rb_cMmap_slice_bang os argv m).st
  | Call.insert idx str => (rb_cMmap_insert os m idx str).st
  | Call.concat other => (rb_cMmap_concat os m other).st
  | Call.sub_bang pat repl => (rb_cMmap_sub_bang m pat repl).st
  | Call.gsub_bang pat repl => (rb_cMmap_gsub_bang m pat repl).st
  | Call.chop_bang => (rb_cMmap_chop_bang m).st
  | Call.chomp_bang argv => (rb_cMmap_chomp_bang argv m).st
  | Call.squeeze_bang argv => (rb_cMmap_squeeze_bang argv m).st
  | Call.strip_bang => (rb_cMmap_strip_bang m).st
  | Call.upcase_bang => (rb_cMmap_upcase_bang m).st
  | Call.downcase_bang => (rb_cMmap_downcase_bang m).st
  | Call.capitalize_bang => (rb_cMmap_capitalize_bang m).st
  | Call.swapcase_bang => (rb_cMmap_swapcase_bang m).st
  | Call.reverse_bang => (rb_cMmap_reverse_bang m).st
  | Call.extend count => (rb_cMmap_extend os m count).st
  | Call.msync => (rb_cMmap_msync os m).st
  | Call.mprotect mode => (rb_cMmap_mprotect os m mode).st
  | Call.mlock => (rb_cMmap_mlock os m).st
  | Call.munlock => (rb_cMmap_munlock os m).st
  | Call.unmap => (rb_cMmap_unmap os m).st
  | Call.semlock argv => (rb_cMmap_semlock argv m (fun x => ⟨x, Res.ok ()⟩)).st

/-- The record after a run of calls, one after the other. -/
def run_calls (os : Os) (m : mmap_t) (calls : List Call) : mmap_t :=
  calls.foldl (Call.run os) m

/-- The buffer is fixed-size with the capacity `n`. -/
def fixed_cap (n : Nat) (m : mmap_t) : Prop :=
  m.flag &&& MMAP_RUBY_FIXED ≠ 0 ∧ m.len = n

/-- A construction that returns leaves the fixed-size flag set. -/
def fixed_result (r : Ret Unit) : Prop :=
  r.val = Res.ok () → r.st.flag &&& MMAP_RUBY_FIXED ≠ 0

/-! ## Private scopes with further bits, objects made with `ipc`, first round of `gsub!` -/

/-- The flag `MAP_NORESERVE` of the operating system headers (Linux value). -/
def MAP_NORESERVE : Nat := 16384

/-- The file `ab` mapped read-write with the scope
`Mmap::MAP_PRIVATE | Mmap::MAP_NORESERVE`. -/
def private_ab : mmap_t :=
  { file_ab with vscope := MAP_PRIVATE ||| MAP_NORESERVE }

/-- The buffer `private_ab` once its first byte has been overwritten by `X`:
the change is private to the mapping, the file still holds `ab`. -/
def private_xb : mmap_t :=
  { private_ab with addr := [88, 98, 0, 0, 0, 0, 0, 0, 0, 0, 0, 0, 0, 0, 0, 0] }

/-- The file of `file_padded` mapped with the option `length: 7`. -/
def fixed_padded : mmap_t :=
  { file_padded with flag := MMAP_RUBY_FIXED }

/-- Whether a string pattern has none of the metacharacters of the host's
regular expressions (`$ ( ) * + . ? [ \ ] ^ { | }`), so that `rb_reg_regcomp`
compiles it to the expression that matches exactly its bytes. -/
def meta_free (p : List Nat) : Bool :=
  p.all (fun c => decide (c ∉ [36, 40, 41, 42, 43, 46, 63, 91, 92, 93, 94, 123, 124, 125]))

/-- The length `plen` of the match that the first round of the loop of
`mmap_gsub_bang_int` works on, from the registers `regs0` of the first
search. -/
def first_plen (regs0 : Regs) : Nat :=
  (((mmap_correct_backref regs0).2.getD 0 none).getD (0, 0)).2 -
    (((mmap_correct_backref regs0).2.getD 0 none).getD (0, 0)).1

/-- The string `val` that replaces the match in the first round of the loop
of `mmap_gsub_bang_int`, for the host string `str`. -/
def first_val (repl : Replacement) (str : List Nat) (regs0 : Regs) : List Nat :=
  repl.expand
    ((str.drop ((mmap_correct_backref regs0).1 +
        (((mmap_correct_backref regs0).2.getD 0 none).getD (0, 0)).1)).take (first_plen regs0))
    (mmap_correct_backref regs0).2

/-- The buffer is not IPC-backed, its counter is `ct` and the value of its
semaphore is `sv`. -/
def plain (ct : Int) (sv : Nat) (m : mmap_t) : Prop :=
  m.flag &&& MMAP_RUBY_IPC = 0 ∧ m.count = ct ∧ m.sem = sv

/-- A record that a method of the extension can find in an object: one with
the flag `MMAP_RUBY_IPC` has no path, because `rb_cMmap_initialize` stores
the path of such an object in the shared segment and not in the record of the
object. -/
def receivable (m : mmap_t) : Prop :=
  m.flag &&& MMAP_RUBY_IPC ≠ 0 → m.path = path_t.null

/-- The private method `set_ipc`, which `process_options` calls for the
option `ipc`; `hash_or_true` tells whether the value is `true` or a Hash. -/
def rb_cMmap_set_ipc (self : mmap_t) (hash_or_true : Bool) : Ret Unit :=
  if hash_or_true = false then ⟨self, Res.raise Raised.ArgError⟩
  else ⟨{ self with flag := self.flag ||| (MMAP_RUBY_IPC ||| MMAP_RUBY_TMP) }, Res.ok ()⟩

/-- The record in a shared memory segment that `shmget` has just created:
every byte is zero. -/
def zero_segment : mmap_t :=
  { rb_cMmap_allocate with incr := 0 }

/-- The options `ipc: true`: processing them is one call of `set_ipc` (the
only place that sets `MMAP_RUBY_IPC`), and the System V calls succeed and
attach a new segment. -/
def ipc_options : Options :=
  { process_options := fun m => rb_cMmap_set_ipc m true,
    ipc_permanent := false,
    ipc_segment := Res.ok zero_segment,
    init_string := none }

/-- The record of the object after `new(file, "rw", nil, ipc: true)` on the
file `ab`: the flags of `set_ipc`, and neither path nor mapping, which went
to the shared segment. -/
def ipc_object : mmap_t :=
  { rb_cMmap_allocate with flag := MMAP_RUBY_IPC ||| MMAP_RUBY_TMP, file := [97, 98] }

/-- The options `length: 2`: processing them is one call of `set_length`
(the only place that stores a length before the mapping is made; the `ipc`
part is not used). -/
def length_options : Options :=
  { process_options := fun m => rb_cMmap_set_length m (VALUE.fixnum 2),
    ipc_permanent := false,
    ipc_segment := Res.ok zero_segment,
    init_string := none }

/-! ## Lemmas: lock, capacity manager and splice engine -/

theorem mmap_lock_st (m : mmap_t) (w : Bool) :
    (mmap_lock m w).st =
      { m with count := (mmap_lock m w).st.count, sem := (mmap_lock m w).st.sem } := by
  unfold mmap_lock
  dsimp only
  split_ifs <;> rfl

theorem mmap_unlock_st (m : mmap_t) :
    mmap_unlock m = { m with count := (mmap_unlock m).count, sem := (mmap_unlock m).sem } := by
  unfold mmap_unlock
  dsimp only
  split_ifs <;> rfl

theorem mmap_lock_path (m : mmap_t) (w : Bool) : (mmap_lock m w).st.path = m.path := by
  rw [mmap_lock_st]

theorem mmap_unlock_path' (m : mmap_t) : (mmap_unlock m).path = m.path := by
  rw [mmap_unlock_st]

theorem mmap_lock_addr (m : mmap_t) (w : Bool) : (mmap_lock m w).st.addr = m.addr := by
  rw [mmap_lock_st]

theorem mmap_unlock_addr' (m : mmap_t) : (mmap_unlock m).addr = m.addr := by
  rw [mmap_unlock_st]

theorem mmap_lock_len (m : mmap_t) (w : Bool) : (mmap_lock m w).st.len = m.len := by
  rw [mmap_lock_st]

theorem mmap_unlock_len' (m : mmap_t) : (mmap_unlock m).len = m.len := by
  rw [mmap_unlock_st]

theorem mmap_lock_real (m : mmap_t) (w : Bool) : (mmap_lock m w).st.real = m.real := by
  rw [mmap_lock_st]

theorem mmap_unlock_real' (m : mmap_t) : (mmap_unlock m).real = m.real := by
  rw [mmap_unlock_st]

theorem mmap_lock_offset (m : mmap_t) (w : Bool) : (mmap_lock m w).st.offset = m.offset := by
  rw [mmap_lock_st]

theorem mmap_unlock_offset' (m : mmap_t) : (mmap_unlock m).offset = m.offset := by
  rw [mmap_unlock_st]

theorem mmap_lock_smode (m : mmap_t) (w : Bool) : (mmap_lock m w).st.smode = m.smode := by
  rw [mmap_lock_st]

theorem mmap_unlock_smode' (m : mmap_t) : (mmap_unlock m).smode = m.smode := by
  rw [mmap_unlock_st]

theorem mmap_lock_pmode (m : mmap_t) (w : Bool) : (mmap_lock m w).st.pmode = m.pmode := by
  rw [mmap_lock_st]

theorem mmap_unlock_pmode' (m : mmap_t) : (mmap_unlock m).pmode = m.pmode := by
  rw [mmap_unlock_st]

theorem mmap_lock_vscope (m : mmap_t) (w : Bool) : (mmap_lock m w).st.vscope = m.vscope := by
  rw [mmap_lock_st]

theorem mmap_unlock_vscope' (m : mmap_t) : (mmap_unlock m).vscope = m.vscope := by
  rw [mmap_unlock_st]

theorem mmap_lock_flag (m : mmap_t) (w : Bool) : (mmap_lock m w).st.flag = m.flag := by
  rw [mmap_lock_st]

theorem mmap_unlock_flag' (m : mmap_t) : (mmap_unlock m).flag = m.flag := by
  rw [mmap_unlock_st]

theorem mmap_lock_incr (m : mmap_t) (w : Bool) : (mmap_lock m w).st.incr = m.incr := by
  rw [mmap_lock_st]

theorem mmap_unlock_incr' (m : mmap_t) : (mmap_unlock m).incr = m.incr := by
  rw [mmap_unlock_st]

theorem mmap_lock_advice (m : mmap_t) (w : Bool) : (mmap_lock m w).st.advice = m.advice := by
  rw [mmap_lock_st]

theorem mmap_unlock_advice' (m : mmap_t) : (mmap_unlock m).advice = m.advice := by
  rw [mmap_unlock_st]

theorem mmap_lock_frozen (m : mmap_t) (w : Bool) : (mmap_lock m w).st.frozen = m.frozen := by
  rw [mmap_lock_st]

theorem mmap_unlock_frozen' (m : mmap_t) : (mmap_unlock m).frozen = m.frozen := by
  rw [mmap_unlock_st]

theorem mmap_lock_file (m : mmap_t) (w : Bool) : (mmap_lock m w).st.file = m.file := by
  rw [mmap_lock_st]

theorem mmap_unlock_file' (m : mmap_t) : (mmap_unlock m).file = m.file := by
  rw [mmap_unlock_st]


theorem expand_initialize_inv (os : Os) (s : mmap_t) (n : Nat)
    (h : ( mmap_expand_initialize os s n).val = Res.ok ()) :
    ( mmap_expand_initialize os s n).st =
        { s with addr := map_pages os.pagesize (resized_file s n) s.offset n,
                 file := resized_file s n, len := n } ∧
      os.pagesize ≠ 0 ∧ n ≠ 0 ∧ s.offset % os.pagesize = 0 := by
  unfold mmap_expand_initialize at h ⊢
  dsimp only at h ⊢
  unfold os_mmap at h ⊢
  split_ifs at h ⊢
  simp_all

theorem resized_file_congr (s : mmap_t) (c : Int) (sm : Nat) (n : Nat) :
    resized_file { s with count := c, sem := sm } n = resized_file s n := rfl

theorem mmap_lock_inv (m : mmap_t) (w : Bool) (h : (mmap_lock m w).val = Res.ok ()) :
    ∃ c sm, mmap_lock m w = ⟨{ m with count := c, sem := sm }, Res.ok ()⟩ ∧
      mmap_unlock { m with count := c, sem := sm } = m := by
  unfold mmap_lock at h ⊢
  dsimp only at h ⊢
  by_cases hI : m.flag &&& MMAP_RUBY_IPC ≠ 0
  · rw [if_pos hI] at h ⊢
    by_cases h1 : m.count + 1 = 1
    · rw [if_pos h1] at h ⊢
      by_cases h2 : 0 < m.sem
      · rw [if_pos h2] at h ⊢
        refine ⟨m.count + 1, m.sem - 1, rfl, ?_⟩
        unfold mmap_unlock
        dsimp only
        rw [if_pos hI, if_pos (by omega)]
        cases m
        simp only [mmap_t.mk.injEq, true_and, and_true]
        constructor
        · simp
        · exact Nat.sub_add_cancel h2
      · rw [if_neg h2] at h
        split_ifs at h
    · rw [if_neg h1] at h ⊢
      refine ⟨m.count + 1, m.sem, rfl, ?_⟩
      unfold mmap_unlock
      dsimp only
      rw [if_pos hI, if_neg (by omega)]
      cases m
      simp
  · rw [if_neg hI] at h ⊢
    refine ⟨m.count, m.sem, rfl, ?_⟩
    unfold mmap_unlock
    rw [if_neg hI]

theorem mmap_expandf_inv (os : Os) (s : mmap_t) (n : Nat)
    (h : (mmap_expandf os s n).val = Res.ok ()) :
    (∃ c sm, (mmap_expandf os s n).st =
        { s with addr := map_pages os.pagesize (resized_file s n) s.offset n,
                 file := resized_file s n, len := n, count := c, sem := sm }) ∧
      os.pagesize ≠ 0 ∧ n ≠ 0 ∧ s.offset % os.pagesize = 0 ∧
      s.vscope ≠ MAP_PRIVATE ∧ s.flag &&& MMAP_RUBY_FIXED = 0 ∧ s.path = path_t.name := by
  unfold mmap_expandf at h ⊢
  by_cases h1 : s.vscope = MAP_PRIVATE
  · rw [if_pos h1] at h
    cases h
  rw [if_neg h1] at h ⊢
  by_cases h2 : s.flag &&& MMAP_RUBY_FIXED ≠ 0
  · rw [if_pos h2] at h
    cases h
  rw [if_neg h2] at h ⊢
  by_cases h3 : s.path = path_t.null ∨ s.path = path_t.minus1
  · rw [if_pos h3] at h
    cases h
  rw [if_neg h3] at h ⊢
  have hpath : s.path = path_t.name := by
    cases hp : s.path
    · exact absurd (Or.inl hp) h3
    · exact absurd (Or.inr hp) h3
    · rfl
  have hfix : s.flag &&& MMAP_RUBY_FIXED = 0 := by
    by_contra hc
    exact h2 hc
  by_cases hI : s.flag &&& MMAP_RUBY_IPC ≠ 0
  · rw [if_pos hI] at h ⊢
    cases hl : (mmap_lock s true).val with
    | raise e =>
      have : mmap_lock s true = ⟨(mmap_lock s true).st, Res.raise e⟩ := by
        rw [← hl]
      rw [this] at h
      cases h
    | ok u =>
      obtain ⟨c, sm, hL, -⟩ := mmap_lock_inv s true hl
      rw [hL] at h ⊢
      dsimp only at h ⊢
      obtain ⟨e1, e2, e3, e4⟩ := expand_initialize_inv os _ n h
      rw [e1]
      refine ⟨?_, e2, e3, e4, h1, hfix, hpath⟩
      rw [mmap_unlock_st]
      exact ⟨_, _, rfl⟩
  · rw [if_neg hI] at h ⊢
    obtain ⟨e1, e2, e3, e4⟩ := expand_initialize_inv os _ n h
    rw [e1]
    exact ⟨⟨_, _, rfl⟩, e2, e3, e4, h1, hfix, hpath⟩

theorem le_roundUp (x p : Nat) (hp : p ≠ 0) : x ≤ roundUp x p := by
  unfold roundUp
  have h := Nat.div_add_mod (x + p - 1) p
  have h2 := Nat.mod_lt (x + p - 1) (Nat.pos_of_ne_zero hp)
  rw [Nat.mul_comm]
  omega

theorem length_writeback (file addr : List Nat) (off : Nat) (h : off ≤ file.length) :
    (writeback file off addr).length = file.length := by
  simp only [writeback, List.length_append, List.length_take, List.length_drop]
  omega

theorem length_map_pages (p : Nat) (file : List Nat) (off len : Nat) :
    (map_pages p file off len).length =
      min (roundUp len p) (roundUp (file.length - off) p) := by
  simp only [map_pages, List.length_take, List.length_append, List.length_drop,
    List.length_replicate]
  omega

theorem resized_file_grow (s : mmap_t) (n : Nat) (hsh : s.vscope &&& MAP_SHARED ≠ 0)
    (hn : s.len < n) :
    resized_file s n =
      writeback s.file s.offset s.addr ++ List.replicate (n - s.len - 1) 0 ++ [0] := by
  unfold resized_file unmapped_file
  rw [if_pos hn, if_pos hsh]

theorem length_resized_file (s : mmap_t) (n : Nat) (hsh : s.vscope &&& MAP_SHARED ≠ 0)
    (h : s.offset ≤ s.file.length)
    (hn : s.len < n) : (resized_file s n).length = s.file.length + (n - s.len) := by
  rw [resized_file_grow s n hsh hn]
  simp only [List.length_append, length_writeback _ _ _ h, List.length_replicate,
    List.length_singleton]
  omega

theorem map_pages_grown_take (p : Nat) (s : mmap_t) (n : Nat) (hp : p ≠ 0)
    (hsh : s.vscope &&& MAP_SHARED ≠ 0)
    (h1 : s.len ≤ s.addr.length) (h2 : s.offset + s.len ≤ s.file.length) (h3 : s.len < n) :
    (map_pages p (resized_file s n) s.offset n).take s.len = s.addr.take s.len := by
  have hr1 := le_roundUp n p hp
  have hr2 := le_roundUp ((resized_file s n).length - s.offset) p hp
  have hl := length_resized_file s n hsh (by omega) h3
  rw [hl] at hr2
  apply List.ext_getElem?
  intro i
  simp only [map_pages, hl]
  have hk : n ≤ min (roundUp n p) (roundUp (s.file.length + (n - s.len) - s.offset) p) :=
    le_min hr1 (le_trans (by omega) hr2)
  generalize min (roundUp n p) (roundUp (s.file.length + (n - s.len) - s.offset) p) = k at hk ⊢
  rw [resized_file_grow s n hsh h3]
  simp only [writeback, List.getElem?_take, List.getElem?_append, List.getElem?_drop,
    List.length_take, List.length_append, List.length_drop, List.length_replicate,
    List.length_singleton, List.getElem?_replicate]
  split_ifs <;> first | rfl | omega | (congr 1; omega)

theorem expand_initialize_grow (os : Os) (s : mmap_t) (n : Nat)
    (hos : grow_ok os) (hoff : s.offset % os.pagesize = 0) (hn : s.len < n) :
    mmap_expand_initialize os s n =
      ⟨{ s with addr := map_pages os.pagesize (resized_file s n) s.offset n,
                file := resized_file s n, len := n }, Res.ok ()⟩ := by
  obtain ⟨hp, h1, h2, h3, h4, h5, h6, h7⟩ := hos
  have hn0 : n ≠ 0 := by omega
  unfold mmap_expand_initialize os_mmap
  simp [h1, h2, h3, h4, h5, h6, h7, hn, hn0, hp, hoff]

theorem mmap_lock_of_free (m : mmap_t) (h : lock_free m) :
    ∃ c sm, mmap_lock m true = ⟨{ m with count := c, sem := sm }, Res.ok ()⟩ ∧
      mmap_unlock { m with count := c, sem := sm } = m ∧
      (m.flag &&& MMAP_RUBY_IPC = 0 ∨ 0 < c) := by
  by_cases hI : m.flag &&& MMAP_RUBY_IPC = 0
  · refine ⟨m.count, m.sem, ?_, ?_, Or.inl hI⟩
    · simp [mmap_lock, hI]
    · simp [mmap_unlock, hI]
  · have hI' : m.flag &&& MMAP_RUBY_IPC ≠ 0 := hI
    rcases h with h | h | ⟨h, h'⟩
    · exact absurd h hI
    · have h1 : m.count + 1 ≠ 1 := by omega
      have h2 : m.count + 1 - 1 ≠ 0 := by omega
      refine ⟨m.count + 1, m.sem, ?_, ?_, Or.inr (by omega)⟩
      · unfold mmap_lock
        dsimp only
        rw [if_pos hI', if_neg h1]
      · unfold mmap_unlock
        dsimp only
        rw [if_pos hI', if_neg h2]
        cases m
        simp
    · have h1 : m.count + 1 = 1 := by omega
      have h2 : m.count + 1 - 1 = 0 := by omega
      refine ⟨m.count + 1, m.sem - 1, ?_, ?_, Or.inr (by omega)⟩
      · unfold mmap_lock
        dsimp only
        rw [if_pos hI', if_pos h1, if_pos h']
      · unfold mmap_unlock
        dsimp only
        rw [if_pos hI', if_pos h2]
        cases m
        simp only [mmap_t.mk.injEq, true_and, and_true]
        constructor
        · simp
        · exact Nat.sub_add_cancel h'

theorem not_private_of_shared (v : Nat) (h : v &&& MAP_SHARED ≠ 0) : v ≠ MAP_PRIVATE := by
  intro hv
  rw [hv] at h
  exact h (by decide)

theorem mmap_expandf_grow (os : Os) (s : mmap_t) (n : Nat)
    (hos : grow_ok os) (hoff : s.offset % os.pagesize = 0)
    (hsh : s.vscope &&& MAP_SHARED ≠ 0) (hfix : s.flag &&& MMAP_RUBY_FIXED = 0)
    (hpath : s.path = path_t.name) (hheld : s.flag &&& MMAP_RUBY_IPC = 0 ∨ 0 < s.count)
    (hn : s.len < n) :
    mmap_expandf os s n =
      ⟨{ s with addr := map_pages os.pagesize (resized_file s n) s.offset n,
                file := resized_file s n, len := n }, Res.ok ()⟩ := by
  have hp := not_private_of_shared _ hsh
  unfold mmap_expandf
  rw [if_neg hp, if_neg (by simpa using hfix), if_neg (by simp [hpath])]
  by_cases hI : s.flag &&& MMAP_RUBY_IPC = 0
  · rw [if_neg (by simpa using hI)]
    exact expand_initialize_grow os s n hos hoff hn
  · have hI' : s.flag &&& MMAP_RUBY_IPC ≠ 0 := hI
    have hc : 0 < s.count := by
      rcases hheld with h | h
      · exact absurd h hI
      · exact h
    have h1 : s.count + 1 ≠ 1 := by omega
    have h2 : s.count + 1 - 1 ≠ 0 := by omega
    rw [if_pos hI']
    have hlock : mmap_lock s true = ⟨{ s with count := s.count + 1 }, Res.ok ()⟩ := by
      unfold mmap_lock
      dsimp only
      rw [if_pos hI', if_neg h1]
    rw [hlock]
    dsimp only
    rw [expand_initialize_grow os { s with count := s.count + 1 } n hos hoff hn]
    unfold mmap_unlock
    dsimp only
    rw [if_pos hI', if_neg h2]
    simp [resized_file, unmapped_file]

theorem mmap_realloc_grow (os : Os) (s : mmap_t) (n : Nat) (h : can_grow os s)
    (hheld : s.flag &&& MMAP_RUBY_IPC = 0 ∨ 0 < s.count) (hn : s.len < n) :
    mmap_realloc os s n =
      ⟨{ s with addr := map_pages os.pagesize (resized_file s (max n (s.len + s.incr))) s.offset
                          (max n (s.len + s.incr)),
                file := resized_file s (max n (s.len + s.incr)),
                len := max n (s.len + s.incr) }, Res.ok ()⟩ := by
  obtain ⟨hos, hoff, hsh, hfix, hpath, -⟩ := h
  unfold mmap_realloc
  rw [if_pos hn]
  dsimp only
  have hmax : (if n - s.len < s.incr then s.len + s.incr else n) = max n (s.len + s.incr) := by
    split_ifs with hc
    · rw [max_eq_right (by omega)]
    · rw [max_eq_left (by omega)]
  rw [hmax]
  exact mmap_expandf_grow os s _ hos hoff hsh hfix hpath hheld (by omega)

theorem shift_ok (a : List Nat) (real b l k : Nat) (h1 : b + l ≤ real)
    (h2 : real ≤ a.length) (h3 : real - l + k ≤ a.length) :
    ∃ a1, (if (k : Int) ≠ (l : Int) then memmove a (b + k) (b + l) (real - (b + l))
            else some a) = some a1 ∧
      a1.length = a.length ∧ a1.take b = a.take b ∧
      (a1.drop (b + k)).take (real - (b + l)) = (a.drop (b + l)).take (real - (b + l)) := by
  by_cases hk : k = l
  · subst hk
    exact ⟨a, by simp, rfl, rfl, rfl⟩
  · rw [if_pos (by simpa using hk)]
    unfold memmove
    by_cases hn : real - (b + l) = 0
    · rw [if_pos hn, hn]
      exact ⟨a, rfl, rfl, rfl, by simp⟩
    · rw [if_neg hn, if_pos (by omega)]
      refine ⟨_, rfl, ?_, ?_, ?_⟩
      · simp only [List.length_take, List.length_append, List.length_drop]
        omega
      · apply List.ext_getElem?
        intro i
        simp only [List.getElem?_take, List.getElem?_append, List.getElem?_drop,
          List.length_take, List.length_append, List.length_drop]
        split_ifs <;> first | rfl | omega
      · apply List.ext_getElem?
        intro i
        simp only [List.getElem?_take, List.getElem?_append, List.getElem?_drop,
          List.length_take, List.length_append, List.length_drop]
        split_ifs <;> first | rfl | omega | (congr 1; omega)

theorem copy_ok (a v : List Nat) (b t : Nat) (h : b + v.length + t ≤ a.length) :
    ∃ a3, (if (v.length : Int) > 0 then memcpy a b v else some a) = some a3 ∧
      a3.length = a.length ∧
      a3.take (b + v.length + t) = a.take b ++ v ++ (a.drop (b + v.length)).take t := by
  by_cases hv : 0 < v.length
  · rw [if_pos (by simpa using hv)]
    unfold memcpy
    rw [if_neg (by omega), if_pos (by omega)]
    refine ⟨_, rfl, ?_, ?_⟩
    · simp only [List.length_take, List.length_append, List.length_drop]
      omega
    · apply List.ext_getElem?
      intro i
      simp only [List.getElem?_take, List.getElem?_append, List.getElem?_drop,
        List.length_take, List.length_append, List.length_drop]
      split_ifs <;> first | rfl | omega
  · rw [if_neg (by simpa using hv)]
    have : v = [] := List.length_eq_zero.mp (by omega)
    subst this
    refine ⟨a, rfl, rfl, ?_⟩
    apply List.ext_getElem?
    intro i
    simp only [List.getElem?_take, List.getElem?_append, List.getElem?_drop,
      List.length_take, List.length_append, List.length_drop, List.length_nil]
    split_ifs <;> first | rfl | omega | (congr 1; omega)

theorem update_bytes_ok (a v : List Nat) (real b l : Nat) (h1 : b + l ≤ real)
    (h2 : real ≤ a.length) (h3 : real - l + v.length ≤ a.length) :
    ∃ a', update_bytes a real b (l : Int) v = some a' ∧
      a'.take (real - l + v.length) =
        a.take b ++ v ++ (a.drop (b + l)).take (real - (b + l)) ∧
      a'.length = a.length := by
  have hz : ¬ (real < b ∧ (l : Int) < 0) := by omega
  obtain ⟨a1, e1, len1, tk1, dr1⟩ := shift_ok a real b l v.length h1 h2 h3
  obtain ⟨a3, e3, len3, tk3⟩ := copy_ok a1 v b (real - (b + l)) (by omega)
  refine ⟨a3, ?_, ?_, by omega⟩
  · unfold update_bytes
    simp only [Int.toNat_ofNat, if_neg hz]
    rw [e1]
    exact e3
  · have : real - l + v.length = b + v.length + (real - (b + l)) := by omega
    rw [this, tk3, tk1, dr1]


theorem take_of_take_eq (A B : List Nat) (n k : Nat) (h : A.take n = B.take n) (hk : k ≤ n) :
    A.take k = B.take k := by
  have : (A.take n).take k = (B.take n).take k := by rw [h]
  simpa [List.take_take, min_eq_left hk] using this

theorem drop_take_of_take_eq (A B : List Nat) (n i t : Nat) (h : A.take n = B.take n)
    (hk : i + t ≤ n) : (A.drop i).take t = (B.drop i).take t := by
  apply List.ext_getElem?
  intro j
  have hj := congrArg (fun x => x[i + j]?) h
  simp only [List.getElem?_take] at hj
  simp only [List.getElem?_take, List.getElem?_drop]
  split_ifs with hjt
  · rw [if_pos (by omega), if_pos (by omega)] at hj
    exact hj
  · rfl

theorem mmap_unlock_data (x : mmap_t) (A F : List Nat) (r n : Nat) :
    mmap_unlock { x with addr := A, file := F, real := r, len := n } =
      { mmap_unlock x with addr := A, file := F, real := r, len := n } := by
  unfold mmap_unlock
  dsimp only
  split_ifs <;> rfl

theorem le_length_map_pages_grown (p : Nat) (s : mmap_t) (n : Nat) (hp : p ≠ 0)
    (hsh : s.vscope &&& MAP_SHARED ≠ 0)
    (h2 : s.offset + s.len ≤ s.file.length) (h3 : s.len < n) :
    n ≤ (map_pages p (resized_file s n) s.offset n).length := by
  rw [length_map_pages, length_resized_file s n hsh (by omega) h3]
  have hr1 := le_roundUp n p hp
  have hr2 := le_roundUp (s.file.length + (n - s.len) - s.offset) p hp
  exact le_min hr1 (le_trans (by omega) hr2)

theorem mmap_update_ok (os : Os) (m : mmap_t) (beg len : Int) (v : List Nat) (b l : Nat)
    (hb : resolve_beg m.real beg = b) (hbr : b ≤ m.real) (hlen : 0 ≤ len)
    (hl : clamp_len m.real b len = l)
    (hlock : lock_free m) (hreal : m.real ≤ m.len) (hmap : m.len ≤ m.addr.length)
    (hfix : m.flag &&& MMAP_RUBY_FIXED = 0 ∨ v.length = l)
    (hgrow : m.len < m.real - l + v.length → can_grow os m) :
    ∃ A F, mmap_update os m beg len (VALUE.str v) =
        ⟨{ m with addr := A, file := F, real := m.real - l + v.length,
                  len := if m.len < m.real - l + v.length
                         then max (m.real - l + v.length) (m.len + m.incr) else m.len },
         Res.ok ()⟩ ∧
      A.take (m.real - l + v.length) =
        m.addr.take b ++ v ++ (m.addr.drop (b + l)).take (m.real - (b + l)) ∧
      (if m.len < m.real - l + v.length
        then max (m.real - l + v.length) (m.len + m.incr) else m.len) ≤ A.length := by
  obtain ⟨c, sm, hL, hU, hH⟩ := mmap_lock_of_free m hlock
  have hbl : b + l ≤ m.real := by
    unfold clamp_len at hl
    split_ifs at hl <;> omega
  have hfx : ¬ (m.flag &&& MMAP_RUBY_FIXED ≠ 0 ∧ (v.length : Int) ≠ (l : Int)) := by
    rintro ⟨h1, h2⟩
    rcases hfix with h | h
    · exact h1 h
    · exact h2 (by exact_mod_cast h)
  have hreq : ((m.real : Int) + v.length - l).toNat = m.real - l + v.length := by omega
  unfold mmap_update
  rw [if_neg (not_lt.mpr hlen), hL]
  dsimp only
  rw [hb, hl, if_neg (by omega)]
  simp only [StringValuePtr]
  rw [hU, hL]
  dsimp only
  rw [if_neg hfx]
  simp only [Int.toNat_ofNat, hreq]
  by_cases hg : m.len < m.real - l + v.length
  · have hcg : can_grow os { m with count := c, sem := sm } := hgrow hg
    have hlv : (l : Int) < (v.length : Int) := by omega
    rw [if_pos hlv, mmap_realloc_grow os _ _ hcg hH hg]
    dsimp only
    rw [if_pos hg]
    obtain ⟨hos, -, hsh, -, -, hfile⟩ := hgrow hg
    have hN : m.len < max (m.real - l + v.length) (m.len + m.incr) :=
      lt_of_lt_of_le hg (le_max_left _ _)
    have hlenA := le_length_map_pages_grown os.pagesize m _ hos.1 hsh hfile hN
    have htk := map_pages_grown_take os.pagesize m _ hos.1 hsh hmap hfile hN
    have hle : m.real - l + v.length ≤ max (m.real - l + v.length) (m.len + m.incr) :=
      le_max_left _ _
    obtain ⟨a', e, tk, ln⟩ := update_bytes_ok
      (map_pages os.pagesize (resized_file m (max (m.real - l + v.length) (m.len + m.incr)))
        m.offset (max (m.real - l + v.length) (m.len + m.incr))) v m.real b l hbl
      (by omega) (by omega)
    refine ⟨a', resized_file m (max (m.real - l + v.length) (m.len + m.incr)), ?_, ?_, by omega⟩
    · have hgf : resized_file { m with count := c, sem := sm }
          (max (m.real - l + v.length) (m.len + m.incr)) =
          resized_file m (max (m.real - l + v.length) (m.len + m.incr)) := rfl
      rw [hgf, e]
      dsimp only
      have := mmap_unlock_data { m with count := c, sem := sm } a'
        (resized_file m (max (m.real - l + v.length) (m.len + m.incr))) (m.real - l + v.length)
        (max (m.real - l + v.length) (m.len + m.incr))
      rw [hU] at this
      dsimp only at this
      rw [hreq, this]
    · rw [tk, take_of_take_eq _ _ _ b htk (by omega),
        drop_take_of_take_eq _ _ _ (b + l) (m.real - (b + l)) htk (by omega)]
  · rw [if_neg hg]
    obtain ⟨a', e, tk, ln⟩ := update_bytes_ok m.addr v m.real b l hbl (by omega) (by omega)
    have hr : (if (l : Int) < (v.length : Int) then
        mmap_realloc os { m with count := c, sem := sm } (m.real - l + v.length)
        else ⟨{ m with count := c, sem := sm }, Res.ok ()⟩) =
        ⟨{ m with count := c, sem := sm }, Res.ok ()⟩ := by
      split_ifs
      · unfold mmap_realloc
        rw [if_neg (by simpa using hg)]
      · rfl
    rw [hr]
    dsimp only
    rw [e]
    dsimp only
    refine ⟨a', m.file, ?_, tk, by omega⟩
    have := mmap_unlock_data { m with count := c, sem := sm } a' m.file (m.real - l + v.length)
      m.len
    rw [hU] at this
    dsimp only at this
    rw [hreq, this]


theorem mmap_realloc_inv (os : Os) (s : mmap_t) (n : Nat)
    (h : (mmap_realloc os s n).val = Res.ok ()) :
    (n ≤ s.len ∧ mmap_realloc os s n = ⟨s, Res.ok ()⟩) ∨
    (s.len < n ∧
      (∃ c sm, mmap_realloc os s n =
        ⟨{ s with addr := map_pages os.pagesize (resized_file s (max n (s.len + s.incr)))
                            s.offset (max n (s.len + s.incr)),
                  file := resized_file s (max n (s.len + s.incr)),
                  len := max n (s.len + s.incr), count := c, sem := sm }, Res.ok ()⟩) ∧
      os.pagesize ≠ 0 ∧ s.offset % os.pagesize = 0 ∧
      s.vscope ≠ MAP_PRIVATE ∧ s.flag &&& MMAP_RUBY_FIXED = 0 ∧ s.path = path_t.name) := by
  unfold mmap_realloc at h ⊢
  by_cases hn : n > s.len
  · right
    rw [if_pos hn] at h ⊢
    dsimp only at h ⊢
    have hmax : (if n - s.len < s.incr then s.len + s.incr else n) = max n (s.len + s.incr) := by
      split_ifs with hc
      · rw [max_eq_right (by omega)]
      · rw [max_eq_left (by omega)]
    rw [hmax] at h ⊢
    obtain ⟨⟨c, sm, e⟩, e2, -, e4, e5, e6, e7⟩ := mmap_expandf_inv os s _ h
    refine ⟨hn, ⟨c, sm, ?_⟩, e2, e4, e5, e6, e7⟩
    rw [← e]
    cases hr : mmap_expandf os s (max n (s.len + s.incr)) with
    | mk st val =>
      rw [hr] at h
      dsimp only at h
      rw [h]
  · left
    rw [if_neg hn]
    exact ⟨by omega, rfl⟩

theorem clamp_len_bounds (real b : Nat) (len : Int) (hb : b ≤ real) (hlen : 0 ≤ len) :
    ∃ l : Nat, clamp_len real b len = l ∧ b + l ≤ real ∧ l = min len.toNat (real - b) := by
  refine ⟨(clamp_len real b len).toNat, ?_, ?_, ?_⟩ <;>
    (unfold clamp_len; split_ifs <;> omega)

theorem realloc_step (os : Os) (m : mmap_t) (c : Int) (sm : Nat) (l k : Nat)
    (hwf : growable_in_file m) (hreal : m.real ≤ m.len)
    (hmap : m.len ≤ m.addr.length) (hl : l ≤ m.real) :
    (∃ e st, (if (l : Int) < (k : Int) then
        mmap_realloc os { m with count := c, sem := sm } (m.real - l + k)
        else ⟨{ m with count := c, sem := sm }, Res.ok ()⟩) = ⟨st, Res.raise e⟩) ∨
    (∃ A F c' sm', (if (l : Int) < (k : Int) then
        mmap_realloc os { m with count := c, sem := sm } (m.real - l + k)
        else ⟨{ m with count := c, sem := sm }, Res.ok ()⟩) =
        ⟨{ m with addr := A, file := F,
                  len := if m.len < m.real - l + k
                         then max (m.real - l + k) (m.len + m.incr) else m.len,
                  count := c', sem := sm' }, Res.ok ()⟩ ∧
      A.take m.len = m.addr.take m.len ∧
      (if m.len < m.real - l + k
        then max (m.real - l + k) (m.len + m.incr) else m.len) ≤ A.length ∧
      (m.offset + m.len ≤ m.file.length →
        m.offset + (if m.len < m.real - l + k
          then max (m.real - l + k) (m.len + m.incr) else m.len) ≤ F.length)) := by
  by_cases hlk : (l : Int) < (k : Int)
  · rw [if_pos hlk]
    cases hv : (mmap_realloc os { m with count := c, sem := sm } (m.real - l + k)).val with
    | raise e =>
      left
      refine ⟨e, (mmap_realloc os { m with count := c, sem := sm } (m.real - l + k)).st, ?_⟩
      rw [← hv]
    | ok u =>
      right
      rcases mmap_realloc_inv os _ _ hv with
        ⟨h1, h2⟩ | ⟨h1, ⟨c', sm', h2⟩, hp, -, hnp, hnf, hpath⟩
      · have hg : ¬ m.len < m.real - l + k := by
          have : m.real - l + k ≤ m.len := h1
          omega
        rw [if_neg hg]
        exact ⟨m.addr, m.file, c, sm, h2, rfl, hmap, fun h => h⟩
      · have hg : m.len < m.real - l + k := h1
        obtain ⟨hsh, hfile⟩ := hwf hnp hnf hpath
        rw [if_pos hg]
        have hN : m.len < max (m.real - l + k) (m.len + m.incr) :=
          lt_of_lt_of_le hg (le_max_left _ _)
        refine ⟨_, _, c', sm', h2, ?_, ?_, ?_⟩
        · exact map_pages_grown_take os.pagesize m _ hp hsh hmap hfile hN
        · exact le_length_map_pages_grown os.pagesize m _ hp hsh hfile hN
        · intro _
          show m.offset + _ ≤ (resized_file m _).length
          rw [length_resized_file m _ hsh (by omega) hN]
          omega
  · rw [if_neg hlk]
    right
    have hg : ¬ m.len < m.real - l + k := by omega
    rw [if_neg hg]
    exact ⟨m.addr, m.file, c, sm, rfl, rfl, hmap, fun h => h⟩

theorem mmap_update_inv (os : Os) (m : mmap_t) (beg len : Int) (val : VALUE)
    (hwf : growable_in_file m) (hreal : m.real ≤ m.len) (hmap : m.len ≤ m.addr.length)
    (hok : (mmap_update os m beg len val).val = Res.ok ()) :
    ∃ (v : List Nat) (b l : Nat) (A F : List Nat) (c : Int) (sm : Nat),
      val = VALUE.str v ∧ 0 ≤ len ∧ resolve_beg m.real beg = b ∧ b ≤ m.real ∧
      clamp_len m.real b len = l ∧ b + l ≤ m.real ∧
      (m.flag &&& MMAP_RUBY_FIXED = 0 ∨ v.length = l) ∧
      (mmap_update os m beg len val).st =
        { m with addr := A, file := F, real := m.real - l + v.length,
                 len := if m.len < m.real - l + v.length
                        then max (m.real - l + v.length) (m.len + m.incr) else m.len,
                 count := c, sem := sm } ∧
      A.take (m.real - l + v.length) =
        m.addr.take b ++ v ++ (m.addr.drop (b + l)).take (m.real - (b + l)) ∧
      (if m.len < m.real - l + v.length
        then max (m.real - l + v.length) (m.len + m.incr) else m.len) ≤ A.length ∧
      (m.offset + m.len ≤ m.file.length →
        m.offset + (if m.len < m.real - l + v.length
          then max (m.real - l + v.length) (m.len + m.incr) else m.len) ≤ F.length) := by
  unfold mmap_update at hok ⊢
  by_cases hlen : len < 0
  · rw [if_pos hlen] at hok
    cases hok
  rw [if_neg hlen] at hok ⊢
  cases hl1 : (mmap_lock m true).val with
  | raise e =>
    have : mmap_lock m true = ⟨(mmap_lock m true).st, Res.raise e⟩ := by rw [← hl1]
    rw [this] at hok
    cases hok
  | ok u =>
    obtain ⟨c, sm, hL, hU⟩ := mmap_lock_inv m true hl1
    rw [hL] at hok ⊢
    dsimp only at hok ⊢
    by_cases hbeg : resolve_beg m.real beg < 0 ∨ (m.real : Int) < resolve_beg m.real beg
    · rw [if_pos hbeg] at hok
      cases hok
    rw [if_neg hbeg] at hok ⊢
    have hb : resolve_beg m.real beg = ((resolve_beg m.real beg).toNat : Int) := by omega
    generalize (resolve_beg m.real beg).toNat = b at hb
    rw [hb] at hok hbeg ⊢
    have hbr : b ≤ m.real := by omega
    obtain ⟨l, hl, hbl, -⟩ := clamp_len_bounds m.real b len hbr (by omega)
    rw [hl] at hok ⊢
    cases val with
    | str v =>
      simp only [StringValuePtr] at hok ⊢
      rw [hU, hL] at hok ⊢
      dsimp only at hok ⊢
      by_cases hfx : m.flag &&& MMAP_RUBY_FIXED ≠ 0 ∧ (v.length : Int) ≠ (l : Int)
      · rw [if_pos hfx] at hok
        cases hok
      rw [if_neg hfx] at hok ⊢
      have hfix : m.flag &&& MMAP_RUBY_FIXED = 0 ∨ v.length = l := by
        by_contra hc
        push_neg at hc
        exact hfx ⟨hc.1, by exact_mod_cast hc.2⟩
      have hreq : ((m.real : Int) + v.length - l).toNat = m.real - l + v.length := by omega
      simp only [Int.toNat_ofNat, hreq] at hok ⊢
      rcases realloc_step os m c sm l v.length hwf hreal hmap (by omega) with
        ⟨e, st, hr⟩ | ⟨A, F, c', sm', hr, htk, hA, hF⟩
      · rw [hr] at hok
        cases hok
      · rw [hr] at hok ⊢
        dsimp only at hok ⊢
        have hNge : m.real - l + v.length ≤
            (if m.len < m.real - l + v.length
              then max (m.real - l + v.length) (m.len + m.incr) else m.len) := by
          split_ifs with hg
          · exact le_max_left _ _
          · omega
        have hNle : m.len ≤
            (if m.len < m.real - l + v.length
              then max (m.real - l + v.length) (m.len + m.incr) else m.len) := by
          split_ifs with hg
          · exact le_trans (by omega) (le_max_left _ _)
          · exact le_refl _
        obtain ⟨a', e, tk, ln⟩ := update_bytes_ok A v m.real b l hbl (by omega) (by omega)
        rw [e] at hok ⊢
        dsimp only at hok ⊢
        have hlen0 : 0 ≤ len := by omega
        have hA' : (if m.len < m.real - l + v.length
              then max (m.real - l + v.length) (m.len + m.incr) else m.len) ≤ a'.length := by
          omega
        have htk' : a'.take (m.real - l + v.length) =
            m.addr.take b ++ v ++ (m.addr.drop (b + l)).take (m.real - (b + l)) := by
          rw [tk, take_of_take_eq _ _ _ b htk (by omega),
            drop_take_of_take_eq _ _ _ (b + l) (m.real - (b + l)) htk (by omega)]
        rw [mmap_unlock_st, hreq]
        exact ⟨v, b, l, a', F, _, _, rfl, hlen0, rfl, hbr, hl, hbl, hfix, rfl, htk', hA', hF⟩
    | nil => simp only [StringValuePtr] at hok; cases hok
    | fixnum i => simp only [StringValuePtr] at hok; cases hok
    | range f la e => simp only [StringValuePtr] at hok; cases hok
    | regexp re => simp only [StringValuePtr] at hok; cases hok

theorem clamp_len_eq_min (real b : Nat) (len : Int) (hb : b ≤ real) (hlen : 0 ≤ len) :
    clamp_len real b len = (min len.toNat (real - b) : Nat) := by
  obtain ⟨l, h1, -, h3⟩ := clamp_len_bounds real b len hb hlen
  rw [h1, h3]

theorem resized_file_shrink (s : mmap_t) (n : Nat) (hsh : s.vscope &&& MAP_SHARED ≠ 0)
    (hn : n < s.len) :
    resized_file s n = os_truncate (writeback s.file s.offset s.addr) n := by
  unfold resized_file unmapped_file
  rw [if_neg (by omega), if_pos hn, if_pos hsh]

theorem map_pages_shrunk_take (p : Nat) (s : mmap_t) (n : Nat) (hp : p ≠ 0)
    (hsh : s.vscope &&& MAP_SHARED ≠ 0) (hoff : s.offset = 0)
    (hmap : s.len ≤ s.addr.length) (hfile : s.len ≤ s.file.length) (hn : n < s.len) :
    (map_pages p (resized_file s n) s.offset n).take n = s.addr.take n := by
  have hr1 := le_roundUp n p hp
  rw [resized_file_shrink s n hsh hn, hoff]
  have hlen : (os_truncate (writeback s.file 0 s.addr) n).length = n := by
    simp only [os_truncate, List.length_append, List.length_take, List.length_replicate,
      length_writeback _ _ 0 (Nat.zero_le _)]
    omega
  apply List.ext_getElem?
  intro i
  simp only [map_pages, hlen, Nat.sub_zero, min_self]
  generalize roundUp n p = k at hr1
  simp only [os_truncate, writeback, List.getElem?_take, List.getElem?_append,
    List.getElem?_drop, List.length_take, List.length_append, List.length_drop,
    List.length_replicate, List.getElem?_replicate, Nat.sub_zero, List.take_zero,
    List.length_nil, Nat.zero_add, List.drop_zero]
  split_ifs <;> first | rfl | omega

theorem mmap_expand_initialize_ne_index (os : Os) (s : mmap_t) (n : Nat) :
    ( mmap_expand_initialize os s n).val ≠ Res.raise Raised.IndexError := by
  unfold mmap_expand_initialize
  dsimp only
  split_ifs <;> try simp
  all_goals (split <;> try simp)

theorem mmap_lock_ne_index (m : mmap_t) (w : Bool) :
    (mmap_lock m w).val ≠ Res.raise Raised.IndexError := by
  unfold mmap_lock
  dsimp only
  split_ifs <;> simp

theorem mmap_expandf_ne_index (os : Os) (s : mmap_t) (n : Nat) :
    (mmap_expandf os s n).val ≠ Res.raise Raised.IndexError := by
  unfold mmap_expandf
  by_cases h1 : s.vscope = MAP_PRIVATE
  · rw [if_pos h1]
    simp
  rw [if_neg h1]
  by_cases h2 : s.flag &&& MMAP_RUBY_FIXED ≠ 0
  · rw [if_pos h2]
    simp
  rw [if_neg h2]
  by_cases h3 : s.path = path_t.null ∨ s.path = path_t.minus1
  · rw [if_pos h3]
    simp
  rw [if_neg h3]
  by_cases hI : s.flag &&& MMAP_RUBY_IPC ≠ 0
  · rw [if_pos hI]
    have hne := mmap_lock_ne_index s true
    cases hl : mmap_lock s true with
    | mk st val =>
      rw [hl] at hne
      cases val with
      | ok u =>
        dsimp only
        exact mmap_expand_initialize_ne_index os _ _
      | raise e =>
        dsimp only
        exact hne
  · rw [if_neg hI]
    exact mmap_expand_initialize_ne_index os _ _

theorem mmap_realloc_ne_index (os : Os) (s : mmap_t) (n : Nat) :
    (mmap_realloc os s n).val ≠ Res.raise Raised.IndexError := by
  unfold mmap_realloc
  by_cases h : n > s.len
  · rw [if_pos h]
    exact mmap_expandf_ne_index os s _
  · rw [if_neg h]
    simp

theorem mmap_update_clamp_eq (os : Os) (m : mmap_t) (beg len : Int) (val : VALUE)
    (hb1 : resolve_beg m.real beg ≤ m.real)
    (hover : (m.real : Int) < resolve_beg m.real beg + len) :
    mmap_update os m beg len val =
      mmap_update os m beg (m.real - resolve_beg m.real beg) val := by
  have hc : clamp_len m.real (resolve_beg m.real beg) len =
      clamp_len m.real (resolve_beg m.real beg) (m.real - resolve_beg m.real beg) := by
    unfold clamp_len
    split_ifs <;> omega
  unfold mmap_update
  rw [if_neg (by omega), if_neg (by omega)]
  cases hl : mmap_lock m true with
  | mk s1 v1 =>
    have hr : s1.real = m.real := by
      have := mmap_lock_real m true
      rw [hl] at this
      exact this
    cases v1 with
    | raise e => rfl
    | ok u =>
      dsimp only
      rw [hr, hc]

theorem mmap_update_index_error (os : Os) (m : mmap_t) (beg len : Int) (val : VALUE)
    (hlock : lock_free m) :
    ((mmap_update os m beg len val).val = Res.raise Raised.IndexError ↔
      (len < 0 ∨ resolve_beg m.real beg < 0 ∨ (m.real : Int) < resolve_beg m.real beg)) ∧
    ((mmap_update os m beg len val).val = Res.raise Raised.IndexError →
      (mmap_update os m beg len val).st = m) := by
  obtain ⟨c, sm, hL, hU, -⟩ := mmap_lock_of_free m hlock
  unfold mmap_update
  by_cases hlen : len < 0
  · rw [if_pos hlen]
    simp [hlen]
  rw [if_neg hlen, hL]
  dsimp only
  by_cases hbeg : resolve_beg m.real beg < 0 ∨ (m.real : Int) < resolve_beg m.real beg
  · rw [if_pos hbeg]
    dsimp only
    rw [hU]
    simp [hbeg]
  rw [if_neg hbeg]
  have hno : ¬ (len < 0 ∨ resolve_beg m.real beg < 0 ∨
      (m.real : Int) < resolve_beg m.real beg) := by
    rintro (h | h | h)
    · exact hlen h
    · exact hbeg (Or.inl h)
    · exact hbeg (Or.inr h)
  refine ⟨⟨fun hx => absurd hx ?_, fun hx => absurd hx hno⟩, fun hx => absurd hx ?_⟩
  all_goals
    cases hv : StringValuePtr val with
    | none => simp
    | some valp =>
      dsimp only
      rw [hU, hL]
      dsimp only
      split_ifs
      · simp
      · have hre := mmap_realloc_ne_index os { m with count := c, sem := sm }
          ((m.real : Int) + valp.length -
            clamp_len m.real (resolve_beg m.real beg) len).toNat
        cases hq : mmap_realloc os { m with count := c, sem := sm }
          ((m.real : Int) + valp.length -
            clamp_len m.real (resolve_beg m.real beg) len).toNat with
        | mk st val' =>
          rw [hq] at hre
          cases val' with
          | raise e =>
            dsimp only
            exact hre
          | ok u =>
            dsimp only
            split <;> simp
      · dsimp only
        split <;> simp

/-! ## Lemmas: appending -/

theorem lock_free_data (m : mmap_t) (A F : List Nat) (r n : Nat) (h : lock_free m) :
    lock_free { m with addr := A, file := F, real := r, len := n } := h

theorem memcpy_ok (a v : List Nat) (b : Nat) (h : b + v.length ≤ a.length) :
    ∃ a3, memcpy a b v = some a3 ∧ a3.length = a.length ∧
      a3.take (b + v.length) = a.take b ++ v := by
  unfold memcpy
  by_cases hv : v.length = 0
  · rw [if_pos hv]
    refine ⟨a, rfl, rfl, ?_⟩
    have : v = [] := List.length_eq_zero.mp hv
    subst this
    simp
  · rw [if_neg hv, if_pos h]
    refine ⟨_, rfl, ?_, ?_⟩
    · simp only [List.length_append, List.length_take, List.length_drop]
      omega
    · rw [List.take_append_of_le_length (by simp only [List.length_append, List.length_take]; omega)]
      rw [List.take_of_length_le (by simp only [List.length_append, List.length_take]; omega)]

theorem mmap_cat_ok (os : Os) (m : mmap_t) (p : List Nat) (hp : 0 < p.length)
    (hpath : m.path ≠ path_t.null) (hfr : m.frozen = false)
    (hlock : lock_free m) (hfix : m.flag &&& MMAP_RUBY_FIXED = 0)
    (hreal : m.real ≤ m.len) (hmap : m.len ≤ m.addr.length)
    (hgrow : m.len < m.real + p.length → can_grow os m) :
    ∃ A F, mmap_cat os m p =
        ⟨{ m with addr := A, file := F, real := m.real + p.length,
                  len := if m.len < m.real + p.length
                         then max (m.real + p.length) (m.len + m.incr) else m.len },
         Res.ok ()⟩ ∧
      A.take (m.real + p.length) = m.addr.take m.real ++ p ∧
      (if m.len < m.real + p.length
        then max (m.real + p.length) (m.len + m.incr) else m.len) ≤ A.length ∧
      (m.offset + m.len ≤ m.file.length →
        m.offset + (if m.len < m.real + p.length
          then max (m.real + p.length) (m.len + m.incr) else m.len) ≤ F.length) := by
  obtain ⟨c, sm, hL, hU, hH⟩ := mmap_lock_of_free m hlock
  have hG : GET_MMAP m MMAP_RUBY_MODIFY = none := by
    unfold GET_MMAP
    rw [if_neg hpath, if_neg (by simp [hfr])]
  unfold mmap_cat
  rw [hG]
  dsimp only
  rw [if_pos hp, hL]
  dsimp only
  rw [if_neg (by simpa using hfix)]
  by_cases hg : m.len < m.real + p.length
  · have hcg : can_grow os { m with count := c, sem := sm } := hgrow hg
    rw [mmap_realloc_grow os _ _ hcg hH hg]
    dsimp only
    rw [if_pos hg]
    obtain ⟨hos, -, hsh, -, -, hfile⟩ := hgrow hg
    have hN : m.len < max (m.real + p.length) (m.len + m.incr) :=
      lt_of_lt_of_le hg (le_max_left _ _)
    have hlenA := le_length_map_pages_grown os.pagesize m _ hos.1 hsh hfile hN
    have htk := map_pages_grown_take os.pagesize m _ hos.1 hsh hmap hfile hN
    have hle : m.real + p.length ≤ max (m.real + p.length) (m.len + m.incr) :=
      le_max_left _ _
    obtain ⟨a', e, ln, tk⟩ := memcpy_ok
      (map_pages os.pagesize (resized_file m (max (m.real + p.length) (m.len + m.incr)))
        m.offset (max (m.real + p.length) (m.len + m.incr))) p m.real (by omega)
    refine ⟨a', resized_file m (max (m.real + p.length) (m.len + m.incr)), ?_, ?_, by omega, ?_⟩
    · have hgf : resized_file { m with count := c, sem := sm }
          (max (m.real + p.length) (m.len + m.incr)) =
          resized_file m (max (m.real + p.length) (m.len + m.incr)) := rfl
      rw [hgf, e]
      dsimp only
      have := mmap_unlock_data { m with count := c, sem := sm } a'
        (resized_file m (max (m.real + p.length) (m.len + m.incr))) (m.real + p.length)
        (max (m.real + p.length) (m.len + m.incr))
      rw [hU] at this
      dsimp only at this
      rw [this]
    · rw [tk, take_of_take_eq _ _ _ m.real htk (by omega)]
    · intro hf
      rw [length_resized_file m _ hsh (by omega) hN]
      omega
  · rw [if_neg hg]
    have hr : mmap_realloc os { m with count := c, sem := sm } (m.real + p.length) =
        ⟨{ m with count := c, sem := sm }, Res.ok ()⟩ := by
      unfold mmap_realloc
      rw [if_neg (by simpa using hg)]
    rw [hr]
    dsimp only
    obtain ⟨a', e, ln, tk⟩ := memcpy_ok m.addr p m.real (by omega)
    rw [e]
    dsimp only
    refine ⟨a', m.file, ?_, tk, by omega, fun h => h⟩
    have := mmap_unlock_data { m with count := c, sem := sm } a' m.file (m.real + p.length)
      m.len
    rw [hU] at this
    dsimp only at this
    rw [this]

theorem concat_byte_ok (os : Os) (m : mmap_t) (c : Nat) (h : resizable os m)
    (hincr : m.incr = EXP_INCR_SIZE) :
    ∃ st, rb_cMmap_concat os m (VALUE.str [c]) = ⟨st, Res.ok ()⟩ ∧
      st.real = m.real + 1 ∧
      st.len = (if m.real = m.len then m.len + EXP_INCR_SIZE else m.len) ∧
      st.addr.take st.real = m.addr.take m.real ++ [c] ∧
      resizable os st ∧ st.incr = EXP_INCR_SIZE := by
  obtain ⟨hcg, hlock, hfr, hreal, hmap⟩ := h
  have hcg' := hcg
  obtain ⟨hos, hoff, hsh, hfix, hpath, hfile⟩ := hcg
  obtain ⟨A, F, e, tk, hA, hF⟩ := mmap_cat_ok os m [c] (by simp) (by rw [hpath]; simp) hfr hlock
    hfix hreal hmap (fun _ => hcg')
  have hN : (if m.len < m.real + [c].length
      then max (m.real + [c].length) (m.len + m.incr) else m.len) =
      (if m.real = m.len then m.len + EXP_INCR_SIZE else m.len) := by
    simp only [List.length_singleton, hincr, EXP_INCR_SIZE]
    split_ifs <;> omega
  rw [hN] at e hA hF
  simp only [List.length_singleton] at e tk
  have e' : rb_cMmap_concat os m (VALUE.str [c]) = mmap_cat os m [c] := rfl
  have hr : m.real + 1 ≤ (if m.real = m.len then m.len + EXP_INCR_SIZE else m.len) := by
    simp only [EXP_INCR_SIZE]
    split_ifs <;> omega
  rw [e', e]
  exact ⟨_, rfl, rfl, rfl, tk, ⟨⟨hos, hoff, hsh, hfix, hpath, hF hfile⟩, hlock, hfr, hr, hA⟩,
    hincr⟩

theorem concat_each_ok (os : Os) (bs : List Nat) : ∀ (m : mmap_t), resizable os m →
    m.incr = EXP_INCR_SIZE →
    (concat_each os m bs).val = Res.ok () ∧
    (concat_each os m bs).st.real = m.real + bs.length ∧
    (concat_each os m bs).st.len =
      m.len + EXP_INCR_SIZE * ((m.real + bs.length - m.len + (EXP_INCR_SIZE - 1)) / EXP_INCR_SIZE) ∧
    (concat_each os m bs).st.addr.take (m.real + bs.length) = m.addr.take m.real ++ bs := by
  induction bs with
  | nil =>
    intro m h _
    obtain ⟨-, -, -, hreal, -⟩ := h
    refine ⟨rfl, rfl, ?_, by simp [concat_each]⟩
    show m.len = _
    simp only [EXP_INCR_SIZE, List.length_nil]
    omega
  | cons c cs ih =>
    intro m h hincr
    obtain ⟨st, e, hr, hl, hc, hres, hi⟩ := concat_byte_ok os m c h hincr
    obtain ⟨i1, i2, i3, i4⟩ := ih st hres hi
    have hreal := h.2.2.2.1
    have hstep : concat_each os m (c :: cs) = concat_each os st cs := by
      rw [concat_each, e]
    rw [hstep]
    refine ⟨i1, ?_, ?_, ?_⟩
    · rw [i2, hr, List.length_cons]; omega
    · rw [i3, hr, hl, List.length_cons]
      simp only [EXP_INCR_SIZE]
      split_ifs <;> omega
    · have : m.real + (c :: cs).length = st.real + cs.length := by
        rw [hr, List.length_cons]; omega
      rw [this, i4, hc, List.append_assoc]
      rfl

/-! ## Lemmas: byte-rewriting operations -/

theorem GET_MMAP_none (m : mmap_t) (t : Nat) (hpath : m.path ≠ path_t.null)
    (hfr : m.frozen = false) : GET_MMAP m t = none := by
  unfold GET_MMAP
  rw [if_neg hpath, if_neg (by simp [hfr])]

theorem mmap_str_ok (m : mmap_t) (t : Nat) (hpath : m.path ≠ path_t.null)
    (hfr : m.frozen = false) : mmap_str m t = Res.ok m.real := by
  unfold mmap_str
  rw [GET_MMAP_none m _ hpath hfr]
  dsimp only
  rw [if_neg (by simp [hfr])]

theorem ipc_ensure_data {β : Type} (m : mmap_t) (f : mmap_t → Ret β) (A : List Nat) (r : Nat)
    (v : Res β) (hlock : lock_free m) (hpath : m.path ≠ path_t.null)
    (hf : ∀ c sm, f { m with count := c, sem := sm } =
      ⟨{ m with count := c, sem := sm, addr := A, real := r }, v⟩) :
    ipc_ensure m f = ⟨{ m with addr := A, real := r }, v⟩ := by
  unfold ipc_ensure
  by_cases hI : m.flag &&& MMAP_RUBY_IPC ≠ 0
  · rw [if_pos hI]
    obtain ⟨c, sm, hL, hU, -⟩ := mmap_lock_of_free m hlock
    rw [hL]
    dsimp only
    rw [hf c sm]
    unfold mmap_vunlock
    have hg : GET_MMAP { m with count := c, sem := sm, addr := A, real := r } 0 = none := by
      unfold GET_MMAP
      rw [if_neg hpath, if_neg (by simp)]
    dsimp only
    rw [hg]
    dsimp only
    have := mmap_unlock_data { m with count := c, sem := sm } A m.file r m.len
    rw [hU] at this
    exact congrArg (fun s => (⟨s, v⟩ : Ret β)) this
  · rw [if_neg hI]
    exact hf m.count m.sem

theorem mmap_bang_bytes_ok (m : mmap_t) (body : List Nat → List Nat × Bool)
    (hpath : m.path ≠ path_t.null) (hfr : m.frozen = false) (hmap : m.real ≤ m.addr.length) :
    mmap_bang_bytes m body =
      ⟨{ m with addr := (body (m.addr.take m.real)).1 ++ m.addr.drop m.real },
       Res.ok (body (m.addr.take m.real)).2⟩ := by
  unfold mmap_bang_bytes
  rw [GET_MMAP_none m _ hpath hfr, mmap_str_ok m _ hpath hfr]
  dsimp only
  rw [if_neg (by omega)]

theorem bang_bytes_wrapped (m : mmap_t) (body : List Nat → List Nat × Bool)
    (hpath : m.path ≠ path_t.null) (hfr : m.frozen = false) (hlock : lock_free m)
    (hmap : m.real ≤ m.addr.length) :
    (match GET_MMAP m MMAP_RUBY_MODIFY with
      | some e => (⟨m, Res.raise e⟩ : Ret Bool)
      | none => ipc_ensure m (fun x => mmap_bang_bytes x body)) =
      ⟨{ m with addr := (body (m.addr.take m.real)).1 ++ m.addr.drop m.real },
       Res.ok (body (m.addr.take m.real)).2⟩ := by
  rw [GET_MMAP_none m _ hpath hfr]
  dsimp only
  have := ipc_ensure_data m (fun x => mmap_bang_bytes x body)
    ((body (m.addr.take m.real)).1 ++ m.addr.drop m.real) m.real
    (Res.ok (body (m.addr.take m.real)).2) hlock hpath
    (fun c sm => mmap_bang_bytes_ok { m with count := c, sem := sm } body hpath hfr hmap)
  exact this

theorem upcase_byte_idem (c : Nat) : upcase_byte (upcase_byte c) = upcase_byte c := by
  unfold upcase_byte is_lower
  by_cases h : 97 ≤ c ∧ c ≤ 122
  · simp only [h, and_self, decide_True, if_true]
    rw [if_neg (by simp; omega)]
  · simp [h]

theorem upcase_byte_not_lower (c : Nat) : is_lower (upcase_byte c) = false := by
  unfold upcase_byte is_lower
  by_cases h : 97 ≤ c ∧ c ≤ 122
  · simp only [h, and_self, decide_True, if_true]
    simp; omega
  · simp only [h, decide_False, Bool.false_eq_true, if_false]

theorem upcase_byte_eq (c : Nat) (h : ¬ (97 ≤ c ∧ c ≤ 122)) : upcase_byte c = c := by
  unfold upcase_byte is_lower
  simp [h]

/-! ## Lemmas: what the in-place operations report -/

theorem any_iff_map_ne (f : Nat → Nat) (p : Nat → Bool)
    (hf : ∀ c, p c = true ↔ f c ≠ c) (s : List Nat) :
    s.any p = true ↔ s.map f ≠ s := by
  induction s with
  | nil => simp
  | cons c t ih =>
    simp only [List.any_cons, Bool.or_eq_true, List.map_cons, ne_eq, List.cons.injEq, not_and_or]
    rw [ih, hf]

theorem is_lower_iff (c : Nat) : is_lower c = true ↔ upcase_byte c ≠ c := by
  unfold upcase_byte is_lower
  by_cases h : 97 ≤ c ∧ c ≤ 122
  · simp only [h, and_self, decide_True, if_true, true_iff]
    omega
  · simp [h]

theorem is_upper_iff (c : Nat) : is_upper c = true ↔ downcase_byte c ≠ c := by
  unfold downcase_byte is_upper
  by_cases h : 65 ≤ c ∧ c ≤ 90
  · simp only [h, and_self, decide_True, if_true, true_iff]
    omega
  · simp [h]

theorem is_cased_iff (c : Nat) : (is_lower c || is_upper c) = true ↔ swapcase_byte c ≠ c := by
  unfold swapcase_byte is_upper is_lower
  by_cases h : 97 ≤ c ∧ c ≤ 122
  · simp only [h, and_self, decide_True, if_true, Bool.true_or, true_iff]
    omega
  · by_cases h2 : 65 ≤ c ∧ c ≤ 90
    · simp only [h, h2, and_self, decide_True, decide_False, if_true, Bool.false_or, true_iff,
        Bool.false_eq_true, if_false]
      omega
    · simp [h, h2]

theorem take_bytes_append (s d : List Nat) (n : Nat) (h : s.length = n) :
    (s ++ d).take n = s := by
  subst h
  simp

theorem content_changed_bytes (m : mmap_t) (s : List Nat) (hs : s.length = m.real) :
    content_changed m { m with addr := s ++ m.addr.drop m.real } ↔ s ≠ m.addr.take m.real := by
  unfold content_changed
  dsimp only
  rw [take_bytes_append s _ m.real hs]
  simp

theorem bang_bytes_reports (m : mmap_t) (body : List Nat → List Nat × Bool)
    (hpath : m.path ≠ path_t.null) (hfr : m.frozen = false) (hlock : lock_free m)
    (hmap : m.real ≤ m.addr.length)
    (hlen : ∀ s, (body s).1.length = s.length)
    (hrep : ∀ s, (body s).2 = true ↔ (body s).1 ≠ s) :
    ∃ b st, (match GET_MMAP m MMAP_RUBY_MODIFY with
      | some e => (⟨m, Res.raise e⟩ : Ret Bool)
      | none => ipc_ensure m (fun x => mmap_bang_bytes x body)) = ⟨st, Res.ok b⟩ ∧
      (b = true ↔ content_changed m st) := by
  refine ⟨_, _, bang_bytes_wrapped m body hpath hfr hlock hmap, ?_⟩
  rw [content_changed_bytes m _ (by rw [hlen, List.length_take]; omega)]
  exact hrep _

theorem not_content_changed_self (m : mmap_t) : ¬ content_changed m m := by
  unfold content_changed
  simp

theorem content_changed_of_real (m : mmap_t) (A : List Nat) (r : Nat) (h : r ≠ m.real) :
    content_changed m { m with addr := A, real := r } := Or.inl h

theorem with_real_self (m : mmap_t) : ({ m with addr := m.addr, real := m.real } : mmap_t) = m := by
  cases m
  rfl

theorem not_content_changed_same (m : mmap_t) :
    ¬ content_changed m { m with addr := m.addr, real := m.real } := by
  rw [with_real_self]
  exact not_content_changed_self m

theorem ensure_reports (m : mmap_t) (f : mmap_t → Ret Bool) (A : List Nat) (r : Nat) (b : Bool)
    (hlock : lock_free m) (hpath : m.path ≠ path_t.null) (hfr : m.frozen = false)
    (hf : ∀ c sm, f { m with count := c, sem := sm } =
      ⟨{ m with count := c, sem := sm, addr := A, real := r }, Res.ok b⟩)
    (hch : b = true ↔ content_changed m { m with addr := A, real := r }) :
    ∃ b st, (match GET_MMAP m MMAP_RUBY_MODIFY with
      | some e => (⟨m, Res.raise e⟩ : Ret Bool)
      | none => ipc_ensure m f) = ⟨st, Res.ok b⟩ ∧ (b = true ↔ content_changed m st) := by
  rw [GET_MMAP_none m _ hpath hfr]
  dsimp only
  rw [ipc_ensure_data m f A r (Res.ok b) hlock hpath hf]
  exact ⟨_, _, rfl, hch⟩

theorem chop_int_eq (m : mmap_t) (hpath : m.path ≠ path_t.null) (hfr : m.frozen = false) :
    ∃ r b, (∀ c sm, mmap_chop_bang_int { m with count := c, sem := sm } =
        ⟨{ m with count := c, sem := sm, addr := m.addr, real := r }, Res.ok b⟩) ∧
      (b = true ↔ content_changed m { m with addr := m.addr, real := r }) := by
  by_cases h0 : m.real = 0
  · refine ⟨m.real, false, ?_, ?_⟩
    · intro c sm
      unfold mmap_chop_bang_int
      rw [GET_MMAP_none { m with count := c, sem := sm } _ hpath hfr,
        mmap_str_ok { m with count := c, sem := sm } _ hpath hfr]
      dsimp only
      rw [if_pos h0]
    · simp only [Bool.false_eq_true, false_iff]
      exact not_content_changed_same m
  · by_cases h1 : m.real ≥ 2 ∧ m.addr.get? (m.real - 2) = some 13 ∧
        m.addr.get? (m.real - 1) = some 10
    · refine ⟨m.real - 2, true, ?_, ?_⟩
      · intro c sm
        unfold mmap_chop_bang_int
        rw [GET_MMAP_none { m with count := c, sem := sm } _ hpath hfr,
        mmap_str_ok { m with count := c, sem := sm } _ hpath hfr]
        dsimp only
        rw [if_neg h0, if_pos h1]
      · simp only [true_iff]
        exact content_changed_of_real m _ _ (by omega)
    · refine ⟨m.real - 1, true, ?_, ?_⟩
      · intro c sm
        unfold mmap_chop_bang_int
        rw [GET_MMAP_none { m with count := c, sem := sm } _ hpath hfr,
        mmap_str_ok { m with count := c, sem := sm } _ hpath hfr]
        dsimp only
        rw [if_neg h0, if_neg h1]
      · simp only [true_iff]
        exact content_changed_of_real m _ _ (by omega)

theorem chomp_len_lt (ptr : List Nat) (len : Nat) (rs : List Nat)
    (h : (chomp_len ptr len rs).2 = true) : (chomp_len ptr len rs).1 < len := by
  unfold chomp_len at h ⊢
  by_cases h0 : rs.length = 0
  · rw [if_pos h0] at h ⊢
    dsimp only at h ⊢
    have hn : 0 < ((ptr.take len).reverse.takeWhile (fun c => decide (c = 10 ∨ c = 13))).length := by
      simpa using h
    have hle : ((ptr.take len).reverse.takeWhile (fun c => decide (c = 10 ∨ c = 13))).length ≤
        len := by
      refine le_trans (List.takeWhile_prefix _).length_le ?_
      rw [List.length_reverse, List.length_take]
      exact min_le_left _ _
    omega
  · rw [if_neg h0] at h ⊢
    by_cases h1 : rs = [10]
    · rw [if_pos h1] at h ⊢
      split_ifs at h ⊢ with h2 h3
      · dsimp only; omega
      · dsimp only; omega
    · rw [if_neg h1] at h ⊢
      split_ifs at h ⊢ with h2
      dsimp only; omega

theorem chomp_int_eq (m : mmap_t) (argv : List VALUE)
    (hrs : argv.headD rb_rs = VALUE.nil ∨ ∃ rs, argv.headD rb_rs = VALUE.str rs)
    (hpath : m.path ≠ path_t.null) (hfr : m.frozen = false) (hmap : m.real ≤ m.addr.length) :
    ∃ r b, (∀ c sm, mmap_chomp_bang_int argv { m with count := c, sem := sm } =
        ⟨{ m with count := c, sem := sm, addr := m.addr, real := r }, Res.ok b⟩) ∧
      (b = true ↔ content_changed m { m with addr := m.addr, real := r }) := by
  by_cases h0 : m.real = 0
  · refine ⟨m.real, false, ?_, ?_⟩
    · intro c sm
      unfold mmap_chomp_bang_int
      rw [GET_MMAP_none { m with count := c, sem := sm } _ hpath hfr,
        mmap_str_ok { m with count := c, sem := sm } _ hpath hfr]
      dsimp only
      rw [if_pos h0]
    · simp only [Bool.false_eq_true, false_iff]
      exact not_content_changed_same m
  rcases hrs with hn | ⟨rs, hrs⟩
  · refine ⟨m.real, false, ?_, ?_⟩
    · intro c sm
      unfold mmap_chomp_bang_int
      rw [GET_MMAP_none { m with count := c, sem := sm } _ hpath hfr,
        mmap_str_ok { m with count := c, sem := sm } _ hpath hfr]
      dsimp only
      rw [if_neg h0, hn]
    · simp only [Bool.false_eq_true, false_iff]
      exact not_content_changed_same m
  · by_cases h2 : (chomp_len m.addr m.real rs).2 = true
    · refine ⟨(chomp_len m.addr m.real rs).1, true, ?_, ?_⟩
      · intro c sm
        unfold mmap_chomp_bang_int
        rw [GET_MMAP_none { m with count := c, sem := sm } _ hpath hfr,
        mmap_str_ok { m with count := c, sem := sm } _ hpath hfr]
        dsimp only
        rw [if_neg h0, hrs]
        dsimp only
        rw [if_neg (by omega), if_pos h2]
      · simp only [true_iff]
        have := chomp_len_lt m.addr m.real rs h2
        exact content_changed_of_real m _ _ (by omega)
    · refine ⟨m.real, false, ?_, ?_⟩
      · intro c sm
        unfold mmap_chomp_bang_int
        rw [GET_MMAP_none { m with count := c, sem := sm } _ hpath hfr,
        mmap_str_ok { m with count := c, sem := sm } _ hpath hfr]
        dsimp only
        rw [if_neg h0, hrs]
        dsimp only
        rw [if_neg (by omega), if_neg h2]
      · simp only [Bool.false_eq_true, false_iff]
        exact not_content_changed_same m

theorem set_getD_self (ptr : List Nat) (i : Nat) : ptr.set i (ptr.getD i 0) = ptr := by
  apply List.ext_getElem?
  intro k
  rw [List.getElem?_set]
  split_ifs with h1 h2
  · subst h1
    rw [List.getD_eq_getElem?_getD, List.getElem?_eq_getElem h2]
    rfl
  · subst h1
    rw [List.getElem?_eq_none (by omega)]
  · rfl

theorem squeeze_loop_spec (tb : Nat → Bool) : ∀ (n : Nat) (ptr : List Nat) (i j : Nat)
    (ch : Bool), j ≤ i → (ch = true ↔ j < i) →
    ((squeeze_loop tb n ptr i j ch).2.2 = true ↔ (squeeze_loop tb n ptr i j ch).2.1 < i + n) ∧
    (squeeze_loop tb n ptr i j ch).2.1 ≤ j + n ∧
    ((squeeze_loop tb n ptr i j ch).2.2 = false → (squeeze_loop tb n ptr i j ch).1 = ptr) := by
  intro n
  induction n with
  | zero =>
    intro ptr i j ch hji hch
    show (ch = true ↔ j < i + 0) ∧ j ≤ j + 0 ∧ (ch = false → ptr = ptr)
    exact ⟨hch, le_refl _, fun _ => rfl⟩
  | succ n ih =>
    intro ptr i j ch hji hch
    rw [squeeze_loop]
    split_ifs with hk
    · obtain ⟨a, b, c⟩ := ih (ptr.set j (ptr.getD i 0)) (i + 1) (j + 1) ch (by omega)
        (by rw [hch]; omega)
      refine ⟨by rw [a]; omega, by omega, ?_⟩
      intro hf
      rw [c hf]
      have h1 : ¬ ((squeeze_loop tb n (ptr.set j (ptr.getD i 0)) (i + 1) (j + 1) ch).2.1 <
          i + 1 + n) := by
        rw [← a, hf]
        simp
      have hij : j = i := by omega
      rw [hij]
      exact set_getD_self ptr i
    · obtain ⟨a, b, c⟩ := ih ptr (i + 1) j true (by omega) (by simp; omega)
      exact ⟨by rw [a]; omega, by omega, c⟩

theorem squeeze_int_eq (m : mmap_t) (argv : List VALUE)
    (harg : argv = [] ∨ ∃ sq rest, argv = VALUE.str sq :: rest)
    (hpath : m.path ≠ path_t.null) (hfr : m.frozen = false) (hmap : m.real ≤ m.addr.length) :
    ∃ A r b, (∀ c sm, mmap_squeeze_bang_int argv { m with count := c, sem := sm } =
        ⟨{ m with count := c, sem := sm, addr := A, real := r }, Res.ok b⟩) ∧
      (b = true ↔ content_changed m { m with addr := A, real := r }) := by
  by_cases h0 : m.real = 0
  · refine ⟨m.addr, m.real, false, ?_, ?_⟩
    · intro c sm
      unfold mmap_squeeze_bang_int
      rw [GET_MMAP_none { m with count := c, sem := sm } _ hpath hfr,
        mmap_str_ok { m with count := c, sem := sm } _ hpath hfr]
      dsimp only
      rw [if_pos h0]
    · simp only [Bool.false_eq_true, false_iff]
      exact not_content_changed_same m
  have key : ∀ tb : Nat → Bool,
      ∃ A r b, (∀ c sm,
        (if ({ m with count := c, sem := sm } : mmap_t).addr.length < m.real then
            (⟨{ m with count := c, sem := sm }, Res.raise Raised.segv⟩ : Ret Bool)
          else
            if (squeeze_loop tb m.real m.addr 0 0 false).2.2 = true then
              ⟨{ m with count := c, sem := sm,
                        addr := (squeeze_loop tb m.real m.addr 0 0 false).1,
                        real := (squeeze_loop tb m.real m.addr 0 0 false).2.1 }, Res.ok true⟩
            else
              ⟨{ m with count := c, sem := sm,
                        addr := (squeeze_loop tb m.real m.addr 0 0 false).1 }, Res.ok false⟩) =
          ⟨{ m with count := c, sem := sm, addr := A, real := r }, Res.ok b⟩) ∧
        (b = true ↔ content_changed m { m with addr := A, real := r }) := by
    intro tb
    obtain ⟨a, b, c⟩ := squeeze_loop_spec tb m.real m.addr 0 0 false (le_refl _) (by simp)
    by_cases hch : (squeeze_loop tb m.real m.addr 0 0 false).2.2 = true
    · refine ⟨(squeeze_loop tb m.real m.addr 0 0 false).1,
        (squeeze_loop tb m.real m.addr 0 0 false).2.1, true, fun c sm => ?_, ?_⟩
      · rw [if_neg (by dsimp only; omega), if_pos hch]
      · simp only [true_iff]
        apply content_changed_of_real
        have := a.mp hch
        omega
    · refine ⟨m.addr, m.real, false, fun c' sm => ?_, ?_⟩
      · rw [if_neg (by dsimp only; omega), if_neg hch]
        rw [c (by simpa using hch)]
      · simp only [Bool.false_eq_true, false_iff]
        exact not_content_changed_same m
  rcases harg with rfl | ⟨sq, rest, rfl⟩
  · obtain ⟨A, r, b, h1, h2⟩ := key (fun _ => true)
    refine ⟨A, r, b, fun c sm => ?_, h2⟩
    unfold mmap_squeeze_bang_int
    rw [GET_MMAP_none { m with count := c, sem := sm } _ hpath hfr,
      mmap_str_ok { m with count := c, sem := sm } _ hpath hfr]
    dsimp only
    rw [if_neg h0]
    exact h1 c sm
  · obtain ⟨A, r, b, h1, h2⟩ := key (fun c => decide (c ∈ sq))
    refine ⟨A, r, b, fun c sm => ?_, h2⟩
    unfold mmap_squeeze_bang_int
    rw [GET_MMAP_none { m with count := c, sem := sm } _ hpath hfr,
      mmap_str_ok { m with count := c, sem := sm } _ hpath hfr]
    dsimp only
    rw [if_neg h0]
    exact h1 c sm

theorem memmove_some (a : List Nat) (dst src n : Nat)
    (h : n ≠ 0 → src + n ≤ a.length ∧ dst + n ≤ a.length) :
    ∃ a1, memmove a dst src n = some a1 ∧ a1.length = a.length := by
  unfold memmove
  by_cases hn : n = 0
  · rw [if_pos hn]
    exact ⟨a, rfl, rfl⟩
  · rw [if_neg hn, if_pos (h hn)]
    refine ⟨_, rfl, ?_⟩
    have := h hn
    simp only [List.length_append, List.length_take, List.length_drop]
    omega

theorem strip_reports (m : mmap_t) (hpath : m.path ≠ path_t.null) (hfr : m.frozen = false)
    (hlock : lock_free m) (hmap : m.real ≤ m.addr.length)
    (hfix : m.flag &&& MMAP_RUBY_FIXED = 0) :
    ∃ b st, rb_cMmap_strip_bang m = ⟨st, Res.ok b⟩ ∧ (b = true ↔ content_changed m st) := by
  obtain ⟨c, sm, hL, hU, -⟩ := mmap_lock_of_free m hlock
  unfold rb_cMmap_strip_bang
  rw [GET_MMAP_none m _ hpath hfr]
  dsimp only
  rw [hL]
  dsimp only
  rw [if_neg (by omega), if_neg (by rw [hfix]; simp)]
  generalize hs : ((m.addr.take m.real).takeWhile ISSPACE).length = s
  generalize ht : (((m.addr.take m.real).drop s).reverse.takeWhile ISSPACE).length = tr
  have hsle : s ≤ m.real := by
    rw [← hs]
    refine le_trans (List.takeWhile_prefix _).length_le ?_
    rw [List.length_take]
    exact min_le_left _ _
  have htr : tr ≤ m.real - s := by
    rw [← ht]
    refine le_trans (List.takeWhile_prefix _).length_le ?_
    rw [List.length_reverse, List.length_drop, List.length_take]
    omega
  have hun : ∀ (A : List Nat) (r : Nat),
      mmap_unlock { m with count := c, sem := sm, addr := A, real := r } =
        { m with addr := A, real := r } := by
    intro A r
    have := mmap_unlock_data { m with count := c, sem := sm } A m.file r m.len
    rw [hU] at this
    exact this
  by_cases h1 : s > 0
  · rw [if_pos h1]
    obtain ⟨a1, e1, l1⟩ := memmove_some m.addr 0 s (m.real - tr - s) (by intro _; omega)
    rw [e1]
    dsimp only
    obtain ⟨a2, e2, -, -⟩ := memcpy_ok a1 [0] (m.real - tr - s)
      (by rw [l1, List.length_singleton]; omega)
    rw [e2]
    dsimp only
    rw [hun]
    refine ⟨_, _, rfl, ?_⟩
    simp only [true_iff]
    exact content_changed_of_real m _ _ (by omega)
  · rw [if_neg h1]
    have hs0 : s = 0 := by omega
    subst hs0
    by_cases h2 : m.real - tr < m.real
    · rw [if_pos h2]
      obtain ⟨a2, e2, -, -⟩ := memcpy_ok m.addr [0] (m.real - tr - 0)
        (by rw [List.length_singleton]; omega)
      rw [e2]
      dsimp only
      rw [hun]
      refine ⟨_, _, rfl, ?_⟩
      simp only [true_iff]
      exact content_changed_of_real m _ _ (by omega)
    · rw [if_neg h2]
      have := hun m.addr (m.real - tr - 0)
      rw [this]
      refine ⟨_, _, rfl, ?_⟩
      simp only [Bool.false_eq_true, false_iff]
      have hr : m.real - tr - 0 = m.real := by omega
      rw [hr]
      exact not_content_changed_same m

/-! ## Lemmas: rejected edits -/

theorem same_data_refl (m : mmap_t) : same_data m m := ⟨rfl, rfl, rfl⟩

theorem same_data_trans {a b c : mmap_t} (h1 : same_data a b) (h2 : same_data b c) :
    same_data a c :=
  ⟨h1.1.trans h2.1, h1.2.1.trans h2.2.1, h1.2.2.trans h2.2.2⟩

theorem same_data_lock (m : mmap_t) (w : Bool) : same_data (mmap_lock m w).st m :=
  ⟨mmap_lock_real m w, mmap_lock_len m w, mmap_lock_addr m w⟩

theorem same_data_unlock (m : mmap_t) : same_data (mmap_unlock m) m :=
  ⟨mmap_unlock_real' m, mmap_unlock_len' m, mmap_unlock_addr' m⟩

theorem mmap_lock_ne_type (m : mmap_t) (w : Bool) :
    (mmap_lock m w).val ≠ Res.raise Raised.TypeError := by
  unfold mmap_lock
  dsimp only
  split_ifs <;> simp

theorem mmap_expand_initialize_ne_type (os : Os) (s : mmap_t) (n : Nat) :
    ( mmap_expand_initialize os s n).val ≠ Res.raise Raised.TypeError := by
  unfold mmap_expand_initialize
  dsimp only
  split_ifs <;> try simp
  all_goals (split <;> try simp)

theorem mmap_expandf_type (os : Os) (s : mmap_t) (n : Nat)
    (h : (mmap_expandf os s n).val = Res.raise Raised.TypeError) :
    mmap_expandf os s n = ⟨s, Res.raise Raised.TypeError⟩ := by
  unfold mmap_expandf at h ⊢
  by_cases h1 : s.vscope = MAP_PRIVATE
  · rw [if_pos h1]
  rw [if_neg h1] at h ⊢
  by_cases h2 : s.flag &&& MMAP_RUBY_FIXED ≠ 0
  · rw [if_pos h2]
  rw [if_neg h2] at h ⊢
  by_cases h3 : s.path = path_t.null ∨ s.path = path_t.minus1
  · rw [if_pos h3]
  rw [if_neg h3] at h ⊢
  exfalso
  by_cases hI : s.flag &&& MMAP_RUBY_IPC ≠ 0
  · rw [if_pos hI] at h
    have hne := mmap_lock_ne_type s true
    cases hl : mmap_lock s true with
    | mk st val =>
      rw [hl] at hne h
      cases val with
      | ok u =>
        dsimp only at h
        exact mmap_expand_initialize_ne_type os _ _ h
      | raise e =>
        dsimp only at h
        exact hne h
  · rw [if_neg hI] at h
    exact mmap_expand_initialize_ne_type os _ _ h

theorem mmap_realloc_type (os : Os) (s : mmap_t) (n : Nat)
    (h : (mmap_realloc os s n).val = Res.raise Raised.TypeError) :
    mmap_realloc os s n = ⟨s, Res.raise Raised.TypeError⟩ := by
  unfold mmap_realloc at h ⊢
  by_cases hn : n > s.len
  · rw [if_pos hn] at h ⊢
    exact mmap_expandf_type os s _ h
  · rw [if_neg hn] at h
    cases h

theorem mmap_update_type (os : Os) (m : mmap_t) (beg len : Int) (val : VALUE)
    (h : (mmap_update os m beg len val).val = Res.raise Raised.TypeError) :
    same_data (mmap_update os m beg len val).st m := by
  unfold mmap_update at h ⊢
  by_cases hlen : len < 0
  · rw [if_pos hlen] at h
    cases h
  rw [if_neg hlen] at h ⊢
  have hne1 := mmap_lock_ne_type m true
  have hd1 := same_data_lock m true
  cases hl : mmap_lock m true with
  | mk s1 v1 =>
    rw [hl] at hne1 hd1 h
    cases v1 with
    | raise e => exact absurd h hne1
    | ok u =>
      dsimp only at h hd1 ⊢
      by_cases hb : resolve_beg s1.real beg < 0 ∨ (s1.real : Int) < resolve_beg s1.real beg
      · rw [if_pos hb] at h
        cases h
      rw [if_neg hb] at h ⊢
      have hd2 : same_data (mmap_unlock s1) m := same_data_trans (same_data_unlock s1) hd1
      cases hv : StringValuePtr val with
      | none => exact hd2
      | some valp =>
        rw [hv] at h
        dsimp only at h ⊢
        have hne3 := mmap_lock_ne_type (mmap_unlock s1) true
        have hd3 := same_data_lock (mmap_unlock s1) true
        cases hl3 : mmap_lock (mmap_unlock s1) true with
        | mk s3 v3 =>
          rw [hl3] at hne3 hd3 h
          cases v3 with
          | raise e => exact absurd h hne3
          | ok u3 =>
            dsimp only at h hd3 ⊢
            have hd3' : same_data s3 m := same_data_trans hd3 hd2
            split_ifs at h ⊢ with hfx hlt
            · exact same_data_trans (same_data_unlock s3) hd3'
            · cases hr : mmap_realloc os s3
                  ((s3.real : Int) + (valp.length : Int) -
                    clamp_len s1.real (resolve_beg s1.real beg) len).toNat with
              | mk s4 v4 =>
                rw [hr] at h
                cases v4 with
                | raise e =>
                  dsimp only at h ⊢
                  have he : e = Raised.TypeError := by
                    injection h
                  subst he
                  have := mmap_realloc_type os s3 _ (by rw [hr])
                  rw [hr] at this
                  injection this with hst _
                  rw [hst]
                  exact hd3'
                | ok u4 =>
                  dsimp only at h ⊢
                  split at h <;> cases h
            · dsimp only at h ⊢
              split at h <;> cases h

theorem GET_MMAP_ne_type (m : mmap_t) (t : Nat) : GET_MMAP m t ≠ some Raised.TypeError := by
  unfold GET_MMAP
  split_ifs <;> simp

theorem mmap_cat_type (os : Os) (m : mmap_t) (ptr : List Nat)
    (h : (mmap_cat os m ptr).val = Res.raise Raised.TypeError) :
    same_data (mmap_cat os m ptr).st m := by
  unfold mmap_cat at h ⊢
  have hg := GET_MMAP_ne_type m MMAP_RUBY_MODIFY
  cases hG : GET_MMAP m MMAP_RUBY_MODIFY with
  | some e => exact same_data_refl m
  | none =>
    rw [hG] at h
    dsimp only at h ⊢
    by_cases hp : ptr.length > 0
    · rw [if_pos hp] at h ⊢
      have hne1 := mmap_lock_ne_type m true
      have hd1 := same_data_lock m true
      cases hl : mmap_lock m true with
      | mk s1 v1 =>
        rw [hl] at hne1 hd1 h
        cases v1 with
        | raise e => exact absurd h hne1
        | ok u =>
          dsimp only at h hd1 ⊢
          split_ifs at h ⊢ with hfx
          · exact same_data_trans (same_data_unlock s1) hd1
          · cases hr : mmap_realloc os s1 (s1.real + ptr.length) with
            | mk s4 v4 =>
              rw [hr] at h
              cases v4 with
              | raise e =>
                dsimp only at h ⊢
                have he : e = Raised.TypeError := by
                  injection h
                subst he
                have := mmap_realloc_type os s1 _ (by rw [hr])
                rw [hr] at this
                injection this with hst _
                rw [hst]
                exact hd1
              | ok u4 =>
                dsimp only at h ⊢
                split at h <;> cases h
    · rw [if_neg hp]
      exact same_data_refl m

theorem mmap_sub_bang_int_type (obj : mmap_t) (pat : VALUE) (repl : Replacement)
    (h : (mmap_sub_bang_int obj pat repl).val = Res.raise Raised.TypeError) :
    same_data (mmap_sub_bang_int obj pat repl).st obj := by
  unfold mmap_sub_bang_int at h ⊢
  split at h
  · exact same_data_refl obj
  · split at h
    · exact same_data_refl obj
    · split at h
      · exact same_data_refl obj
      · split at h
        · exact same_data_refl obj
        · dsimp only at h ⊢
          split_ifs at h ⊢
          · exact same_data_refl obj
          · split at h
            · exact same_data_refl obj
            · split at h <;> cases h
          · split at h
            · exact same_data_refl obj
            · split at h <;> cases h
          · split at h
            · exact same_data_refl obj
            · split at h <;> cases h

theorem ipc_ensure_type (m : mmap_t) (f : mmap_t → Ret Bool)
    (hf : ∀ x, (f x).val = Res.raise Raised.TypeError → same_data (f x).st x)
    (h : (ipc_ensure m f).val = Res.raise Raised.TypeError) :
    same_data (ipc_ensure m f).st m := by
  unfold ipc_ensure at h ⊢
  by_cases hI : m.flag &&& MMAP_RUBY_IPC ≠ 0
  · rw [if_pos hI] at h ⊢
    have hne1 := mmap_lock_ne_type m true
    have hd1 := same_data_lock m true
    cases hl : mmap_lock m true with
    | mk s1 v1 =>
      rw [hl] at hne1 hd1 h
      cases v1 with
      | raise e => exact absurd h (by simpa using hne1)
      | ok u =>
        dsimp only at h hd1 ⊢
        unfold mmap_vunlock at h ⊢
        have hg := GET_MMAP_ne_type (f s1).st 0
        cases hG : GET_MMAP (f s1).st 0 with
        | some e =>
          rw [hG] at h hg
          dsimp only at h
          exfalso
          apply hg
          injection h with h'
          rw [h']
        | none =>
          rw [hG] at h
          dsimp only at h ⊢
          exact same_data_trans (same_data_unlock _) (same_data_trans (hf s1 h) hd1)
  · rw [if_neg hI] at h ⊢
    exact hf m h

theorem rb_cMmap_sub_bang_type (m : mmap_t) (pat : VALUE) (repl : Replacement)
    (h : (rb_cMmap_sub_bang m pat repl).val = Res.raise Raised.TypeError) :
    same_data (rb_cMmap_sub_bang m pat repl).st m := by
  unfold rb_cMmap_sub_bang at h ⊢
  cases hG : GET_MMAP m MMAP_RUBY_MODIFY with
  | some e => exact same_data_refl m
  | none =>
    rw [hG] at h
    exact ipc_ensure_type m _ (fun x hx => mmap_sub_bang_int_type x pat repl hx) h

theorem rb_cMmap_concat_type (os : Os) (m : mmap_t) (other : VALUE)
    (h : (rb_cMmap_concat os m other).val = Res.raise Raised.TypeError) :
    same_data (rb_cMmap_concat os m other).st m := by
  have happ : ∀ v, (mmap_append os m v).val = Res.raise Raised.TypeError →
      same_data (mmap_append os m v).st m := by
    intro v hv
    unfold mmap_append at hv ⊢
    cases hs : StringValuePtr v with
    | none => exact same_data_refl m
    | some b =>
      rw [hs] at hv
      exact mmap_cat_type os m b hv
  unfold rb_cMmap_concat at h ⊢
  split at h
  · split_ifs at h ⊢
    · exact mmap_cat_type os m _ h
    · exact happ _ h
  · exact happ _ h

theorem gsub_fuel_pos (obj : mmap_t) : ∃ k, gsub_fuel obj = k + 1 := by
  refine ⟨gsub_fuel obj - 1, ?_⟩
  have : 0 < gsub_fuel obj := by
    unfold gsub_fuel
    positivity
  omega

theorem gsub_int_first_match (obj : mmap_t) (p r : List Nat) (i : Nat)
    (hpath : obj.path ≠ path_t.null) (hfr : obj.frozen = false)
    (hidx : rb_str_index (obj.addr.take obj.real) p 0 = some i)
    (hne : r.length ≠ p.length)
    (hrej : obj.flag &&& MMAP_RUBY_FIXED ≠ 0 ∨
      (obj.real + r.length + (SIZE_MAX1 - p.length)) % SIZE_MAX1 > obj.len) :
    mmap_gsub_bang_int obj (VALUE.str p) (Replacement.literal r) =
      ⟨obj, Res.raise Raised.TypeError⟩ := by
  obtain ⟨k, hk⟩ := gsub_fuel_pos obj
  unfold mmap_gsub_bang_int
  rw [GET_MMAP_none obj _ hpath hfr, mmap_str_ok obj _ hpath hfr]
  dsimp only
  have hs : rb_reg_search (Regexp.literal p) (obj.addr.take obj.real) 0 =
      some [some (i, i + p.length)] := by
    unfold rb_reg_search Regexp.literal
    rw [if_neg (by omega)]
    dsimp only
    rw [hidx]
    rfl
  simp only [get_pat]
  rw [hs, hk]
  dsimp only
  have hcb : mmap_correct_backref [some (i, i + p.length)] = (i, [some (0, p.length)]) := by
    simp [mmap_correct_backref]
  rw [mmap_gsub_loop, hcb]
  simp only [List.getD_cons_zero, Option.getD_some, Nat.sub_zero, Replacement.literal]
  rcases hrej with hfx | hcap
  · rw [if_pos ⟨hne, hfx⟩]
  · by_cases hfx : obj.flag &&& MMAP_RUBY_FIXED ≠ 0
    · rw [if_pos ⟨hne, hfx⟩]
    · rw [if_neg (by tauto), if_pos ⟨hne, hcap⟩]

/-! ## Lemmas: nested locking -/

theorem mmap_lock_held (m : mmap_t) (d : Nat) (hipc : m.flag &&& MMAP_RUBY_IPC ≠ 0)
    (hs : 0 < m.sem) : mmap_lock (held m d) true = ⟨held m (d + 1), Res.ok ()⟩ := by
  unfold mmap_lock held
  dsimp only
  rw [if_pos hipc]
  by_cases hd : d = 0
  · subst hd
    simp only [Nat.cast_zero, zero_add, if_true, hs, Nat.cast_one]
    rfl
  · rw [if_neg (by omega)]
    simp only [hd, if_false, Nat.cast_add, Nat.cast_one, Nat.add_eq_zero, one_ne_zero, and_false]

theorem mmap_unlock_held (m : mmap_t) (d : Nat) (hipc : m.flag &&& MMAP_RUBY_IPC ≠ 0)
    (hs : 0 < m.sem) : mmap_unlock (held m (d + 1)) = held m d := by
  unfold mmap_unlock held
  dsimp only
  rw [if_pos hipc]
  by_cases hd : d = 0
  · subst hd
    simp only [Nat.cast_zero, zero_add, Nat.cast_one, sub_self, if_true, one_ne_zero, if_false]
    congr 1
    omega
  · rw [if_neg (by push_cast; omega)]
    simp only [hd, if_false, Nat.add_eq_zero, one_ne_zero, and_false]
    congr 1
    push_cast
    omega

theorem lock_run_held (m : mmap_t) (hipc : m.flag &&& MMAP_RUBY_IPC ≠ 0) (hs : 0 < m.sem)
    (w : List Bool) : ∀ (k d : Nat), nesting k w = some d →
      lock_run (held m k) w = ⟨held m d, Res.ok ()⟩ := by
  induction w with
  | nil =>
    intro k d h
    simp only [nesting, Option.some.injEq] at h
    subst h
    rfl
  | cons b w ih =>
    intro k d h
    cases b with
    | true =>
      rw [lock_run, mmap_lock_held m k hipc hs]
      exact ih (k + 1) d (by simpa [nesting] using h)
    | false =>
      cases k with
      | zero => simp [nesting] at h
      | succ k =>
        rw [lock_run, mmap_unlock_held m k hipc hs]
        exact ih k d (by simpa [nesting] using h)

theorem held_zero (m : mmap_t) (hc : m.count = 0) : held m 0 = m := by
  unfold held
  cases m
  simp_all

theorem nesting_append (u v : List Bool) : ∀ k, nesting k (u ++ v) =
    (nesting k u).bind (fun d => nesting d v) := by
  induction u with
  | nil => intro k; simp [nesting]
  | cons b u ih =>
    intro k
    cases b with
    | true => simpa [nesting] using ih (k + 1)
    | false =>
      cases k with
      | zero => simp [nesting]
      | succ k => simpa [nesting] using ih k

/-! ## Lemmas: equality -/

theorem GET_MMAP_zero (m : mmap_t) (hpath : m.path ≠ path_t.null) : GET_MMAP m 0 = none := by
  unfold GET_MMAP
  rw [if_neg hpath, if_neg (by simp)]

theorem mmap_str_origin (m : mmap_t) (hpath : m.path ≠ path_t.null) :
    mmap_str m MMAP_RUBY_ORIGIN = Res.ok m.real := by
  unfold mmap_str
  have h1 : MMAP_RUBY_ORIGIN ^^^ (MMAP_RUBY_ORIGIN &&& MMAP_RUBY_ORIGIN) = 0 := by decide
  have h2 : ¬ (MMAP_RUBY_ORIGIN &&& MMAP_RUBY_MODIFY ≠ 0 ∧ m.frozen = true) := by
    intro h
    exact h.1 (by decide)
  rw [h1, GET_MMAP_zero m hpath]
  dsimp only
  rw [if_neg h2]

/-! ## Lemmas: `squeeze!` against its reference -/

theorem take_set_succ (ptr : List Nat) (j v : Nat) (h : j < ptr.length) :
    (ptr.set j v).take (j + 1) = ptr.take j ++ [v] := by
  apply List.ext_getElem?
  intro k
  rw [List.getElem?_take, List.getElem?_append, List.getElem?_set]
  simp only [List.length_take, List.getElem?_take, min_eq_left (le_of_lt h)]
  by_cases h1 : k < j
  · rw [if_pos (by omega), if_neg (by omega), if_pos h1, if_pos h1]
  · by_cases h2 : k = j
    · subst h2
      rw [if_pos (by omega), if_pos rfl, if_pos h, if_neg (by omega), Nat.sub_self]
      rfl
    · rw [if_neg (by omega), if_neg (by omega)]
      rw [List.getElem?_eq_none (by simp; omega)]

theorem squeeze_loop_ref (tb : Nat → Bool) : ∀ (n : Nat) (ptr : List Nat) (i j : Nat)
    (ch : Bool), j ≤ i → i + n ≤ ptr.length →
    (squeeze_loop tb n ptr i j ch).1.take (squeeze_loop tb n ptr i j ch).2.1 =
      ptr.take j ++
        squeeze_after tb (if i = 0 then none else some (ptr.getD (i - 1) 0))
          ((ptr.drop i).take n) := by
  intro n
  induction n with
  | zero =>
    intro ptr i j ch _ _
    simp [squeeze_loop, squeeze_after]
  | succ n ih =>
    intro ptr i j ch hji hlen
    have hi : i < ptr.length := by omega
    have hdrop : (ptr.drop i).take (n + 1) = ptr.getD i 0 :: (ptr.drop (i + 1)).take n := by
      rw [List.drop_eq_getElem_cons hi, List.take_succ_cons]
      congr 1
      rw [List.getD_eq_getElem?_getD, List.getElem?_eq_getElem hi]
      rfl
    rw [squeeze_loop, hdrop, squeeze_after]
    by_cases hk : i = 0 ∨ ptr.getD i 0 ≠ ptr.getD (i - 1) 0 ∨ tb (ptr.getD i 0) = false
    · rw [if_pos hk]
      have hcond : ¬ ((if i = 0 then none else some (ptr.getD (i - 1) 0)) = some (ptr.getD i 0) ∧
          tb (ptr.getD i 0) = true) := by
        rintro ⟨h1, h2⟩
        rcases hk with h | h | h
        · rw [if_pos h] at h1
          cases h1
        · by_cases h0 : i = 0
          · rw [if_pos h0] at h1
            cases h1
          · rw [if_neg h0] at h1
            exact h (Option.some.inj h1).symm
        · rw [h] at h2
          cases h2
      rw [if_neg hcond]
      have hgi : (ptr.set j (ptr.getD i 0)).getD i 0 = ptr.getD i 0 := by
        rw [List.getD_eq_getElem?_getD, List.getElem?_set]
        split_ifs with h1 h2
        · rfl
        · exfalso; omega
        · rw [← List.getD_eq_getElem?_getD]
      have hdr : (ptr.set j (ptr.getD i 0)).drop (i + 1) = ptr.drop (i + 1) := by
        rw [List.drop_set_of_lt _ _ (by omega)]
      rw [ih (ptr.set j (ptr.getD i 0)) (i + 1) (j + 1) ch (by omega)
        (by rw [List.length_set]; omega)]
      rw [take_set_succ ptr j _ (by omega), hdr]
      simp only [Nat.add_eq_zero, one_ne_zero, and_false, if_false, Nat.add_sub_cancel, hgi,
        List.append_assoc, List.singleton_append]
    · rw [if_neg hk]
      have hcond : (if i = 0 then none else some (ptr.getD (i - 1) 0)) = some (ptr.getD i 0) ∧
          tb (ptr.getD i 0) = true := by
        push_neg at hk
        obtain ⟨h0, h1, h2⟩ := hk
        exact ⟨by rw [if_neg h0, h1], by simpa using h2⟩
      rw [if_pos hcond]
      rw [ih ptr (i + 1) j true (by omega) (by omega)]
      simp only [Nat.add_eq_zero, one_ne_zero, and_false, if_false, Nat.add_sub_cancel]

theorem squeeze_after_chain (S : Nat → Bool) : ∀ (t : List Nat) (p : Nat),
    List.Chain (fun a b => ¬ (a = b ∧ S b = true)) p (squeeze_after S (some p) t) := by
  intro t
  induction t with
  | nil => intro p; simp [squeeze_after]
  | cons c t ih =>
    intro p
    rw [squeeze_after]
    by_cases h : some p = some c ∧ S c = true
    · rw [if_pos h]
      have : p = c := Option.some.inj h.1
      subst this
      exact ih p
    · rw [if_neg h]
      refine List.Chain.cons ?_ (ih c)
      intro hh
      exact h ⟨by rw [hh.1], hh.2⟩

theorem squeeze_ref_no_repeat (S : Nat → Bool) (c : List Nat) : no_repeat S (squeeze_ref S c) := by
  unfold no_repeat squeeze_ref
  cases c with
  | nil => simp [squeeze_after]
  | cons a t =>
    rw [squeeze_after, if_neg (by simp)]
    exact squeeze_after_chain S t a

theorem squeeze_loop_count (tb : Nat → Bool) : ∀ (n : Nat) (ptr : List Nat) (i j : Nat)
    (ch : Bool), j ≤ i → i + n ≤ ptr.length →
    (squeeze_loop tb n ptr i j ch).2.1 =
      j + (squeeze_after tb (if i = 0 then none else some (ptr.getD (i - 1) 0))
          ((ptr.drop i).take n)).length ∧
    (squeeze_loop tb n ptr i j ch).1.length = ptr.length := by
  intro n ptr i j ch hji hlen
  have h := squeeze_loop_ref tb n ptr i j ch hji hlen
  have hb := (squeeze_loop_spec tb n ptr i j ch hji)
  have hlen2 : ∀ (n : Nat) (ptr : List Nat) (i j : Nat) (ch : Bool),
      (squeeze_loop tb n ptr i j ch).1.length = ptr.length := by
    intro n
    induction n with
    | zero => intro ptr i j ch; rfl
    | succ n ih =>
      intro ptr i j ch
      rw [squeeze_loop]
      split_ifs
      · rw [ih, List.length_set]
      · rw [ih]
  have hj : ∀ (n : Nat) (ptr : List Nat) (i j : Nat) (ch : Bool),
      (squeeze_loop tb n ptr i j ch).2.1 ≤ j + n := by
    intro n
    induction n with
    | zero => intro ptr i j ch; exact le_refl _
    | succ n ih =>
      intro ptr i j ch
      rw [squeeze_loop]
      split_ifs
      · have := ih (ptr.set j (ptr.getD i 0)) (i + 1) (j + 1) ch
        omega
      · have := ih ptr (i + 1) j true
        omega
  refine ⟨?_, hlen2 n ptr i j ch⟩
  have h1 := congrArg List.length h
  rw [List.length_take, List.length_append, List.length_take, hlen2 n ptr i j ch] at h1
  have := hj n ptr i j ch
  rw [min_eq_left (by omega), min_eq_left (by omega)] at h1
  exact h1

theorem squeeze_int_ref (m : mmap_t) (argv : List VALUE)
    (harg : argv = [] ∨ ∃ sq rest, argv = VALUE.str sq :: rest)
    (hpath : m.path ≠ path_t.null) (hfr : m.frozen = false) (hmap : m.real ≤ m.addr.length) :
    ∃ A b, (∀ c sm, mmap_squeeze_bang_int argv { m with count := c, sem := sm } =
        ⟨{ m with count := c, sem := sm, addr := A,
                  real := (squeeze_ref (squeeze_set argv) (m.addr.take m.real)).length },
         Res.ok b⟩) ∧
      A.take (squeeze_ref (squeeze_set argv) (m.addr.take m.real)).length =
        squeeze_ref (squeeze_set argv) (m.addr.take m.real) ∧
      (b = true ↔ (squeeze_ref (squeeze_set argv) (m.addr.take m.real)).length < m.real) := by
  by_cases h0 : m.real = 0
  · have hz : squeeze_ref (squeeze_set argv) (m.addr.take m.real) = [] := by
      rw [h0]
      rfl
    rw [hz]
    refine ⟨m.addr, false, ?_, by simp, by simp [h0]⟩
    intro c sm
    unfold mmap_squeeze_bang_int
    rw [GET_MMAP_none { m with count := c, sem := sm } _ hpath hfr,
      mmap_str_ok { m with count := c, sem := sm } _ hpath hfr]
    dsimp only
    rw [if_pos h0, h0]
    rfl
  have key : ∀ tb : Nat → Bool, tb = squeeze_set argv →
      ∃ A b, (∀ c sm,
        (if ({ m with count := c, sem := sm } : mmap_t).addr.length < m.real then
            (⟨{ m with count := c, sem := sm }, Res.raise Raised.segv⟩ : Ret Bool)
          else
            if (squeeze_loop tb m.real m.addr 0 0 false).2.2 = true then
              ⟨{ m with count := c, sem := sm,
                        addr := (squeeze_loop tb m.real m.addr 0 0 false).1,
                        real := (squeeze_loop tb m.real m.addr 0 0 false).2.1 }, Res.ok true⟩
            else
              ⟨{ m with count := c, sem := sm,
                        addr := (squeeze_loop tb m.real m.addr 0 0 false).1 }, Res.ok false⟩) =
          ⟨{ m with count := c, sem := sm, addr := A,
                    real := (squeeze_ref (squeeze_set argv) (m.addr.take m.real)).length },
           Res.ok b⟩) ∧
        A.take (squeeze_ref (squeeze_set argv) (m.addr.take m.real)).length =
          squeeze_ref (squeeze_set argv) (m.addr.take m.real) ∧
        (b = true ↔ (squeeze_ref (squeeze_set argv) (m.addr.take m.real)).length < m.real) := by
    intro tb htb
    obtain ⟨a, -, -⟩ := squeeze_loop_spec tb m.real m.addr 0 0 false (le_refl _) (by simp)
    have hr := squeeze_loop_ref tb m.real m.addr 0 0 false (le_refl _) (by omega)
    obtain ⟨hc, -⟩ := squeeze_loop_count tb m.real m.addr 0 0 false (le_refl _) (by omega)
    simp only [List.take_zero, List.nil_append, if_true, List.drop_zero, Nat.zero_add] at hr hc
    have href : squeeze_after tb none (m.addr.take m.real) =
        squeeze_ref (squeeze_set argv) (m.addr.take m.real) := by
      rw [htb]
      rfl
    rw [href] at hr hc
    rw [hc] at hr a
    by_cases hch : (squeeze_loop tb m.real m.addr 0 0 false).2.2 = true
    · refine ⟨(squeeze_loop tb m.real m.addr 0 0 false).1, true, fun c sm => ?_, hr, ?_⟩
      · rw [if_neg (by dsimp only; omega), if_pos hch, hc]
      · simp only [true_iff]
        have := a.mp hch
        omega
    · refine ⟨(squeeze_loop tb m.real m.addr 0 0 false).1, false, fun c sm => ?_, hr, ?_⟩
      · rw [if_neg (by dsimp only; omega), if_neg hch]
        have h2 : ¬ ((squeeze_ref (squeeze_set argv) (m.addr.take m.real)).length <
            0 + m.real) := fun h => hch (a.mpr h)
        have h3 : (squeeze_ref (squeeze_set argv) (m.addr.take m.real)).length ≤ m.real := by
          have := (squeeze_loop_spec tb m.real m.addr 0 0 false (le_refl _) (by simp)).2.1
          omega
        have h4 : (squeeze_ref (squeeze_set argv) (m.addr.take m.real)).length = m.real := by
          omega
        rw [h4]
      · simp only [Bool.false_eq_true, false_iff]
        intro h
        exact hch (a.mpr (by omega))
  rcases harg with rfl | ⟨sq, rest, rfl⟩
  · obtain ⟨A, b, h1, h2, h3⟩ := key (fun _ => true) rfl
    refine ⟨A, b, fun c sm => ?_, h2, h3⟩
    unfold mmap_squeeze_bang_int
    rw [GET_MMAP_none { m with count := c, sem := sm } _ hpath hfr,
      mmap_str_ok { m with count := c, sem := sm } _ hpath hfr]
    dsimp only
    rw [if_neg h0]
    exact h1 c sm
  · obtain ⟨A, b, h1, h2, h3⟩ := key (fun c => decide (c ∈ sq)) rfl
    refine ⟨A, b, fun c sm => ?_, h2, h3⟩
    unfold mmap_squeeze_bang_int
    rw [GET_MMAP_none { m with count := c, sem := sm } _ hpath hfr,
      mmap_str_ok { m with count := c, sem := sm } _ hpath hfr]
    dsimp only
    rw [if_neg h0]
    exact h1 c sm

/-! ## Lemmas: `strip!` against its reference -/

theorem drop_takeWhile_length (p : Nat → Bool) (l : List Nat) :
    l.drop (l.takeWhile p).length = l.dropWhile p := by
  have h : l.drop (l.takeWhile p).length =
      (l.takeWhile p ++ l.dropWhile p).drop (l.takeWhile p).length := by
    rw [List.takeWhile_append_dropWhile]
  rw [h, List.drop_left]

theorem strip_ref_eq (c : List Nat) :
    strip_ref c =
      (c.drop (c.takeWhile ISSPACE).length).take
        (c.length - ((c.drop (c.takeWhile ISSPACE).length).reverse.takeWhile ISSPACE).length -
          (c.takeWhile ISSPACE).length) ∧
    (c.takeWhile ISSPACE).length +
      ((c.drop (c.takeWhile ISSPACE).length).reverse.takeWhile ISSPACE).length ≤ c.length := by
  rw [drop_takeWhile_length]
  unfold strip_ref
  generalize hd : c.dropWhile ISSPACE = d
  have hlen : (c.takeWhile ISSPACE).length + d.length = c.length := by
    rw [← hd, ← List.length_append, List.takeWhile_append_dropWhile]
  have hrev : d = (d.reverse.dropWhile ISSPACE).reverse ++ (d.reverse.takeWhile ISSPACE).reverse := by
    rw [← List.reverse_append, List.takeWhile_append_dropWhile, List.reverse_reverse]
  have hl2 : (d.reverse.takeWhile ISSPACE).length + (d.reverse.dropWhile ISSPACE).length =
      d.length := by
    rw [← List.length_append, List.takeWhile_append_dropWhile, List.length_reverse]
  have key : ∀ X Y : List Nat, d = X ++ Y → d.take X.length = X := by
    intro X Y h
    rw [h, List.take_left]
  have hk : c.length - (d.reverse.takeWhile ISSPACE).length - (c.takeWhile ISSPACE).length =
      ((d.reverse.dropWhile ISSPACE).reverse).length := by
    rw [List.length_reverse]
    omega
  constructor
  · rw [hk]
    exact (key _ _ hrev).symm
  · omega

theorem strip_ref_ends (c : List Nat) :
    (∀ x, (strip_ref c).head? = some x → ISSPACE x = false) ∧
    (∀ x, (strip_ref c).getLast? = some x → ISSPACE x = false) := by
  unfold strip_ref
  generalize hd : c.dropWhile ISSPACE = d
  have hlast : ∀ x, ((d.reverse.dropWhile ISSPACE).reverse).getLast? = some x →
      ISSPACE x = false := by
    intro x hx
    rw [List.getLast?_reverse] at hx
    have := List.head?_dropWhile_not ISSPACE d.reverse
    rw [hx] at this
    simpa using this
  refine ⟨?_, hlast⟩
  intro x hx
  have hrev : d = (d.reverse.dropWhile ISSPACE).reverse ++ (d.reverse.takeWhile ISSPACE).reverse := by
    rw [← List.reverse_append, List.takeWhile_append_dropWhile, List.reverse_reverse]
  have hdx : d.head? = some x := by
    rw [hrev, List.head?_append, hx]
    rfl
  have := List.head?_dropWhile_not ISSPACE c
  rw [hd, hdx] at this
  simpa using this

theorem memmove_zero_take (a : List Nat) (s n : Nat) (h : s + n ≤ a.length) :
    ∃ a1, memmove a 0 s n = some a1 ∧ a1.length = a.length ∧
      a1.take n = (a.drop s).take n := by
  unfold memmove
  by_cases hn : n = 0
  · rw [if_pos hn]
    subst hn
    exact ⟨a, rfl, rfl, by simp⟩
  · rw [if_neg hn, if_pos ⟨h, by omega⟩]
    refine ⟨_, rfl, ?_, ?_⟩
    · simp only [List.length_append, List.length_take, List.length_drop]
      omega
    · simp only [List.take_zero, List.nil_append]
      rw [List.take_append_of_le_length (by rw [List.length_take, List.length_drop]; omega)]
      rw [List.take_take, min_self]

theorem memcpy_keeps_prefix (a v : List Nat) (b : Nat) (h : b + v.length ≤ a.length) :
    ∃ a3, memcpy a b v = some a3 ∧ a3.length = a.length ∧ a3.take b = a.take b := by
  obtain ⟨a3, e, l, t⟩ := memcpy_ok a v b h
  refine ⟨a3, e, l, ?_⟩
  have := congrArg (List.take b) t
  rw [List.take_take, min_eq_left (by omega)] at this
  rw [this, List.take_append_of_le_length (by rw [List.length_take]; omega), List.take_take,
    min_self]

theorem strip_state (m : mmap_t) (hpath : m.path ≠ path_t.null) (hfr : m.frozen = false)
    (hlock : lock_free m) (hmap : m.real ≤ m.addr.length)
    (hfix : m.flag &&& MMAP_RUBY_FIXED = 0) :
    ∃ (A : List Nat) (b : Bool),
      rb_cMmap_strip_bang m =
        ⟨{ m with addr := A, real := (strip_ref (m.addr.take m.real)).length }, Res.ok b⟩ ∧
      A.take (strip_ref (m.addr.take m.real)).length = strip_ref (m.addr.take m.real) ∧
      (b = false ↔ strip_ref (m.addr.take m.real) = m.addr.take m.real) := by
  obtain ⟨c, sm, hL, hU, -⟩ := mmap_lock_of_free m hlock
  obtain ⟨href, hle⟩ := strip_ref_eq (m.addr.take m.real)
  have hcl : (m.addr.take m.real).length = m.real := by
    rw [List.length_take]
    omega
  unfold rb_cMmap_strip_bang
  rw [GET_MMAP_none m _ hpath hfr]
  dsimp only
  rw [hL]
  dsimp only
  rw [if_neg (by omega), if_neg (by rw [hfix]; simp)]
  rw [hcl] at href hle
  generalize hs : ((m.addr.take m.real).takeWhile ISSPACE).length = s at href hle ⊢
  generalize ht : (((m.addr.take m.real).drop s).reverse.takeWhile ISSPACE).length = tr
    at href hle ⊢
  have hN : (strip_ref (m.addr.take m.real)).length = m.real - tr - s := by
    rw [href, List.length_take, List.length_drop, hcl]
    omega
  have hcd : ((m.addr.take m.real).drop s).take (m.real - tr - s) =
      (m.addr.drop s).take (m.real - tr - s) := by
    rw [List.drop_take, List.take_take, min_eq_left (by omega)]
  rw [hcd] at href
  have hun : ∀ (A : List Nat) (r : Nat),
      mmap_unlock { m with count := c, sem := sm, addr := A, real := r } =
        { m with addr := A, real := r } := by
    intro A r
    have := mmap_unlock_data { m with count := c, sem := sm } A m.file r m.len
    rw [hU] at this
    exact this
  have hiff : ∀ b : Bool, (b = false ↔ s = 0 ∧ tr = 0) →
      (b = false ↔ strip_ref (m.addr.take m.real) = m.addr.take m.real) := by
    intro b hb
    rw [hb]
    constructor
    · rintro ⟨h1, h2⟩
      rw [href, h1, h2]
      simp
    · intro h
      have := congrArg List.length h
      rw [hN, hcl] at this
      omega
  rw [hN]
  by_cases h1 : s > 0
  · rw [if_pos h1]
    obtain ⟨a1, e1, l1, t1⟩ := memmove_zero_take m.addr s (m.real - tr - s) (by omega)
    rw [e1]
    dsimp only
    obtain ⟨a2, e2, -, t2⟩ := memcpy_keeps_prefix a1 [0] (m.real - tr - s)
      (by rw [l1, List.length_singleton]; omega)
    rw [e2]
    dsimp only
    rw [hun]
    refine ⟨a2, true, rfl, ?_, hiff true (by simp; omega)⟩
    rw [t2, t1, href]
  · rw [if_neg h1]
    have hs0 : s = 0 := by omega
    subst hs0
    by_cases h2 : m.real - tr < m.real
    · rw [if_pos h2]
      obtain ⟨a2, e2, -, t2⟩ := memcpy_keeps_prefix m.addr [0] (m.real - tr - 0)
        (by rw [List.length_singleton]; omega)
      rw [e2]
      dsimp only
      rw [hun]
      refine ⟨a2, true, rfl, ?_, hiff true (by simp; omega)⟩
      rw [t2, href]
      simp
    · rw [if_neg h2]
      rw [hun m.addr (m.real - tr - 0)]
      refine ⟨m.addr, false, rfl, ?_, hiff false (by simp; omega)⟩
      rw [href]
      simp

/-! ## Lemmas: construction and the size of the backing file -/

theorem initialize_path_ok (os : Os) (fs : Option (List Nat)) (vmode scope : VALUE) :
    sized_to_file
      ( rb_cMmap_initialize os rb_cMmap_allocate fname_t.path fs vmode scope none) := by
  unfold rb_cMmap_initialize
  simp only [Bool.false_eq_true, if_false, decide_False, and_true, true_and, rb_cMmap_allocate,
    Option.none_bind, Option.bind, if_true]
  split
  · intro h; cases h
  · split
    · intro h; cases h
    · split
      · intro h; cases h
      · rename_i smode0 pmode0 st_size f hopen
        split
        · intro h; cases h
        · rename_i m3 smode pmode size offset init hprep
          split
          · intro h; cases h
          · rename_i a hmap
            have hsz : st_size = f.length ∧ smode0 ≠ O_WRONLY := by
              split at hopen
              · cases hopen
              · rename_i ms hms
                split at hopen
                · cases hopen
                · rename_i sm pm hom
                  split at hopen
                  · cases hopen
                  · split_ifs at hopen
                    simp only [Res.ok.injEq, Prod.mk.injEq] at hopen
                    obtain ⟨rfl, rfl, rfl, rfl⟩ := hopen
                    refine ⟨rfl, ?_⟩
                    unfold open_mode at hom
                    split_ifs at hom <;> simp only [Option.some.injEq, Prod.mk.injEq] at hom <;>
                      obtain ⟨rfl, _⟩ := hom <;> decide
            obtain ⟨hs1, hs2⟩ := hsz
            split_ifs at hprep with hc1 hc2 hc3
            · simp at hprep
            · simp at hprep
            · simp only [Ret.mk.injEq, Res.ok.injEq, Prod.mk.injEq] at hprep
              obtain ⟨rfl, rfl, rfl, rfl, rfl, rfl⟩ := hprep
              have hf : f.length = 0 := by omega
              have hE : EXP_INCR_SIZE - 1 + 1 = EXP_INCR_SIZE := by
                unfold EXP_INCR_SIZE; norm_num
              have hl : (f ++ List.replicate (EXP_INCR_SIZE - 1) 0 ++ [0]).length =
                  EXP_INCR_SIZE := by
                rw [List.length_append, List.length_append, List.length_replicate, hf]
                simpa using hE
              unfold sized_to_file
              split_ifs <;> intro hv <;>
                first
                | exact ⟨hl, rfl, (by decide : 0 &&& MMAP_RUBY_FIXED = 0), rfl⟩
                | contradiction
            · simp only [Ret.mk.injEq, Res.ok.injEq, Prod.mk.injEq] at hprep
              obtain ⟨rfl, rfl, rfl, rfl, rfl, rfl⟩ := hprep
              unfold sized_to_file
              split_ifs <;> intro hv <;>
                first
                | exact ⟨hs1.symm, rfl, (by decide : 0 &&& MMAP_RUBY_FIXED = 0), rfl⟩
                | contradiction

theorem length_unmapped_file (s : mmap_t) (h : s.offset ≤ s.file.length) :
    (unmapped_file s).length = s.file.length := by
  unfold unmapped_file
  split_ifs
  · exact length_writeback _ _ _ h
  · rfl

theorem length_resized_file_eq (s : mmap_t) (n : Nat) (ho : s.offset = 0)
    (hl : s.file.length = s.len) : (resized_file s n).length = n := by
  have hu := length_unmapped_file s (by omega)
  unfold resized_file
  split_ifs with h1 h2
  · simp only [List.length_append, hu, List.length_replicate, List.length_singleton]
    omega
  · simp only [os_truncate, List.length_append, List.length_take, hu, List.length_replicate]
    omega
  · rw [hu]; omega

theorem resize_each_ok (os : Os) (ns : List Nat) :
    ∀ m : mmap_t, m.offset = 0 → m.file.length = m.len →
      (resize_each os m ns).val = Res.ok () →
      (resize_each os m ns).st.file.length = (resize_each os m ns).st.len ∧
        (resize_each os m ns).st.offset = 0 ∧
        (resize_each os m ns).st.len = (ns.getLast?).getD m.len := by
  induction ns with
  | nil => intro m ho hl _; exact ⟨hl, ho, rfl⟩
  | cons n ns ih =>
    intro m ho hl h
    unfold resize_each at h ⊢
    cases hx : mmap_expandf os m n with
    | mk m1 v =>
      rw [hx] at h
      cases v with
      | raise e => cases h
      | ok u =>
        have hv : (mmap_expandf os m n).val = Res.ok () := by rw [hx]
        obtain ⟨⟨c, sm, hst⟩, _⟩ := mmap_expandf_inv os m n hv
        rw [hx] at hst
        have hst1 : m1 = _ := hst
        have h1 : m1.offset = 0 := by rw [hst1]; exact ho
        have h2 : m1.file.length = m1.len := by
          rw [hst1]; exact length_resized_file_eq m n ho hl
        have h3 : m1.len = n := by rw [hst1]
        obtain ⟨r1, r2, r3⟩ := ih m1 h1 h2 h
        refine ⟨r1, r2, ?_⟩
        show (resize_each os m1 ns).st.len = _
        rw [r3, h3]
        cases ns with
        | nil => rfl
        | cons a l =>
          rw [List.getLast?_cons_cons, List.getLast?_eq_getLast _ (List.cons_ne_nil a l)]
          rfl

/-! ## Lemmas: the rounds of the `gsub!` loop -/

theorem gsub_rounds_loop (re : Regexp) (repl : Replacement) (slen : Nat) :
    ∀ (fuel : Nat) (obj : mmap_t) (regs0 : Regs),
      (mmap_gsub_rounds re repl slen fuel obj regs0).1 =
        mmap_gsub_loop re repl slen fuel obj regs0 := by
  intro fuel
  induction fuel with
  | zero => intro obj regs0; rfl
  | succ f ih =>
    intro obj regs0
    rw [mmap_gsub_rounds, mmap_gsub_loop]
    dsimp only
    generalize (mmap_correct_backref regs0).1 = start
    generalize (mmap_correct_backref regs0).2 = regs
    generalize ((regs.getD 0 none).getD (0, 0)).1 = beg0
    generalize ((regs.getD 0 none).getD (0, 0)).2 = end0
    generalize repl.expand _ regs = val
    by_cases c1 : val.length ≠ end0 - beg0 ∧ obj.flag &&& MMAP_RUBY_FIXED ≠ 0
    · rw [if_pos c1, if_pos c1]
    rw [if_neg c1, if_neg c1]
    by_cases c2 : val.length ≠ end0 - beg0 ∧
        (obj.real + val.length + (SIZE_MAX1 - (end0 - beg0))) % SIZE_MAX1 > obj.len
    · rw [if_pos c2, if_pos c2]
    rw [if_neg c2, if_neg c2]
    generalize (if val.length ≠ end0 - beg0 then
      if slen < start + beg0 + (end0 - beg0) then none
      else memmove obj.addr (start + beg0 + val.length) (start + beg0 + (end0 - beg0))
        (slen - start - beg0 - (end0 - beg0))
      else some obj.addr) = moved
    cases moved with
    | none => rfl
    | some a1 =>
      dsimp only
      cases memcpy a1 (start + beg0) val with
      | none => rfl
      | some a2 =>
        dsimp only
        generalize (if beg0 = end0 then start + end0 + 1 + val.length - (end0 - beg0)
          else start + end0 + val.length - (end0 - beg0)) = offset
        by_cases c3 : offset > slen
        · rw [if_pos c3, if_pos c3]
        rw [if_neg c3, if_neg c3]
        cases rb_reg_search re (List.take slen a2) offset with
        | none => rfl
        | some regs1 => exact ih _ _

theorem search_literal (p s : List Nat) (off : Nat) (regs : Regs)
    (h : rb_reg_search (Regexp.literal p) s off = some regs) :
    ∃ i, regs = [some (i, i + p.length)] ∧ off ≤ i ∧ i ≤ s.length := by
  unfold rb_reg_search at h
  split_ifs at h with h1
  unfold Regexp.literal rb_str_index at h
  dsimp only at h
  cases hf : (List.range (s.length + 1 - off)).find? (fun k => starts_at s p (off + k)) with
  | none => rw [hf] at h; cases h
  | some k =>
    rw [hf] at h
    have hk := List.mem_of_find?_eq_some hf
    rw [List.mem_range] at hk
    refine ⟨off + k, ?_, by omega, by omega⟩
    simpa using h.symm

theorem correct_backref_literal (i n : Nat) :
    mmap_correct_backref [some (i, i + n)] = (i, [some (0, n)]) := by
  simp [mmap_correct_backref]

theorem gsub_rounds_left_pos (r : List Nat) (slen i : Nat) (obj : mmap_t) (hi : i ≤ slen) :
    1 ≤ gsub_rounds_left r slen i obj := by
  unfold gsub_rounds_left
  split_ifs <;> omega

theorem gsub_rounds_literal (p r : List Nat) (hp : p ≠ []) (slen : Nat) :
    ∀ (fuel : Nat) (obj : mmap_t) (i : Nat), i ≤ slen → obj.real ≤ obj.len →
      obj.len + p.length < SIZE_MAX1 →
      ∀ R, mmap_gsub_rounds (Regexp.literal p) (Replacement.literal r) slen fuel obj
          [some (i, i + p.length)] = R →
        (gsub_rounds_left r slen i obj ≤ fuel → R.1.val ≠ Res.raise Raised.unfinished) ∧
        R.1.st.real ≤ obj.len ∧ R.1.st.len = obj.len ∧
        (∀ x ∈ R.2.head?, x = i + r.length) ∧
        List.Chain' (· ≤ ·) R.2 ∧ (r ≠ [] → List.Chain' (· < ·) R.2) ∧
        R.2.length ≤ gsub_rounds_left r slen i obj := by
  have hS : SIZE_MAX1 = 18446744073709551616 := by norm_num [SIZE_MAX1]
  have hpl : 0 < p.length := List.length_pos.mpr hp
  intro fuel
  induction fuel with
  | zero =>
    intro obj i hi hreal hlen R hR
    have h1 := gsub_rounds_left_pos r slen i obj hi
    subst hR
    refine ⟨fun h => by omega, hreal, rfl, ?_, List.chain'_nil, fun _ => List.chain'_nil, ?_⟩
    · intro x hx; cases hx
    · exact Nat.zero_le _
  | succ f ih =>
    intro obj i hi hreal hlen R hR
    have h1 := gsub_rounds_left_pos r slen i obj hi
    have hexp : ∀ a b, (Replacement.literal r).expand a b = r := fun _ _ => rfl
    have hoff : i + p.length + r.length - p.length = i + r.length := by omega
    have hnil : ∀ (st : mmap_t) (v : Res Bool), v ≠ Res.raise Raised.unfinished →
        st.real ≤ obj.len → st.len = obj.len → ∀ l : List Nat, l = [] ∨ l = [i + r.length] →
        ((gsub_rounds_left r slen i obj ≤ f + 1 →
            ((⟨st, v⟩, l) : Ret Bool × List Nat).1.val ≠ Res.raise Raised.unfinished) ∧
          ((⟨st, v⟩, l) : Ret Bool × List Nat).1.st.real ≤ obj.len ∧
          ((⟨st, v⟩, l) : Ret Bool × List Nat).1.st.len = obj.len ∧
          (∀ x ∈ ((⟨st, v⟩, l) : Ret Bool × List Nat).2.head?, x = i + r.length) ∧
          List.Chain' (· ≤ ·) ((⟨st, v⟩, l) : Ret Bool × List Nat).2 ∧
          (r ≠ [] → List.Chain' (· < ·) ((⟨st, v⟩, l) : Ret Bool × List Nat).2) ∧
          ((⟨st, v⟩, l) : Ret Bool × List Nat).2.length ≤ gsub_rounds_left r slen i obj) := by
      intro st v hv h2 h3 l hl
      rcases hl with rfl | rfl
      · refine ⟨fun _ => hv, h2, h3, ?_, List.chain'_nil, fun _ => List.chain'_nil,
          Nat.zero_le _⟩
        intro x hx; cases hx
      · refine ⟨fun _ => hv, h2, h3, ?_, List.chain'_singleton _,
          fun _ => List.chain'_singleton _, h1⟩
        intro x hx
        simpa using hx.symm
    rw [mmap_gsub_rounds, correct_backref_literal] at hR
    simp only [List.getD_cons_zero, Option.getD_some, Nat.sub_zero, hexp,
      Nat.add_zero, if_neg (show ¬ 0 = p.length by omega), hoff] at hR
    by_cases c1 : r.length ≠ p.length ∧ obj.flag &&& MMAP_RUBY_FIXED ≠ 0
    · rw [if_pos c1] at hR
      subst hR
      exact hnil _ _ (by simp) hreal rfl [] (Or.inl rfl)
    rw [if_neg c1] at hR
    by_cases c2 : r.length ≠ p.length ∧
        (obj.real + r.length + (SIZE_MAX1 - p.length)) % SIZE_MAX1 > obj.len
    · rw [if_pos c2] at hR
      subst hR
      exact hnil _ _ (by simp) hreal rfl [] (Or.inl rfl)
    rw [if_neg c2] at hR
    have hw : (obj.real + r.length + (SIZE_MAX1 - p.length)) % SIZE_MAX1 ≤ obj.len ∧
        (r = [] → (obj.real + r.length + (SIZE_MAX1 - p.length)) % SIZE_MAX1 < obj.real) := by
      by_cases he : r.length = p.length
      · refine ⟨?_, ?_⟩
        · rw [he, hS] at *
          omega
        · intro hr
          rw [hr] at he
          simp at he
          omega
      · have hle : (obj.real + r.length + (SIZE_MAX1 - p.length)) % SIZE_MAX1 ≤ obj.len := by
          by_contra hc
          exact c2 ⟨he, by omega⟩
        refine ⟨hle, ?_⟩
        intro hr
        rw [hr] at hle ⊢
        simp only [List.length_nil, Nat.add_zero] at hle ⊢
        rw [hS] at *
        omega
    generalize (obj.real + r.length + (SIZE_MAX1 - p.length)) % SIZE_MAX1 = w at hR hw
    generalize (if r.length ≠ p.length then
      if slen < i + p.length then none
      else memmove obj.addr (i + r.length) (i + p.length) (slen - i - p.length)
      else some obj.addr) = moved at hR
    cases moved with
    | none =>
      subst hR
      exact hnil _ _ (by simp) hreal rfl [] (Or.inl rfl)
    | some a1 =>
      dsimp only at hR
      cases hc : memcpy a1 i r with
      | none =>
        rw [hc] at hR
        subst hR
        exact hnil _ _ (by simp) hreal rfl [] (Or.inl rfl)
      | some a2 =>
        rw [hc] at hR
        dsimp only at hR
        by_cases c3 : i + r.length > slen
        · rw [if_pos c3] at hR
          subst hR
          exact hnil { obj with addr := a2, real := w } (Res.ok true) (by simp) hw.1 rfl _
            (Or.inr rfl)
        rw [if_neg c3] at hR
        cases hs : rb_reg_search (Regexp.literal p) (List.take slen a2) (i + r.length) with
        | none =>
          rw [hs] at hR
          subst hR
          exact hnil { obj with addr := a2, real := w } (Res.ok true) (by simp) hw.1 rfl _
            (Or.inr rfl)
        | some regs1 =>
          rw [hs] at hR
          dsimp only at hR
          obtain ⟨j, rfl, hj1, hj2⟩ := search_literal p _ _ _ hs
          have hj3 : j ≤ slen := by
            rw [List.length_take] at hj2
            omega
          obtain ⟨g1, g2, g3, g4, g5, g6, g7⟩ :=
            ih { obj with addr := a2, real := w } j hj3 hw.1 hlen _ rfl
          have hm : gsub_rounds_left r slen j { obj with addr := a2, real := w } + 1 ≤
              gsub_rounds_left r slen i obj := by
            unfold gsub_rounds_left
            by_cases hr : r = []
            · rw [if_pos hr, if_pos hr]
              have := hw.2 hr
              show w + 1 + 1 ≤ obj.real + 1
              omega
            · rw [if_neg hr, if_neg hr]
              have : 0 < r.length := List.length_pos.mpr hr
              omega
          subst hR
          refine ⟨fun h => g1 (by omega), g2, g3, ?_, ?_, ?_, ?_⟩
          · intro x hx
            simpa using hx.symm
          · rw [List.chain'_cons']
            refine ⟨?_, g5⟩
            intro y hy
            rw [g4 y hy]
            omega
          · intro hr
            rw [List.chain'_cons']
            refine ⟨?_, g6 hr⟩
            intro y hy
            rw [g4 y hy]
            have : 0 < r.length := List.length_pos.mpr hr
            omega
          · show _ + 1 ≤ _
            omega

theorem GET_MMAP_finishes (s : mmap_t) (t : Nat) : GET_MMAP s t ≠ some Raised.unfinished := by
  unfold GET_MMAP
  split_ifs <;> simp

theorem mmap_str_finishes (s : mmap_t) (t : Nat) :
    mmap_str s t ≠ Res.raise Raised.unfinished ∧ ∀ n, mmap_str s t = Res.ok n → n = s.real := by
  unfold mmap_str
  constructor
  · split
    · rename_i e he
      intro h
      have := GET_MMAP_finishes s (t ^^^ (t &&& MMAP_RUBY_ORIGIN))
      rw [he] at this
      simp only [Res.raise.injEq] at h
      rw [h] at this
      exact this rfl
    · split_ifs <;> simp
  · intro n h
    split at h
    · cases h
    · split_ifs at h
      simp only [Res.ok.injEq] at h
      exact h.symm

theorem le_gsub_fuel (obj : mmap_t) : obj.real + 1 ≤ gsub_fuel obj := by
  unfold gsub_fuel
  have : (obj.real + 2) * 1 ≤ (obj.real + 2) * (max obj.len obj.real + 2) :=
    Nat.mul_le_mul_left _ (by omega)
  omega

/-! ## Lemmas: `slice!` with a start and a length -/

theorem aref_start_length (m : mmap_t) (b n : Int) (hpath : m.path ≠ path_t.null)
    (hfr : m.frozen = false) (hlock : lock_free m)
    (hb : -(2 : Int) ^ 63 ≤ b ∧ b < (2 : Int) ^ 63)
    (hn : -(2 : Int) ^ 63 ≤ n ∧ n < (2 : Int) ^ 63) :
    rb_cMmap_aref [VALUE.fixnum b, VALUE.fixnum n] m =
      ⟨m, Res.ok (rb_str_substr (m.addr.take m.real) b n true)⟩ := by
  unfold rb_cMmap_aref mmap_bang_initialize
  rw [GET_MMAP_zero m hpath]
  dsimp only
  rw [if_neg (by
    intro h
    exact h.1 (by decide))]
  have hf : ∀ c sm, mmap_bang_exec { m with count := c, sem := sm } MMAP_RUBY_ORIGIN
      (rb_str_aref_m [VALUE.fixnum b, VALUE.fixnum n]) =
      ⟨{ m with count := c, sem := sm, addr := m.addr, real := m.real },
       Res.ok (rb_str_substr (m.addr.take m.real) b n true)⟩ := by
    intro c sm
    unfold mmap_bang_exec
    rw [mmap_str_ok { m with count := c, sem := sm } _ hpath hfr]
    dsimp only
    have hm : rb_str_aref_m [VALUE.fixnum b, VALUE.fixnum n] (m.addr.take m.real) =
        Res.ok (rb_str_substr (m.addr.take m.real) b n true) := by
      simp only [rb_str_aref_m, NUM2LONG, if_pos hb, if_pos hn]
    rw [hm]
    cases rb_str_substr (m.addr.take m.real) b n true with
    | none => rfl
    | some r =>
      dsimp only
      have hg : GET_MMAP { m with count := c, sem := sm } 0 = none := GET_MMAP_zero _ hpath
      rw [hg]
  have := ipc_ensure_data m (fun x => mmap_bang_exec x MMAP_RUBY_ORIGIN
    (rb_str_aref_m [VALUE.fixnum b, VALUE.fixnum n])) m.addr m.real _ hlock hpath hf
  rw [with_real_self] at this
  exact this

theorem splice_restore (a A : List Nat) (B L real : Nat) (h : B + L ≤ real)
    (hlen : real ≤ a.length)
    (hA : A.take (real - L) = a.take B ++ (a.drop (B + L)).take (real - (B + L))) :
    A.take B ++ ((a.take real).drop B).take L ++ (A.drop B).take (real - L - B) =
      a.take real := by
  have e1 : A.take B = a.take B := by
    have : A.take B = (A.take (real - L)).take B := by
      rw [List.take_take, min_eq_left (by omega)]
    rw [this, hA, List.take_append_of_le_length (by rw [List.length_take]; omega),
      List.take_take, min_self]
  have e2 : (A.drop B).take (real - L - B) = (a.drop (B + L)).take (real - (B + L)) := by
    have : (A.drop B).take (real - L - B) = (A.take (real - L)).drop B := by
      rw [List.drop_take]
    rw [this, hA, List.drop_append_of_le_length (by rw [List.length_take]; omega)]
    have hB : (a.take B).length = B := by rw [List.length_take]; omega
    rw [List.drop_of_length_le (by omega)]
    rfl
  rw [e1, e2]
  apply List.ext_getElem?
  intro i
  simp only [List.getElem?_append, List.length_append, List.length_take, List.length_drop,
    List.getElem?_take, List.getElem?_drop]
  split_ifs <;> first
    | rfl
    | (congr 1; omega)

theorem subpos_some (slen : Nat) (b n b1 l : Int)
    (h : rb_str_subpos slen b n = some (b1, l)) :
    0 ≤ n ∧ resolve_beg slen b = b1 ∧ 0 ≤ b1 ∧ b1 ≤ slen ∧ clamp_len slen b1 n = l ∧ 0 ≤ l ∧
      b1 + l ≤ slen := by
  unfold rb_str_subpos at h
  dsimp only at h
  split_ifs at h with h1 h2 h3 <;>
    (simp only [Option.some.injEq, Prod.mk.injEq] at h
     obtain ⟨rfl, rfl⟩ := h
     unfold resolve_beg clamp_len
     refine ⟨by omega, ?_, ?_, ?_, ?_, ?_, ?_⟩ <;> omega)

theorem slice_bang_found (os : Os) (m : mmap_t) (b n : Int) (portion : List Nat)
    (hpath : m.path ≠ path_t.null) (hfr : m.frozen = false)
    (hfix : m.flag &&& MMAP_RUBY_FIXED = 0) (hlock : lock_free m) (hreal : m.real ≤ m.len)
    (hmap : m.len ≤ m.addr.length) (hsz : (m.real : Int) < 2 ^ 63)
    (hb : -(2 : Int) ^ 31 ≤ b ∧ b < (2 : Int) ^ 31)
    (hn : -(2 : Int) ^ 31 ≤ n ∧ n < (2 : Int) ^ 31)
    (h : rb_str_substr (m.addr.take m.real) b n true = some portion) :
    ∃ (b1 : Int) (s1 s2 : mmap_t),
      rb_str_subpos m.real b n = some (b1, (portion.length : Int)) ∧ 0 ≤ b1 ∧
      rb_cMmap_slice_bang os [VALUE.fixnum b, VALUE.fixnum n] m =
        ⟨s1, Res.ok (some portion)⟩ ∧
      s1.real + portion.length = m.real ∧ s1.len = m.len ∧
      s1.addr.take s1.real =
        (m.addr.take m.real).take b1.toNat ++
          (m.addr.take m.real).drop (b1.toNat + portion.length) ∧
      rb_cMmap_insert os s1 (VALUE.fixnum b1) (VALUE.str portion) = ⟨s2, Res.ok ()⟩ ∧
      s2.real = m.real ∧ s2.addr.take s2.real = m.addr.take m.real := by
  have hslen : (m.addr.take m.real).length = m.real := by
    rw [List.length_take]; omega
  have h0 := h
  unfold rb_str_substr at h
  rw [hslen] at h
  cases hsp : rb_str_subpos m.real b n with
  | none => rw [hsp] at h; cases h
  | some bl =>
    obtain ⟨b1, l⟩ := bl
    rw [hsp] at h
    simp only [Bool.true_eq_false, false_and, if_false, Option.some.injEq] at h
    obtain ⟨k1, k2, k3, k4, k5, k6, k7⟩ := subpos_some m.real b n b1 l hsp
    obtain ⟨B, rfl⟩ := Int.eq_ofNat_of_zero_le k3
    obtain ⟨L, rfl⟩ := Int.eq_ofNat_of_zero_le k6
    simp only [Int.toNat_ofNat] at h ⊢
    have hBL : B + L ≤ m.real := by omega
    have hpl : portion.length = L := by
      rw [← h, List.length_take, List.length_drop, hslen]
      omega
    obtain ⟨A, F, hu, hA, hAl⟩ := mmap_update_ok os m b n [] B L k2 (by omega) k1 k5 hlock hreal
      hmap (Or.inl hfix) (by intro hc; simp only [List.length_nil] at hc; omega)
    simp only [List.length_nil, Nat.add_zero, List.append_nil] at hu hA hAl
    rw [if_neg (by omega)] at hu hAl
    have hsl : rb_cMmap_slice_bang os [VALUE.fixnum b, VALUE.fixnum n] m =
        ⟨{ m with addr := A, file := F, real := m.real - L, len := m.len },
         Res.ok (some portion)⟩ := by
      unfold rb_cMmap_slice_bang
      rw [if_neg (by simp), aref_start_length m b n hpath hfr hlock (by omega) (by omega), h0]
      dsimp only
      unfold rb_cMmap_aset
      rw [GET_MMAP_none m _ hpath hfr]
      simp only [List.cons_append, List.nil_append, NUM2INT, if_pos hb, if_pos hn]
      rw [hu]
    have hB1 : -(2 : Int) ^ 63 ≤ (B : Int) ∧ (B : Int) < (2 : Int) ^ 63 := by
      constructor <;> omega
    have hB2 : ¬ (B : Int) = -1 := by omega
    have hB3 : ¬ (B : Int) < 0 := by omega
    set s1 : mmap_t := { m with addr := A, file := F, real := m.real - L, len := m.len } with hs1
    have hb2 : resolve_beg s1.real (B : Int) = (B : Int) := by
      unfold resolve_beg
      rw [if_neg (by omega)]
    have hl2 : clamp_len s1.real (B : Int) 0 = ((0 : Nat) : Int) := by
      unfold clamp_len
      have : s1.real = m.real - L := rfl
      split_ifs <;> omega
    obtain ⟨A2, F2, hu2, hA2, -⟩ := mmap_update_ok os s1 (B : Int) 0 portion B 0 hb2
      (by show B ≤ m.real - L; omega) (by omega) hl2 (lock_free_data m A F _ _ hlock)
      (by show m.real - L ≤ m.len; omega) hAl (Or.inl hfix)
      (by
        intro hc
        exfalso
        have h1 : s1.len = m.len := rfl
        have h2 : s1.real = m.real - L := rfl
        omega)
    have hins : rb_cMmap_insert os s1 (VALUE.fixnum (B : Int)) (VALUE.str portion) =
        mmap_update os s1 (B : Int) 0 (VALUE.str portion) := by
      have hnl : NUM2LONG (VALUE.fixnum (B : Int)) = Res.ok (B : Int) := by
        simp only [NUM2LONG, if_pos hB1]
      rw [rb_cMmap_insert, hnl]
      dsimp only
      rw [GET_MMAP_none s1 _ hpath hfr]
      dsimp only
      rw [if_neg hB2, if_neg hB3]
    rw [← hins] at hu2
    refine ⟨(B : Int), s1, _, by rw [hpl], k3, hsl, ?_, rfl, ?_, hu2, ?_, ?_⟩
    · show m.real - L + portion.length = m.real
      omega
    · show A.take (m.real - L) = _
      rw [hA, hpl, List.take_take, min_eq_left (by omega), List.drop_take, Int.toNat_ofNat]
    · show s1.real - 0 + portion.length = m.real
      show m.real - L - 0 + portion.length = m.real
      omega
    · have e : s1.real - 0 + portion.length = m.real := by
        show m.real - L - 0 + portion.length = m.real
        omega
      show A2.take (s1.real - 0 + portion.length) = _
      rw [hA2]
      have := splice_restore m.addr A B L m.real hBL (by omega) hA
      rw [← this, ← h]
      show List.take B A ++ _ ++ List.take (m.real - L - (B + 0)) (List.drop (B + 0) A) = _
      simp only [Nat.add_zero]

theorem slice_bang_not_found (os : Os) (m : mmap_t) (b n : Int)
    (hpath : m.path ≠ path_t.null) (hfr : m.frozen = false) (hlock : lock_free m)
    (hb : -(2 : Int) ^ 63 ≤ b ∧ b < (2 : Int) ^ 63)
    (hn : -(2 : Int) ^ 63 ≤ n ∧ n < (2 : Int) ^ 63)
    (h : rb_str_substr (m.addr.take m.real) b n true = none) :
    rb_cMmap_slice_bang os [VALUE.fixnum b, VALUE.fixnum n] m = ⟨m, Res.ok none⟩ := by
  unfold rb_cMmap_slice_bang
  rw [if_neg (by simp), aref_start_length m b n hpath hfr hlock hb hn, h]

theorem slice_bang_long_length (os : Os) (m : mmap_t) (b n : Int) (portion : List Nat)
    (hpath : m.path ≠ path_t.null) (hfr : m.frozen = false) (hlock : lock_free m)
    (hb : -(2 : Int) ^ 31 ≤ b ∧ b < (2 : Int) ^ 31)
    (hn : (2 : Int) ^ 31 ≤ n ∧ n < (2 : Int) ^ 63)
    (h : rb_str_substr (m.addr.take m.real) b n true = some portion) :
    rb_cMmap_slice_bang os [VALUE.fixnum b, VALUE.fixnum n] m =
      ⟨m, Res.raise Raised.RangeError⟩ := by
  unfold rb_cMmap_slice_bang
  rw [if_neg (by simp), aref_start_length m b n hpath hfr hlock (by omega) (by omega), h]
  dsimp only
  unfold rb_cMmap_aset
  rw [GET_MMAP_none m _ hpath hfr]
  have h1 : NUM2INT (VALUE.fixnum b) = Res.ok b := by
    simp only [NUM2INT, if_pos hb]
  have h2 : NUM2INT (VALUE.fixnum n) = Res.raise Raised.RangeError := by
    simp only [NUM2INT]
    rw [if_neg (by omega)]
  simp only [List.cons_append, List.nil_append, h1, h2]

/-! ## Lemmas: the fixed-size flag and the capacity -/

theorem keep_lock (n : Nat) (m : mmap_t) (w : Bool) (h : fixed_cap n m) :
    fixed_cap n (mmap_lock m w).st := by
  unfold fixed_cap
  rw [mmap_lock_flag, mmap_lock_len]
  exact h

theorem keep_unlock (n : Nat) (m : mmap_t) (h : fixed_cap n m) :
    fixed_cap n (mmap_unlock m) := by
  unfold fixed_cap
  rw [mmap_unlock_flag', mmap_unlock_len']
  exact h

theorem expandf_fixed (os : Os) (m : mmap_t) (k : Nat) (h : m.flag &&& MMAP_RUBY_FIXED ≠ 0) :
    mmap_expandf os m k = ⟨m, Res.raise Raised.TypeError⟩ := by
  unfold mmap_expandf
  split_ifs <;> rfl

theorem keep_realloc (os : Os) (n : Nat) (m : mmap_t) (k : Nat) (h : fixed_cap n m) :
    fixed_cap n (mmap_realloc os m k).st := by
  unfold mmap_realloc
  by_cases hk : k > m.len
  · rw [if_pos hk]
    dsimp only
    rw [expandf_fixed os m _ h.1]
    exact h
  · rw [if_neg hk]
    exact h

theorem keep_update (os : Os) (n : Nat) (m : mmap_t) (beg len : Int) (val : VALUE)
    (h : fixed_cap n m) : fixed_cap n (mmap_update os m beg len val).st := by
  unfold mmap_update
  by_cases hl : len < 0
  · rw [if_pos hl]
    exact h
  rw [if_neg hl]
  have h1 := keep_lock n m true h
  cases hL : mmap_lock m true with
  | mk s1 v1 =>
    rw [hL] at h1
    cases v1 with
    | raise e => exact h1
    | ok u =>
      dsimp only
      split_ifs
      · exact keep_unlock n s1 h1
      · cases StringValuePtr val with
        | none => exact keep_unlock n s1 h1
        | some valp =>
          dsimp only
          have h3 := keep_lock n (mmap_unlock s1) true (keep_unlock n s1 h1)
          cases hL2 : mmap_lock (mmap_unlock s1) true with
          | mk s3 v3 =>
            rw [hL2] at h3
            cases v3 with
            | raise e => exact h3
            | ok u2 =>
              dsimp only
              split_ifs with c1 c2
              · exact keep_unlock n s3 h3
              · have h4 := keep_realloc os n s3
                  ((s3.real : Int) + (valp.length : Int) -
                    clamp_len s1.real (resolve_beg s1.real beg) len).toNat h3
                cases hR : mmap_realloc os s3 ((s3.real : Int) + (valp.length : Int) -
                    clamp_len s1.real (resolve_beg s1.real beg) len).toNat with
                | mk s4 v4 =>
                  rw [hR] at h4
                  cases v4 with
                  | raise e => exact h4
                  | ok u3 =>
                    dsimp only
                    cases update_bytes s4.addr s4.real (resolve_beg s1.real beg).toNat
                      (clamp_len s1.real (resolve_beg s1.real beg) len) valp with
                    | none => exact h4
                    | some a => exact keep_unlock n _ h4
              · dsimp only
                cases update_bytes s3.addr s3.real (resolve_beg s1.real beg).toNat
                  (clamp_len s1.real (resolve_beg s1.real beg) len) valp with
                | none => exact h3
                | some a => exact keep_unlock n _ h3

theorem keep_cat (os : Os) (n : Nat) (m : mmap_t) (ptr : List Nat) (h : fixed_cap n m) :
    fixed_cap n (mmap_cat os m ptr).st := by
  unfold mmap_cat
  cases GET_MMAP m MMAP_RUBY_MODIFY with
  | some e => exact h
  | none =>
    dsimp only
    split_ifs
    · have h1 := keep_lock n m true h
      cases hL : mmap_lock m true with
      | mk s1 v1 =>
        rw [hL] at h1
        cases v1 with
        | raise e => exact h1
        | ok u =>
          dsimp only
          rw [if_pos h1.1]
          exact keep_unlock n s1 h1
    · exact h

theorem keep_vunlock {β : Type} (n : Nat) (r : Ret β) (h : fixed_cap n r.st) :
    fixed_cap n (mmap_vunlock r).st := by
  unfold mmap_vunlock
  cases GET_MMAP r.st 0 with
  | some e => exact h
  | none => exact keep_unlock n _ h

theorem keep_ipc_ensure {β : Type} (n : Nat) (m : mmap_t) (f : mmap_t → Ret β)
    (hf : ∀ x, fixed_cap n x → fixed_cap n (f x).st) (h : fixed_cap n m) :
    fixed_cap n (ipc_ensure m f).st := by
  unfold ipc_ensure
  split_ifs
  · have h1 := keep_lock n m true h
    cases hL : mmap_lock m true with
    | mk s1 v1 =>
      rw [hL] at h1
      cases v1 with
      | raise e => exact h1
      | ok u => exact keep_vunlock n _ (hf s1 h1)
  · exact hf m h

theorem keep_bang_exec {β : Type} (n : Nat) (m : mmap_t) (flag : Nat)
    (meth : List Nat → Res (Option β)) (h : fixed_cap n m) :
    fixed_cap n (mmap_bang_exec m flag meth).st := by
  unfold mmap_bang_exec
  repeat' (first | exact h | split)

theorem keep_bang_initialize {β : Type} (n : Nat) (m : mmap_t) (flag : Nat)
    (meth : List Nat → Res (Option β)) (h : fixed_cap n m) :
    fixed_cap n ( mmap_bang_initialize m flag meth).st := by
  unfold mmap_bang_initialize
  cases GET_MMAP m 0 with
  | some e => exact h
  | none =>
    dsimp only
    split_ifs
    · exact h
    · exact keep_ipc_ensure n m _ (fun x hx => keep_bang_exec n x flag meth hx) h

theorem keep_sub_bang_int (n : Nat) (m : mmap_t) (pat : VALUE) (repl : Replacement)
    (h : fixed_cap n m) : fixed_cap n (mmap_sub_bang_int m pat repl).st := by
  unfold mmap_sub_bang_int
  dsimp only
  repeat' (first | exact h | split)

theorem keep_chop_bang_int (n : Nat) (m : mmap_t) (h : fixed_cap n m) :
    fixed_cap n (mmap_chop_bang_int m).st := by
  unfold mmap_chop_bang_int
  repeat' (first | exact h | split)

theorem keep_chomp_bang_int (n : Nat) (argv : List VALUE) (m : mmap_t) (h : fixed_cap n m) :
    fixed_cap n (mmap_chomp_bang_int argv m).st := by
  unfold mmap_chomp_bang_int
  repeat' (first | exact h | split)

theorem keep_squeeze_bang_int (n : Nat) (argv : List VALUE) (m : mmap_t) (h : fixed_cap n m) :
    fixed_cap n (mmap_squeeze_bang_int argv m).st := by
  unfold mmap_squeeze_bang_int
  dsimp only
  repeat' (first | exact h | split)

theorem keep_bang_bytes (n : Nat) (m : mmap_t) (body : List Nat → List Nat × Bool)
    (h : fixed_cap n m) : fixed_cap n (mmap_bang_bytes m body).st := by
  unfold mmap_bang_bytes
  repeat' (first | exact h | split)

theorem keep_aref (n : Nat) (argv : List VALUE) (m : mmap_t) (h : fixed_cap n m) :
    fixed_cap n (rb_cMmap_aref argv m).st :=
  keep_bang_initialize n m _ _ h

theorem keep_index (n : Nat) (indx : VALUE) (m : mmap_t) (h : fixed_cap n m) :
    fixed_cap n (rb_cMmap_index indx m).st :=
  keep_bang_initialize n m _ _ h

theorem keep_subpat_set (os : Os) (n : Nat) (m : mmap_t) (re : Regexp) (offset : Int)
    (val : VALUE) (h : fixed_cap n m) :
    fixed_cap n (mmap_subpat_set os m re offset val).st := by
  unfold mmap_subpat_set
  repeat' (first | exact h | exact keep_update os n m _ _ _ h | split)

theorem keep_aset_num_index (os : Os) (n : Nat) (m : mmap_t) (indx val : VALUE)
    (h : fixed_cap n m) : fixed_cap n (mmap_aset_num_index os m indx val).st := by
  unfold mmap_aset_num_index
  dsimp only
  repeat' (first | exact h | exact keep_update os n m _ _ _ h | split)

theorem keep_aset_m (os : Os) (n : Nat) (m : mmap_t) (indx val : VALUE)
    (h : fixed_cap n m) : fixed_cap n (mmap_aset_m os m indx val).st := by
  unfold mmap_aset_m
  cases GET_MMAP m MMAP_RUBY_MODIFY with
  | some e => exact h
  | none =>
    dsimp only
    cases indx with
    | nil => exact h
    | fixnum i => exact keep_aset_num_index os n m _ _ h
    | regexp re => exact keep_subpat_set os n m re 0 val h
    | str p =>
      dsimp only
      have h1 := keep_index n (VALUE.str p) m h
      cases hI : rb_cMmap_index (VALUE.str p) m with
      | mk m1 v =>
        rw [hI] at h1
        cases v with
        | raise e => exact h1
        | ok o =>
          cases o with
          | none => exact h1
          | some res => exact keep_update os n m1 _ _ _ h1
    | range f l e =>
      dsimp only
      repeat' (first | exact h | exact keep_update os n m _ _ _ h | split)

theorem keep_aset (os : Os) (n : Nat) (argv : List VALUE) (m : mmap_t) (h : fixed_cap n m) :
    fixed_cap n (rb_cMmap_aset os argv m).st := by
  unfold rb_cMmap_aset
  repeat' (first
    | exact h
    | exact keep_update os n m _ _ _ h
    | exact keep_subpat_set os n m _ _ _ h
    | exact keep_aset_m os n m _ _ h
    | split)

theorem keep_slice_bang (os : Os) (n : Nat) (argv : List VALUE) (m : mmap_t)
    (h : fixed_cap n m) : fixed_cap n (rb_cMmap_slice_bang os argv m).st := by
  unfold rb_cMmap_slice_bang
  split_ifs
  · exact h
  · have h1 := keep_aref n argv m h
    cases hA : rb_cMmap_aref argv m with
    | mk m1 v =>
      rw [hA] at h1
      cases v with
      | raise e => exact h1
      | ok o =>
        cases o with
        | none => exact h1
        | some result =>
          dsimp only
          have h2 := keep_aset os n (argv ++ [VALUE.str []]) m1 h1
          cases hS : rb_cMmap_aset os (argv ++ [VALUE.str []]) m1 with
          | mk m2 v2 =>
            rw [hS] at h2
            cases v2 with
            | raise e => exact h2
            | ok u => exact h2

theorem keep_insert (os : Os) (n : Nat) (m : mmap_t) (idx str : VALUE) (h : fixed_cap n m) :
    fixed_cap n (rb_cMmap_insert os m idx str).st := by
  rw [rb_cMmap_insert]
  repeat' (first | exact h | exact keep_update os n m _ _ _ h | split)

theorem keep_append (os : Os) (n : Nat) (m : mmap_t) (str : VALUE) (h : fixed_cap n m) :
    fixed_cap n (mmap_append os m str).st := by
  unfold mmap_append
  repeat' (first | exact h | exact keep_cat os n m _ h | split)

theorem keep_concat (os : Os) (n : Nat) (m : mmap_t) (other : VALUE) (h : fixed_cap n m) :
    fixed_cap n (rb_cMmap_concat os m other).st := by
  unfold rb_cMmap_concat
  repeat' (first
    | exact h
    | exact keep_cat os n m _ h
    | exact keep_append os n m _ h
    | split)

theorem keep_sub_bang (n : Nat) (m : mmap_t) (pat : VALUE) (repl : Replacement)
    (h : fixed_cap n m) : fixed_cap n (rb_cMmap_sub_bang m pat repl).st := by
  unfold rb_cMmap_sub_bang
  cases GET_MMAP m MMAP_RUBY_MODIFY with
  | some e => exact h
  | none => exact keep_ipc_ensure n m _ (fun x hx => keep_sub_bang_int n x pat repl hx) h

theorem keep_chop_bang (n : Nat) (m : mmap_t) (h : fixed_cap n m) :
    fixed_cap n (rb_cMmap_chop_bang m).st := by
  unfold rb_cMmap_chop_bang
  cases GET_MMAP m MMAP_RUBY_MODIFY with
  | some e => exact h
  | none => exact keep_ipc_ensure n m _ (fun x hx => keep_chop_bang_int n x hx) h

theorem keep_chomp_bang (n : Nat) (argv : List VALUE) (m : mmap_t) (h : fixed_cap n m) :
    fixed_cap n (rb_cMmap_chomp_bang argv m).st := by
  unfold rb_cMmap_chomp_bang
  cases GET_MMAP m MMAP_RUBY_MODIFY with
  | some e => exact h
  | none => exact keep_ipc_ensure n m _ (fun x hx => keep_chomp_bang_int n argv x hx) h

theorem keep_squeeze_bang (n : Nat) (argv : List VALUE) (m : mmap_t) (h : fixed_cap n m) :
    fixed_cap n (rb_cMmap_squeeze_bang argv m).st := by
  unfold rb_cMmap_squeeze_bang
  cases GET_MMAP m MMAP_RUBY_MODIFY with
  | some e => exact h
  | none => exact keep_ipc_ensure n m _ (fun x hx => keep_squeeze_bang_int n argv x hx) h

theorem keep_case_bang (n : Nat) (m : mmap_t) (h : fixed_cap n m) :
    fixed_cap n (rb_cMmap_upcase_bang m).st ∧ fixed_cap n (rb_cMmap_downcase_bang m).st ∧
      fixed_cap n (rb_cMmap_capitalize_bang m).st ∧ fixed_cap n (rb_cMmap_swapcase_bang m).st ∧
      fixed_cap n (rb_cMmap_reverse_bang m).st := by
  unfold rb_cMmap_upcase_bang rb_cMmap_downcase_bang rb_cMmap_capitalize_bang
    rb_cMmap_swapcase_bang rb_cMmap_reverse_bang
  cases GET_MMAP m MMAP_RUBY_MODIFY with
  | some e => exact ⟨h, h, h, h, h⟩
  | none =>
    exact ⟨keep_ipc_ensure n m _ (fun x hx => keep_bang_bytes n x _ hx) h,
      keep_ipc_ensure n m _ (fun x hx => keep_bang_bytes n x _ hx) h,
      keep_ipc_ensure n m _ (fun x hx => keep_bang_bytes n x _ hx) h,
      keep_ipc_ensure n m _ (fun x hx => keep_bang_bytes n x _ hx) h,
      keep_ipc_ensure n m _ (fun x hx => keep_bang_bytes n x _ hx) h⟩

theorem keep_strip_bang (n : Nat) (m : mmap_t) (h : fixed_cap n m) :
    fixed_cap n (rb_cMmap_strip_bang m).st := by
  unfold rb_cMmap_strip_bang
  cases GET_MMAP m MMAP_RUBY_MODIFY with
  | some e => exact h
  | none =>
    dsimp only
    have h1 := keep_lock n m true h
    cases hL : mmap_lock m true with
    | mk s1 v1 =>
      rw [hL] at h1
      cases v1 with
      | raise e => exact h1
      | ok u =>
        dsimp only
        repeat' (first | exact h1 | exact keep_unlock n _ h1 | split)

theorem keep_extend (os : Os) (n : Nat) (m : mmap_t) (count : VALUE) (h : fixed_cap n m) :
    fixed_cap n (rb_cMmap_extend os m count).st := by
  unfold rb_cMmap_extend
  cases GET_MMAP m MMAP_RUBY_MODIFY with
  | some e => exact h
  | none =>
    dsimp only
    cases NUM2LONG count with
    | raise e => exact h
    | ok len =>
      dsimp only
      split_ifs
      · rw [expandf_fixed os m _ h.1]
        exact h
      · exact h

theorem keep_msync (os : Os) (n : Nat) (m : mmap_t) (h : fixed_cap n m) :
    fixed_cap n (rb_cMmap_msync os m).st := by
  unfold rb_cMmap_msync
  cases GET_MMAP m MMAP_RUBY_MODIFY with
  | some e => exact h
  | none =>
    dsimp only
    split_ifs
    · exact h
    · rw [expandf_fixed os m _ h.1]
      exact h
    · exact h

theorem fixed_bit (a : Nat) : a &&& MMAP_RUBY_FIXED ≠ 0 ↔ a.testBit 1 = true := by
  have h2 : MMAP_RUBY_FIXED = 2 ^ 1 := rfl
  rw [h2, Nat.and_two_pow]
  cases a.testBit 1 <;> simp

theorem fixed_or (a b : Nat) (h : a &&& MMAP_RUBY_FIXED ≠ 0) :
    (a ||| b) &&& MMAP_RUBY_FIXED ≠ 0 := by
  rw [fixed_bit] at h ⊢
  rw [Nat.testBit_or, h]
  rfl

theorem fixed_or_self (a : Nat) : (a ||| MMAP_RUBY_FIXED) &&& MMAP_RUBY_FIXED ≠ 0 := by
  rw [fixed_bit, Nat.testBit_or]
  have : MMAP_RUBY_FIXED.testBit 1 = true := by decide
  rw [this]
  simp

theorem fixed_clear_lock (a : Nat) (h : a &&& MMAP_RUBY_FIXED ≠ 0) :
    (a ^^^ (a &&& MMAP_RUBY_LOCK)) &&& MMAP_RUBY_FIXED ≠ 0 := by
  rw [fixed_bit] at h ⊢
  rw [Nat.testBit_xor, Nat.testBit_and, h]
  have : MMAP_RUBY_LOCK.testBit 1 = false := by decide
  rw [this]
  rfl

theorem keep_gsub_loop (re : Regexp) (repl : Replacement) (slen n : Nat) :
    ∀ (fuel : Nat) (m : mmap_t) (regs0 : Regs), fixed_cap n m →
      fixed_cap n (mmap_gsub_loop re repl slen fuel m regs0).st := by
  intro fuel
  induction fuel with
  | zero => intro m regs0 h; exact h
  | succ f ih =>
    intro m regs0 h
    rw [mmap_gsub_loop]
    dsimp only
    repeat' (first | exact h | exact ih _ _ h | split)

theorem keep_gsub_bang (n : Nat) (m : mmap_t) (pat : VALUE) (repl : Replacement)
    (h : fixed_cap n m) : fixed_cap n (rb_cMmap_gsub_bang m pat repl).st := by
  unfold rb_cMmap_gsub_bang
  cases GET_MMAP m MMAP_RUBY_MODIFY with
  | some e => exact h
  | none =>
    refine keep_ipc_ensure n m _ (fun x hx => ?_) h
    unfold mmap_gsub_bang_int
    repeat' (first | exact hx | exact keep_gsub_loop _ _ _ n _ _ _ hx | split)

theorem keep_mprotect (os : Os) (n : Nat) (m : mmap_t) (mode : VALUE) (h : fixed_cap n m) :
    fixed_cap n (rb_cMmap_mprotect os m mode).st := by
  unfold rb_cMmap_mprotect
  dsimp only
  repeat' (first | exact h | exact ⟨fixed_or _ _ h.1, h.2⟩ | split)

theorem keep_mlock (os : Os) (n : Nat) (m : mmap_t) (h : fixed_cap n m) :
    fixed_cap n (rb_cMmap_mlock os m).st := by
  unfold rb_cMmap_mlock
  repeat' (first | exact h | exact ⟨fixed_or _ _ h.1, h.2⟩ | split)

theorem keep_munlock (os : Os) (n : Nat) (m : mmap_t) (h : fixed_cap n m) :
    fixed_cap n (rb_cMmap_munlock os m).st := by
  unfold rb_cMmap_munlock
  repeat' (first | exact h | exact ⟨fixed_clear_lock _ h.1, h.2⟩ | split)

theorem keep_unmap (os : Os) (n : Nat) (m : mmap_t) (h : fixed_cap n m) :
    fixed_cap n (rb_cMmap_unmap os m).st := by
  unfold rb_cMmap_unmap
  cases GET_MMAP m 0 with
  | some e => exact h
  | none =>
    dsimp only
    by_cases hp : m.path = path_t.null
    · rw [if_pos hp]
      exact h
    rw [if_neg hp]
    have h1 := keep_lock n m true h
    cases hL : mmap_lock m true with
    | mk s1 v1 =>
      rw [hL] at h1
      cases v1 with
      | raise e => exact h1
      | ok u =>
        dsimp only
        by_cases hm : os.munmap_fails = true
        · simp only [hm, if_true]
          repeat' (first | exact h1 | exact keep_unlock n _ h1 | split)
        · simp only [hm, if_false]
          repeat' (first | exact h1 | exact keep_unlock n _ h1 | split)

theorem keep_semlock (n : Nat) (argv : List VALUE) (m : mmap_t) (h : fixed_cap n m) :
    fixed_cap n (rb_cMmap_semlock argv m (fun x => ⟨x, Res.ok ()⟩)).st := by
  unfold rb_cMmap_semlock
  cases GET_MMAP m 0 with
  | some e => exact h
  | none =>
    dsimp only
    split_ifs
    · exact h
    · exact h
    · have h1 := keep_lock n m ((argv.head?.map RTEST).getD true) h
      cases hL : mmap_lock m ((argv.head?.map RTEST).getD true) with
      | mk s1 v1 =>
        rw [hL] at h1
        cases v1 with
        | raise e => exact h1
        | ok u => exact keep_vunlock n _ h1

theorem keep_call (os : Os) (n : Nat) (m : mmap_t) (c : Call) (h : fixed_cap n m) :
    fixed_cap n (c.run os m) := by
  cases c with
  | aref argv => exact keep_aref n argv m h
  | index indx => exact keep_index n indx m h
  | aset argv => exact keep_aset os n argv m h
  | slice_bang argv => exact keep_slice_bang os n argv m h
  | insert idx str => exact keep_insert os n m idx str h
  | concat other => exact keep_concat os n m other h
  | sub_bang pat repl => exact keep_sub_bang n m pat repl h
  | gsub_bang pat repl => exact keep_gsub_bang n m pat repl h
  | chop_bang => exact keep_chop_bang n m h
  | chomp_bang argv => exact keep_chomp_bang n argv m h
  | squeeze_bang argv => exact keep_squeeze_bang n argv m h
  | strip_bang => exact keep_strip_bang n m h
  | upcase_bang => exact (keep_case_bang n m h).1
  | downcase_bang => exact (keep_case_bang n m h).2.1
  | capitalize_bang => exact (keep_case_bang n m h).2.2.1
  | swapcase_bang => exact (keep_case_bang n m h).2.2.2.1
  | reverse_bang => exact (keep_case_bang n m h).2.2.2.2
  | extend count => exact keep_extend os n m count h
  | msync => exact keep_msync os n m h
  | mprotect mode => exact keep_mprotect os n m mode h
  | mlock => exact keep_mlock os n m h
  | munlock => exact keep_munlock os n m h
  | unmap => exact keep_unmap os n m h
  | semlock argv => exact keep_semlock n argv m h

theorem keep_calls (os : Os) (n : Nat) (calls : List Call) :
    ∀ m : mmap_t, fixed_cap n m → fixed_cap n (run_calls os m calls) := by
  induction calls with
  | nil => intro m h; exact h
  | cons c cs ih =>
    intro m h
    exact ih _ (keep_call os n m c h)

theorem extend_fixed_fails (os : Os) (m : mmap_t) (c : Int)
    (h : m.flag &&& MMAP_RUBY_FIXED ≠ 0) (hc : 0 < c) :
    ∃ e, (rb_cMmap_extend os m (VALUE.fixnum c)).val = Res.raise e := by
  unfold rb_cMmap_extend
  cases GET_MMAP m MMAP_RUBY_MODIFY with
  | some e => exact ⟨e, rfl⟩
  | none =>
    dsimp only
    cases hn : NUM2LONG (VALUE.fixnum c) with
    | raise e => exact ⟨e, rfl⟩
    | ok len =>
      have hl : len = c := by
        simp only [NUM2LONG] at hn
        split_ifs at hn
        simp only [Res.ok.injEq] at hn
        exact hn.symm
      dsimp only
      rw [if_pos (by omega), expandf_fixed os m _ h]
      exact ⟨_, rfl⟩

theorem cat_fixed_fails (os : Os) (m : mmap_t) (bytes : List Nat)
    (h : m.flag &&& MMAP_RUBY_FIXED ≠ 0) (hb : bytes ≠ []) :
    ∃ e, (mmap_cat os m bytes).val = Res.raise e := by
  unfold mmap_cat
  cases GET_MMAP m MMAP_RUBY_MODIFY with
  | some e => exact ⟨e, rfl⟩
  | none =>
    dsimp only
    rw [if_pos (List.length_pos.mpr hb)]
    have h1 : (mmap_lock m true).st.flag &&& MMAP_RUBY_FIXED ≠ 0 := by
      rw [mmap_lock_flag]
      exact h
    cases hL : mmap_lock m true with
    | mk s1 v1 =>
      rw [hL] at h1
      cases v1 with
      | raise e => exact ⟨e, rfl⟩
      | ok u =>
        dsimp only
        rw [if_pos h1]
        exact ⟨_, rfl⟩

theorem concat_fixed_fails (os : Os) (m : mmap_t) (h : m.flag &&& MMAP_RUBY_FIXED ≠ 0) :
    (∀ bytes, bytes ≠ [] → ∃ e, (rb_cMmap_concat os m (VALUE.str bytes)).val = Res.raise e) ∧
    (∀ i : Int, ∃ e, (rb_cMmap_concat os m (VALUE.fixnum i)).val = Res.raise e) := by
  constructor
  · intro bytes hb
    exact cat_fixed_fails os m bytes h hb
  · intro i
    unfold rb_cMmap_concat
    dsimp only
    split_ifs
    · exact cat_fixed_fails os m _ h (by simp)
    · exact ⟨_, rfl⟩

theorem update_fixed_differs (os : Os) (m : mmap_t) (beg len : Int) (v : List Nat)
    (h : m.flag &&& MMAP_RUBY_FIXED ≠ 0)
    (hv : (mmap_update os m beg len (VALUE.str v)).val = Res.ok ()) :
    (v.length : Int) = clamp_len m.real (resolve_beg m.real beg) len := by
  unfold mmap_update at hv
  by_cases hl : len < 0
  · rw [if_pos hl] at hv
    cases hv
  rw [if_neg hl] at hv
  have hf1 := mmap_lock_flag m true
  have hr1 := mmap_lock_real m true
  cases hL : mmap_lock m true with
  | mk s1 v1 =>
    rw [hL] at hv hf1 hr1
    dsimp only at hf1 hr1
    cases v1 with
    | raise e => cases hv
    | ok u =>
      dsimp only at hv
      by_cases c1 : resolve_beg s1.real beg < 0 ∨ (s1.real : Int) < resolve_beg s1.real beg
      · rw [if_pos c1] at hv
        cases hv
      rw [if_neg c1] at hv
      simp only [StringValuePtr] at hv
      have hf3 := mmap_lock_flag (mmap_unlock s1) true
      rw [mmap_unlock_flag', hf1] at hf3
      cases hL2 : mmap_lock (mmap_unlock s1) true with
      | mk s3 v3 =>
        rw [hL2] at hv hf3
        dsimp only at hf3
        cases v3 with
        | raise e => cases hv
        | ok u2 =>
          dsimp only at hv
          by_contra hne
          rw [← hr1] at hne
          rw [if_pos ⟨by rw [hf3]; exact h, hne⟩] at hv
          cases hv

/-! ## Lemmas: rejected arguments, records without the IPC flag, records of objects -/

theorem ipc_ensure_raise {β : Type} (m : mmap_t) (f : mmap_t → Ret β) (e : Raised)
    (hlock : lock_free m) (hpath : m.path ≠ path_t.null)
    (hf : ∀ c sm, f { m with count := c, sem := sm } =
      ⟨{ m with count := c, sem := sm }, Res.raise e⟩) :
    ipc_ensure m f = ⟨m, Res.raise e⟩ := by
  have h := ipc_ensure_data m f m.addr m.real (Res.raise e) hlock hpath
    (fun c sm => by rw [hf c sm])
  rw [h, with_real_self]

theorem int_empty_nil (m : mmap_t) (f : mmap_t → Ret Bool)
    (hlock : lock_free m) (hpath : m.path ≠ path_t.null) (hfr : m.frozen = false)
    (hf : ∀ c sm, f { m with count := c, sem := sm } =
      ⟨{ m with count := c, sem := sm }, Res.ok false⟩) :
    ∃ b st, (match GET_MMAP m MMAP_RUBY_MODIFY with
      | some e => (⟨m, Res.raise e⟩ : Ret Bool)
      | none => ipc_ensure m f) = ⟨st, Res.ok b⟩ ∧ (b = true ↔ content_changed m st) := by
  refine ensure_reports m f m.addr m.real false hlock hpath hfr (fun c sm => by rw [hf c sm]) ?_
  simp only [Bool.false_eq_true, false_iff]
  exact not_content_changed_same m

theorem chomp_empty (m : mmap_t) (argv : List VALUE) (hpath : m.path ≠ path_t.null)
    (hfr : m.frozen = false) (h0 : m.real = 0) (c : Int) (sm : Nat) :
    mmap_chomp_bang_int argv { m with count := c, sem := sm } =
      ⟨{ m with count := c, sem := sm }, Res.ok false⟩ := by
  unfold mmap_chomp_bang_int
  rw [GET_MMAP_none { m with count := c, sem := sm } _ hpath hfr,
    mmap_str_ok { m with count := c, sem := sm } _ hpath hfr]
  dsimp only
  rw [if_pos h0]

theorem chomp_other (m : mmap_t) (argv : List VALUE) (hpath : m.path ≠ path_t.null)
    (hfr : m.frozen = false) (h0 : m.real ≠ 0) (hn : argv.headD rb_rs ≠ VALUE.nil)
    (hs : ∀ rs, argv.headD rb_rs ≠ VALUE.str rs) (c : Int) (sm : Nat) :
    mmap_chomp_bang_int argv { m with count := c, sem := sm } =
      ⟨{ m with count := c, sem := sm }, Res.raise Raised.TypeError⟩ := by
  unfold mmap_chomp_bang_int
  rw [GET_MMAP_none { m with count := c, sem := sm } _ hpath hfr,
    mmap_str_ok { m with count := c, sem := sm } _ hpath hfr]
  dsimp only
  rw [if_neg h0]
  cases hv : argv.headD rb_rs with
  | nil => exact absurd hv hn
  | str rs => exact absurd hv (hs rs)
  | fixnum i => rfl
  | regexp re => rfl
  | range f l e => rfl

theorem squeeze_empty (m : mmap_t) (argv : List VALUE) (hpath : m.path ≠ path_t.null)
    (hfr : m.frozen = false) (h0 : m.real = 0) (c : Int) (sm : Nat) :
    mmap_squeeze_bang_int argv { m with count := c, sem := sm } =
      ⟨{ m with count := c, sem := sm }, Res.ok false⟩ := by
  unfold mmap_squeeze_bang_int
  rw [GET_MMAP_none { m with count := c, sem := sm } _ hpath hfr,
    mmap_str_ok { m with count := c, sem := sm } _ hpath hfr]
  dsimp only
  rw [if_pos h0]

theorem squeeze_other (m : mmap_t) (argv : List VALUE) (hpath : m.path ≠ path_t.null)
    (hfr : m.frozen = false) (h0 : m.real ≠ 0) (hn : argv ≠ [])
    (hs : ∀ sq rest, argv ≠ VALUE.str sq :: rest) (c : Int) (sm : Nat) :
    mmap_squeeze_bang_int argv { m with count := c, sem := sm } =
      ⟨{ m with count := c, sem := sm }, Res.raise Raised.TypeError⟩ := by
  unfold mmap_squeeze_bang_int
  rw [GET_MMAP_none { m with count := c, sem := sm } _ hpath hfr,
    mmap_str_ok { m with count := c, sem := sm } _ hpath hfr]
  dsimp only
  rw [if_neg h0]
  cases argv with
  | nil => exact absurd rfl hn
  | cons a rest =>
    cases a with
    | str sq => exact absurd rfl (hs sq rest)
    | nil => rfl
    | fixnum i => rfl
    | regexp re => rfl
    | range f l e => rfl

theorem strip_fixed (m : mmap_t) (hpath : m.path ≠ path_t.null) (hfr : m.frozen = false)
    (hlock : lock_free m) (hmap : m.real ≤ m.addr.length)
    (hfix : m.flag &&& MMAP_RUBY_FIXED ≠ 0) :
    (strip_ref (m.addr.take m.real) = m.addr.take m.real →
      rb_cMmap_strip_bang m = ⟨m, Res.ok false⟩) ∧
    (strip_ref (m.addr.take m.real) ≠ m.addr.take m.real →
      rb_cMmap_strip_bang m = ⟨m, Res.raise Raised.TypeError⟩) := by
  obtain ⟨c, sm, hL, hU, -⟩ := mmap_lock_of_free m hlock
  obtain ⟨href, hle⟩ := strip_ref_eq (m.addr.take m.real)
  have hcl : (m.addr.take m.real).length = m.real := by
    rw [List.length_take]
    omega
  unfold rb_cMmap_strip_bang
  rw [GET_MMAP_none m _ hpath hfr]
  dsimp only
  rw [hL]
  dsimp only
  rw [if_neg (by omega)]
  rw [hcl] at href hle
  generalize hs : ((m.addr.take m.real).takeWhile ISSPACE).length = s at href hle ⊢
  generalize ht : (((m.addr.take m.real).drop s).reverse.takeWhile ISSPACE).length = tr
    at href hle ⊢
  have hN : (strip_ref (m.addr.take m.real)).length = m.real - tr - s := by
    rw [href, List.length_take, List.length_drop, hcl]
    omega
  have hun : ∀ (A : List Nat) (r : Nat),
      mmap_unlock { m with count := c, sem := sm, addr := A, real := r } =
        { m with addr := A, real := r } := by
    intro A r
    have := mmap_unlock_data { m with count := c, sem := sm } A m.file r m.len
    rw [hU] at this
    exact this
  have hiff : strip_ref (m.addr.take m.real) = m.addr.take m.real ↔ s = 0 ∧ tr = 0 := by
    constructor
    · intro h
      have := congrArg List.length h
      rw [hN, hcl] at this
      omega
    · rintro ⟨h1, h2⟩
      rw [href, h1, h2]
      simp
  constructor
  · intro h
    obtain ⟨h1, h2⟩ := hiff.mp h
    subst h1
    subst h2
    rw [if_neg (by simp), if_neg (by omega), if_neg (by omega)]
    have := hun m.addr (m.real - 0 - 0)
    rw [this]
    have hr : m.real - 0 - 0 = m.real := by omega
    rw [hr, with_real_self]
  · intro h
    have hne : ¬ (s = 0 ∧ tr = 0) := fun hc => h (hiff.mpr hc)
    rw [if_pos ⟨by omega, hfix⟩]
    have := hun m.addr m.real
    rw [with_real_self] at this
    have h2 : ({ m with count := c, sem := sm } : mmap_t) =
        { m with count := c, sem := sm, addr := m.addr, real := m.real } := rfl
    rw [h2, this]

theorem gsub_int_first_round (obj : mmap_t) (re : Regexp) (repl : Replacement) (regs0 : Regs)
    (hpath : obj.path ≠ path_t.null) (hfr : obj.frozen = false)
    (hs : rb_reg_search re (obj.addr.take obj.real) 0 = some regs0)
    (hne : (first_val repl (obj.addr.take obj.real) regs0).length ≠ first_plen regs0)
    (hrej : obj.flag &&& MMAP_RUBY_FIXED ≠ 0 ∨
      (obj.real + (first_val repl (obj.addr.take obj.real) regs0).length +
        (SIZE_MAX1 - first_plen regs0)) % SIZE_MAX1 > obj.len) :
    mmap_gsub_bang_int obj (VALUE.regexp re) repl = ⟨obj, Res.raise Raised.TypeError⟩ := by
  obtain ⟨k, hk⟩ := gsub_fuel_pos obj
  unfold mmap_gsub_bang_int
  rw [GET_MMAP_none obj _ hpath hfr, mmap_str_ok obj _ hpath hfr]
  dsimp only
  simp only [get_pat]
  rw [hs, hk]
  dsimp only
  rw [mmap_gsub_loop]
  unfold first_val first_plen at hne hrej
  dsimp only
  rcases hrej with hfx | hcap
  · rw [if_pos ⟨hne, hfx⟩]
  · by_cases hfx : obj.flag &&& MMAP_RUBY_FIXED ≠ 0
    · rw [if_pos ⟨hne, hfx⟩]
    · rw [if_neg (by tauto), if_pos ⟨hne, hcap⟩]
theorem plain_lock (ct : Int) (sv : Nat) (m : mmap_t) (w : Bool) (h : plain ct sv m) :
    plain ct sv (mmap_lock m w).st := by
  unfold mmap_lock
  rw [if_neg (by rw [h.1]; simp)]
  exact h

theorem plain_unlock (ct : Int) (sv : Nat) (m : mmap_t) (h : plain ct sv m) :
    plain ct sv (mmap_unlock m) := by
  unfold mmap_unlock
  rw [if_neg (by rw [h.1]; simp)]
  exact h

theorem plain_expand_initialize (os : Os) (ct : Int) (sv : Nat) (m : mmap_t) (k : Nat)
    (h : plain ct sv m) : plain ct sv ( mmap_expand_initialize os m k).st := by
  unfold mmap_expand_initialize
  dsimp only
  repeat' (first | exact h | split)

theorem plain_expandf (os : Os) (ct : Int) (sv : Nat) (m : mmap_t) (k : Nat)
    (h : plain ct sv m) : plain ct sv (mmap_expandf os m k).st := by
  unfold mmap_expandf
  split_ifs with h1 h2 h3 h4
  · exact h
  · exact h
  · exact h
  · exact absurd h.1 h4
  · exact plain_expand_initialize os ct sv m k h

theorem plain_realloc (os : Os) (ct : Int) (sv : Nat) (m : mmap_t) (k : Nat)
    (h : plain ct sv m) : plain ct sv (mmap_realloc os m k).st := by
  unfold mmap_realloc
  by_cases hk : k > m.len
  · rw [if_pos hk]
    exact plain_expandf os ct sv m _ h
  · rw [if_neg hk]
    exact h

theorem plain_update (os : Os) (ct : Int) (sv : Nat) (m : mmap_t) (beg len : Int) (val : VALUE)
    (h : plain ct sv m) : plain ct sv (mmap_update os m beg len val).st := by
  unfold mmap_update
  by_cases hl : len < 0
  · rw [if_pos hl]
    exact h
  rw [if_neg hl]
  have h1 := plain_lock ct sv m true h
  cases hL : mmap_lock m true with
  | mk s1 v1 =>
    rw [hL] at h1
    cases v1 with
    | raise e => exact h1
    | ok u =>
      dsimp only
      split_ifs
      · exact plain_unlock ct sv s1 h1
      · cases StringValuePtr val with
        | none => exact plain_unlock ct sv s1 h1
        | some valp =>
          dsimp only
          have h3 := plain_lock ct sv (mmap_unlock s1) true (plain_unlock ct sv s1 h1)
          cases hL2 : mmap_lock (mmap_unlock s1) true with
          | mk s3 v3 =>
            rw [hL2] at h3
            cases v3 with
            | raise e => exact h3
            | ok u2 =>
              dsimp only
              split_ifs with c1 c2
              · exact plain_unlock ct sv s3 h3
              · have h4 := plain_realloc os ct sv s3
                  ((s3.real : Int) + (valp.length : Int) -
                    clamp_len s1.real (resolve_beg s1.real beg) len).toNat h3
                cases hR : mmap_realloc os s3 ((s3.real : Int) + (valp.length : Int) -
                    clamp_len s1.real (resolve_beg s1.real beg) len).toNat with
                | mk s4 v4 =>
                  rw [hR] at h4
                  cases v4 with
                  | raise e => exact h4
                  | ok u3 =>
                    dsimp only
                    cases update_bytes s4.addr s4.real (resolve_beg s1.real beg).toNat
                      (clamp_len s1.real (resolve_beg s1.real beg) len) valp with
                    | none => exact h4
                    | some a => exact plain_unlock ct sv _ h4
              · dsimp only
                cases update_bytes s3.addr s3.real (resolve_beg s1.real beg).toNat
                  (clamp_len s1.real (resolve_beg s1.real beg) len) valp with
                | none => exact h3
                | some a => exact plain_unlock ct sv _ h3

theorem plain_cat (os : Os) (ct : Int) (sv : Nat) (m : mmap_t) (ptr : List Nat)
    (h : plain ct sv m) : plain ct sv (mmap_cat os m ptr).st := by
  unfold mmap_cat
  cases GET_MMAP m MMAP_RUBY_MODIFY with
  | some e => exact h
  | none =>
    dsimp only
    split_ifs
    · have h1 := plain_lock ct sv m true h
      cases hL : mmap_lock m true with
      | mk s1 v1 =>
        rw [hL] at h1
        cases v1 with
        | raise e => exact h1
        | ok u =>
          dsimp only
          split_ifs
          · exact plain_unlock ct sv s1 h1
          · have h2 := plain_realloc os ct sv s1 (s1.real + ptr.length) h1
            cases hR : mmap_realloc os s1 (s1.real + ptr.length) with
            | mk s2 v2 =>
              rw [hR] at h2
              cases v2 with
              | raise e => exact h2
              | ok u2 =>
                dsimp only
                cases memcpy s2.addr s2.real ptr with
                | none => exact h2
                | some a => exact plain_unlock ct sv _ h2
    · exact h

theorem plain_vunlock {β : Type} (ct : Int) (sv : Nat) (r : Ret β) (h : plain ct sv r.st) :
    plain ct sv (mmap_vunlock r).st := by
  unfold mmap_vunlock
  cases GET_MMAP r.st 0 with
  | some e => exact h
  | none => exact plain_unlock ct sv _ h

theorem plain_ipc_ensure {β : Type} (ct : Int) (sv : Nat) (m : mmap_t) (f : mmap_t → Ret β)
    (hf : ∀ x, plain ct sv x → plain ct sv (f x).st) (h : plain ct sv m) :
    plain ct sv (ipc_ensure m f).st := by
  unfold ipc_ensure
  split_ifs
  · have h1 := plain_lock ct sv m true h
    cases hL : mmap_lock m true with
    | mk s1 v1 =>
      rw [hL] at h1
      cases v1 with
      | raise e => exact h1
      | ok u => exact plain_vunlock ct sv _ (hf s1 h1)
  · exact hf m h

theorem plain_bang_exec {β : Type} (ct : Int) (sv : Nat) (m : mmap_t) (flag : Nat)
    (meth : List Nat → Res (Option β)) (h : plain ct sv m) :
    plain ct sv (mmap_bang_exec m flag meth).st := by
  unfold mmap_bang_exec
  repeat' (first | exact h | split)

theorem plain_bang_initialize {β : Type} (ct : Int) (sv : Nat) (m : mmap_t) (flag : Nat)
    (meth : List Nat → Res (Option β)) (h : plain ct sv m) :
    plain ct sv ( mmap_bang_initialize m flag meth).st := by
  unfold mmap_bang_initialize
  cases GET_MMAP m 0 with
  | some e => exact h
  | none =>
    dsimp only
    split_ifs
    · exact h
    · exact plain_ipc_ensure ct sv m _ (fun x hx => plain_bang_exec ct sv x flag meth hx) h

theorem plain_sub_bang_int (ct : Int) (sv : Nat) (m : mmap_t) (pat : VALUE) (repl : Replacement)
    (h : plain ct sv m) : plain ct sv (mmap_sub_bang_int m pat repl).st := by
  unfold mmap_sub_bang_int
  dsimp only
  repeat' (first | exact h | split)

theorem plain_chop_bang_int (ct : Int) (sv : Nat) (m : mmap_t) (h : plain ct sv m) :
    plain ct sv (mmap_chop_bang_int m).st := by
  unfold mmap_chop_bang_int
  repeat' (first | exact h | split)

theorem plain_chomp_bang_int (ct : Int) (sv : Nat) (argv : List VALUE) (m : mmap_t)
    (h : plain ct sv m) :
    plain ct sv (mmap_chomp_bang_int argv m).st := by
  unfold mmap_chomp_bang_int
  repeat' (first | exact h | split)

theorem plain_squeeze_bang_int (ct : Int) (sv : Nat) (argv : List VALUE) (m : mmap_t)
    (h : plain ct sv m) :
    plain ct sv (mmap_squeeze_bang_int argv m).st := by
  unfold mmap_squeeze_bang_int
  dsimp only
  repeat' (first | exact h | split)

theorem plain_bang_bytes (ct : Int) (sv : Nat) (m : mmap_t) (body : List Nat → List Nat × Bool)
    (h : plain ct sv m) : plain ct sv (mmap_bang_bytes m body).st := by
  unfold mmap_bang_bytes
  repeat' (first | exact h | split)

theorem plain_aref (ct : Int) (sv : Nat) (argv : List VALUE) (m : mmap_t) (h : plain ct sv m) :
    plain ct sv (rb_cMmap_aref argv m).st :=
  plain_bang_initialize ct sv m _ _ h

theorem plain_index (ct : Int) (sv : Nat) (indx : VALUE) (m : mmap_t) (h : plain ct sv m) :
    plain ct sv (rb_cMmap_index indx m).st :=
  plain_bang_initialize ct sv m _ _ h

theorem plain_subpat_set (os : Os) (ct : Int) (sv : Nat) (m : mmap_t) (re : Regexp) (offset : Int)
    (val : VALUE) (h : plain ct sv m) :
    plain ct sv (mmap_subpat_set os m re offset val).st := by
  unfold mmap_subpat_set
  repeat' (first | exact h | exact plain_update os ct sv m _ _ _ h | split)

theorem plain_aset_num_index (os : Os) (ct : Int) (sv : Nat) (m : mmap_t) (indx val : VALUE)
    (h : plain ct sv m) : plain ct sv (mmap_aset_num_index os m indx val).st := by
  unfold mmap_aset_num_index
  dsimp only
  repeat' (first | exact h | exact plain_update os ct sv m _ _ _ h | split)

theorem plain_aset_m (os : Os) (ct : Int) (sv : Nat) (m : mmap_t) (indx val : VALUE)
    (h : plain ct sv m) : plain ct sv (mmap_aset_m os m indx val).st := by
  unfold mmap_aset_m
  cases GET_MMAP m MMAP_RUBY_MODIFY with
  | some e => exact h
  | none =>
    dsimp only
    cases indx with
    | nil => exact h
    | fixnum i => exact plain_aset_num_index os ct sv m _ _ h
    | regexp re => exact plain_subpat_set os ct sv m re 0 val h
    | str p =>
      dsimp only
      have h1 := plain_index ct sv (VALUE.str p) m h
      cases hI : rb_cMmap_index (VALUE.str p) m with
      | mk m1 v =>
        rw [hI] at h1
        cases v with
        | raise e => exact h1
        | ok o =>
          cases o with
          | none => exact h1
          | some res => exact plain_update os ct sv m1 _ _ _ h1
    | range f l e =>
      dsimp only
      repeat' (first | exact h | exact plain_update os ct sv m _ _ _ h | split)

theorem plain_aset (os : Os) (ct : Int) (sv : Nat) (argv : List VALUE) (m : mmap_t)
    (h : plain ct sv m) :
    plain ct sv (rb_cMmap_aset os argv m).st := by
  unfold rb_cMmap_aset
  repeat' (first
    | exact h
    | exact plain_update os ct sv m _ _ _ h
    | exact plain_subpat_set os ct sv m _ _ _ h
    | exact plain_aset_m os ct sv m _ _ h
    | split)

theorem plain_slice_bang (os : Os) (ct : Int) (sv : Nat) (argv : List VALUE) (m : mmap_t)
    (h : plain ct sv m) : plain ct sv (rb_cMmap_slice_bang os argv m).st := by
  unfold rb_cMmap_slice_bang
  split_ifs
  · exact h
  · have h1 := plain_aref ct sv argv m h
    cases hA : rb_cMmap_aref argv m with
    | mk m1 v =>
      rw [hA] at h1
      cases v with
      | raise e => exact h1
      | ok o =>
        cases o with
        | none => exact h1
        | some result =>
          dsimp only
          have h2 := plain_aset os ct sv (argv ++ [VALUE.str []]) m1 h1
          cases hS : rb_cMmap_aset os (argv ++ [VALUE.str []]) m1 with
          | mk m2 v2 =>
            rw [hS] at h2
            cases v2 with
            | raise e => exact h2
            | ok u => exact h2

theorem plain_insert (os : Os) (ct : Int) (sv : Nat) (m : mmap_t) (idx str : VALUE)
    (h : plain ct sv m) :
    plain ct sv (rb_cMmap_insert os m idx str).st := by
  rw [rb_cMmap_insert]
  repeat' (first | exact h | exact plain_update os ct sv m _ _ _ h | split)

theorem plain_append (os : Os) (ct : Int) (sv : Nat) (m : mmap_t) (str : VALUE)
    (h : plain ct sv m) :
    plain ct sv (mmap_append os m str).st := by
  unfold mmap_append
  repeat' (first | exact h | exact plain_cat os ct sv m _ h | split)

theorem plain_concat (os : Os) (ct : Int) (sv : Nat) (m : mmap_t) (other : VALUE)
    (h : plain ct sv m) :
    plain ct sv (rb_cMmap_concat os m other).st := by
  unfold rb_cMmap_concat
  repeat' (first
    | exact h
    | exact plain_cat os ct sv m _ h
    | exact plain_append os ct sv m _ h
    | split)

theorem plain_sub_bang (ct : Int) (sv : Nat) (m : mmap_t) (pat : VALUE) (repl : Replacement)
    (h : plain ct sv m) : plain ct sv (rb_cMmap_sub_bang m pat repl).st := by
  unfold rb_cMmap_sub_bang
  cases GET_MMAP m MMAP_RUBY_MODIFY with
  | some e => exact h
  | none => exact plain_ipc_ensure ct sv m _ (fun x hx => plain_sub_bang_int ct sv x pat repl hx) h

theorem plain_chop_bang (ct : Int) (sv : Nat) (m : mmap_t) (h : plain ct sv m) :
    plain ct sv (rb_cMmap_chop_bang m).st := by
  unfold rb_cMmap_chop_bang
  cases GET_MMAP m MMAP_RUBY_MODIFY with
  | some e => exact h
  | none => exact plain_ipc_ensure ct sv m _ (fun x hx => plain_chop_bang_int ct sv x hx) h

theorem plain_chomp_bang (ct : Int) (sv : Nat) (argv : List VALUE) (m : mmap_t)
    (h : plain ct sv m) :
    plain ct sv (rb_cMmap_chomp_bang argv m).st := by
  unfold rb_cMmap_chomp_bang
  cases GET_MMAP m MMAP_RUBY_MODIFY with
  | some e => exact h
  | none => exact plain_ipc_ensure ct sv m _ (fun x hx => plain_chomp_bang_int ct sv argv x hx) h

theorem plain_squeeze_bang (ct : Int) (sv : Nat) (argv : List VALUE) (m : mmap_t)
    (h : plain ct sv m) :
    plain ct sv (rb_cMmap_squeeze_bang argv m).st := by
  unfold rb_cMmap_squeeze_bang
  cases GET_MMAP m MMAP_RUBY_MODIFY with
  | some e => exact h
  | none => exact plain_ipc_ensure ct sv m _ (fun x hx => plain_squeeze_bang_int ct sv argv x hx) h

theorem plain_case_bang (ct : Int) (sv : Nat) (m : mmap_t) (h : plain ct sv m) :
    plain ct sv (rb_cMmap_upcase_bang m).st ∧ plain ct sv (rb_cMmap_downcase_bang m).st ∧
      plain ct sv (rb_cMmap_capitalize_bang m).st ∧ plain ct sv (rb_cMmap_swapcase_bang m).st ∧
      plain ct sv (rb_cMmap_reverse_bang m).st := by
  unfold rb_cMmap_upcase_bang rb_cMmap_downcase_bang rb_cMmap_capitalize_bang
    rb_cMmap_swapcase_bang rb_cMmap_reverse_bang
  cases GET_MMAP m MMAP_RUBY_MODIFY with
  | some e => exact ⟨h, h, h, h, h⟩
  | none =>
    exact ⟨plain_ipc_ensure ct sv m _ (fun x hx => plain_bang_bytes ct sv x _ hx) h,
      plain_ipc_ensure ct sv m _ (fun x hx => plain_bang_bytes ct sv x _ hx) h,
      plain_ipc_ensure ct sv m _ (fun x hx => plain_bang_bytes ct sv x _ hx) h,
      plain_ipc_ensure ct sv m _ (fun x hx => plain_bang_bytes ct sv x _ hx) h,
      plain_ipc_ensure ct sv m _ (fun x hx => plain_bang_bytes ct sv x _ hx) h⟩

theorem plain_strip_bang (ct : Int) (sv : Nat) (m : mmap_t) (h : plain ct sv m) :
    plain ct sv (rb_cMmap_strip_bang m).st := by
  unfold rb_cMmap_strip_bang
  cases GET_MMAP m MMAP_RUBY_MODIFY with
  | some e => exact h
  | none =>
    dsimp only
    have h1 := plain_lock ct sv m true h
    cases hL : mmap_lock m true with
    | mk s1 v1 =>
      rw [hL] at h1
      cases v1 with
      | raise e => exact h1
      | ok u =>
        dsimp only
        repeat' (first | exact h1 | exact plain_unlock ct sv _ h1 | split)

theorem plain_extend (os : Os) (ct : Int) (sv : Nat) (m : mmap_t) (count : VALUE)
    (h : plain ct sv m) : plain ct sv (rb_cMmap_extend os m count).st := by
  unfold rb_cMmap_extend
  cases GET_MMAP m MMAP_RUBY_MODIFY with
  | some e => exact h
  | none =>
    dsimp only
    cases NUM2LONG count with
    | raise e => exact h
    | ok len =>
      dsimp only
      split_ifs
      · have h1 := plain_expandf os ct sv m (m.len + len.toNat) h
        cases hE : mmap_expandf os m (m.len + len.toNat) with
        | mk s1 v1 =>
          rw [hE] at h1
          cases v1 with
          | raise e => exact h1
          | ok u => exact h1
      · exact h

theorem plain_msync (os : Os) (ct : Int) (sv : Nat) (m : mmap_t) (h : plain ct sv m) :
    plain ct sv (rb_cMmap_msync os m).st := by
  unfold rb_cMmap_msync
  cases GET_MMAP m MMAP_RUBY_MODIFY with
  | some e => exact h
  | none =>
    dsimp only
    split_ifs
    · exact h
    · exact plain_expandf os ct sv m _ h
    · exact h

theorem plain_gsub_loop (re : Regexp) (repl : Replacement) (slen : Nat) (ct : Int) (sv : Nat) :
    ∀ (fuel : Nat) (m : mmap_t) (regs0 : Regs), plain ct sv m →
      plain ct sv (mmap_gsub_loop re repl slen fuel m regs0).st := by
  intro fuel
  induction fuel with
  | zero => intro m regs0 h; exact h
  | succ f ih =>
    intro m regs0 h
    rw [mmap_gsub_loop]
    dsimp only
    repeat' (first | exact h | exact ih _ _ h | split)

theorem plain_gsub_bang (ct : Int) (sv : Nat) (m : mmap_t) (pat : VALUE) (repl : Replacement)
    (h : plain ct sv m) : plain ct sv (rb_cMmap_gsub_bang m pat repl).st := by
  unfold rb_cMmap_gsub_bang
  cases GET_MMAP m MMAP_RUBY_MODIFY with
  | some e => exact h
  | none =>
    refine plain_ipc_ensure ct sv m _ (fun x hx => ?_) h
    unfold mmap_gsub_bang_int
    repeat' (first | exact hx | exact plain_gsub_loop _ _ _ ct sv _ _ _ hx | split)

theorem ipc_bit (a : Nat) : a &&& MMAP_RUBY_IPC = 0 ↔ a.testBit 4 = false := by
  have h2 : MMAP_RUBY_IPC = 2 ^ 4 := rfl
  rw [h2, Nat.and_two_pow]
  cases a.testBit 4 <;> simp

theorem ipc_or_fixed (a : Nat) (h : a &&& MMAP_RUBY_IPC = 0) :
    (a ||| MMAP_RUBY_FIXED) &&& MMAP_RUBY_IPC = 0 := by
  rw [ipc_bit] at h ⊢
  rw [Nat.testBit_or, h]
  decide

theorem ipc_or_lock (a : Nat) (h : a &&& MMAP_RUBY_IPC = 0) :
    (a ||| MMAP_RUBY_LOCK) &&& MMAP_RUBY_IPC = 0 := by
  rw [ipc_bit] at h ⊢
  rw [Nat.testBit_or, h]
  decide

theorem ipc_clear_lock (a : Nat) (h : a &&& MMAP_RUBY_IPC = 0) :
    (a ^^^ (a &&& MMAP_RUBY_LOCK)) &&& MMAP_RUBY_IPC = 0 := by
  rw [ipc_bit] at h ⊢
  rw [Nat.testBit_xor, Nat.testBit_and, h]
  rfl

theorem plain_mprotect (os : Os) (ct : Int) (sv : Nat) (m : mmap_t) (mode : VALUE)
    (h : plain ct sv m) : plain ct sv (rb_cMmap_mprotect os m mode).st := by
  unfold rb_cMmap_mprotect
  dsimp only
  repeat' (first | exact h | exact ⟨ipc_or_fixed _ h.1, h.2⟩ | split)

theorem plain_mlock (os : Os) (ct : Int) (sv : Nat) (m : mmap_t) (h : plain ct sv m) :
    plain ct sv (rb_cMmap_mlock os m).st := by
  unfold rb_cMmap_mlock
  repeat' (first | exact h | exact ⟨ipc_or_lock _ h.1, h.2⟩ | split)

theorem plain_munlock (os : Os) (ct : Int) (sv : Nat) (m : mmap_t) (h : plain ct sv m) :
    plain ct sv (rb_cMmap_munlock os m).st := by
  unfold rb_cMmap_munlock
  repeat' (first | exact h | exact ⟨ipc_clear_lock _ h.1, h.2⟩ | split)

theorem plain_unmap (os : Os) (ct : Int) (sv : Nat) (m : mmap_t) (h : plain ct sv m) :
    plain ct sv (rb_cMmap_unmap os m).st := by
  unfold rb_cMmap_unmap
  cases GET_MMAP m 0 with
  | some e => exact h
  | none =>
    dsimp only
    by_cases hp : m.path = path_t.null
    · rw [if_pos hp]
      exact h
    rw [if_neg hp]
    have h1 := plain_lock ct sv m true h
    cases hL : mmap_lock m true with
    | mk s1 v1 =>
      rw [hL] at h1
      cases v1 with
      | raise e => exact h1
      | ok u =>
        dsimp only
        by_cases hm : os.munmap_fails = true
        · simp only [hm, if_true]
          repeat' (first | exact h1 | exact plain_unlock ct sv _ h1 | split)
        · simp only [hm, if_false]
          repeat' (first | exact h1 | exact plain_unlock ct sv _ h1 | split)

theorem plain_semlock (ct : Int) (sv : Nat) (argv : List VALUE) (m : mmap_t) (h : plain ct sv m) :
    plain ct sv (rb_cMmap_semlock argv m (fun x => ⟨x, Res.ok ()⟩)).st := by
  unfold rb_cMmap_semlock
  cases GET_MMAP m 0 with
  | some e => exact h
  | none =>
    dsimp only
    split_ifs
    · exact h
    · exact h
    · have h1 := plain_lock ct sv m ((argv.head?.map RTEST).getD true) h
      cases hL : mmap_lock m ((argv.head?.map RTEST).getD true) with
      | mk s1 v1 =>
        rw [hL] at h1
        cases v1 with
        | raise e => exact h1
        | ok u => exact plain_vunlock ct sv _ h1

theorem plain_call (os : Os) (ct : Int) (sv : Nat) (m : mmap_t) (c : Call)
    (h : plain ct sv m) : plain ct sv (c.run os m) := by
  cases c with
  | aref argv => exact plain_aref ct sv argv m h
  | index indx => exact plain_index ct sv indx m h
  | aset argv => exact plain_aset os ct sv argv m h
  | slice_bang argv => exact plain_slice_bang os ct sv argv m h
  | insert idx str => exact plain_insert os ct sv m idx str h
  | concat other => exact plain_concat os ct sv m other h
  | sub_bang pat repl => exact plain_sub_bang ct sv m pat repl h
  | gsub_bang pat repl => exact plain_gsub_bang ct sv m pat repl h
  | chop_bang => exact plain_chop_bang ct sv m h
  | chomp_bang argv => exact plain_chomp_bang ct sv argv m h
  | squeeze_bang argv => exact plain_squeeze_bang ct sv argv m h
  | strip_bang => exact plain_strip_bang ct sv m h
  | upcase_bang => exact (plain_case_bang ct sv m h).1
  | downcase_bang => exact (plain_case_bang ct sv m h).2.1
  | capitalize_bang => exact (plain_case_bang ct sv m h).2.2.1
  | swapcase_bang => exact (plain_case_bang ct sv m h).2.2.2.1
  | reverse_bang => exact (plain_case_bang ct sv m h).2.2.2.2
  | extend count => exact plain_extend os ct sv m count h
  | msync => exact plain_msync os ct sv m h
  | mprotect mode => exact plain_mprotect os ct sv m mode h
  | mlock => exact plain_mlock os ct sv m h
  | munlock => exact plain_munlock os ct sv m h
  | unmap => exact plain_unmap os ct sv m h
  | semlock argv => exact plain_semlock ct sv argv m h

theorem GET_MMAP_null (m : mmap_t) (t : Nat) (h : m.path = path_t.null) :
    GET_MMAP m t = some Raised.IOError := by
  unfold GET_MMAP
  rw [if_pos h]

theorem null_cat (os : Os) (m : mmap_t) (ptr : List Nat) (h : m.path = path_t.null) :
    mmap_cat os m ptr = ⟨m, Res.raise Raised.IOError⟩ := by
  unfold mmap_cat
  rw [GET_MMAP_null m _ h]

theorem null_call (os : Os) (m : mmap_t) (c : Call) (h : m.path = path_t.null) :
    (c.run os m).path = path_t.null ∧ (c.run os m).count = m.count ∧
      (c.run os m).sem = m.sem := by
  have hg : ∀ t, GET_MMAP m t = some Raised.IOError := fun t => GET_MMAP_null m t h
  have hm : (m.path = path_t.null ∧ m.count = m.count ∧ m.sem = m.sem) := ⟨h, rfl, rfl⟩
  cases c with
  | aref argv =>
    have e : (Call.aref argv).run os m = m := by
      show (rb_cMmap_aref argv m).st = m
      unfold rb_cMmap_aref mmap_bang_initialize
      rw [hg]
    rw [e]
    exact hm
  | index indx =>
    have e : (Call.index indx).run os m = m := by
      show (rb_cMmap_index indx m).st = m
      unfold rb_cMmap_index mmap_bang_initialize
      rw [hg]
    rw [e]
    exact hm
  | aset argv =>
    have e : (Call.aset argv).run os m = m := by
      show (rb_cMmap_aset os argv m).st = m
      unfold rb_cMmap_aset
      rw [hg]
    rw [e]
    exact hm
  | slice_bang argv =>
    have e : (Call.slice_bang argv).run os m = m := by
      show (rb_cMmap_slice_bang os argv m).st = m
      unfold rb_cMmap_slice_bang rb_cMmap_aref mmap_bang_initialize
      rw [hg]
      split_ifs <;> rfl
    rw [e]
    exact hm
  | insert idx str =>
    have e : (Call.insert idx str).run os m = m := by
      show (rb_cMmap_insert os m idx str).st = m
      rw [rb_cMmap_insert]
      cases NUM2LONG idx with
      | raise e => rfl
      | ok pos =>
        dsimp only
        rw [hg]
    rw [e]
    exact hm
  | concat other =>
    have e : (Call.concat other).run os m = m := by
      show (rb_cMmap_concat os m other).st = m
      unfold rb_cMmap_concat mmap_append
      repeat' (first | rfl | (rw [null_cat os m _ h]) | split)
    rw [e]
    exact hm
  | sub_bang pat repl =>
    have e : (Call.sub_bang pat repl).run os m = m := by
      show (rb_cMmap_sub_bang m pat repl).st = m
      unfold rb_cMmap_sub_bang
      rw [hg]
    rw [e]
    exact hm
  | gsub_bang pat repl =>
    have e : (Call.gsub_bang pat repl).run os m = m := by
      show (rb_cMmap_gsub_bang m pat repl).st = m
      unfold rb_cMmap_gsub_bang
      rw [hg]
    rw [e]
    exact hm
  | chop_bang =>
    have e : (Call.chop_bang).run os m = m := by
      show (rb_cMmap_chop_bang m).st = m
      unfold rb_cMmap_chop_bang
      rw [hg]
    rw [e]
    exact hm
  | chomp_bang argv =>
    have e : (Call.chomp_bang argv).run os m = m := by
      show (rb_cMmap_chomp_bang argv m).st = m
      unfold rb_cMmap_chomp_bang
      rw [hg]
    rw [e]
    exact hm
  | squeeze_bang argv =>
    have e : (Call.squeeze_bang argv).run os m = m := by
      show (rb_cMmap_squeeze_bang argv m).st = m
      unfold rb_cMmap_squeeze_bang
      rw [hg]
    rw [e]
    exact hm
  | strip_bang =>
    have e : (Call.strip_bang).run os m = m := by
      show (rb_cMmap_strip_bang m).st = m
      unfold rb_cMmap_strip_bang
      rw [hg]
    rw [e]
    exact hm
  | upcase_bang =>
    have e : (Call.upcase_bang).run os m = m := by
      show (rb_cMmap_upcase_bang m).st = m
      unfold rb_cMmap_upcase_bang
      rw [hg]
    rw [e]
    exact hm
  | downcase_bang =>
    have e : (Call.downcase_bang).run os m = m := by
      show (rb_cMmap_downcase_bang m).st = m
      unfold rb_cMmap_downcase_bang
      rw [hg]
    rw [e]
    exact hm
  | capitalize_bang =>
    have e : (Call.capitalize_bang).run os m = m := by
      show (rb_cMmap_capitalize_bang m).st = m
      unfold rb_cMmap_capitalize_bang
      rw [hg]
    rw [e]
    exact hm
  | swapcase_bang =>
    have e : (Call.swapcase_bang).run os m = m := by
      show (rb_cMmap_swapcase_bang m).st = m
      unfold rb_cMmap_swapcase_bang
      rw [hg]
    rw [e]
    exact hm
  | reverse_bang =>
    have e : (Call.reverse_bang).run os m = m := by
      show (rb_cMmap_reverse_bang m).st = m
      unfold rb_cMmap_reverse_bang
      rw [hg]
    rw [e]
    exact hm
  | extend count =>
    have e : (Call.extend count).run os m = m := by
      show (rb_cMmap_extend os m count).st = m
      unfold rb_cMmap_extend
      rw [hg]
    rw [e]
    exact hm
  | msync =>
    have e : (Call.msync).run os m = m := by
      show (rb_cMmap_msync os m).st = m
      unfold rb_cMmap_msync
      rw [hg]
    rw [e]
    exact hm
  | mprotect mode =>
    have e : (Call.mprotect mode).run os m = m := by
      show (rb_cMmap_mprotect os m mode).st = m
      unfold rb_cMmap_mprotect
      rw [hg]
    rw [e]
    exact hm
  | unmap =>
    have e : (Call.unmap).run os m = m := by
      show (rb_cMmap_unmap os m).st = m
      unfold rb_cMmap_unmap
      rw [hg]
    rw [e]
    exact hm
  | semlock argv =>
    have e : (Call.semlock argv).run os m = m := by
      show (rb_cMmap_semlock argv m (fun x => ⟨x, Res.ok ()⟩)).st = m
      unfold rb_cMmap_semlock
      rw [hg]
    rw [e]
    exact hm
  | mlock =>
    show (rb_cMmap_mlock os m).st.path = _ ∧ (rb_cMmap_mlock os m).st.count = _ ∧
      (rb_cMmap_mlock os m).st.sem = _
    unfold rb_cMmap_mlock
    split_ifs <;> exact hm
  | munlock =>
    show (rb_cMmap_munlock os m).st.path = _ ∧ (rb_cMmap_munlock os m).st.count = _ ∧
      (rb_cMmap_munlock os m).st.sem = _
    unfold rb_cMmap_munlock
    split_ifs <;> exact hm

theorem receivable_call (os : Os) (m : mmap_t) (c : Call) (h : receivable m) :
    receivable (c.run os m) ∧ (c.run os m).count = m.count ∧ (c.run os m).sem = m.sem := by
  by_cases hI : m.flag &&& MMAP_RUBY_IPC = 0
  · have hp := plain_call os m.count m.sem m c ⟨hI, rfl, rfl⟩
    exact ⟨fun hne => absurd hp.1 hne, hp.2.1, hp.2.2⟩
  · have hn := null_call os m c (h hI)
    exact ⟨fun _ => hn.1, hn.2.1, hn.2.2⟩

theorem receivable_calls (os : Os) (calls : List Call) :
    ∀ m : mmap_t, receivable m →
      receivable (run_calls os m calls) ∧ (run_calls os m calls).count = m.count ∧
        (run_calls os m calls).sem = m.sem := by
  induction calls with
  | nil => intro m h; exact ⟨h, rfl, rfl⟩
  | cons c cs ih =>
    intro m h
    have h1 := receivable_call os m c h
    have h2 := ih _ h1.1
    exact ⟨h2.1, h2.2.1.trans h1.2.1, h2.2.2.trans h1.2.2⟩
theorem fixed_clear_tmp (a : Nat) (h : a &&& MMAP_RUBY_FIXED ≠ 0) :
    (a ^^^ (a &&& MMAP_RUBY_TMP)) &&& MMAP_RUBY_FIXED ≠ 0 := by
  rw [fixed_bit] at h ⊢
  rw [Nat.testBit_xor, Nat.testBit_and, h]
  have : MMAP_RUBY_TMP.testBit 1 = false := by decide
  rw [this]
  rfl

theorem initialize_fixed (os : Os) (self : mmap_t) (fname : fname_t) (fs : Option (List Nat))
    (vmode scope : VALUE) (o : Options)
    (hp : ∀ x, (o.process_options x).val = Res.ok () →
      (o.process_options x).st.flag &&& MMAP_RUBY_FIXED ≠ 0) :
    fixed_result ( rb_cMmap_initialize os self fname fs vmode scope (some o)) := by
  unfold rb_cMmap_initialize
  dsimp only
  split
  · intro hv; cases hv
  split
  · intro hv; cases hv
  split
  · intro hv; cases hv
  split
  · intro hv; cases hv
  split
  · intro hv; cases hv
  split
  · intro hv; cases hv
  rename_i opened smode0 pmode0 st_size f hopen hfrz configured m2 size0 offset0 obj hconf
  have hA : (obj = none ∧ m2.flag &&& MMAP_RUBY_FIXED ≠ 0) ∨
      (∃ x, obj = some x ∧ x.flag &&& MMAP_RUBY_FIXED ≠ 0) := by
    split at hconf
    · cases hconf
    · rename_i m1 u hpo
      have h1 := hp _ (by rw [hpo])
      rw [hpo] at h1
      split_ifs at hconf <;> first
        | (cases hconf; done)
        | (cases hconf; exact Or.inl ⟨rfl, h1⟩)
        | (cases hsg : o.ipc_segment with
           | raise e => rw [hsg] at hconf; cases hconf
           | ok seg =>
             rw [hsg] at hconf
             cases hconf
             first
               | exact Or.inr ⟨_, rfl, h1⟩
               | exact Or.inr ⟨_, rfl, fixed_clear_tmp _ h1⟩)
  rcases hA with ⟨rfl, hA⟩ | ⟨x, rfl, hx⟩
  · split
    · intro hv; cases hv
    rename_i m3 smode pmode size offset init hprep
    have hB : m3.flag &&& MMAP_RUBY_FIXED ≠ 0 := by
      split at hprep
      · split_ifs at hprep
        · cases hprep
        · cases hprep
          exact fixed_or _ _ hA
      · split at hprep
        · cases hprep
        · rename_i m3x size1 init1 hext
          have hx : m3x.flag &&& MMAP_RUBY_FIXED ≠ 0 := by
            split_ifs at hext <;> first
              | (cases hext; done)
              | (cases hext; exact hA)
          cases hprep
          split_ifs
          · exact fixed_or _ _ hx
          · exact hx
    repeat' (first | (intro hv; cases hv; done) | split)
    all_goals (intro _; first | exact hB | exact fixed_or _ _ hB)
  · repeat' (first | (intro hv; cases hv; done) | (intro _; exact hx) | split)
theorem ipc_or (a b : Nat) (ha : a &&& MMAP_RUBY_IPC = 0) (hb : b &&& MMAP_RUBY_IPC = 0) :
    (a ||| b) &&& MMAP_RUBY_IPC = 0 := by
  rw [ipc_bit] at ha hb ⊢
  rw [Nat.testBit_or, ha, hb]
  rfl

theorem receivable_ite (c : Prop) [Decidable c] (a b : Ret Unit) (ha : receivable a.st)
    (hb : receivable b.st) : receivable (if c then a else b).st := by
  split_ifs
  · exact ha
  · exact hb

theorem receivable_object (x w : mmap_t) (hx : x.path = path_t.null) :
    receivable (object_record (some x) w) :=
  fun _ => hx

theorem receivable_none (w : mmap_t) (h : w.flag &&& MMAP_RUBY_IPC = 0) :
    receivable (object_record none w) :=
  fun hne => absurd h hne

theorem receivable_frozen (m : mmap_t) (h : receivable m) :
    receivable { m with frozen := true } :=
  h

set_option maxHeartbeats 1000000 in
theorem initialize_receivable (os : Os) (self : mmap_t) (fname : fname_t)
    (fs : Option (List Nat)) (vmode scope : VALUE) (options : Option Options)
    (hs1 : self.path = path_t.null) (hs2 : self.flag &&& MMAP_RUBY_IPC = 0)
    (hp : ∀ o, options = some o → ∀ x, (o.process_options x).st.path = x.path) :
    receivable ( rb_cMmap_initialize os self fname fs vmode scope options).st := by
  have hself : receivable self := fun h => absurd hs2 h
  have hfa : (MMAP_RUBY_FIXED ||| MMAP_RUBY_ANON) &&& MMAP_RUBY_IPC = 0 := by decide
  have hf : MMAP_RUBY_FIXED &&& MMAP_RUBY_IPC = 0 := by decide
  unfold rb_cMmap_initialize
  dsimp only
  split
  · exact hself
  split
  · exact hself
  split
  · exact hself
  split
  · exact hself
  split
  · exact hself
  rename_i opened smode0 pmode0 st_size f hopen hfrz
  split
  · rename_i configured m2 e hconf
    have hA : m2.path = path_t.null := by
      cases options with
      | none => cases hconf
      | some o =>
        dsimp only at hconf
        have h1 := hp o rfl { self with file := f }
        cases hpo : o.process_options { self with file := f } with
        | mk m1 v1 =>
          rw [hpo] at hconf h1
          cases v1 with
          | raise e1 =>
            cases hconf
            exact h1.trans hs1
          | ok u =>
            dsimp only at hconf
            split_ifs at hconf <;> first
              | (cases hconf; done)
              | (cases hconf; exact h1.trans hs1)
              | (cases hsg : o.ipc_segment with
                 | raise e => rw [hsg] at hconf; cases hconf; exact h1.trans hs1
                 | ok seg => rw [hsg] at hconf; cases hconf)
    exact fun _ => hA
  · rename_i configured m2 size0 offset0 obj hconf
    have hA : (obj = none ∧ m2.flag &&& MMAP_RUBY_IPC = 0) ∨
        (∃ x, obj = some x ∧ x.path = path_t.null) := by
      cases options with
      | none =>
        cases hconf
        exact Or.inl ⟨rfl, hs2⟩
      | some o =>
        dsimp only at hconf
        have h1 := hp o rfl { self with file := f }
        cases hpo : o.process_options { self with file := f } with
        | mk m1 v1 =>
          rw [hpo] at hconf h1
          cases v1 with
          | raise e1 => cases hconf
          | ok u =>
            dsimp only at hconf
            split_ifs at hconf with c1 c2 <;> first
              | (cases hconf; done)
              | (cases hconf; exact Or.inl ⟨rfl, by simpa using c2⟩)
              | (cases hsg : o.ipc_segment with
                 | raise e => rw [hsg] at hconf; cases hconf
                 | ok seg =>
                   rw [hsg] at hconf
                   cases hconf
                   exact Or.inr ⟨_, rfl, h1.trans hs1⟩)
    rcases hA with ⟨rfl, hA⟩ | ⟨x, rfl, hx⟩
    · split
      · rename_i prepared m3 e hprep
        have hB : m3.flag &&& MMAP_RUBY_IPC = 0 := by
          split at hprep
          · split_ifs at hprep <;> first
              | (cases hprep; done)
              | (cases hprep; exact hA)
          · split at hprep
            · rename_i m3x e2 hext
              have hx : m3x.flag &&& MMAP_RUBY_IPC = 0 := by
                split_ifs at hext <;> first
                  | (cases hext; done)
                  | (cases hext; exact hA)
              cases hprep
              exact hx
            · cases hprep
        exact fun h => absurd hB h
      · rename_i prepared m3 smode pmode size offset init hprep
        have hB : m3.flag &&& MMAP_RUBY_IPC = 0 := by
          split at hprep
          · split_ifs at hprep <;> first
              | (cases hprep; done)
              | (cases hprep; exact ipc_or _ _ hA hfa)
          · split at hprep
            · cases hprep
            · rename_i m3x size1 init1 hext
              have hx : m3x.flag &&& MMAP_RUBY_IPC = 0 := by
                split_ifs at hext <;> first
                  | (cases hext; done)
                  | (cases hext; exact hA)
              cases hprep
              split_ifs
              · exact ipc_or _ _ hx hf
              · exact hx
        split
        · exact receivable_none _ hB
        · split
          · exact receivable_none _ hB
          · exact receivable_ite _ _ _ (receivable_frozen _ (receivable_none _ hB))
              (receivable_ite _ _ _ (receivable_none _ (ipc_or _ _ hB hf))
                (receivable_none _ hB))
    · split
      · exact receivable_object x _ hx
      · split
        · exact receivable_object x _ hx
        · split
          · exact receivable_object x _ hx
          · exact receivable_ite _ _ _ (receivable_frozen _ (receivable_object x _ hx))
              (receivable_ite _ _ _ (receivable_object x _ hx) (receivable_object x _ hx))

theorem set_length_returns (self : mmap_t) (i : Int) (h1 : 0 < i) (h2 : i < (2 : Int) ^ 32) :
    rb_cMmap_set_length self (VALUE.fixnum i) =
      ⟨{ self with len := i.toNat, flag := self.flag ||| MMAP_RUBY_FIXED }, Res.ok ()⟩ := by
  have hm : i % (2 : Int) ^ 32 = i := Int.emod_eq_of_lt (by omega) h2
  have hn : NUM2UINT (VALUE.fixnum i) = Res.ok i.toNat := by
    simp only [NUM2UINT]
    rw [if_pos ⟨by omega, h2⟩, hm]
  unfold rb_cMmap_set_length
  rw [hn]
  dsimp only
  rw [if_neg (by omega)]

theorem set_offset_returns (self : mmap_t) (i : Int) (h1 : 0 ≤ i) (h2 : i < (2 : Int) ^ 31) :
    rb_cMmap_set_offset self (VALUE.fixnum i) =
      ⟨{ self with offset := i.toNat, flag := self.flag ||| MMAP_RUBY_FIXED }, Res.ok ()⟩ := by
  have hn : NUM2INT (VALUE.fixnum i) = Res.ok i := by
    simp only [NUM2INT]
    rw [if_pos ⟨by omega, h2⟩]
  unfold rb_cMmap_set_offset
  rw [hn]
  dsimp only
  rw [if_neg (by omega)]

/-! ## The claims -/

/-- C1: on a non-fixed, shared, file-backed buffer, a splice with valid `beg`
and `len ≥ 0` whose growth succeeds returns, the new length is
`length - len' + |replacement|` with `len' = min len (length - beg)`, every
byte below `beg` is unchanged and the old bytes from `beg + len'` up to the old
length follow the replacement unchanged and in order. -/
theorem C1_mmap_update_length_and_outside (os : Os) (m : mmap_t) (beg len : Int)
    (v : List Nat)
    (hfixed : m.flag &&& MMAP_RUBY_FIXED = 0) (hshared : m.vscope &&& MAP_SHARED ≠ 0)
    (hpath : m.path = path_t.name) (hreal : m.real ≤ m.len) (hmap : m.len ≤ m.addr.length)
    (hfile : m.offset + m.len ≤ m.file.length) (hlock : lock_free m)
    (hos : grow_ok os) (halign : m.offset % os.pagesize = 0)
    (hlen : 0 ≤ len) (hb0 : 0 ≤ resolve_beg m.real beg)
    (hb1 : resolve_beg m.real beg ≤ m.real) :
    (mmap_update os m beg len (VALUE.str v)).val = Res.ok () ∧
    (mmap_update os m beg len (VALUE.str v)).st.real =
      m.real - min len.toNat (m.real - (resolve_beg m.real beg).toNat) + v.length ∧
    (∀ i, i < (resolve_beg m.real beg).toNat →
      (mmap_update os m beg len (VALUE.str v)).st.addr[i]? = m.addr[i]?) ∧
    (∀ j, j < m.real - ((resolve_beg m.real beg).toNat +
        min len.toNat (m.real - (resolve_beg m.real beg).toNat)) →
      (mmap_update os m beg len (VALUE.str v)).st.addr[
          (resolve_beg m.real beg).toNat + v.length + j]? =
        m.addr[(resolve_beg m.real beg).toNat +
          min len.toNat (m.real - (resolve_beg m.real beg).toNat) + j]?) := by
  have hb : resolve_beg m.real beg = ((resolve_beg m.real beg).toNat : Int) := by omega
  generalize (resolve_beg m.real beg).toNat = b at hb ⊢
  have hbr : b ≤ m.real := by omega
  have hl := clamp_len_eq_min m.real b len hbr hlen
  generalize min len.toNat (m.real - b) = l at hl ⊢
  have hbl : b + l ≤ m.real := by
    obtain ⟨l', h1, h2, -⟩ := clamp_len_bounds m.real b len hbr hlen
    omega
  obtain ⟨A, F, e, tk, -⟩ := mmap_update_ok os m beg len v b l hb hbr hlen hl hlock hreal hmap
    (Or.inl hfixed) (fun _ => ⟨hos, halign, hshared, hfixed, hpath, hfile⟩)
  rw [e]
  refine ⟨rfl, rfl, ?_, ?_⟩
  · intro i hi
    have := congrArg (fun x => x[i]?) tk
    simp only [List.getElem?_take, List.getElem?_append, List.length_take,
      List.length_append] at this
    rw [if_pos (by omega), if_pos (by omega), if_pos (by omega), if_pos (by omega)] at this
    exact this
  · intro j hj
    have := congrArg (fun x => x[b + v.length + j]?) tk
    simp only [List.getElem?_take, List.getElem?_append, List.length_take,
      List.length_append, List.getElem?_drop] at this
    rw [if_pos (by omega), if_neg (by omega), if_pos (by omega)] at this
    rw [this]
    congr 1
    omega

theorem C1_witness :
    (mmap_update (Os.good 16) digits 2 3 (VALUE.str [88, 89])).val = Res.ok () ∧
    (mmap_update (Os.good 16) digits 2 3 (VALUE.str [88, 89])).st.real = 9 :=
  ⟨(C1_mmap_update_length_and_outside (Os.good 16) digits 2 3 [88, 89] (by decide) (by decide)
      (by decide) (by decide) (by decide) (by decide) (by decide) (by decide) (by decide)
      (by decide) (by decide) (by decide)).1,
   (C1_mmap_update_length_and_outside (Os.good 16) digits 2 3 [88, 89] (by decide) (by decide)
      (by decide) (by decide) (by decide) (by decide) (by decide) (by decide) (by decide)
      (by decide) (by decide) (by decide)).2.1⟩

/-- C3: on a fixed-size buffer a splice (valid `beg`, `len ≥ 0`) whose
replacement length differs from the clamped removal length fails with
`TypeError` and leaves the buffer exactly as it was; with equal lengths it
succeeds and neither length nor capacity changes. -/
theorem C3_mmap_update_fixed (os : Os) (m : mmap_t) (beg len : Int) (v : List Nat)
    (hfixed : m.flag &&& MMAP_RUBY_FIXED ≠ 0) (hlock : lock_free m)
    (hreal : m.real ≤ m.len) (hmap : m.len ≤ m.addr.length)
    (hlen : 0 ≤ len) (hb0 : 0 ≤ resolve_beg m.real beg)
    (hb1 : resolve_beg m.real beg ≤ m.real) :
    ((v.length : Int) ≠ clamp_len m.real (resolve_beg m.real beg) len →
      mmap_update os m beg len (VALUE.str v) = ⟨m, Res.raise Raised.TypeError⟩) ∧
    ((v.length : Int) = clamp_len m.real (resolve_beg m.real beg) len →
      (mmap_update os m beg len (VALUE.str v)).val = Res.ok () ∧
      (mmap_update os m beg len (VALUE.str v)).st.real = m.real ∧
      (mmap_update os m beg len (VALUE.str v)).st.len = m.len) := by
  have hb : resolve_beg m.real beg = ((resolve_beg m.real beg).toNat : Int) := by omega
  generalize (resolve_beg m.real beg).toNat = b at hb
  have hbr : b ≤ m.real := by omega
  rw [hb]
  obtain ⟨l, hl, hbl, -⟩ := clamp_len_bounds m.real b len hbr hlen
  rw [hl]
  constructor
  · intro hne
    obtain ⟨c, sm, hL, hU, -⟩ := mmap_lock_of_free m hlock
    unfold mmap_update
    rw [if_neg (not_lt.mpr hlen), hL]
    dsimp only
    rw [hb, hl, if_neg (by omega)]
    simp only [StringValuePtr]
    rw [hU, hL]
    dsimp only
    rw [if_pos ⟨hfixed, hne⟩, hU]
  · intro heq
    have heq' : v.length = l := by exact_mod_cast heq
    obtain ⟨A, F, e, -, -⟩ := mmap_update_ok os m beg len v b l hb hbr hlen hl hlock hreal hmap
      (Or.inr heq') (fun h => absurd h (by omega))
    rw [e]
    refine ⟨rfl, ?_, ?_⟩
    · show m.real - l + v.length = m.real
      omega
    · show (if m.len < m.real - l + v.length then _ else m.len) = m.len
      rw [if_neg (by omega)]

theorem C3_witness :
    mmap_update (Os.good 16) fixed_abc 1 1 (VALUE.str [120, 121]) =
      ⟨fixed_abc, Res.raise Raised.TypeError⟩ ∧
    ((mmap_update (Os.good 16) fixed_abc 1 1 (VALUE.str [120])).val = Res.ok () ∧
      (mmap_update (Os.good 16) fixed_abc 1 1 (VALUE.str [120])).st.real = fixed_abc.real ∧
      (mmap_update (Os.good 16) fixed_abc 1 1 (VALUE.str [120])).st.len = fixed_abc.len) :=
  ⟨(C3_mmap_update_fixed (Os.good 16) fixed_abc 1 1 [120, 121] (by decide) (by decide)
      (by decide) (by decide) (by decide) (by decide) (by decide)).1 (by decide),
   (C3_mmap_update_fixed (Os.good 16) fixed_abc 1 1 [120] (by decide) (by decide)
      (by decide) (by decide) (by decide) (by decide) (by decide)).2 (by decide)⟩

/-- C4: a splice fails with `IndexError` exactly when `len < 0` or `beg`,
counted from the end when negative, is not in `[0, length]`; the buffer is
then unchanged.  `beg = length` and `beg = -length` are accepted,
`beg = length + 1` and `beg = -length - 1` are rejected. -/
theorem C4_mmap_update_index_error (os : Os) (m : mmap_t) (beg len : Int) (val : VALUE)
    (hlock : lock_free m) :
    ((mmap_update os m beg len val).val = Res.raise Raised.IndexError ↔
      (len < 0 ∨ resolve_beg m.real beg < 0 ∨ (m.real : Int) < resolve_beg m.real beg)) ∧
    ((mmap_update os m beg len val).val = Res.raise Raised.IndexError →
      (mmap_update os m beg len val).st = m) ∧
    (0 ≤ len → (mmap_update os m m.real len val).val ≠ Res.raise Raised.IndexError) ∧
    (0 ≤ len → (mmap_update os m (-(m.real : Int)) len val).val ≠
      Res.raise Raised.IndexError) ∧
    (mmap_update os m (m.real + 1) len val).val = Res.raise Raised.IndexError ∧
    (mmap_update os m (-(m.real : Int) - 1) len val).val = Res.raise Raised.IndexError := by
  have key := fun b l => mmap_update_index_error os m b l val hlock
  refine ⟨(key beg len).1, (key beg len).2, ?_, ?_, ?_, ?_⟩
  · intro hlen h
    have := ((key m.real len).1.mp h)
    unfold resolve_beg at this
    split_ifs at this <;> omega
  · intro hlen h
    have := ((key (-(m.real : Int)) len).1.mp h)
    unfold resolve_beg at this
    split_ifs at this <;> omega
  · apply (key (m.real + 1) len).1.mpr
    unfold resolve_beg
    split_ifs <;> omega
  · apply (key (-(m.real : Int) - 1) len).1.mpr
    unfold resolve_beg
    split_ifs <;> omega

theorem C4_witness :
    (mmap_update (Os.good 16) digits 10 0 (VALUE.str [65])).val ≠ Res.raise Raised.IndexError ∧
    (mmap_update (Os.good 16) digits (-10) 0 (VALUE.str [65])).val ≠
      Res.raise Raised.IndexError ∧
    (mmap_update (Os.good 16) digits 11 0 (VALUE.str [65])).val = Res.raise Raised.IndexError ∧
    (mmap_update (Os.good 16) digits (-11) 0 (VALUE.str [65])).val =
      Res.raise Raised.IndexError :=
  ⟨(C4_mmap_update_index_error (Os.good 16) digits 0 0 (VALUE.str [65]) (by decide)).2.2.1
      (by decide),
   (C4_mmap_update_index_error (Os.good 16) digits 0 0 (VALUE.str [65]) (by decide)).2.2.2.1
      (by decide),
   (C4_mmap_update_index_error (Os.good 16) digits 0 0 (VALUE.str [65]) (by decide)).2.2.2.2.1,
   (C4_mmap_update_index_error (Os.good 16) digits 0 0 (VALUE.str [65]) (by decide)).2.2.2.2.2⟩

/-- C5: a splice whose range runs past the logical end gives exactly the
outcome (content, length, capacity, result) of the splice with
`len = length - beg`; it raises no `IndexError`, and on a non-fixed, shared,
file-backed buffer whose growth succeeds it returns. -/
theorem C5_mmap_update_clamps_range (os : Os) (m : mmap_t) (beg len : Int) (val : VALUE)
    (hb0 : 0 ≤ resolve_beg m.real beg) (hb1 : resolve_beg m.real beg ≤ m.real)
    (hover : (m.real : Int) < resolve_beg m.real beg + len) :
    mmap_update os m beg len val =
      mmap_update os m beg (m.real - resolve_beg m.real beg) val ∧
    (lock_free m → (mmap_update os m beg len val).val ≠ Res.raise Raised.IndexError) ∧
    (∀ v, val = VALUE.str v → m.flag &&& MMAP_RUBY_FIXED = 0 → m.vscope &&& MAP_SHARED ≠ 0 →
      m.path = path_t.name → m.real ≤ m.len → m.len ≤ m.addr.length →
      m.offset + m.len ≤ m.file.length → lock_free m → grow_ok os →
      m.offset % os.pagesize = 0 → (mmap_update os m beg len val).val = Res.ok ()) := by
  refine ⟨mmap_update_clamp_eq os m beg len val hb1 hover, ?_, ?_⟩
  · intro hlock h
    have := (mmap_update_index_error os m beg len val hlock).1.mp h
    omega
  · intro v hv hfixed hshared hpath hreal hmap hfile hlock hos halign
    subst hv
    have hb : resolve_beg m.real beg = ((resolve_beg m.real beg).toNat : Int) := by omega
    obtain ⟨l, hl, -, -⟩ := clamp_len_bounds m.real (resolve_beg m.real beg).toNat len
      (by omega) (by omega)
    obtain ⟨A, F, e, -, -⟩ := mmap_update_ok os m beg len v _ l hb (by omega) (by omega) hl
      hlock hreal hmap (Or.inl hfixed) (fun _ => ⟨hos, halign, hshared, hfixed, hpath, hfile⟩)
    rw [e]

theorem C5_witness :
    mmap_update (Os.good 16) digits 8 5 (VALUE.str [88]) =
      mmap_update (Os.good 16) digits 8 (digits.real - resolve_beg digits.real 8)
        (VALUE.str [88]) ∧
    (mmap_update (Os.good 16) digits 8 5 (VALUE.str [88])).val = Res.ok () :=
  ⟨(C5_mmap_update_clamps_range (Os.good 16) digits 8 5 (VALUE.str [88]) (by decide) (by decide)
      (by decide)).1,
   (C5_mmap_update_clamps_range (Os.good 16) digits 8 5 (VALUE.str [88]) (by decide) (by decide)
      (by decide)).2.2 [88] rfl (by decide) (by decide) (by decide) (by decide) (by decide)
      (by decide) (by decide) (by decide) (by decide)⟩

/-- C6 (code defect): `slice!` on a read-only buffer returns `nil` without the
read-only error when the portion is not found, while it raises the read-only
error when the portion exists, as `chop!` and `[]=` always do. -/
theorem C6_slice_bang_frozen_returns_nil :
    (rb_cMmap_slice_bang (Os.good 16) [VALUE.fixnum 5] frozen_ab).val = Res.ok none ∧
    (rb_cMmap_slice_bang (Os.good 16) [VALUE.fixnum 5] frozen_ab).st = frozen_ab ∧
    (rb_cMmap_slice_bang (Os.good 16) [VALUE.fixnum 1] frozen_ab).val =
      Res.raise Raised.FrozenError ∧
    (rb_cMmap_aset (Os.good 16) [VALUE.fixnum 5, VALUE.str []] frozen_ab).val =
      Res.raise Raised.FrozenError ∧
    (rb_cMmap_chop_bang frozen_ab).val = Res.raise Raised.FrozenError := by
  decide

/-- C7 (code defect): `sub!` with a replacement longer than the match leaves
`real = 4` above `len = 2`. -/
theorem C7_sub_bang_exceeds_capacity :
    (rb_cMmap_sub_bang file_ab (VALUE.str [97]) (Replacement.literal [120, 121, 122])).val =
      Res.ok true ∧
    (rb_cMmap_sub_bang file_ab (VALUE.str [97]) (Replacement.literal [120, 121, 122])).st.real
      = 4 ∧
    (rb_cMmap_sub_bang file_ab (VALUE.str [97]) (Replacement.literal [120, 121, 122])).st.len
      = 2 := by
  decide

/-- C8 (code defect): `chop!` on a fixed-size buffer shortens it from 2 to 1
and reports success. -/
theorem C8_chop_bang_changes_fixed_length :
    fixed_ab.flag &&& MMAP_RUBY_FIXED ≠ 0 ∧
    (rb_cMmap_chop_bang fixed_ab).val = Res.ok true ∧
    (rb_cMmap_chop_bang fixed_ab).st.real = 1 ∧ fixed_ab.real = 2 := by
  decide

/-- C9: `mmap_realloc` changes nothing when the required size fits the
capacity; otherwise, when the remap succeeds, the new capacity is exactly
`max required (capacity + increment)`, hence at least both. -/
theorem C9_mmap_realloc_capacity (os : Os) (m : mmap_t) (required : Nat) :
    (required ≤ m.len → mmap_realloc os m required = ⟨m, Res.ok ()⟩) ∧
    (m.len < required → (mmap_realloc os m required).val = Res.ok () →
      (mmap_realloc os m required).st.len = max required (m.len + m.incr) ∧
      required ≤ (mmap_realloc os m required).st.len ∧
      m.len + m.incr ≤ (mmap_realloc os m required).st.len) := by
  constructor
  · intro h
    unfold mmap_realloc
    rw [if_neg (by omega)]
  · intro h hok
    rcases mmap_realloc_inv os m required hok with ⟨h1, -⟩ | ⟨-, ⟨c, sm, e⟩, -⟩
    · omega
    · rw [e]
      exact ⟨rfl, le_max_left _ _, le_max_right _ _⟩

theorem C9_witness :
    (mmap_realloc (Os.good 16) digits 12).st.len = max 12 (digits.len + digits.incr) ∧
    12 ≤ (mmap_realloc (Os.good 16) digits 12).st.len ∧
    digits.len + digits.incr ≤ (mmap_realloc (Os.good 16) digits 12).st.len :=
  (C9_mmap_realloc_capacity (Os.good 16) digits 12).2 (by decide) (by decide)

/-- C10 (flush), as the code behaves: when `flush` succeeds on a shared,
file-backed buffer whose length is below its capacity, the capacity
afterwards equals the length, and the length and the content are as before;
when the length equals the capacity, or the scope is exactly `MAP_PRIVATE`,
`flush` changes nothing.  A private mapping whose scope has a further bit
(`MAP_PRIVATE | MAP_NORESERVE`, which `new` accepts) is not exempt: on the
file `ab` mapped so, after `self[0, 1] = "X"` and `chop!`, `flush` returns
with the capacity cut from 2 to 1, the file truncated to one byte and the
private byte `X` replaced by the byte of the file. -/
theorem C10_msync_shrinks_to_length (os : Os) (m : mmap_t) :
    (m.vscope &&& MAP_SHARED ≠ 0 → m.offset = 0 → m.len ≤ m.addr.length →
      m.len ≤ m.file.length → m.real < m.len → (rb_cMmap_msync os m).val = Res.ok () →
      (rb_cMmap_msync os m).st.len = m.real ∧ (rb_cMmap_msync os m).st.real = m.real ∧
      (rb_cMmap_msync os m).st.addr.take m.real = m.addr.take m.real) ∧
    (m.real = m.len ∨ m.vscope = MAP_PRIVATE → (rb_cMmap_msync os m).st = m) ∧
    ( rb_cMmap_initialize (Os.good 16) rb_cMmap_allocate fname_t.path (some [97, 98])
        (VALUE.str [114, 119]) (VALUE.fixnum (MAP_PRIVATE ||| MAP_NORESERVE : Nat)) none =
      ⟨private_ab, Res.ok ()⟩ ∧
     rb_cMmap_aset (Os.good 16) [VALUE.fixnum 0, VALUE.fixnum 1, VALUE.str [88]] private_ab =
      ⟨private_xb, Res.ok ()⟩ ∧
     rb_cMmap_chop_bang private_xb = ⟨{ private_xb with real := 1 }, Res.ok true⟩ ∧
     rb_cMmap_msync (Os.good 16) { private_xb with real := 1 } =
      ⟨{ private_xb with addr := [97, 0, 0, 0, 0, 0, 0, 0, 0, 0, 0, 0, 0, 0, 0, 0],
                         file := [97], len := 1, real := 1 },
       Res.ok ()⟩) := by
  refine ⟨?_, ?_, by decide⟩
  · intro hshared hoff hmap hfile hlt hok
    cases hg : GET_MMAP m MMAP_RUBY_MODIFY with
    | some e =>
      unfold rb_cMmap_msync at hok
      rw [hg] at hok
      cases hok
    | none =>
      unfold rb_cMmap_msync at hok ⊢
      rw [hg] at hok ⊢
      dsimp only at hok ⊢
      by_cases hs : os.msync_fails = true
      · rw [if_pos hs] at hok
        cases hok
      rw [if_neg hs, if_pos ⟨hlt, not_private_of_shared _ hshared⟩] at hok ⊢
      obtain ⟨⟨c, sm, e⟩, hp, -, -⟩ := mmap_expandf_inv os m m.real hok
      rw [e]
      exact ⟨rfl, rfl, map_pages_shrunk_take os.pagesize m m.real hp hshared hoff hmap hfile hlt⟩
  · intro heq
    unfold rb_cMmap_msync
    cases GET_MMAP m MMAP_RUBY_MODIFY with
    | some e => rfl
    | none =>
      dsimp only
      split_ifs with h1 h2
      · rfl
      · rcases heq with h | h
        · omega
        · exact absurd h h2.2
      · rfl

/-- C10 at the buffer `01XY56789` of length 9 and capacity 10, which `flush`
shrinks to capacity 9, and at the file `ab` mapped with the scope
`MAP_PRIVATE` after `chop!`, which `flush` leaves alone. -/
theorem C10_witness :
    ((rb_cMmap_msync (Os.good 16) digits9).st.len = digits9.real ∧
      (rb_cMmap_msync (Os.good 16) digits9).st.real = digits9.real ∧
      (rb_cMmap_msync (Os.good 16) digits9).st.addr.take digits9.real =
        digits9.addr.take digits9.real) ∧
    (rb_cMmap_msync (Os.good 16) { file_ab with vscope := MAP_PRIVATE, real := 1 }).st =
      { file_ab with vscope := MAP_PRIVATE, real := 1 } :=
  ⟨(C10_msync_shrinks_to_length (Os.good 16) digits9).1 (by decide) (by decide) (by decide)
    (by decide) (by decide) (by decide),
   (C10_msync_shrinks_to_length (Os.good 16)
    { file_ab with vscope := MAP_PRIVATE, real := 1 }).2.1 (Or.inr rfl)⟩

/-- C11 (round trip): inserting the bytes `x` at index 0 with
`mmap_update` and then replacing the first `x.length` bytes by the empty
string succeeds twice and leaves the original length and the original
content.  The buffer is not fixed-size (or `x` is empty), its lock can be
taken and it can grow when the insertion needs more capacity. -/
theorem C11_round_trip (os : Os) (m : mmap_t) (x : List Nat)
    (hlock : lock_free m) (hreal : m.real ≤ m.len) (hmap : m.len ≤ m.addr.length)
    (hfix : m.flag &&& MMAP_RUBY_FIXED = 0 ∨ x.length = 0)
    (hgrow : m.len < m.real + x.length → can_grow os m) :
    ∃ s1 s2, mmap_update os m 0 0 (VALUE.str x) = ⟨s1, Res.ok ()⟩ ∧
      mmap_update os s1 0 x.length (VALUE.str []) = ⟨s2, Res.ok ()⟩ ∧
      s2.real = m.real ∧ s2.addr.take s2.real = m.addr.take m.real := by
  have hb : resolve_beg m.real 0 = ((0 : Nat) : Int) := by simp [resolve_beg]
  have hl : clamp_len m.real ((0 : Nat) : Int) 0 = ((0 : Nat) : Int) := by
    unfold clamp_len; split_ifs <;> omega
  obtain ⟨A, F, h1, hA, hAl⟩ := mmap_update_ok os m 0 0 x 0 0 hb (by omega) (by omega) hl hlock
    hreal hmap (by rcases hfix with h | h; exact Or.inl h; exact Or.inr h)
    (by intro h; exact hgrow (by omega))
  simp only [Nat.sub_zero, Nat.zero_add, List.take_zero, List.nil_append, List.drop_zero,
    Nat.add_zero] at h1 hA hAl
  set N := (if m.len < m.real + x.length then max (m.real + x.length) (m.len + m.incr)
    else m.len) with hN
  set s1 : mmap_t := { m with addr := A, file := F, real := m.real + x.length, len := N } with hs1
  have hb2 : resolve_beg s1.real 0 = ((0 : Nat) : Int) := by simp [resolve_beg]
  have hl2 : clamp_len s1.real ((0 : Nat) : Int) (x.length : Int) = ((x.length : Nat) : Int) := by
    unfold clamp_len; split_ifs with hc
    · simp only [hs1] at hc; omega
    · rfl
  have hrN : m.real + x.length ≤ N := by
    rw [hN]; split_ifs with hc
    · exact le_max_left _ _
    · omega
  obtain ⟨A2, F2, h2, hA2, -⟩ := mmap_update_ok os s1 0 x.length [] 0 x.length hb2
    (by omega) (by omega) hl2 (lock_free_data m A F _ N hlock) hrN hAl
    (by rcases hfix with h | h; exact Or.inl h; exact Or.inr (by simp [h]))
    (by intro h; simp only [hs1, List.length_nil] at h; omega)
  refine ⟨s1, _, h1, h2, ?_, ?_⟩
  · simp [hs1]
  · simp only [hs1, List.length_nil, Nat.add_zero, Nat.add_sub_cancel, List.take_zero,
      List.nil_append, Nat.zero_add, List.append_nil] at hA2 ⊢
    rw [hA2]
    have : A.drop x.length = (A.take (m.real + x.length)).drop x.length ++ A.drop (m.real + x.length) := by
      rw [List.drop_take]
      conv_lhs => rw [← List.take_append_drop (m.real) (A.drop x.length)]
      rw [List.drop_drop]
      congr 2 <;> omega
    rw [this, hA, List.drop_left,
      List.take_append_of_le_length (by rw [List.length_take]; omega), List.take_take]
    simp

theorem C11_witness :
    ∃ s1 s2, mmap_update (Os.good 16) digits 0 0 (VALUE.str [88, 89]) = ⟨s1, Res.ok ()⟩ ∧
      mmap_update (Os.good 16) s1 0 ([88, 89] : List Nat).length (VALUE.str []) =
        ⟨s2, Res.ok ()⟩ ∧
      s2.real = digits.real ∧ s2.addr.take s2.real = digits.addr.take digits.real :=
  C11_round_trip (Os.good 16) digits [88, 89] (by decide) (by decide) (by decide)
    (Or.inl (by decide))
    (fun _ => ⟨by decide, by decide, by decide, by decide, by decide, by decide⟩)

/-- C12 (scenario): on the buffer `0123456789` with increment 4096,
`mmap_update` at (2, 3) with `XY` gives `01XY56789` of length 9, and then
at (9, 0) with `ABC` gives `01XY56789ABC` of length 12 with a capacity of at
least 12 that is mapped. -/
theorem C12_scenario :
    ∃ s1 s2, mmap_update (Os.good 16) digits 2 3 (VALUE.str [88, 89]) = ⟨s1, Res.ok ()⟩ ∧
      s1.real = 9 ∧ s1.addr.take s1.real = [48, 49, 88, 89, 53, 54, 55, 56, 57] ∧
      mmap_update (Os.good 16) s1 9 0 (VALUE.str [65, 66, 67]) = ⟨s2, Res.ok ()⟩ ∧
      s2.real = 12 ∧
      s2.addr.take s2.real = [48, 49, 88, 89, 53, 54, 55, 56, 57, 65, 66, 67] ∧
      12 ≤ s2.len ∧ s2.len ≤ s2.addr.length := by
  have h1 : mmap_update (Os.good 16) digits 2 3 (VALUE.str [88, 89]) = ⟨digits9, Res.ok ()⟩ := by
    decide
  obtain ⟨A, F, h2, hA, hAl⟩ := mmap_update_ok (Os.good 16) digits9 9 0 [65, 66, 67] 9 0
    (by decide) (by decide) (by decide) (by decide) (by decide) (by decide) (by decide)
    (Or.inl (by decide))
    (fun _ => ⟨by decide, by decide, by decide, by decide, by decide, by decide⟩)
  refine ⟨digits9, _, h1, by decide, by decide, h2, rfl, ?_, ?_, ?_⟩
  · show A.take (digits9.real - 0 + [65, 66, 67].length) = _
    rw [hA]
    decide
  · show 12 ≤ (if digits9.len < digits9.real - 0 + [65, 66, 67].length then
      max (digits9.real - 0 + [65, 66, 67].length) (digits9.len + digits9.incr) else digits9.len)
    decide
  · exact hAl

/-- C13 (amortised growth): on a resizable file-backed buffer with an
increment of 4096, appending one byte with `concat` succeeds, adds one to
the length, raises the capacity by exactly 4096 when the length equalled the
capacity before the call and leaves the capacity alone otherwise, and the
buffer is again such a buffer; so a run of single-byte appends ends with a
length that is the sum, within a capacity that was raised by the least
number of increments that holds it. -/
theorem C13_single_byte_appends (os : Os) (m : mmap_t) (bs : List Nat)
    (h : resizable os m) (hincr : m.incr = EXP_INCR_SIZE) :
    (∀ c : Nat,
      (rb_cMmap_concat os m (VALUE.str [c])).val = Res.ok () ∧
      (rb_cMmap_concat os m (VALUE.str [c])).st.real = m.real + 1 ∧
      (rb_cMmap_concat os m (VALUE.str [c])).st.len =
        (if m.real = m.len then m.len + EXP_INCR_SIZE else m.len) ∧
      resizable os (rb_cMmap_concat os m (VALUE.str [c])).st ∧
      (rb_cMmap_concat os m (VALUE.str [c])).st.incr = EXP_INCR_SIZE) ∧
    (concat_each os m bs).val = Res.ok () ∧
    (concat_each os m bs).st.real = m.real + bs.length ∧
    (concat_each os m bs).st.len =
      m.len + EXP_INCR_SIZE *
        ((m.real + bs.length - m.len + (EXP_INCR_SIZE - 1)) / EXP_INCR_SIZE) ∧
    (concat_each os m bs).st.real ≤ (concat_each os m bs).st.len := by
  obtain ⟨r1, r2, r3, -⟩ := concat_each_ok os bs m h hincr
  refine ⟨?_, r1, r2, r3, ?_⟩
  · intro c
    obtain ⟨st, e, h1, h2, -, h4, h5⟩ := concat_byte_ok os m c h hincr
    rw [e]
    exact ⟨rfl, h1, h2, h4, h5⟩
  · rw [r2, r3]
    have := h.2.2.2.1
    simp only [EXP_INCR_SIZE]
    omega

theorem C13_witness :
    resizable (Os.good 16) empty_file ∧
    (concat_each (Os.good 16) empty_file (List.replicate 5000 33)).val = Res.ok () ∧
    (concat_each (Os.good 16) empty_file (List.replicate 5000 33)).st.real = 5000 ∧
    (concat_each (Os.good 16) empty_file (List.replicate 5000 33)).st.len = 8192 := by
  have hres : resizable (Os.good 16) empty_file := by
    refine ⟨⟨by decide, by decide, by decide, by decide, by decide, ?_⟩, by decide, by decide,
      by decide, ?_⟩
    · show 0 + 4096 ≤ (List.replicate 4096 0).length
      rw [List.length_replicate]
    · show 4096 ≤ (List.replicate 4096 0).length
      rw [List.length_replicate]
  have h := C13_single_byte_appends (Os.good 16) empty_file (List.replicate 5000 33) hres rfl
  refine ⟨hres, h.2.1, ?_, ?_⟩
  · rw [h.2.2.1, List.length_replicate]
    rfl
  · rw [h.2.2.2.1, List.length_replicate]
    rfl

/-- C14 (idempotent upcase): on a buffer that is open for writing,
`upcase!` succeeds and leaves every field but the bytes as it was (so the
length is unchanged), a second `upcase!` changes nothing and reports `nil`,
no byte outside `a`..`z` is changed, and no byte of the content is in
`a`..`z` afterwards. -/
theorem C14_upcase_idempotent (m : mmap_t) (hpath : m.path ≠ path_t.null)
    (hfr : m.frozen = false) (hlock : lock_free m) (hmap : m.real ≤ m.addr.length) :
    ∃ (b : Bool) (A : List Nat),
      rb_cMmap_upcase_bang m = ⟨{ m with addr := A }, Res.ok b⟩ ∧
      rb_cMmap_upcase_bang { m with addr := A } = ⟨{ m with addr := A }, Res.ok false⟩ ∧
      A.length = m.addr.length ∧
      (∀ (i c : Nat), m.addr.get? i = some c → ¬ (97 ≤ c ∧ c ≤ 122) → A.get? i = some c) ∧
      (∀ (i c : Nat), A.get? i = some c → i < m.real → ¬ (97 ≤ c ∧ c ≤ 122)) := by
  have h1 := bang_bytes_wrapped m (fun s => (s.map upcase_byte, s.any is_lower)) hpath hfr hlock
    hmap
  dsimp only at h1
  have hlen : ((m.addr.take m.real).map upcase_byte ++ m.addr.drop m.real).length =
      m.addr.length := by
    simp only [List.length_append, List.length_map, List.length_take, List.length_drop]
    omega
  have htake : (((m.addr.take m.real).map upcase_byte ++ m.addr.drop m.real).take m.real) =
      (m.addr.take m.real).map upcase_byte := by
    rw [List.take_append_of_le_length (by simp; omega), List.take_of_length_le (by simp)]
  have hdrop : (((m.addr.take m.real).map upcase_byte ++ m.addr.drop m.real).drop m.real) =
      m.addr.drop m.real := by
    rw [List.drop_append_of_le_length (by simp; omega), List.drop_of_length_le (by simp)]
    rfl
  have h2 := bang_bytes_wrapped
    { m with addr := (m.addr.take m.real).map upcase_byte ++ m.addr.drop m.real }
    (fun s => (s.map upcase_byte, s.any is_lower)) hpath hfr hlock (by dsimp only; omega)
  dsimp only at h2
  rw [htake, hdrop] at h2
  have hmm : List.map upcase_byte (List.map upcase_byte (List.take m.real m.addr)) =
      List.map upcase_byte (List.take m.real m.addr) := by
    rw [List.map_map]
    apply List.map_congr_left
    intro c _
    exact upcase_byte_idem c
  have hany : (List.map upcase_byte (List.take m.real m.addr)).any is_lower = false := by
    rw [List.any_eq_false]
    intro x hx
    obtain ⟨c, -, rfl⟩ := List.mem_map.mp hx
    simp [upcase_byte_not_lower]
  rw [hmm, hany] at h2
  refine ⟨_, _, h1, h2, hlen, ?_, ?_⟩
  · intro i c hi hc
    rw [List.get?_eq_getElem?] at hi ⊢
    rw [List.getElem?_append]
    simp only [List.length_map, List.length_take]
    split_ifs with hlt
    · rw [List.getElem?_map, List.getElem?_take, if_pos (by omega), hi]
      simp [upcase_byte_eq c hc]
    · rw [List.getElem?_drop, ← hi]
      congr 1
      omega
  · intro i c hi hlt hc
    rw [List.get?_eq_getElem?, List.getElem?_append_left (by simp; omega),
      List.getElem?_map] at hi
    cases hx : (List.take m.real m.addr)[i]? with
    | none => rw [hx] at hi; cases hi
    | some x =>
      rw [hx] at hi
      simp only [Option.map_some', Option.some.injEq] at hi
      have := upcase_byte_not_lower x
      rw [hi] at this
      unfold is_lower at this
      simp at this
      omega

theorem C14_witness :
    ∃ (b : Bool) (A : List Nat),
      rb_cMmap_upcase_bang file_ab = ⟨{ file_ab with addr := A }, Res.ok b⟩ ∧
      rb_cMmap_upcase_bang { file_ab with addr := A } =
        ⟨{ file_ab with addr := A }, Res.ok false⟩ ∧
      A.length = file_ab.addr.length ∧
      (∀ (i c : Nat), file_ab.addr.get? i = some c → ¬ (97 ≤ c ∧ c ≤ 122) →
        A.get? i = some c) ∧
      (∀ (i c : Nat), A.get? i = some c → i < file_ab.real → ¬ (97 ≤ c ∧ c ≤ 122)) :=
  C14_upcase_idempotent file_ab (by decide) (by decide) (by decide) (by decide)

/-- C15 (change reporting), amended: on a buffer that is mapped, not frozen
and whose lock is free, each of `upcase!`, `downcase!`, `capitalize!`,
`swapcase!` and `chop!` returns, and its result is `self` exactly when the
content or the length after the call differs from before and `nil`
otherwise.  So does `strip!`, unless the buffer is fixed-size and its content
has white space at an end: then `strip!` raises `TypeError` and leaves the
buffer as it was.  So do `chomp!`, when the buffer is empty or the separator
is `nil` or a string, and `squeeze!`, when the buffer is empty or there is no
argument or the argument is a string; with an argument of another type on a
buffer that is not empty both raise `TypeError` and leave the buffer as it
was.  `reverse!` returns `self` in every case. -/
theorem C15_reports_change (m : mmap_t) (hpath : m.path ≠ path_t.null)
    (hfr : m.frozen = false) (hlock : lock_free m) (hmap : m.real ≤ m.addr.length) :
    (∃ b st, rb_cMmap_upcase_bang m = ⟨st, Res.ok b⟩ ∧ (b = true ↔ content_changed m st)) ∧
    (∃ b st, rb_cMmap_downcase_bang m = ⟨st, Res.ok b⟩ ∧ (b = true ↔ content_changed m st)) ∧
    (∃ b st, rb_cMmap_capitalize_bang m = ⟨st, Res.ok b⟩ ∧
      (b = true ↔ content_changed m st)) ∧
    (∃ b st, rb_cMmap_swapcase_bang m = ⟨st, Res.ok b⟩ ∧ (b = true ↔ content_changed m st)) ∧
    (∃ b st, rb_cMmap_chop_bang m = ⟨st, Res.ok b⟩ ∧ (b = true ↔ content_changed m st)) ∧
    ((m.flag &&& MMAP_RUBY_FIXED = 0 ∨
        strip_ref (m.addr.take m.real) = m.addr.take m.real) →
      ∃ b st, rb_cMmap_strip_bang m = ⟨st, Res.ok b⟩ ∧ (b = true ↔ content_changed m st)) ∧
    (m.flag &&& MMAP_RUBY_FIXED ≠ 0 →
      strip_ref (m.addr.take m.real) ≠ m.addr.take m.real →
      rb_cMmap_strip_bang m = ⟨m, Res.raise Raised.TypeError⟩) ∧
    (∀ argv : List VALUE,
      (m.real = 0 ∨ argv.headD rb_rs = VALUE.nil ∨ ∃ rs, argv.headD rb_rs = VALUE.str rs) →
      ∃ b st, rb_cMmap_chomp_bang argv m = ⟨st, Res.ok b⟩ ∧
        (b = true ↔ content_changed m st)) ∧
    (∀ argv : List VALUE, m.real ≠ 0 → argv.headD rb_rs ≠ VALUE.nil →
      (∀ rs, argv.headD rb_rs ≠ VALUE.str rs) →
      rb_cMmap_chomp_bang argv m = ⟨m, Res.raise Raised.TypeError⟩) ∧
    (∀ argv : List VALUE,
      (m.real = 0 ∨ argv = [] ∨ ∃ sq rest, argv = VALUE.str sq :: rest) →
      ∃ b st, rb_cMmap_squeeze_bang argv m = ⟨st, Res.ok b⟩ ∧
        (b = true ↔ content_changed m st)) ∧
    (∀ argv : List VALUE, m.real ≠ 0 → argv ≠ [] →
      (∀ sq rest, argv ≠ VALUE.str sq :: rest) →
      rb_cMmap_squeeze_bang argv m = ⟨m, Res.raise Raised.TypeError⟩) ∧
    (∃ st, rb_cMmap_reverse_bang m = ⟨st, Res.ok true⟩) := by
  refine ⟨?_, ?_, ?_, ?_, ?_, ?_, ?_, ?_, ?_, ?_, ?_, ?_⟩
  · exact bang_bytes_reports m _ hpath hfr hlock hmap (fun s => by simp)
      (fun s => any_iff_map_ne upcase_byte is_lower is_lower_iff s)
  · exact bang_bytes_reports m _ hpath hfr hlock hmap (fun s => by simp)
      (fun s => any_iff_map_ne downcase_byte is_upper is_upper_iff s)
  · refine bang_bytes_reports m _ hpath hfr hlock hmap (fun s => ?_) (fun s => ?_)
    · cases s <;> simp
    · cases s with
      | nil => simp
      | cons c t =>
        simp only [Bool.or_eq_true, ne_eq, List.cons.injEq, not_and_or]
        rw [is_lower_iff, any_iff_map_ne downcase_byte is_upper is_upper_iff]
  · exact bang_bytes_reports m _ hpath hfr hlock hmap (fun s => by simp)
      (fun s => any_iff_map_ne swapcase_byte _ is_cased_iff s)
  · obtain ⟨r, b, h1, h2⟩ := chop_int_eq m hpath hfr
    exact ensure_reports m _ m.addr r b hlock hpath hfr h1 h2
  · intro h
    by_cases hfix : m.flag &&& MMAP_RUBY_FIXED = 0
    · exact strip_reports m hpath hfr hlock hmap hfix
    · have hs : strip_ref (m.addr.take m.real) = m.addr.take m.real := by
        rcases h with h | h
        · exact absurd h hfix
        · exact h
      refine ⟨false, m, (strip_fixed m hpath hfr hlock hmap hfix).1 hs, ?_⟩
      simp only [Bool.false_eq_true, false_iff]
      exact not_content_changed_self m
  · exact fun hfix hs => (strip_fixed m hpath hfr hlock hmap hfix).2 hs
  · intro argv harg
    by_cases h0 : m.real = 0
    · exact int_empty_nil m _ hlock hpath hfr (chomp_empty m argv hpath hfr h0)
    · obtain ⟨r, b, h1, h2⟩ := chomp_int_eq m argv (harg.resolve_left h0) hpath hfr hmap
      exact ensure_reports m _ m.addr r b hlock hpath hfr h1 h2
  · intro argv h0 hn hs
    unfold rb_cMmap_chomp_bang
    rw [GET_MMAP_none m _ hpath hfr]
    exact ipc_ensure_raise m _ _ hlock hpath (chomp_other m argv hpath hfr h0 hn hs)
  · intro argv harg
    by_cases h0 : m.real = 0
    · exact int_empty_nil m _ hlock hpath hfr (squeeze_empty m argv hpath hfr h0)
    · obtain ⟨A, r, b, h1, h2⟩ := squeeze_int_eq m argv (harg.resolve_left h0) hpath hfr hmap
      exact ensure_reports m _ A r b hlock hpath hfr h1 h2
  · intro argv h0 hn hs
    unfold rb_cMmap_squeeze_bang
    rw [GET_MMAP_none m _ hpath hfr]
    exact ipc_ensure_raise m _ _ hlock hpath (squeeze_other m argv hpath hfr h0 hn hs)
  · exact ⟨_, bang_bytes_wrapped m _ hpath hfr hlock hmap⟩

/-- C15 at the buffer `ab` (`upcase!`, `chomp!` without argument, `squeeze!`
without argument) and at the fixed-size buffer of `file_padded`, whose
content starts and ends with white space: `strip!` raises `TypeError` and
`chomp!` with an integer raises `TypeError`, the buffer staying as it was. -/
theorem C15_witness :
    (∃ b st, rb_cMmap_upcase_bang file_ab = ⟨st, Res.ok b⟩ ∧
      (b = true ↔ content_changed file_ab st)) ∧
    (∃ b st, rb_cMmap_strip_bang file_ab = ⟨st, Res.ok b⟩ ∧
      (b = true ↔ content_changed file_ab st)) ∧
    (∃ b st, rb_cMmap_chomp_bang [] file_ab = ⟨st, Res.ok b⟩ ∧
      (b = true ↔ content_changed file_ab st)) ∧
    (∃ b st, rb_cMmap_squeeze_bang [] file_ab = ⟨st, Res.ok b⟩ ∧
      (b = true ↔ content_changed file_ab st)) ∧
    rb_cMmap_strip_bang fixed_padded = ⟨fixed_padded, Res.raise Raised.TypeError⟩ ∧
    rb_cMmap_chomp_bang [VALUE.fixnum 1] fixed_padded =
      ⟨fixed_padded, Res.raise Raised.TypeError⟩ ∧
    rb_cMmap_squeeze_bang [VALUE.nil] fixed_padded =
      ⟨fixed_padded, Res.raise Raised.TypeError⟩ :=
  ⟨(C15_reports_change file_ab (by decide) (by decide) (by decide) (by decide)).1,
   (C15_reports_change file_ab (by decide) (by decide) (by decide) (by decide)).2.2.2.2.2.1
     (Or.inl (by decide)),
   (C15_reports_change file_ab (by decide) (by decide) (by decide) (by decide)).2.2.2.2.2.2.2.1
     [] (Or.inr (Or.inr ⟨[10], rfl⟩)),
   (C15_reports_change file_ab (by decide) (by decide) (by decide)
     (by decide)).2.2.2.2.2.2.2.2.2.1 [] (Or.inr (Or.inl rfl)),
   (C15_reports_change fixed_padded (by decide) (by decide) (by decide)
     (by decide)).2.2.2.2.2.2.1 (by decide) (by decide),
   (C15_reports_change fixed_padded (by decide) (by decide) (by decide)
     (by decide)).2.2.2.2.2.2.2.2.1 [VALUE.fixnum 1] (by decide) (by simp)
     (fun rs => by simp),
   (C15_reports_change fixed_padded (by decide) (by decide) (by decide)
     (by decide)).2.2.2.2.2.2.2.2.2.2.1 [VALUE.nil] (by decide) (by simp)
     (fun sq rest => by simp)⟩

/-- Counterexample to claim C15 as stated: `reverse!` on the palindrome `aa`
returns `self` although neither the content nor the length has changed. -/
theorem C15_counterexample :
    rb_cMmap_reverse_bang file_aa = ⟨file_aa, Res.ok true⟩ ∧
    ¬ content_changed file_aa (rb_cMmap_reverse_bang file_aa).st := by
  have h : rb_cMmap_reverse_bang file_aa = ⟨file_aa, Res.ok true⟩ := by decide
  refine ⟨h, ?_⟩
  rw [h]
  exact not_content_changed_self file_aa

/-- C16 (no partial commit), amended: when `mmap_update`, `concat` or
`sub!` raises `TypeError` (a fixed-size violation, a value that is no string,
or a growth that `mmap_expandf` rejects), the length, the capacity and the
mapped bytes are those of before the call.  For `gsub!` with a regular
expression `re` and any replacement, when the replacement of the first match
has another length than the match and the buffer is fixed-size or the new
length exceeds the capacity, the call raises `TypeError` and leaves the whole
state as it was; so it does for a string pattern without metacharacters and
a literal replacement of another length.  (At a later match `gsub!` raises
after the earlier replacements have been written.) -/
theorem C16_rejected_edit_leaves_buffer (os : Os) (m : mmap_t) :
    (∀ (beg len : Int) (val : VALUE),
      (mmap_update os m beg len val).val = Res.raise Raised.TypeError →
      same_data (mmap_update os m beg len val).st m) ∧
    (∀ other : VALUE,
      (rb_cMmap_concat os m other).val = Res.raise Raised.TypeError →
      same_data (rb_cMmap_concat os m other).st m) ∧
    (∀ (pat : VALUE) (repl : Replacement),
      (rb_cMmap_sub_bang m pat repl).val = Res.raise Raised.TypeError →
      same_data (rb_cMmap_sub_bang m pat repl).st m) ∧
    (∀ (re : Regexp) (repl : Replacement) (regs0 : Regs),
      m.path ≠ path_t.null → m.frozen = false → lock_free m →
      rb_reg_search re (m.addr.take m.real) 0 = some regs0 →
      (first_val repl (m.addr.take m.real) regs0).length ≠ first_plen regs0 →
      (m.flag &&& MMAP_RUBY_FIXED ≠ 0 ∨
        (m.real + (first_val repl (m.addr.take m.real) regs0).length +
          (SIZE_MAX1 - first_plen regs0)) % SIZE_MAX1 > m.len) →
      rb_cMmap_gsub_bang m (VALUE.regexp re) repl = ⟨m, Res.raise Raised.TypeError⟩) ∧
    (∀ (p r : List Nat) (i : Nat), meta_free p = true →
      m.path ≠ path_t.null → m.frozen = false → lock_free m →
      rb_str_index (m.addr.take m.real) p 0 = some i → r.length ≠ p.length →
      (m.flag &&& MMAP_RUBY_FIXED ≠ 0 ∨
        (m.real + r.length + (SIZE_MAX1 - p.length)) % SIZE_MAX1 > m.len) →
      rb_cMmap_gsub_bang m (VALUE.str p) (Replacement.literal r) =
        ⟨m, Res.raise Raised.TypeError⟩) := by
  refine ⟨fun beg len val h => mmap_update_type os m beg len val h,
    fun other h => rb_cMmap_concat_type os m other h,
    fun pat repl h => rb_cMmap_sub_bang_type m pat repl h, ?_, ?_⟩
  · intro re repl regs0 hpath hfr hlock hs hne hrej
    unfold rb_cMmap_gsub_bang
    rw [GET_MMAP_none m _ hpath hfr]
    dsimp only
    rw [ipc_ensure_data m _ m.addr m.real (Res.raise Raised.TypeError) hlock hpath
      (fun c sm => gsub_int_first_round { m with count := c, sem := sm } re repl regs0 hpath hfr
        hs hne hrej), with_real_self]
  · intro p r i _ hpath hfr hlock hidx hne hrej
    unfold rb_cMmap_gsub_bang
    rw [GET_MMAP_none m _ hpath hfr]
    dsimp only
    rw [ipc_ensure_data m _ m.addr m.real (Res.raise Raised.TypeError) hlock hpath
      (fun c sm => gsub_int_first_match { m with count := c, sem := sm } p r i hpath hfr hidx hne
        hrej), with_real_self]

/-- C16 at the fixed-size buffer `abc` and at the full buffer `ab`: a
rejected `mmap_update`, `concat`, `sub!` and `gsub!` (with the regular
expression that matches `b`, and with the string `b`) leave the buffer as
it was. -/
theorem C16_witness :
    ((mmap_update (Os.good 16) fixed_abc 1 1 (VALUE.str [120, 121])).val =
        Res.raise Raised.TypeError ∧
      same_data (mmap_update (Os.good 16) fixed_abc 1 1 (VALUE.str [120, 121])).st fixed_abc) ∧
    ((rb_cMmap_concat (Os.good 16) fixed_abc (VALUE.str [120])).val =
        Res.raise Raised.TypeError ∧
      same_data (rb_cMmap_concat (Os.good 16) fixed_abc (VALUE.str [120])).st fixed_abc) ∧
    ((rb_cMmap_sub_bang fixed_abc (VALUE.str [98]) (Replacement.literal [120, 121])).val =
        Res.raise Raised.TypeError ∧
      same_data (rb_cMmap_sub_bang fixed_abc (VALUE.str [98])
        (Replacement.literal [120, 121])).st fixed_abc) ∧
    rb_cMmap_gsub_bang fixed_abc (VALUE.regexp (Regexp.literal [98]))
        (Replacement.literal [120, 121]) =
      ⟨fixed_abc, Res.raise Raised.TypeError⟩ ∧
    rb_cMmap_gsub_bang fixed_abc (VALUE.str [98]) (Replacement.literal [120, 121]) =
      ⟨fixed_abc, Res.raise Raised.TypeError⟩ ∧
    rb_cMmap_gsub_bang file_ab (VALUE.str [98]) (Replacement.literal [120, 121]) =
      ⟨file_ab, Res.raise Raised.TypeError⟩ :=
  ⟨⟨by decide, (C16_rejected_edit_leaves_buffer (Os.good 16) fixed_abc).1 1 1
      (VALUE.str [120, 121]) (by decide)⟩,
   ⟨by decide, (C16_rejected_edit_leaves_buffer (Os.good 16) fixed_abc).2.1 (VALUE.str [120])
      (by decide)⟩,
   ⟨by decide, (C16_rejected_edit_leaves_buffer (Os.good 16) fixed_abc).2.2.1 (VALUE.str [98])
      (Replacement.literal [120, 121]) (by decide)⟩,
   (C16_rejected_edit_leaves_buffer (Os.good 16) fixed_abc).2.2.2.1 (Regexp.literal [98])
      (Replacement.literal [120, 121]) [some (1, 2)] (by decide) (by decide) (by decide)
      (by decide) (by decide) (Or.inl (by decide)),
   (C16_rejected_edit_leaves_buffer (Os.good 16) fixed_abc).2.2.2.2 [98] [120, 121] 1 (by decide)
      (by decide) (by decide) (by decide) (by decide) (by decide) (Or.inl (by decide)),
   (C16_rejected_edit_leaves_buffer (Os.good 16) file_ab).2.2.2.2 [98] [120, 121] 1 (by decide)
      (by decide) (by decide) (by decide) (by decide) (by decide) (Or.inr (by decide))⟩

/-- Counterexample to claim C16 as stated: on `aaZZ` with capacity 5, `gsub!`
of `a` by `bb` replaces the first match, then raises `TypeError` at the
second; the buffer is left as `bbaZZ` with length 5. -/
theorem C16_counterexample :
    rb_cMmap_gsub_bang aazz (VALUE.str [97]) (Replacement.literal [98, 98]) =
      ⟨{ aazz with addr := [98, 98, 97, 90, 90, 0, 0, 0, 0, 0, 0, 0, 0, 0, 0, 0], real := 5 },
       Res.raise Raised.TypeError⟩ ∧
    ¬ same_data
      (rb_cMmap_gsub_bang aazz (VALUE.str [97]) (Replacement.literal [98, 98])).st aazz := by
  have h : rb_cMmap_gsub_bang aazz (VALUE.str [97]) (Replacement.literal [98, 98]) =
      ⟨{ aazz with addr := [98, 98, 97, 90, 90, 0, 0, 0, 0, 0, 0, 0, 0, 0, 0, 0], real := 5 },
       Res.raise Raised.TypeError⟩ := by
    decide
  refine ⟨h, ?_⟩
  rw [h]
  intro hs
  exact absurd hs.1 (by decide)

/-- C17 (growth rejected before any unmap), as the code behaves: when the
buffer is fixed-size, or its scope is exactly `MAP_PRIVATE`, or it has no
file name (the path is `-1` for an anonymous or descriptor-backed mapping,
or `NULL`), a call of `mmap_realloc` for more than the capacity, and every
call of `mmap_expandf`, raises `TypeError` and leaves the whole state,
mapping and file included, as it was.  A private mapping whose scope has a
further bit (`MAP_PRIVATE | MAP_NORESERVE`) is not rejected: on the file
`ab` mapped so, with the first byte overwritten by `X`, `mmap_realloc` for 3
bytes is `mmap_expandf` for 4098 bytes, and `mmap_expandf`, here for 3
bytes, returns after having unmapped the buffer, extended the file and
mapped it again, the private byte `X` being lost. -/
theorem C17_growth_rejected_before_unmap (os : Os) (m : mmap_t) (n : Nat)
    (hn : m.len < n)
    (h : m.flag &&& MMAP_RUBY_FIXED ≠ 0 ∨ m.vscope = MAP_PRIVATE ∨ m.path = path_t.minus1 ∨
      m.path = path_t.null) :
    (mmap_realloc os m n = ⟨m, Res.raise Raised.TypeError⟩ ∧
      ∀ k, mmap_expandf os m k = ⟨m, Res.raise Raised.TypeError⟩) ∧
    ( rb_cMmap_initialize (Os.good 16) rb_cMmap_allocate fname_t.path (some [97, 98])
        (VALUE.str [114, 119]) (VALUE.fixnum (MAP_PRIVATE ||| MAP_NORESERVE : Nat)) none =
      ⟨private_ab, Res.ok ()⟩ ∧
     rb_cMmap_aset (Os.good 16) [VALUE.fixnum 0, VALUE.fixnum 1, VALUE.str [88]] private_ab =
      ⟨private_xb, Res.ok ()⟩ ∧
     mmap_realloc (Os.good 16) private_xb 3 = mmap_expandf (Os.good 16) private_xb 4098 ∧
     mmap_expandf (Os.good 16) private_xb 3 =
      ⟨{ private_xb with addr := [97, 98, 0, 0, 0, 0, 0, 0, 0, 0, 0, 0, 0, 0, 0, 0],
                         file := [97, 98, 0], len := 3 },
       Res.ok ()⟩) := by
  have hk : ∀ k, mmap_expandf os m k = ⟨m, Res.raise Raised.TypeError⟩ := by
    intro k
    unfold mmap_expandf
    split_ifs with h1 h2 h3 <;> first | rfl | (exfalso; rcases h with h | h | h | h <;> simp_all)
  refine ⟨⟨?_, hk⟩, by decide, by decide, rfl, by decide⟩
  unfold mmap_realloc
  rw [if_pos hn]
  exact hk _

/-- C17 at the fixed-size anonymous buffer `abc` and at the file `ab` mapped
with the scope `MAP_PRIVATE`: growth is rejected and the state stays. -/
theorem C17_witness :
    (fixed_abc.len < 4 ∧
      mmap_realloc (Os.good 16) fixed_abc 4 = ⟨fixed_abc, Res.raise Raised.TypeError⟩ ∧
      ∀ k, mmap_expandf (Os.good 16) fixed_abc k = ⟨fixed_abc, Res.raise Raised.TypeError⟩) ∧
    (mmap_realloc (Os.good 16) { file_ab with vscope := MAP_PRIVATE } 3 =
        ⟨{ file_ab with vscope := MAP_PRIVATE }, Res.raise Raised.TypeError⟩ ∧
      ∀ k, mmap_expandf (Os.good 16) { file_ab with vscope := MAP_PRIVATE } k =
        ⟨{ file_ab with vscope := MAP_PRIVATE }, Res.raise Raised.TypeError⟩) :=
  ⟨⟨by decide, (C17_growth_rejected_before_unmap (Os.good 16) fixed_abc 4 (by decide)
      (Or.inl (by decide))).1⟩,
   (C17_growth_rejected_before_unmap (Os.good 16) { file_ab with vscope := MAP_PRIVATE } 3
      (by decide) (Or.inr (Or.inl rfl))).1⟩

/-- C18 (failed remap), as the code behaves: once `munmap` has
succeeded, a failure of `open`, of extending (`lseek`, `write`), of
`truncate` or of `mmap` makes `mmap_expand_initialize` raise with no mapping
established (`addr` holds no byte), while the recorded capacity, the length
and the path are those of before, so the buffer still counts as mapped. -/
theorem C18_failed_remap_leaves_no_mapping (os : Os) (m : mmap_t) (n : Nat)
    (hun : os.munmap_fails = false)
    (hfail : os.open_fails = true ∨ (m.len < n ∧ os.lseek_fails = true) ∨
      (m.len < n ∧ os.write_fails = true) ∨ (n < m.len ∧ os.truncate_fails = true) ∨
      os.mmap_fails = true) :
    ∃ e, ( mmap_expand_initialize os m n).val = Res.raise e ∧
      ( mmap_expand_initialize os m n).st.addr = [] ∧
      ( mmap_expand_initialize os m n).st.len = m.len ∧
      ( mmap_expand_initialize os m n).st.real = m.real ∧
      ( mmap_expand_initialize os m n).st.path = m.path := by
  unfold mmap_expand_initialize
  rw [if_neg (by simp [hun])]
  dsimp only
  by_cases ho : os.open_fails = true
  · rw [if_pos ho]
    exact ⟨_, rfl, rfl, rfl, rfl, rfl⟩
  rw [if_neg ho]
  by_cases hl : n > m.len ∧ os.lseek_fails = true
  · rw [if_pos hl]
    exact ⟨_, rfl, rfl, rfl, rfl, rfl⟩
  rw [if_neg hl]
  by_cases hw : n > m.len ∧ os.write_fails = true
  · rw [if_pos hw]
    exact ⟨_, rfl, rfl, rfl, rfl, rfl⟩
  rw [if_neg hw]
  by_cases ht : ¬ (n > m.len) ∧ n < m.len ∧ os.truncate_fails = true
  · rw [if_pos ht]
    exact ⟨_, rfl, rfl, rfl, rfl, rfl⟩
  rw [if_neg ht]
  have hm : os.mmap_fails = true := by
    rcases hfail with h | h | h | h | h
    · exact absurd h ho
    · exact absurd h hl
    · exact absurd h hw
    · exact absurd ⟨by omega, h.1, h.2⟩ ht
    · exact h
  have hnone : os_mmap os (resized_file m n) m.offset n = none := by
    unfold os_mmap
    rw [if_pos (Or.inl hm)]
  rw [hnone]
  exact ⟨_, rfl, rfl, rfl, rfl, rfl⟩

theorem C18_witness :
    ∃ e, ( mmap_expand_initialize { Os.good 16 with open_fails := true } digits 4106).val =
        Res.raise e ∧
      ( mmap_expand_initialize { Os.good 16 with open_fails := true } digits 4106).st.addr = [] ∧
      ( mmap_expand_initialize { Os.good 16 with open_fails := true } digits 4106).st.len =
        digits.len ∧
      ( mmap_expand_initialize { Os.good 16 with open_fails := true } digits 4106).st.real =
        digits.real ∧
      ( mmap_expand_initialize { Os.good 16 with open_fails := true } digits 4106).st.path =
        digits.path :=
  C18_failed_remap_leaves_no_mapping { Os.good 16 with open_fails := true } digits 4106 rfl
    (Or.inl rfl)

/-- C19 (read-only is permanent), as the code behaves: `mprotect`
with the protection `PROT_NONE` (no write) succeeds and does not freeze the
buffer, a later `mprotect` with `rw` succeeds, and element assignment then
modifies the content; only a protection with read and without write freezes
the buffer, after which `mprotect` with `rw` raises `FrozenError`. -/
theorem C19_mprotect_none_is_not_permanent :
    rb_cMmap_mprotect (Os.good 16) file_ab (VALUE.fixnum 0) =
      ⟨{ file_ab with pmode := 0 }, Res.ok ()⟩ ∧
    rb_cMmap_mprotect (Os.good 16) { file_ab with pmode := 0 } (VALUE.str [114, 119]) =
      ⟨file_ab, Res.ok ()⟩ ∧
    (rb_cMmap_aset (Os.good 16) [VALUE.fixnum 0, VALUE.fixnum 1, VALUE.str [88]] file_ab).val =
      Res.ok () ∧
    (rb_cMmap_aset (Os.good 16) [VALUE.fixnum 0, VALUE.fixnum 1, VALUE.str [88]]
      file_ab).st.addr.take 2 = [88, 98] ∧
    rb_cMmap_mprotect (Os.good 16) file_ab (VALUE.str [114]) = ⟨frozen_ab, Res.ok ()⟩ ∧
    rb_cMmap_mprotect (Os.good 16) frozen_ab (VALUE.str [114, 119]) =
      ⟨frozen_ab, Res.raise Raised.FrozenError⟩ := by
  decide

/-- C20 (non-blocking lock), as the code behaves: an object made with the
option `ipc` keeps a record without path (`receivable`), so on such a record
`semlock`, with or without waiting and whatever the value of the semaphore,
raises `IOError` in `GET_MMAP`, not `EAGAIN`, before `mmap_lock` is reached;
the record, its counter included, stays as it was, and so do the counter and
the semaphore after every run of public calls.  Every object that `new`
returns with the IPC flag is such an object, whatever the options, as long as
their processing leaves the path alone; `new` on the file `ab` with
`ipc: true` returns one.  As a function on its own, `mmap_lock`
without waiting on a record with the IPC flag, counter 0 and semaphore 0
raises `EAGAIN` after `count++`, leaving the counter at 1. -/
theorem C20_ipc_object_cannot_lock (m : mmap_t) (hipc : m.flag &&& MMAP_RUBY_IPC ≠ 0)
    (hrec : receivable m) :
    (∀ (argv : List VALUE) (blk : mmap_t → Ret Unit),
      rb_cMmap_semlock argv m blk = ⟨m, Res.raise Raised.IOError⟩) ∧
    (∀ (os : Os) (calls : List Call),
      (run_calls os m calls).count = m.count ∧ (run_calls os m calls).sem = m.sem) ∧
    (∀ (os0 : Os) (fname : fname_t) (fs : Option (List Nat)) (vmode scope : VALUE)
        (o : Options), (∀ x, (o.process_options x).st.path = x.path) →
      ( rb_cMmap_initialize os0 rb_cMmap_allocate fname fs vmode scope (some o)).st.flag &&&
        MMAP_RUBY_IPC ≠ 0 →
      ∀ (argv : List VALUE) (blk : mmap_t → Ret Unit),
        rb_cMmap_semlock argv
            ( rb_cMmap_initialize os0 rb_cMmap_allocate fname fs vmode scope (some o)).st blk =
          ⟨( rb_cMmap_initialize os0 rb_cMmap_allocate fname fs vmode scope (some o)).st,
           Res.raise Raised.IOError⟩) ∧
    ( rb_cMmap_initialize (Os.good 16) rb_cMmap_allocate fname_t.path (some [97, 98])
        (VALUE.str [114, 119]) VALUE.nil (some ipc_options) = ⟨ipc_object, Res.ok ()⟩ ∧
      ipc_object.flag &&& MMAP_RUBY_IPC ≠ 0 ∧ ipc_object.path = path_t.null ∧
      ipc_object.count = 0) ∧
    (∀ x : mmap_t, x.flag &&& MMAP_RUBY_IPC ≠ 0 → x.count = 0 → x.sem = 0 →
      mmap_lock x false = ⟨{ x with count := 1 }, Res.raise Raised.EAGAIN⟩) := by
  refine ⟨?_, ?_, ?_, by decide, ?_⟩
  · intro argv blk
    unfold rb_cMmap_semlock
    rw [GET_MMAP_null m 0 (hrec hipc)]
  · intro os calls
    exact (receivable_calls os calls m hrec).2
  · intro os0 fname fs vmode scope o hp hflag argv blk
    have hr := initialize_receivable os0 rb_cMmap_allocate fname fs vmode scope (some o) rfl
      (by decide) (fun o1 ho x => by cases ho; exact hp x)
    unfold rb_cMmap_semlock
    rw [GET_MMAP_null _ 0 (hr hflag)]
  · intro x hx hc hs
    unfold mmap_lock
    rw [if_pos hx]
    dsimp only
    rw [hc, hs]
    rfl

/-- C20 at the object that `new` returns for the file `ab` with `ipc: true`:
`semlock(nil)` raises `IOError` and the counter stays 0. -/
theorem C20_witness :
    rb_cMmap_semlock [VALUE.nil] ipc_object (fun x => ⟨x, Res.ok ()⟩) =
      ⟨ipc_object, Res.raise Raised.IOError⟩ ∧
    (run_calls (Os.good 16) ipc_object [Call.semlock [VALUE.nil], Call.semlock []]).count =
      ipc_object.count :=
  ⟨(C20_ipc_object_cannot_lock ipc_object (by decide) (fun _ => rfl)).1 [VALUE.nil]
     (fun x => ⟨x, Res.ok ()⟩),
   ((C20_ipc_object_cannot_lock ipc_object (by decide) (fun _ => rfl)).2.1 (Os.good 16)
     [Call.semlock [VALUE.nil], Call.semlock []]).1⟩

/-- C21 (nested locking): on an IPC-backed buffer with counter 0 and the
semaphore available, every properly nested run of acquires and releases
(`u ++ v`) returns and ends in the state it started from; after every part
`u` of it the counter is the nesting depth and the semaphore has its
starting value at depth 0 and one less at every positive depth, so it is
decremented only by an acquire at depth 0 and incremented only by the
release that returns to depth 0.  On a buffer that is not IPC-backed
`mmap_lock` and `mmap_unlock` change nothing. -/
theorem C21_nested_lock_unlock (m : mmap_t) :
    (m.flag &&& MMAP_RUBY_IPC ≠ 0 → m.count = 0 → 0 < m.sem →
      ∀ (u v : List Bool), nesting 0 (u ++ v) = some 0 →
        lock_run m (u ++ v) = ⟨m, Res.ok ()⟩ ∧
        ∃ d, nesting 0 u = some d ∧
          lock_run m u =
            ⟨{ m with count := (d : Int), sem := if d = 0 then m.sem else m.sem - 1 },
             Res.ok ()⟩) ∧
    (m.flag &&& MMAP_RUBY_IPC = 0 →
      ∀ wait_lock, mmap_lock m wait_lock = ⟨m, Res.ok ()⟩ ∧ mmap_unlock m = m) := by
  constructor
  · intro hipc hc hs u v h
    have h0 := lock_run_held m hipc hs (u ++ v) 0 0 h
    rw [held_zero m hc] at h0
    refine ⟨h0, ?_⟩
    rw [nesting_append] at h
    cases hu : nesting 0 u with
    | none => rw [hu] at h; cases h
    | some d =>
      refine ⟨d, rfl, ?_⟩
      have := lock_run_held m hipc hs u 0 d hu
      rw [held_zero m hc] at this
      exact this
  · intro hipc w
    constructor
    · unfold mmap_lock
      rw [if_neg (by simpa using hipc)]
    · unfold mmap_unlock
      rw [if_neg (by simpa using hipc)]

theorem C21_witness :
    (lock_run ipc_free ([true, true, false, true] ++ [false, false]) = ⟨ipc_free, Res.ok ()⟩ ∧
      ∃ d, nesting 0 [true, true, false, true] = some d ∧
        lock_run ipc_free [true, true, false, true] =
          ⟨{ ipc_free with count := (d : Int),
                           sem := if d = 0 then ipc_free.sem else ipc_free.sem - 1 },
           Res.ok ()⟩) ∧
    ∀ wait_lock, mmap_lock file_ab wait_lock = ⟨file_ab, Res.ok ()⟩ ∧
      mmap_unlock file_ab = file_ab :=
  ⟨(C21_nested_lock_unlock ipc_free).1 (by decide) (by decide) (by decide)
      [true, true, false, true] [false, false] (by decide),
   (C21_nested_lock_unlock file_ab).2 (by decide)⟩

/-- C22 (equality), as the code behaves: `==` returns `false` for every
argument that is no `Mmap` object, a string with the same bytes included;
it returns `true` for the receiver itself, and for another mapped buffer it
is `true` exactly when the lengths and the bytes below the length agree. -/
theorem C22_equal_rejects_strings (m : mmap_t) :
    (∀ v : VALUE, rb_cMmap_equal m (Operand.value v) = Res.ok false) ∧
    rb_cMmap_equal m Operand.same = Res.ok true ∧
    (∀ o : mmap_t, m.path ≠ path_t.null → o.path ≠ path_t.null →
      rb_cMmap_equal m (Operand.mmap o) =
        Res.ok (decide (m.real = o.real ∧ m.addr.take m.real = o.addr.take o.real))) := by
  refine ⟨fun v => rfl, rfl, ?_⟩
  intro o hm ho
  unfold rb_cMmap_equal
  dsimp only
  rw [GET_MMAP_zero m hm, GET_MMAP_zero o ho]
  dsimp only
  by_cases hr : m.real = o.real
  · rw [if_neg (by simpa using hr), mmap_str_origin m hm, mmap_str_origin o ho]
    dsimp only
    unfold rb_str_equal
    congr 1
    simp only [hr, true_and]
    by_cases hEq : List.take o.real m.addr = List.take o.real o.addr
    · simp [hEq]
    · simp [hEq]
  · rw [if_pos hr]
    simp [hr]

theorem C22_witness :
    rb_cMmap_equal file_ab (Operand.value (VALUE.str [97, 98])) = Res.ok false ∧
    file_ab.addr.take file_ab.real = [97, 98] ∧
    rb_cMmap_equal file_ab (Operand.mmap fixed_ab) = Res.ok true ∧
    rb_cMmap_equal file_ab (Operand.mmap file_aa) = Res.ok false :=
  ⟨(C22_equal_rejects_strings file_ab).1 (VALUE.str [97, 98]), by decide,
   ((C22_equal_rejects_strings file_ab).2.2 fixed_ab (by decide) (by decide)).trans (by decide),
   ((C22_equal_rejects_strings file_ab).2.2 file_aa (by decide) (by decide)).trans (by decide)⟩

/-- C23 (fixed-size flag), as the code behaves: `set_length` with a value
from 1 to `2^32 - 1` and `set_offset` with a value from 0 to `2^31 - 1`
return and set the fixed-size flag; a construction with options whose
processing leaves the flag set returns with the flag set; and on a buffer `m`
with the flag set, after every run of calls of the public methods (returning
or raising) the flag is still set and the capacity `len` is the one of `m`,
so that after every such run `extend` with a positive count raises, `concat`
of a non-empty string or of a byte raises, and `mmap_update` returns only
when the replacement has the length of the clamped range.  The size of the
mapped file is not protected by the flag: the file `ab` mapped with the
option `length: 2` has two bytes, and after `chop!` and `munmap` it has
one. -/
theorem C23_fixed_size_is_permanent (os : Os) (m : mmap_t)
    (hfix : m.flag &&& MMAP_RUBY_FIXED ≠ 0) :
    (∀ (self : mmap_t) (i : Int), 0 < i → i < (2 : Int) ^ 32 →
      rb_cMmap_set_length self (VALUE.fixnum i) =
        ⟨{ self with len := i.toNat, flag := self.flag ||| MMAP_RUBY_FIXED }, Res.ok ()⟩ ∧
      (self.flag ||| MMAP_RUBY_FIXED) &&& MMAP_RUBY_FIXED ≠ 0) ∧
    (∀ (self : mmap_t) (i : Int), 0 ≤ i → i < (2 : Int) ^ 31 →
      rb_cMmap_set_offset self (VALUE.fixnum i) =
        ⟨{ self with offset := i.toNat, flag := self.flag ||| MMAP_RUBY_FIXED }, Res.ok ()⟩ ∧
      (self.flag ||| MMAP_RUBY_FIXED) &&& MMAP_RUBY_FIXED ≠ 0) ∧
    (∀ (os0 : Os) (self : mmap_t) (fname : fname_t) (fs : Option (List Nat))
        (vmode scope : VALUE) (o : Options),
      (∀ x, (o.process_options x).val = Res.ok () →
        (o.process_options x).st.flag &&& MMAP_RUBY_FIXED ≠ 0) →
      ( rb_cMmap_initialize os0 self fname fs vmode scope (some o)).val = Res.ok () →
      ( rb_cMmap_initialize os0 self fname fs vmode scope (some o)).st.flag &&&
        MMAP_RUBY_FIXED ≠ 0) ∧
    (∀ calls : List Call,
      (run_calls os m calls).flag &&& MMAP_RUBY_FIXED ≠ 0 ∧
      (run_calls os m calls).len = m.len ∧
      (∀ c : Int, 0 < c →
        ∃ e, (rb_cMmap_extend os (run_calls os m calls) (VALUE.fixnum c)).val = Res.raise e) ∧
      (∀ bytes : List Nat, bytes ≠ [] →
        ∃ e, (rb_cMmap_concat os (run_calls os m calls) (VALUE.str bytes)).val =
          Res.raise e) ∧
      (∀ i : Int,
        ∃ e, (rb_cMmap_concat os (run_calls os m calls) (VALUE.fixnum i)).val = Res.raise e) ∧
      (∀ (beg len : Int) (v : List Nat),
        (mmap_update os (run_calls os m calls) beg len (VALUE.str v)).val = Res.ok () →
        (v.length : Int) =
          clamp_len (run_calls os m calls).real
            (resolve_beg (run_calls os m calls).real beg) len)) ∧
    ( rb_cMmap_initialize (Os.good 16) rb_cMmap_allocate fname_t.path (some [97, 98])
        (VALUE.str [114, 119]) VALUE.nil (some length_options) = ⟨fixed_ab, Res.ok ()⟩ ∧
      fixed_ab.file = [97, 98] ∧
      run_calls (Os.good 16) fixed_ab [Call.chop_bang, Call.unmap] =
        { fixed_ab with path := path_t.null, addr := [], real := 1, file := [97] }) := by
  refine ⟨fun self i h1 h2 => ⟨set_length_returns self i h1 h2, fixed_or_self _⟩,
    fun self i h1 h2 => ⟨set_offset_returns self i h1 h2, fixed_or_self _⟩,
    fun os0 self fname fs vmode scope o hp h =>
      initialize_fixed os0 self fname fs vmode scope o hp h, ?_, by decide⟩
  intro calls
  have hk := keep_calls os m.len calls m ⟨hfix, rfl⟩
  exact ⟨hk.1, hk.2, fun c hc => extend_fixed_fails os _ c hk.1 hc,
    (concat_fixed_fails os _ hk.1).1, (concat_fixed_fails os _ hk.1).2,
    fun beg len v h => update_fixed_differs os _ beg len v hk.1 h⟩

/-- C23 at the record that `set_length` makes of the new record for the
value 2 (the flag is set and the capacity stored), and at the fixed-size
mapping of the file `ab`: after `chop!`, a rejected `concat`, a rejected
`extend` and `munmap` the flag is set and the capacity is 2. -/
theorem C23_witness :
    fixed_ab.flag &&& MMAP_RUBY_FIXED ≠ 0 ∧
    (rb_cMmap_set_length rb_cMmap_allocate (VALUE.fixnum 2) =
        ⟨{ rb_cMmap_allocate with
            len := (2 : Int).toNat, flag := rb_cMmap_allocate.flag ||| MMAP_RUBY_FIXED },
          Res.ok ()⟩ ∧
      (rb_cMmap_allocate.flag ||| MMAP_RUBY_FIXED) &&& MMAP_RUBY_FIXED ≠ 0) ∧
    (rb_cMmap_set_offset rb_cMmap_allocate (VALUE.fixnum 0) =
        ⟨{ rb_cMmap_allocate with
            offset := (0 : Int).toNat, flag := rb_cMmap_allocate.flag ||| MMAP_RUBY_FIXED },
          Res.ok ()⟩ ∧
      (rb_cMmap_allocate.flag ||| MMAP_RUBY_FIXED) &&& MMAP_RUBY_FIXED ≠ 0) ∧
    (run_calls (Os.good 16) fixed_ab
      [Call.chop_bang, Call.concat (VALUE.str [88]), Call.extend (VALUE.fixnum 4),
        Call.unmap]).flag &&& MMAP_RUBY_FIXED ≠ 0 ∧
    (run_calls (Os.good 16) fixed_ab
      [Call.chop_bang, Call.concat (VALUE.str [88]), Call.extend (VALUE.fixnum 4),
        Call.unmap]).len = fixed_ab.len :=
  ⟨by decide,
   (C23_fixed_size_is_permanent (Os.good 16) fixed_ab (by decide)).1 rb_cMmap_allocate 2
     (by decide) (by decide),
   (C23_fixed_size_is_permanent (Os.good 16) fixed_ab (by decide)).2.1 rb_cMmap_allocate 0
     (by decide) (by decide),
   ((C23_fixed_size_is_permanent (Os.good 16) fixed_ab (by decide)).2.2.2.1
      [Call.chop_bang, Call.concat (VALUE.str [88]), Call.extend (VALUE.fixnum 4),
        Call.unmap]).1,
   ((C23_fixed_size_is_permanent (Os.good 16) fixed_ab (by decide)).2.2.2.1
      [Call.chop_bang, Call.concat (VALUE.str [88]), Call.extend (VALUE.fixnum 4),
        Call.unmap]).2.1⟩

/-- C24 (`slice!` with a start and a length), as the code behaves: on a
buffer that is open for writing, not fixed-size, whose lock can be taken and
whose length is within the mapped capacity, for a start and a length that
fit a C `int`: when `self[start, len]` exists, `slice!` returns exactly
those bytes, the content afterwards is the old content without that range
(the lengths add up), the capacity is unchanged, and `insert` of the
returned bytes at the resolved start gives back the old length and content;
when the portion does not exist it returns `nil` and leaves the buffer as it
is.  For a length from `2 ^ 31` on, which `String#[]` accepts, the portion
exists and the call raises `RangeError` with the buffer unchanged, for the
assignment reads the start and the length with `NUM2INT`. -/
theorem C24_slice_bang_deletes_within_int_range (os : Os) (m : mmap_t) (b n : Int)
    (hpath : m.path ≠ path_t.null) (hfr : m.frozen = false)
    (hfix : m.flag &&& MMAP_RUBY_FIXED = 0) (hlock : lock_free m) (hreal : m.real ≤ m.len)
    (hmap : m.len ≤ m.addr.length) (hsz : (m.real : Int) < 2 ^ 63)
    (hb : -(2 : Int) ^ 31 ≤ b ∧ b < (2 : Int) ^ 31) :
    (-(2 : Int) ^ 31 ≤ n ∧ n < (2 : Int) ^ 31 →
      ∀ portion, rb_str_substr (m.addr.take m.real) b n true = some portion →
        ∃ (b1 : Int) (s1 s2 : mmap_t),
          rb_str_subpos m.real b n = some (b1, (portion.length : Int)) ∧ 0 ≤ b1 ∧
          rb_cMmap_slice_bang os [VALUE.fixnum b, VALUE.fixnum n] m =
            ⟨s1, Res.ok (some portion)⟩ ∧
          s1.real + portion.length = m.real ∧ s1.len = m.len ∧
          s1.addr.take s1.real =
            (m.addr.take m.real).take b1.toNat ++
              (m.addr.take m.real).drop (b1.toNat + portion.length) ∧
          rb_cMmap_insert os s1 (VALUE.fixnum b1) (VALUE.str portion) = ⟨s2, Res.ok ()⟩ ∧
          s2.real = m.real ∧ s2.addr.take s2.real = m.addr.take m.real) ∧
    (-(2 : Int) ^ 63 ≤ n ∧ n < (2 : Int) ^ 63 →
      rb_str_substr (m.addr.take m.real) b n true = none →
        rb_cMmap_slice_bang os [VALUE.fixnum b, VALUE.fixnum n] m = ⟨m, Res.ok none⟩) ∧
    ((2 : Int) ^ 31 ≤ n ∧ n < (2 : Int) ^ 63 →
      ∀ portion, rb_str_substr (m.addr.take m.real) b n true = some portion →
        rb_cMmap_slice_bang os [VALUE.fixnum b, VALUE.fixnum n] m =
          ⟨m, Res.raise Raised.RangeError⟩) :=
  ⟨fun hn portion h =>
      slice_bang_found os m b n portion hpath hfr hfix hlock hreal hmap hsz hb hn h,
   fun hn h => slice_bang_not_found os m b n hpath hfr hlock (by omega) hn h,
   fun hn portion h => slice_bang_long_length os m b n portion hpath hfr hlock hb hn h⟩

/-- C24 at `0123456789`: `slice!(2, 3)` returns `234` and leaves `0156789`,
`slice!(11, 1)` returns `nil`, `slice!(0, 2 ^ 31)` raises `RangeError`. -/
theorem C24_witness :
    rb_str_substr (digits.addr.take digits.real) 2 3 true = some [50, 51, 52] ∧
    (rb_cMmap_slice_bang (Os.good 16) [VALUE.fixnum 2, VALUE.fixnum 3] digits).val =
      Res.ok (some [50, 51, 52]) ∧
    (rb_cMmap_slice_bang (Os.good 16) [VALUE.fixnum 2, VALUE.fixnum 3] digits).st.addr.take 7 =
      [48, 49, 53, 54, 55, 56, 57] ∧
    rb_cMmap_slice_bang (Os.good 16) [VALUE.fixnum 11, VALUE.fixnum 1] digits =
      ⟨digits, Res.ok none⟩ ∧
    rb_cMmap_slice_bang (Os.good 16) [VALUE.fixnum 0, VALUE.fixnum (2 ^ 31)] digits =
      ⟨digits, Res.raise Raised.RangeError⟩ :=
  ⟨by decide, by decide, by decide,
   (C24_slice_bang_deletes_within_int_range (Os.good 16) digits 11 1 (by decide) (by decide)
      (by decide) (by decide) (by decide) (by decide) (by decide) (by decide)).2.1
      (by decide) (by decide),
   (C24_slice_bang_deletes_within_int_range (Os.good 16) digits 0 (2 ^ 31) (by decide)
      (by decide) (by decide) (by decide) (by decide) (by decide) (by decide) (by decide)).2.2
      (by decide) (digits.addr.take digits.real) (by decide)⟩

/-- C25 (global substitution), as the code behaves: on `aXaY` with spare
capacity, `gsub!` of `a` by `bb` returns `self` with length 6 and the
content `bbXbb` followed by a stale byte, the `Y` is lost; on `aa`, `gsub!`
of `a` by the empty string raises `TypeError`.  With a replacement of the
length of the pattern the result is the substituted content, and without an
occurrence the result is `nil` and the buffer is unchanged. -/
theorem C25_gsub_bang_loses_bytes :
    (rb_cMmap_gsub_bang axay (VALUE.str [97]) (Replacement.literal [98, 98])).val =
      Res.ok true ∧
    (rb_cMmap_gsub_bang axay (VALUE.str [97]) (Replacement.literal [98, 98])).st.real = 6 ∧
    (rb_cMmap_gsub_bang axay (VALUE.str [97]) (Replacement.literal [98, 98])).st.addr.take 6 =
      [98, 98, 88, 98, 98, 10] ∧
    rb_cMmap_gsub_bang file_aa (VALUE.str [97]) (Replacement.literal []) =
      ⟨{ file_aa with real := 0 }, Res.raise Raised.TypeError⟩ ∧
    rb_cMmap_gsub_bang axay (VALUE.str [97]) (Replacement.literal [98]) =
      ⟨{ axay with addr := [98, 88, 98, 89, 10, 10, 10, 10, 0, 0, 0, 0, 0, 0, 0, 0] },
       Res.ok true⟩ ∧
    rb_cMmap_gsub_bang axay (VALUE.str [90]) (Replacement.literal [98, 98]) =
      ⟨axay, Res.ok false⟩ := by
  decide

/-- C26 (squeeze against its reference): on a buffer that is open for
writing, `squeeze!` without argument or with a string returns; afterwards
the length is the length of the reference result `squeeze_ref` for the old
content and the set of the argument, the content is that result, no byte of
it equals the byte before it while belonging to the set, and the result is
`self` exactly when a byte was dropped. -/
theorem C26_squeeze_bang_refines_reference (m : mmap_t) (argv : List VALUE)
    (harg : argv = [] ∨ ∃ sq rest, argv = VALUE.str sq :: rest)
    (hpath : m.path ≠ path_t.null) (hfr : m.frozen = false) (hlock : lock_free m)
    (hmap : m.real ≤ m.addr.length) :
    ∃ (A : List Nat) (b : Bool),
      rb_cMmap_squeeze_bang argv m =
        ⟨{ m with addr := A,
                  real := (squeeze_ref (squeeze_set argv) (m.addr.take m.real)).length },
         Res.ok b⟩ ∧
      A.take (squeeze_ref (squeeze_set argv) (m.addr.take m.real)).length =
        squeeze_ref (squeeze_set argv) (m.addr.take m.real) ∧
      no_repeat (squeeze_set argv) (squeeze_ref (squeeze_set argv) (m.addr.take m.real)) ∧
      (b = true ↔ (squeeze_ref (squeeze_set argv) (m.addr.take m.real)).length < m.real) := by
  obtain ⟨A, b, h1, h2, h3⟩ := squeeze_int_ref m argv harg hpath hfr hmap
  refine ⟨A, b, ?_, h2, squeeze_ref_no_repeat _ _, h3⟩
  unfold rb_cMmap_squeeze_bang
  rw [GET_MMAP_none m _ hpath hfr]
  dsimp only
  exact ipc_ensure_data m _ A _ (Res.ok b) hlock hpath h1

theorem C26_witness :
    squeeze_ref (squeeze_set [VALUE.str [97]]) (file_aabbc.addr.take file_aabbc.real) =
      [97, 98, 98, 99] ∧
    ∃ (A : List Nat) (b : Bool),
      rb_cMmap_squeeze_bang [VALUE.str [97]] file_aabbc =
        ⟨{ file_aabbc with addr := A,
                           real := (squeeze_ref (squeeze_set [VALUE.str [97]])
                             (file_aabbc.addr.take file_aabbc.real)).length },
         Res.ok b⟩ ∧
      A.take (squeeze_ref (squeeze_set [VALUE.str [97]])
          (file_aabbc.addr.take file_aabbc.real)).length =
        squeeze_ref (squeeze_set [VALUE.str [97]]) (file_aabbc.addr.take file_aabbc.real) ∧
      no_repeat (squeeze_set [VALUE.str [97]])
        (squeeze_ref (squeeze_set [VALUE.str [97]]) (file_aabbc.addr.take file_aabbc.real)) ∧
      (b = true ↔ (squeeze_ref (squeeze_set [VALUE.str [97]])
          (file_aabbc.addr.take file_aabbc.real)).length < file_aabbc.real) :=
  ⟨by decide, C26_squeeze_bang_refines_reference file_aabbc [VALUE.str [97]]
    (Or.inr ⟨[97], [], rfl⟩) (by decide) (by decide) (by decide) (by decide)⟩

/-- C27 (strip): on a buffer that is open for writing and not fixed-size,
`strip!` returns; afterwards the content, stored from offset 0, is the old
content without its longest whitespace prefix and suffix, the length is the
length of that part, its first and last byte (if any) are no whitespace, and
the result is `nil` exactly when nothing was trimmed. -/
theorem C27_strip_bang_trims_both_ends (m : mmap_t) (hpath : m.path ≠ path_t.null)
    (hfr : m.frozen = false) (hlock : lock_free m) (hmap : m.real ≤ m.addr.length)
    (hfix : m.flag &&& MMAP_RUBY_FIXED = 0) :
    ∃ (A : List Nat) (b : Bool),
      rb_cMmap_strip_bang m =
        ⟨{ m with addr := A, real := (strip_ref (m.addr.take m.real)).length }, Res.ok b⟩ ∧
      A.take (strip_ref (m.addr.take m.real)).length = strip_ref (m.addr.take m.real) ∧
      (∀ x, (strip_ref (m.addr.take m.real)).head? = some x → ISSPACE x = false) ∧
      (∀ x, (strip_ref (m.addr.take m.real)).getLast? = some x → ISSPACE x = false) ∧
      (b = false ↔ strip_ref (m.addr.take m.real) = m.addr.take m.real) := by
  obtain ⟨A, b, h1, h2, h3⟩ := strip_state m hpath hfr hlock hmap hfix
  exact ⟨A, b, h1, h2, (strip_ref_ends _).1, (strip_ref_ends _).2, h3⟩

theorem C27_witness :
    strip_ref (file_padded.addr.take file_padded.real) = [97, 32, 98] ∧
    ∃ (A : List Nat) (b : Bool),
      rb_cMmap_strip_bang file_padded =
        ⟨{ file_padded with addr := A,
                            real := (strip_ref (file_padded.addr.take file_padded.real)).length },
         Res.ok b⟩ ∧
      A.take (strip_ref (file_padded.addr.take file_padded.real)).length =
        strip_ref (file_padded.addr.take file_padded.real) ∧
      (∀ x, (strip_ref (file_padded.addr.take file_padded.real)).head? = some x →
        ISSPACE x = false) ∧
      (∀ x, (strip_ref (file_padded.addr.take file_padded.real)).getLast? = some x →
        ISSPACE x = false) ∧
      (b = false ↔
        strip_ref (file_padded.addr.take file_padded.real) =
          file_padded.addr.take file_padded.real) :=
  ⟨by decide, C27_strip_bang_trims_both_ends file_padded (by decide) (by decide) (by decide)
    (by decide) (by decide)⟩

/-- C28 (backing file size): a buffer constructed on a path with no options
is a mapping from offset 0 of the whole file, not fixed-size, and the size of
its backing file is its capacity (an empty file opened for writing is first
extended to the growth increment); after every run of successful resizes
through `mmap_expandf`, growing or shrinking, the size of the backing file is
again the capacity, which is the size asked for last. -/
theorem C28_file_size_is_capacity (os os1 : Os) (fs : Option (List Nat)) (vmode scope : VALUE)
    (ns : List Nat)
    (h : ( rb_cMmap_initialize os rb_cMmap_allocate fname_t.path fs vmode scope none).val =
      Res.ok ())
    (hr : (resize_each os1
      ( rb_cMmap_initialize os rb_cMmap_allocate fname_t.path fs vmode scope none).st ns).val =
      Res.ok ()) :
    (( rb_cMmap_initialize os rb_cMmap_allocate fname_t.path fs vmode scope none).st.file.length =
        ( rb_cMmap_initialize os rb_cMmap_allocate fname_t.path fs vmode scope none).st.len ∧
      ( rb_cMmap_initialize os rb_cMmap_allocate fname_t.path fs vmode scope none).st.offset = 0 ∧
      ( rb_cMmap_initialize os rb_cMmap_allocate fname_t.path fs vmode scope none).st.flag &&&
        MMAP_RUBY_FIXED = 0 ∧
      ( rb_cMmap_initialize os rb_cMmap_allocate fname_t.path fs vmode scope none).st.path =
        path_t.name) ∧
    (resize_each os1
      ( rb_cMmap_initialize os rb_cMmap_allocate fname_t.path fs vmode scope none).st
        ns).st.file.length =
      (resize_each os1
        ( rb_cMmap_initialize os rb_cMmap_allocate fname_t.path fs vmode scope none).st
          ns).st.len ∧
    (resize_each os1
      ( rb_cMmap_initialize os rb_cMmap_allocate fname_t.path fs vmode scope none).st
        ns).st.len =
      (ns.getLast?).getD
        ( rb_cMmap_initialize os rb_cMmap_allocate fname_t.path fs vmode scope none).st.len := by
  have hc := initialize_path_ok os fs vmode scope h
  obtain ⟨r1, _, r3⟩ := resize_each_ok os1 ns _ hc.2.1 hc.1 hr
  exact ⟨hc, r1, r3⟩

/-- C28 at the file `ab` opened with mode `rw`, resized to 32 bytes and then to 8. -/
theorem C28_witness :
    ( rb_cMmap_initialize (Os.good 16) rb_cMmap_allocate fname_t.path (some [97, 98])
        (VALUE.str [114, 119]) VALUE.nil none).val = Res.ok () ∧
    (resize_each (Os.good 16)
      ( rb_cMmap_initialize (Os.good 16) rb_cMmap_allocate fname_t.path (some [97, 98])
        (VALUE.str [114, 119]) VALUE.nil none).st [32, 8]).st.file =
      [97, 98, 0, 0, 0, 0, 0, 0] ∧
    (resize_each (Os.good 16)
      ( rb_cMmap_initialize (Os.good 16) rb_cMmap_allocate fname_t.path (some [97, 98])
        (VALUE.str [114, 119]) VALUE.nil none).st [32, 8]).st.len = 8 :=
  ⟨by decide, by decide,
    (C28_file_size_is_capacity (Os.good 16) (Os.good 16) (some [97, 98]) (VALUE.str [114, 119])
      VALUE.nil [32, 8] (by decide) (by decide)).2.2⟩

/-- C30 (termination of the `gsub!` loop): for a literal non-empty pattern
and a literal replacement, on a buffer whose length is within its capacity,
`mmap_gsub_bang_int` returns or raises within the rounds it is given, and
the length it leaves is within the capacity (the unsigned length does not
wrap).  Once a first match is found, `obj.real + 1` rounds are enough, and
so is every larger number; the values of `offset`, after the initial 0,
never decrease, there are at most `obj.real + 1` of them, and when the
replacement is not empty they strictly increase. -/
theorem C30_gsub_bang_loop_ends (obj : mmap_t) (p r : List Nat) (hp : p ≠ [])
    (hreal : obj.real ≤ obj.len) (hlen : obj.len + p.length < SIZE_MAX1) :
    (mmap_gsub_bang_int obj (VALUE.str p) (Replacement.literal r)).val ≠
      Res.raise Raised.unfinished ∧
    (mmap_gsub_bang_int obj (VALUE.str p) (Replacement.literal r)).st.real ≤ obj.len ∧
    ∀ regs0, rb_reg_search (Regexp.literal p) (obj.addr.take obj.real) 0 = some regs0 →
      ∀ fuel, obj.real + 1 ≤ fuel →
        (mmap_gsub_rounds (Regexp.literal p) (Replacement.literal r) obj.real fuel obj regs0).1 =
          mmap_gsub_loop (Regexp.literal p) (Replacement.literal r) obj.real fuel obj regs0 ∧
        (mmap_gsub_loop (Regexp.literal p) (Replacement.literal r) obj.real fuel obj regs0).val ≠
          Res.raise Raised.unfinished ∧
        List.Chain' (· ≤ ·)
          (0 :: (mmap_gsub_rounds (Regexp.literal p) (Replacement.literal r) obj.real fuel obj
            regs0).2) ∧
        (r ≠ [] → List.Chain' (· < ·)
          (0 :: (mmap_gsub_rounds (Regexp.literal p) (Replacement.literal r) obj.real fuel obj
            regs0).2)) ∧
        (mmap_gsub_rounds (Regexp.literal p) (Replacement.literal r) obj.real fuel obj
          regs0).2.length ≤ obj.real + 1 := by
  have key : ∀ regs0, rb_reg_search (Regexp.literal p) (obj.addr.take obj.real) 0 = some regs0 →
      ∀ fuel, obj.real + 1 ≤ fuel →
        (mmap_gsub_loop (Regexp.literal p) (Replacement.literal r) obj.real fuel obj regs0).val ≠
          Res.raise Raised.unfinished ∧
        (mmap_gsub_loop (Regexp.literal p) (Replacement.literal r) obj.real fuel obj
          regs0).st.real ≤ obj.len ∧
        List.Chain' (· ≤ ·)
          (0 :: (mmap_gsub_rounds (Regexp.literal p) (Replacement.literal r) obj.real fuel obj
            regs0).2) ∧
        (r ≠ [] → List.Chain' (· < ·)
          (0 :: (mmap_gsub_rounds (Regexp.literal p) (Replacement.literal r) obj.real fuel obj
            regs0).2)) ∧
        (mmap_gsub_rounds (Regexp.literal p) (Replacement.literal r) obj.real fuel obj
          regs0).2.length ≤ obj.real + 1 := by
    intro regs0 hs fuel hf
    obtain ⟨i, rfl, _, hi⟩ := search_literal p _ _ _ hs
    have hi2 : i ≤ obj.real := by
      rw [List.length_take] at hi
      omega
    obtain ⟨g1, g2, _, g4, g5, g6, g7⟩ :=
      gsub_rounds_literal p r hp obj.real fuel obj i hi2 hreal hlen _ rfl
    have hm : gsub_rounds_left r obj.real i obj ≤ obj.real + 1 := by
      unfold gsub_rounds_left
      split_ifs <;> omega
    rw [gsub_rounds_loop] at g1 g2
    refine ⟨g1 (by omega), g2, ?_, ?_, by omega⟩
    · rw [List.chain'_cons']
      exact ⟨fun y _ => Nat.zero_le y, g5⟩
    · intro hr
      rw [List.chain'_cons']
      refine ⟨?_, g6 hr⟩
      intro y hy
      rw [g4 y hy]
      have : 0 < r.length := List.length_pos.mpr hr
      omega
  have top : (mmap_gsub_bang_int obj (VALUE.str p) (Replacement.literal r)).val ≠
        Res.raise Raised.unfinished ∧
      (mmap_gsub_bang_int obj (VALUE.str p) (Replacement.literal r)).st.real ≤ obj.len := by
    unfold mmap_gsub_bang_int
    cases hg : GET_MMAP obj MMAP_RUBY_MODIFY with
    | some e =>
      refine ⟨?_, hreal⟩
      intro h
      have := GET_MMAP_finishes obj MMAP_RUBY_MODIFY
      rw [hg] at this
      simp only [Res.raise.injEq] at h
      rw [h] at this
      exact this rfl
    | none =>
      dsimp only
      cases hm : mmap_str obj (MMAP_RUBY_MODIFY ||| MMAP_RUBY_ORIGIN) with
      | raise e =>
        refine ⟨?_, hreal⟩
        intro h
        have := (mmap_str_finishes obj (MMAP_RUBY_MODIFY ||| MMAP_RUBY_ORIGIN)).1
        rw [hm] at this
        exact this (by simpa using h)
      | ok slen =>
        have hsl := (mmap_str_finishes obj (MMAP_RUBY_MODIFY ||| MMAP_RUBY_ORIGIN)).2 slen hm
        subst hsl
        simp only [get_pat]
        cases hs : rb_reg_search (Regexp.literal p) (obj.addr.take obj.real) 0 with
        | none => exact ⟨by simp, hreal⟩
        | some regs0 =>
          obtain ⟨k1, k2, _⟩ := key regs0 hs (gsub_fuel obj) (le_gsub_fuel obj)
          exact ⟨k1, k2⟩
  refine ⟨top.1, top.2, ?_⟩
  intro regs0 hs fuel hf
  obtain ⟨k1, _, k3, k4, k5⟩ := key regs0 hs fuel hf
  exact ⟨gsub_rounds_loop _ _ _ _ _ _, k1, k3, k4, k5⟩

/-- C30 at `aXaY` with the pattern `a` and the replacement `bb`: the values
of `offset` are 0, 2, 5. -/
theorem C30_witness :
    (mmap_gsub_rounds (Regexp.literal [97]) (Replacement.literal [98, 98]) axay.real
      (axay.real + 1) axay [some (0, 1)]).2 = [2, 5] ∧
    (mmap_gsub_bang_int axay (VALUE.str [97]) (Replacement.literal [98, 98])).val ≠
      Res.raise Raised.unfinished ∧
    (mmap_gsub_bang_int axay (VALUE.str [97]) (Replacement.literal [98, 98])).st.real ≤
      axay.len :=
  ⟨by decide,
   (C30_gsub_bang_loop_ends axay [97] [98, 98] (by decide) (by decide) (by decide)).1,
   (C30_gsub_bang_loop_ends axay [97] [98, 98] (by decide) (by decide) (by decide)).2.1⟩

/-- C30 as the claim words it fails with an empty replacement: on `aa`,
`gsub!` of `a` by the empty string searches from offset 0 three times. -/
theorem C30_counterexample :
    rb_reg_search (Regexp.literal [97]) (file_aa.addr.take file_aa.real) 0 =
      some [some (0, 1)] ∧
    (mmap_gsub_rounds (Regexp.literal [97]) (Replacement.literal []) file_aa.real
      (gsub_fuel file_aa) file_aa [some (0, 1)]).2 = [0, 0] ∧
    ¬ List.Chain' (· < ·)
      (0 :: (mmap_gsub_rounds (Regexp.literal [97]) (Replacement.literal []) file_aa.real
        (gsub_fuel file_aa) file_aa [some (0, 1)]).2) := by
  have h : (mmap_gsub_rounds (Regexp.literal [97]) (Replacement.literal []) file_aa.real
      (gsub_fuel file_aa) file_aa [some (0, 1)]).2 = [0, 0] := by decide
  refine ⟨by decide, h, ?_⟩
  rw [h]
  simp

end MmapRuby
